import Mathlib

/-!
# A shallow embedding of the AST interpreter

The development embeds `Environment.h` (the stack frame, the execution
environment and its expression evaluator) and `ASTInterpreter.cpp` (the
visitor that walks the tree) as Lean functions over an explicit machine
state, and proves properties of them.

Conventions of the embedding:

* a value is an `Int` kept in the signed 64-bit range by `wrap64`;
* node identity (`Stmt *`, `Decl *`) is a `Nat` carried by the node;
* the call stack is a list whose head is `callStack.back()`;
* host memory is a map from byte addresses to bytes together with the list
  of live blocks; the allocator hands out increasing addresses, and a load
  or store outside every live block is undefined behaviour;
* a result is an `Outcome`: a normal return, `exit(1)`, undefined behaviour
  of the C++ program (null dereference, `back()` of an empty vector), or
  the exhaustion of the fuel that bounds visitor recursion and loops.
-/

namespace ASTInterpreter

set_option autoImplicit false

/-! ## Values -/

/-- Two's-complement reduction of an integer to the signed 64-bit range. -/
def wrap64 (x : Int) : Int := (x + 2 ^ 63) % 2 ^ 64 - 2 ^ 63

/-- The address (an unsigned 64-bit number) denoted by a value. -/
def addrOf (v : Int) : Nat := (v % 2 ^ 64).toNat

/-- Whether an integer lies in the signed 64-bit range. -/
def inRange64 (x : Int) : Prop := -(2 ^ 63) ≤ x ∧ x < 2 ^ 63

instance (x : Int) : Decidable (inRange64 x) := by
  unfold inRange64; exact inferInstance

/-! ## The syntax tree handed over by the front end -/

/-- The classification of a static type that the interpreter queries. -/
inductive QualType where
  | intTy
  | charTy
  | pointerTy
  | constantArrayTy (elem : QualType) (size : Nat)
  | otherTy
  deriving DecidableEq, Repr

namespace QualType

/-- Models `Type::isIntegerType`: character types are integer types. -/
def isIntegerType : QualType → Bool
  | intTy => true
  | charTy => true
  | _ => false

/-- Models `Type::isCharType`. -/
def isCharType : QualType → Bool
  | charTy => true
  | _ => false

/-- Models `Type::isPointerType`. -/
def isPointerType : QualType → Bool
  | pointerTy => true
  | _ => false

end QualType

/-- Unary operator codes. -/
inductive UnaryOpcode where
  | UO_PostInc | UO_PostDec | UO_PreInc | UO_PreDec
  | UO_AddrOf | UO_Deref | UO_Plus | UO_Minus | UO_Not | UO_LNot
  deriving DecidableEq, Repr

/-- Binary operator codes of C. -/
inductive BinaryOpcode where
  | BO_Mul | BO_Div | BO_Rem | BO_Add | BO_Sub | BO_Shl | BO_Shr
  | BO_LT | BO_GT | BO_LE | BO_GE | BO_EQ | BO_NE
  | BO_And | BO_Xor | BO_Or | BO_LAnd | BO_LOr
  | BO_Assign | BO_MulAssign | BO_DivAssign | BO_RemAssign | BO_AddAssign
  | BO_SubAssign | BO_ShlAssign | BO_ShrAssign | BO_AndAssign
  | BO_XorAssign | BO_OrAssign
  | BO_Comma
  deriving DecidableEq, Repr

/-- Models `BinaryOperator::isAssignmentOp`: `=` and every compound form. -/
def BinaryOpcode.isAssignmentOp : BinaryOpcode → Bool
  | BO_Assign | BO_MulAssign | BO_DivAssign | BO_RemAssign | BO_AddAssign
  | BO_SubAssign | BO_ShlAssign | BO_ShrAssign | BO_AndAssign
  | BO_XorAssign | BO_OrAssign => true
  | _ => false

/-- What a `DeclRefExpr` knows about the declaration it found. -/
structure NamedDecl where
  id : Nat
  isVarDecl : Bool
  ty : QualType
  deriving DecidableEq, Repr

/-- Expression nodes. `id` is the node identity used as memo key, `ty` the
static type of the expression. -/
inductive Expr where
  | declRefExpr (id : Nat) (ty : QualType) (found : NamedDecl)
  | integerLiteral (ty : QualType) (value : Int)
  | characterLiteral (ty : QualType) (value : Nat)
  | unaryOperator (id : Nat) (ty : QualType) (op : UnaryOpcode) (sub : Option Expr)
  | binaryOperator (id : Nat) (ty : QualType) (op : BinaryOpcode) (lhs rhs : Expr)
  | parenExpr (ty : QualType) (sub : Expr)
  | implicitCastExpr (ty : QualType) (sub : Expr)
  | cStyleCastExpr (ty : QualType) (sub : Expr)
  | arraySubscriptExpr (ty : QualType) (lhs rhs : Expr)
  | callExpr (id : Nat) (ty : QualType) (callee : Expr) (directCallee : Option Nat)
      (args : List Expr)
  | unaryExprOrTypeTraitExpr (ty : QualType) (isSizeOf : Bool) (argTy : QualType)
  | otherExpr (ty : QualType) (children : List Expr)
  deriving Repr

namespace Expr

/-- Models `Expr::getType`. -/
def getType : Expr → QualType
  | declRefExpr _ ty _ => ty
  | integerLiteral ty _ => ty
  | characterLiteral ty _ => ty
  | unaryOperator _ ty _ _ => ty
  | binaryOperator _ ty _ _ _ => ty
  | parenExpr ty _ => ty
  | implicitCastExpr ty _ => ty
  | cStyleCastExpr ty _ => ty
  | arraySubscriptExpr ty _ _ => ty
  | callExpr _ ty _ _ _ => ty
  | unaryExprOrTypeTraitExpr ty _ _ => ty
  | otherExpr ty _ => ty

/-- Models `Expr::IgnoreImpCasts`. -/
def IgnoreImpCasts : Expr → Expr
  | implicitCastExpr _ sub => IgnoreImpCasts sub
  | e => e

/-- Models `Stmt::children` on an expression node. -/
def children : Expr → List Expr
  | unaryOperator _ _ _ sub => sub.toList
  | binaryOperator _ _ _ lhs rhs => [lhs, rhs]
  | parenExpr _ sub => [sub]
  | implicitCastExpr _ sub => [sub]
  | cStyleCastExpr _ sub => [sub]
  | arraySubscriptExpr _ lhs rhs => [lhs, rhs]
  | callExpr _ _ callee _ args => callee :: args
  | otherExpr _ cs => cs
  | _ => []

/-- The nesting depth along the sub-expressions the evaluator descends
into; it bounds the recursion of `evaluateExpression`. -/
def depth : Expr → Nat
  | unaryOperator _ _ _ (some sub) => depth sub + 1
  | binaryOperator _ _ _ lhs rhs => max (depth lhs) (depth rhs) + 1
  | parenExpr _ sub => depth sub + 1
  | implicitCastExpr _ sub => depth sub + 1
  | cStyleCastExpr _ sub => depth sub + 1
  | arraySubscriptExpr _ lhs rhs => max (depth lhs) (depth rhs) + 1
  | _ => 0

end Expr

/-- A variable declaration: identity, type and optional initializer. -/
structure VarDecl where
  id : Nat
  ty : QualType
  init : Option Expr

/-- A declaration inside a declaration statement or at the top level. -/
inductive Decl where
  | varDecl (v : VarDecl)
  | otherDecl

/-- Statement nodes; an expression is a statement as well. -/
inductive Stmt where
  | expr (e : Expr)
  | declStmt (decls : List Decl)
  | ifStmt (cond : Expr) (thenBranch : Stmt) (elseBranch : Option Stmt)
  | whileStmt (cond : Expr) (body : Stmt)
  | forStmt (init : Option Stmt) (cond : Option Expr) (inc : Option Expr) (body : Stmt)
  | returnStmt (retValue : Option Expr)
  | compoundStmt (body : List Stmt)
  | otherStmt (children : List Stmt)

/-- The initializer a declaration contributes to the children of its
declaration statement. -/
def Decl.initChild : Decl → Option Stmt
  | .varDecl v => v.init.map Stmt.expr
  | .otherDecl => none

/-- Models `Stmt::children`. -/
def Stmt.children : Stmt → List Stmt
  | .expr e => e.children.map Stmt.expr
  | .declStmt decls => decls.filterMap Decl.initChild
  | .ifStmt cond thenBranch elseBranch => [.expr cond, thenBranch] ++ elseBranch.toList
  | .whileStmt cond body => [.expr cond, body]
  | .forStmt init cond inc body =>
      init.toList ++ (cond.map Stmt.expr).toList ++ (inc.map Stmt.expr).toList ++ [body]
  | .returnStmt retValue => (retValue.map Stmt.expr).toList
  | .compoundStmt body => body
  | .otherStmt cs => cs

/-- A function declaration: identity, name, parameter declarations and the
body `getBody` finds (none for a function that is only declared). -/
structure FunctionDecl where
  id : Nat
  name : String
  params : List Nat
  body : Option Stmt

/-- A top-level declaration of the translation unit. -/
inductive TopLevelDecl where
  | function (f : FunctionDecl)
  | variable (v : VarDecl)
  | other

/-! ## Stack frames (`class StackFrame`) -/

/-- One activation record. -/
structure StackFrame where
  variableValues : Nat → Option Int
  expressionValues : Nat → Option Int
  currentStatement : Option Nat
  hasReturnValue : Bool
  returnValue : Int

namespace StackFrame

/-- The default constructor `StackFrame()`. -/
def new : StackFrame :=
  { variableValues := fun _ => none
    expressionValues := fun _ => none
    currentStatement := none
    hasReturnValue := false
    returnValue := 0 }

def setReturnInfo (f : StackFrame) (hasValue : Bool) (value : Int) : StackFrame :=
  { f with hasReturnValue := hasValue, returnValue := value }

def hasPendingReturn (f : StackFrame) : Bool := f.hasReturnValue

def getReturnValue (f : StackFrame) : Int := f.returnValue

def bindVariable (f : StackFrame) (decl : Nat) (value : Int) : StackFrame :=
  { f with variableValues := fun d => if d = decl then some value else f.variableValues d }

def getVariableValue (f : StackFrame) (decl : Nat) : Int :=
  match f.variableValues decl with
  | some v => v
  | none => 0

def bindExpression (f : StackFrame) (stmt : Nat) (value : Int) : StackFrame :=
  { f with expressionValues := fun e => if e = stmt then some value else f.expressionValues e }

def getExpressionValue (f : StackFrame) (stmt : Nat) : Int :=
  match f.expressionValues stmt with
  | some v => v
  | none => 0

def storeExpressionResult (f : StackFrame) (stmt : Nat) (value : Int) : StackFrame :=
  { f with expressionValues := fun e => if e = stmt then some value else f.expressionValues e }

def isExpressionEvaluated (f : StackFrame) (stmt : Nat) : Bool :=
  (f.expressionValues stmt).isSome

def setCurrentStatement (f : StackFrame) (stmt : Nat) : StackFrame :=
  { f with currentStatement := some stmt }

def getCurrentStatement (f : StackFrame) : Option Nat := f.currentStatement

end StackFrame

/-! ## The machine state -/

/-- The members of `ExecutionEnvironment` together with the part of the
host the interpreter touches: byte-addressed memory, the allocator's next
free address, the blocks handed out and not yet released (base address and
size in bytes), and the three standard streams. -/
structure State where
  freeFunction : Option Nat
  mallocFunction : Option Nat
  inputFunction : Option Nat
  outputFunction : Option Nat
  entryFunction : Option Nat
  callStack : List StackFrame
  memory : Nat → Nat
  nextAlloc : Nat
  live : List (Int × Nat)
  stdin : List Int
  stdout : List String
  stderr : List String

/-- The state a default-constructed `ExecutionEnvironment` starts in, over a
given host. -/
def State.initial (memory : Nat → Nat) (nextAlloc : Nat) (stdin : List Int) : State :=
  { freeFunction := none, mallocFunction := none, inputFunction := none
    outputFunction := none, entryFunction := none, callStack := []
    memory := memory, nextAlloc := nextAlloc, live := [], stdin := stdin
    stdout := [], stderr := [] }

/-- How a computation ends. -/
inductive Outcome (α : Type) where
  | ok (a : α) (s : State)
  | exited (status : Nat) (s : State)
  | undefinedBehaviour
  | outOfFuel

/-- A computation over the machine state. -/
def Exec (α : Type) : Type := State → Outcome α

namespace Exec

def ret {α : Type} (a : α) : Exec α := fun s => .ok a s

def andThen {α β : Type} (x : Exec α) (f : α → Exec β) : Exec β := fun s =>
  match x s with
  | .ok a s1 => f a s1
  | .exited c s1 => .exited c s1
  | .undefinedBehaviour => .undefinedBehaviour
  | .outOfFuel => .outOfFuel

instance : Monad Exec where
  pure := Exec.ret
  bind := Exec.andThen

/-- Undefined behaviour of the C++ program. -/
def ub {α : Type} : Exec α := fun _ => .undefinedBehaviour

/-- Models `exit(status)`. -/
def exit {α : Type} (status : Nat) : Exec α := fun s => .exited status s

/-- Models `callStack.back()` read access. -/
def back : Exec StackFrame := fun s =>
  match s.callStack with
  | [] => .undefinedBehaviour
  | f :: _ => .ok f s

/-- Applies a frame update to `callStack.back()`. -/
def modifyBack (g : StackFrame → StackFrame) : Exec Unit := fun s =>
  match s.callStack with
  | [] => .undefinedBehaviour
  | f :: rest => .ok () { s with callStack := g f :: rest }

/-- Models `callStack.push_back(StackFrame())`. -/
def pushFrame : Exec Unit := fun s =>
  .ok () { s with callStack := StackFrame.new :: s.callStack }

/-- Models `callStack.pop_back()`. -/
def popFrame : Exec Unit := fun s =>
  match s.callStack with
  | [] => .undefinedBehaviour
  | _ :: rest => .ok () { s with callStack := rest }

/-- Models `cerr << msg << endl`. -/
def cerr (msg : String) : Exec Unit := fun s =>
  .ok () { s with stderr := s.stderr ++ [msg ++ "\n"] }

/-- Models `cout << msg << endl`. -/
def cout (msg : String) : Exec Unit := fun s =>
  .ok () { s with stdout := s.stdout ++ [msg ++ "\n"] }

end Exec

/-! ## Host memory -/

/-- Little-endian read of `n` bytes starting at `addr`. -/
def loadBytes (mem : Nat → Nat) (addr : Nat) : Nat → Nat
  | 0 => 0
  | n + 1 => mem addr % 256 + 256 * loadBytes mem (addr + 1) n

/-- Little-endian write of the low `n` bytes of `v` starting at `addr`. -/
def storeBytes (mem : Nat → Nat) (addr n v : Nat) : Nat → Nat := fun a =>
  if addr ≤ a ∧ a < addr + n then v / 256 ^ (a - addr) % 256 else mem a

/-- The signed reading of an unsigned `bits`-wide number. -/
def signExtend (bits : Nat) (u : Nat) : Int :=
  if u < 2 ^ (bits - 1) then (u : Int) else (u : Int) - 2 ^ bits

/-- Whether the `n` bytes at the address a value denotes lie inside the block
`b`; the offset from the base of the block is taken in 64-bit address
arithmetic. -/
def inBlock (address : Int) (n : Nat) (b : Int × Nat) : Bool :=
  decide ((address - b.1) % 2 ^ 64 + (n : Int) ≤ (b.2 : Int))

/-- Whether the `n` bytes at the address a value denotes lie inside one of
the live blocks. -/
def State.isLive (s : State) (address : Int) (n : Nat) : Bool :=
  s.live.any (inBlock address n)

/-- Reads a signed `n`-byte cell through a raw pointer: undefined outside
the live blocks. -/
def loadCell (n : Nat) (address : Int) : Exec Int := fun s =>
  if s.isLive address n then
    .ok (signExtend (8 * n) (loadBytes s.memory (addrOf address) n)) s
  else .undefinedBehaviour

/-- Writes a value, truncated to `n` bytes, through a raw pointer: undefined
outside the live blocks. -/
def storeCell (n : Nat) (address value : Int) : Exec Unit := fun s =>
  if s.isLive address n then
    .ok () { s with
      memory := storeBytes s.memory (addrOf address) n (value % 2 ^ (8 * n)).toNat }
  else .undefinedBehaviour

/-- The host allocator (`new[]`, `malloc`): returns the next free address,
records the block as live and advances past it, keeping 16-byte alignment. -/
def allocate (bytes : Nat) : Exec Int := fun s =>
  .ok (wrap64 s.nextAlloc)
    { s with
      nextAlloc := s.nextAlloc + 16 * (bytes / 16 + 1)
      live := (wrap64 s.nextAlloc, bytes) :: s.live }

/-- Whether a pointer value is the base address of the block `b`. -/
def isBaseOf (address : Int) (b : Int × Nat) : Bool :=
  decide ((address - b.1) % 2 ^ 64 = 0)

/-- The host `free`: a null pointer is accepted, the base address of a live
block releases that block and keeps its contents, anything else is
undefined. -/
def release (address : Int) : Exec Unit := fun s =>
  if address % 2 ^ 64 = 0 then .ok () s
  else if s.live.any (isBaseOf address) then
    .ok () { s with live := s.live.filter (fun b => !isBaseOf address b) }
  else .undefinedBehaviour

/-! ## The expression evaluator (`class ExecutionEnvironment`)

Every helper that calls back into `evaluateExpression` takes the evaluator
as its first argument `ev`; `evaluateExpression` ties the knot. Where C++
leaves the order of two operand evaluations open, the left operand is
evaluated first. -/

section Evaluator

open Exec

/-- Models `processDeclRefExpr`. -/
def processDeclRefExpr (id : Nat) (ty : QualType) (found : NamedDecl) : Exec Unit := do
  modifyBack (fun f => f.setCurrentStatement id)
  if ty.isIntegerType || ty.isPointerType then
    let value := (← back).getVariableValue found.id
    modifyBack (fun f => f.bindExpression id value)
  else
    pure ()

/-- Models `evaluateDeclRefExpr`. -/
def evaluateDeclRefExpr (id : Nat) (ty : QualType) (found : NamedDecl) : Exec Int := do
  processDeclRefExpr id ty found
  return (← back).getExpressionValue id

/-- Models `evaluateIntegerLiteral`; the node holds the sign-extended value. -/
def evaluateIntegerLiteral (value : Int) : Exec Int := pure value

/-- Models `evaluateCharLiteral`. -/
def evaluateCharLiteral (value : Nat) : Exec Int := pure (value : Int)

/-- Models `accessArrayElement`: the element width follows the element type. -/
def accessArrayElement (varDecl : NamedDecl) (elem : QualType) (index : Int) : Exec Int := do
  let baseAddress := (← back).getVariableValue varDecl.id
  if elem.isIntegerType then
    loadCell 4 (baseAddress + 4 * index)
  else if elem.isCharType then
    loadCell 1 (baseAddress + index)
  else
    loadCell 8 (baseAddress + 8 * index)

/-- Models `evaluateArrayAccess` on the operands of the subscript. -/
def evaluateArrayAccess (ev : Expr → Exec Int) (lhs rhs : Expr) : Exec Int :=
  match lhs.IgnoreImpCasts with
  | .declRefExpr _ _ found => do
      let index ← ev rhs
      if found.isVarDecl then
        match found.ty with
        | .constantArrayTy elem _ => accessArrayElement found elem index
        | _ => pure 0
      else
        pure 0
  | _ => pure 0

/-- Models `evaluateSizeOf` for the type-operand form of the trait. -/
def evaluateSizeOf (isSizeOf : Bool) (argTy : QualType) : Exec Int :=
  if isSizeOf then
    if argTy.isIntegerType then pure 8
    else if argTy.isPointerType then pure 8
    else pure 0
  else pure 0

/-- Models `updateArrayElement`. -/
def updateArrayElement (varDecl : NamedDecl) (elem : QualType) (index value : Int) :
    Exec Unit := do
  let baseAddress := (← back).getVariableValue varDecl.id
  if elem.isIntegerType then
    storeCell 4 (baseAddress + 4 * index) value
  else if elem.isCharType then
    storeCell 1 (baseAddress + index) value
  else
    storeCell 8 (baseAddress + 8 * index) value

/-- Models `handleArrayAssignment` on the operands of the subscript. -/
def handleArrayAssignment (ev : Expr → Exec Int) (lhs rhs rightExpr : Expr) : Exec Unit :=
  match lhs.IgnoreImpCasts with
  | .declRefExpr _ _ found => do
      let value ← ev rightExpr
      let index ← ev rhs
      if found.isVarDecl then
        match found.ty with
        | .constantArrayTy elem _ => updateArrayElement found elem index value
        | _ => pure ()
      else
        pure ()
  | _ => pure ()

/-- Models `handlePointerAssignment`; the operand of the unary operator is
evaluated without a null check. -/
def handlePointerAssignment (ev : Expr → Exec Int) (sub : Option Expr) (rightExpr : Expr) :
    Exec Unit := do
  let value ← ev rightExpr
  match sub with
  | none => ub
  | some subExpr =>
      let address ← ev subExpr
      storeCell 8 address value

/-- Models `handleAssignment`. -/
def handleAssignment (ev : Expr → Exec Int) (leftExpr rightExpr : Expr) : Exec Unit :=
  match leftExpr with
  | .declRefExpr id _ found => do
      let value ← ev rightExpr
      modifyBack (fun f => f.bindExpression id value)
      modifyBack (fun f => f.bindVariable found.id value)
  | .arraySubscriptExpr _ lhs rhs => handleArrayAssignment ev lhs rhs rightExpr
  | .unaryOperator _ _ _ sub => handlePointerAssignment ev sub rightExpr
  | _ => pure ()

/-- Models `handleAddition`: `sizeof(int64_t)` is 8 and the sum is taken
modulo 2^64. -/
def handleAddition (ev : Expr → Exec Int) (leftExpr rightExpr : Expr) : Exec Int :=
  if leftExpr.getType.isPointerType then do
    let baseAddress ← ev leftExpr
    let offset ← ev rightExpr
    return wrap64 (baseAddress + 8 * offset)
  else do
    let l ← ev leftExpr
    let r ← ev rightExpr
    return wrap64 (l + r)

/-- Models `handleDivision`: the divisor is evaluated and tested first. The
native division of the least 64-bit integer by -1 is undefined. -/
def handleDivision (ev : Expr → Exec Int) (leftExpr rightExpr : Expr) : Exec Int := do
  let divisor ← ev rightExpr
  if divisor = 0 then
    cerr "Division by zero error"
    exit 1
  else
    let dividend ← ev leftExpr
    if dividend = -(2 ^ 63) ∧ divisor = -1 then ub
    else return wrap64 (Int.tdiv dividend divisor)

/-- The 0/1 value of a comparison. -/
def boolValue (b : Bool) : Int := if b then 1 else 0

/-- Models `evaluateBinaryOperator`. -/
def evaluateBinaryOperator (ev : Expr → Exec Int) (id : Nat) (op : BinaryOpcode)
    (leftExpr rightExpr : Expr) : Exec Unit := do
  let result ← (match op with
    | .BO_Add => handleAddition ev leftExpr rightExpr
    | .BO_Sub => do
        let l ← ev leftExpr
        let r ← ev rightExpr
        return wrap64 (l - r)
    | .BO_Mul => do
        let l ← ev leftExpr
        let r ← ev rightExpr
        return wrap64 (l * r)
    | .BO_Div => handleDivision ev leftExpr rightExpr
    | .BO_LT => do
        let l ← ev leftExpr
        let r ← ev rightExpr
        return boolValue (decide (l < r))
    | .BO_GT => do
        let l ← ev leftExpr
        let r ← ev rightExpr
        return boolValue (decide (l > r))
    | .BO_EQ => do
        let l ← ev leftExpr
        let r ← ev rightExpr
        return boolValue (decide (l = r))
    | .BO_LE => do
        let l ← ev leftExpr
        let r ← ev rightExpr
        return boolValue (decide (l ≤ r))
    | .BO_GE => do
        let l ← ev leftExpr
        let r ← ev rightExpr
        return boolValue (decide (l ≥ r))
    | .BO_NE => do
        let l ← ev leftExpr
        let r ← ev rightExpr
        return boolValue (decide (l ≠ r))
    | _ => do
        cerr "Unsupported binary operator"
        exit 1 : Exec Int)
  modifyBack (fun f => f.storeExpressionResult id result)

/-- Models `evaluateBinaryOperation`. -/
def evaluateBinaryOperation (ev : Expr → Exec Int) (id : Nat) (op : BinaryOpcode)
    (leftExpr rightExpr : Expr) : Exec Unit :=
  if op.isAssignmentOp then
    handleAssignment ev leftExpr rightExpr
  else
    evaluateBinaryOperator ev id op leftExpr rightExpr

/-- Models `evaluateBinaryExpr`. -/
def evaluateBinaryExpr (ev : Expr → Exec Int) (id : Nat) (op : BinaryOpcode)
    (leftExpr rightExpr : Expr) : Exec Int := do
  evaluateBinaryOperation ev id op leftExpr rightExpr
  return (← back).getExpressionValue id

/-- Models `evaluateUnaryOperation`. -/
def evaluateUnaryOperation (ev : Expr → Exec Int) (id : Nat) (op : UnaryOpcode)
    (sub : Option Expr) : Exec Unit :=
  match sub with
  | none => cerr "Error: null pointer dereference"
  | some subExpr => do
      let result ← (match op with
        | .UO_Minus => do
            let v ← ev subExpr
            return wrap64 (-1 * v)
        | .UO_Plus => ev subExpr
        | .UO_Deref => do
            let address ← ev subExpr
            loadCell 8 address
        | _ => do
            cerr "Unsupported unary operator"
            exit 1 : Exec Int)
      modifyBack (fun f => f.storeExpressionResult id result)

/-- Models `evaluateUnaryExpr`. -/
def evaluateUnaryExpr (ev : Expr → Exec Int) (id : Nat) (op : UnaryOpcode)
    (sub : Option Expr) : Exec Int := do
  evaluateUnaryOperation ev id op sub
  return (← back).getExpressionValue id

/-- The dispatch of `evaluateExpression`, with the recursion bounded by a
counter. -/
def evaluateExpressionAux : Nat → Expr → Exec Int
  | 0, _ => fun _ => .outOfFuel
  | n + 1, expr =>
    match expr.IgnoreImpCasts with
    | .declRefExpr id ty found => evaluateDeclRefExpr id ty found
    | .integerLiteral _ value => evaluateIntegerLiteral value
    | .characterLiteral _ value => evaluateCharLiteral value
    | .unaryOperator id _ op sub => evaluateUnaryExpr (evaluateExpressionAux n) id op sub
    | .binaryOperator id _ op lhs rhs =>
        evaluateBinaryExpr (evaluateExpressionAux n) id op lhs rhs
    | .parenExpr _ sub => evaluateExpressionAux n sub
    | .arraySubscriptExpr _ lhs rhs => evaluateArrayAccess (evaluateExpressionAux n) lhs rhs
    | .callExpr id _ _ _ _ => do return (← back).getExpressionValue id
    | .unaryExprOrTypeTraitExpr _ isSizeOf argTy => evaluateSizeOf isSizeOf argTy
    | .cStyleCastExpr _ sub => evaluateExpressionAux n sub
    | _ => do
        cerr "Unhandled expression type"
        return 0

/-- Models `evaluateExpression`: the recursion follows the expression, so
its depth is enough as the bound. -/
def evaluateExpression (expr : Expr) : Exec Int :=
  evaluateExpressionAux (expr.depth + 1) expr

/-- Models the template `initializeArray`: the loop stores 0 into the
elements `i`, `i + 1`, ... of width `elemSize`, `remaining` of them. -/
def initializeArray (elemSize : Nat) (array : Int) : (remaining i : Nat) → Exec Unit
  | 0, _ => pure ()
  | remaining + 1, i => do
      storeCell elemSize (array + elemSize * i) 0
      initializeArray elemSize array remaining (i + 1)

/-- Models `initializeArrayVariable`. -/
def initializeArrayVariable (varDecl : VarDecl) : Exec Unit :=
  match varDecl.ty with
  | .constantArrayTy elem arraySize =>
      if elem.isIntegerType then do
        let array ← allocate (4 * arraySize)
        initializeArray 4 array arraySize 0
        modifyBack (fun f => f.bindVariable varDecl.id array)
      else if elem.isCharType then do
        let array ← allocate arraySize
        initializeArray 1 array arraySize 0
        modifyBack (fun f => f.bindVariable varDecl.id array)
      else do
        let array ← allocate (8 * arraySize)
        initializeArray 8 array arraySize 0
        modifyBack (fun f => f.bindVariable varDecl.id array)
  | _ => pure ()

/-- The body of the loop of `processDeclaration` for one declaration. -/
def processDecl (ev : Expr → Exec Int) : Decl → Exec Unit
  | .varDecl varDecl =>
      if varDecl.ty.isIntegerType || varDecl.ty.isPointerType then
        match varDecl.init with
        | some init => do
            let value ← ev init
            modifyBack (fun f => f.bindVariable varDecl.id value)
        | none => modifyBack (fun f => f.bindVariable varDecl.id 0)
      else
        initializeArrayVariable varDecl
  | .otherDecl => pure ()

/-- Models `processDeclaration`. -/
def processDeclaration (ev : Expr → Exec Int) : List Decl → Exec Unit
  | [] => pure ()
  | decl :: rest => do
      processDecl ev decl
      processDeclaration ev rest

/-- Models `processReturn`; a return statement without a value passes a
null expression to the evaluator. -/
def processReturn (ev : Expr → Exec Int) (retValue : Option Expr) : Exec Unit :=
  match retValue with
  | none => ub
  | some e => do
      let returnValue ← ev e
      modifyBack (fun f => f.setReturnInfo true returnValue)

/-- Models `handleInputCall`: an exhausted input leaves 0 in the variable. -/
def handleInputCall (id : Nat) : Exec Unit := do
  cout "Please Input an Integer Value: "
  let inputValue ← (fun s =>
    match s.stdin with
    | [] => .ok 0 s
    | v :: rest => .ok v { s with stdin := rest } : Exec Int)
  modifyBack (fun f => f.storeExpressionResult id inputValue)

/-- Models `handleOutputCall`. -/
def handleOutputCall (ev : Expr → Exec Int) (args : List Expr) : Exec Unit :=
  match args[0]? with
  | none => ub
  | some arg => do
      let value ← ev arg
      cout (toString value)

/-- Models `handleMallocCall`. -/
def handleMallocCall (ev : Expr → Exec Int) (id : Nat) (args : List Expr) : Exec Unit :=
  match args[0]? with
  | none => ub
  | some arg => do
      let size ← ev arg
      let memory ← allocate (addrOf size)
      modifyBack (fun f => f.storeExpressionResult id memory)

/-- Models `handleFreeCall`. -/
def handleFreeCall (ev : Expr → Exec Int) (args : List Expr) : Exec Unit :=
  match args[0]? with
  | none => ub
  | some arg => do
      let memory ← ev arg
      release memory

/-- The first loop of `handleUserFunctionCall`: the argument values, left to
right. -/
def evaluateArguments (ev : Expr → Exec Int) : List Expr → Exec (List Int)
  | [] => pure []
  | arg :: rest => do
      let value ← ev arg
      let values ← evaluateArguments ev rest
      return value :: values

/-- The second loop of `handleUserFunctionCall`: parameter `paramIndex`,
`paramIndex + 1`, ... is bound to the argument of the same index. -/
def bindParameters (arguments : List Int) : (params : List Nat) → (paramIndex : Nat) → Exec Unit
  | [], _ => pure ()
  | param :: rest, paramIndex =>
      match arguments[paramIndex]? with
      | none => ub
      | some value => do
          modifyBack (fun f => f.bindVariable param value)
          bindParameters arguments rest (paramIndex + 1)

/-- Models `handleUserFunctionCall`; a null callee is dereferenced after the
frame is pushed. -/
def handleUserFunctionCall (ev : Expr → Exec Int) (args : List Expr)
    (callee : Option FunctionDecl) : Exec Unit := do
  let arguments ← evaluateArguments ev args
  pushFrame
  match callee with
  | none => ub
  | some fd => bindParameters arguments fd.params 0

/-- The function declaration a callee pointer refers to. -/
def findFunction (fns : List FunctionDecl) (callee : Option Nat) : Option FunctionDecl :=
  match callee with
  | none => none
  | some id => fns.find? (fun f => f.id == id)

/-- Models `processFunctionCall`: the callee pointer is compared with the
built-in table. -/
def processFunctionCall (fns : List FunctionDecl) (ev : Expr → Exec Int) (id : Nat)
    (directCallee : Option Nat) (args : List Expr) : Exec Unit := do
  modifyBack (fun f => f.setCurrentStatement id)
  let env ← (fun s => .ok s s : Exec State)
  if directCallee = env.inputFunction then
    handleInputCall id
  else if directCallee = env.outputFunction then
    handleOutputCall ev args
  else if directCallee = env.mallocFunction then
    handleMallocCall ev id args
  else if directCallee = env.freeFunction then
    handleFreeCall ev args
  else
    handleUserFunctionCall ev args (findFunction fns directCallee)

/-- The body of the loop of `initialize` for one top-level declaration. -/
def initializeDecl (ev : Expr → Exec Int) : TopLevelDecl → Exec Unit
  | .function funcDecl => fun s =>
      if funcDecl.name = "FREE" then .ok () { s with freeFunction := some funcDecl.id }
      else if funcDecl.name = "MALLOC" then .ok () { s with mallocFunction := some funcDecl.id }
      else if funcDecl.name = "GET" then .ok () { s with inputFunction := some funcDecl.id }
      else if funcDecl.name = "PRINT" then .ok () { s with outputFunction := some funcDecl.id }
      else if funcDecl.name = "main" then .ok () { s with entryFunction := some funcDecl.id }
      else .ok () s
  | .variable varDecl =>
      if varDecl.ty.isIntegerType || varDecl.ty.isCharType || varDecl.ty.isPointerType then
        match varDecl.init with
        | some init => do
            let value ← ev init
            modifyBack (fun f => f.bindVariable varDecl.id value)
        | none => modifyBack (fun f => f.bindVariable varDecl.id 0)
      else
        pure ()
  | .other => pure ()

/-- The loop of `initialize` over the top-level declarations. -/
def initializeDecls (ev : Expr → Exec Int) : List TopLevelDecl → Exec Unit
  | [] => pure ()
  | decl :: rest => do
      initializeDecl ev decl
      initializeDecls ev rest

/-- Models `ExecutionEnvironment::initialize` (the bare name is reserved in
Lean). -/
def initializeEnvironment (ev : Expr → Exec Int) (unit : List TopLevelDecl) : Exec Unit := do
  pushFrame
  initializeDecls ev unit

end Evaluator

/-! ## The visitor (`class ASTInterpreterVisitor`)

`Visit` dispatches on the node kind; a `Visit...` method that continues the
walk takes the dispatcher as its argument `visit`. The fuel bounds the depth
of the walk and the number of iterations of a loop. -/

section Visitor

open Exec

/-- Models `shouldSkipExecution`. -/
def shouldSkipExecution : Exec Bool := do
  return (← back).hasPendingReturn

/-- Models `isUserDefinedFunction`: the test is on the name. -/
def isUserDefinedFunction (funcDecl : FunctionDecl) : Bool :=
  funcDecl.name != "GET" && funcDecl.name != "PRINT" &&
  funcDecl.name != "MALLOC" && funcDecl.name != "FREE"

/-- The loop of `VisitStmt` over the children of a node. -/
def visitChildren (visit : Stmt → Exec Unit) : List Stmt → Exec Unit
  | [] => pure ()
  | child :: rest => do
      visit child
      visitChildren visit rest

/-- Models `EvaluatedExprVisitorBase::VisitStmt`: visit every child. -/
def VisitStmt (visit : Stmt → Exec Unit) (node : Stmt) : Exec Unit :=
  visitChildren visit node.children

/-- Models `VisitBinaryOperator`. -/
def VisitBinaryOperator (visit : Stmt → Exec Unit) (id : Nat) (ty : QualType)
    (op : BinaryOpcode) (lhs rhs : Expr) : Exec Unit := do
  if (← shouldSkipExecution) then pure ()
  else
    VisitStmt visit (.expr (.binaryOperator id ty op lhs rhs))
    evaluateBinaryOperation evaluateExpression id op lhs rhs

/-- Models `VisitDeclRefExpr`. -/
def VisitDeclRefExpr (visit : Stmt → Exec Unit) (id : Nat) (ty : QualType)
    (found : NamedDecl) : Exec Unit := do
  if (← shouldSkipExecution) then pure ()
  else
    VisitStmt visit (.expr (.declRefExpr id ty found))
    processDeclRefExpr id ty found

/-- Models `VisitCallExpr`. -/
def VisitCallExpr (fns : List FunctionDecl) (visit : Stmt → Exec Unit) (id : Nat)
    (ty : QualType) (callee : Expr) (directCallee : Option Nat) (args : List Expr) :
    Exec Unit := do
  if (← shouldSkipExecution) then pure ()
  else
    VisitStmt visit (.expr (.callExpr id ty callee directCallee args))
    processFunctionCall fns evaluateExpression id directCallee args
    match findFunction fns directCallee with
    | none => pure ()
    | some funcDecl =>
        if isUserDefinedFunction funcDecl then
          match funcDecl.body with
          | none => ub
          | some body => do
              visit body
              let returnValue := (← back).getReturnValue
              popFrame
              modifyBack (fun f => f.storeExpressionResult id returnValue)
        else pure ()

/-- Models `VisitDeclStmt`. -/
def VisitDeclStmt (visit : Stmt → Exec Unit) (decls : List Decl) : Exec Unit := do
  if (← shouldSkipExecution) then pure ()
  else
    VisitStmt visit (.declStmt decls)
    processDeclaration evaluateExpression decls

/-- Models `VisitIfStmt`. -/
def VisitIfStmt (visit : Stmt → Exec Unit) (cond : Expr) (thenBranch : Stmt)
    (elseBranch : Option Stmt) : Exec Unit := do
  if (← shouldSkipExecution) then pure ()
  else
    if (← evaluateExpression cond) ≠ 0 then
      visit thenBranch
    else
      match elseBranch with
      | some elseStmt => visit elseStmt
      | none => pure ()

/-- The loop of `VisitWhileStmt`, at most `fuel` condition tests. -/
def whileLoop (visit : Stmt → Exec Unit) (cond : Expr) (body : Stmt) : Nat → Exec Unit
  | 0 => fun _ => .outOfFuel
  | fuel + 1 => do
      if (← evaluateExpression cond) ≠ 0 then
        visit body
        whileLoop visit cond body fuel
      else pure ()

/-- Models `VisitWhileStmt`. -/
def VisitWhileStmt (visit : Stmt → Exec Unit) (fuel : Nat) (cond : Expr) (body : Stmt) :
    Exec Unit := do
  if (← shouldSkipExecution) then pure ()
  else whileLoop visit cond body fuel

/-- The loop of `VisitForStmt`, at most `fuel` condition tests; a missing
condition or increment is a null pointer handed to the evaluator or the
dispatcher. -/
def forLoop (visit : Stmt → Exec Unit) (cond inc : Option Expr) (body : Stmt) :
    Nat → Exec Unit
  | 0 => fun _ => .outOfFuel
  | fuel + 1 =>
      match cond with
      | none => ub
      | some c => do
          if (← evaluateExpression c) ≠ 0 then
            visit body
            match inc with
            | none => ub
            | some i => do
                visit (.expr i)
                forLoop visit cond inc body fuel
          else pure ()

/-- Models `VisitForStmt`. -/
def VisitForStmt (visit : Stmt → Exec Unit) (fuel : Nat) (init : Option Stmt)
    (cond inc : Option Expr) (body : Stmt) : Exec Unit := do
  if (← shouldSkipExecution) then pure ()
  else
    match init with
    | some initialization => visit initialization
    | none => pure ()
    forLoop visit cond inc body fuel

/-- Models `VisitReturnStmt`. -/
def VisitReturnStmt (visit : Stmt → Exec Unit) (retValue : Option Expr) : Exec Unit := do
  if (← shouldSkipExecution) then pure ()
  else
    match retValue with
    | none => ub
    | some e => visit (.expr e)
    processReturn evaluateExpression retValue

/-- Models `VisitUnaryOperator`. -/
def VisitUnaryOperator (visit : Stmt → Exec Unit) (id : Nat) (ty : QualType)
    (op : UnaryOpcode) (sub : Option Expr) : Exec Unit := do
  if (← shouldSkipExecution) then pure ()
  else
    VisitStmt visit (.expr (.unaryOperator id ty op sub))
    evaluateUnaryOperation evaluateExpression id op sub

/-- Models `StmtVisitor::Visit`: the dispatch on the node kind. A size-of
expression is not walked into; a kind without a method of its own falls
back to `VisitStmt`. -/
def Visit (fns : List FunctionDecl) : Nat → Stmt → Exec Unit
  | 0, _ => fun _ => .outOfFuel
  | fuel + 1, node =>
    match node with
    | .expr (.binaryOperator id ty op lhs rhs) =>
        VisitBinaryOperator (Visit fns fuel) id ty op lhs rhs
    | .expr (.declRefExpr id ty found) => VisitDeclRefExpr (Visit fns fuel) id ty found
    | .expr (.callExpr id ty callee directCallee args) =>
        VisitCallExpr fns (Visit fns fuel) id ty callee directCallee args
    | .expr (.unaryOperator id ty op sub) => VisitUnaryOperator (Visit fns fuel) id ty op sub
    | .expr (.unaryExprOrTypeTraitExpr _ _ _) => pure ()
    | .declStmt decls => VisitDeclStmt (Visit fns fuel) decls
    | .ifStmt cond thenBranch elseBranch =>
        VisitIfStmt (Visit fns fuel) cond thenBranch elseBranch
    | .whileStmt cond body => VisitWhileStmt (Visit fns fuel) fuel cond body
    | .forStmt init cond inc body => VisitForStmt (Visit fns fuel) fuel init cond inc body
    | .returnStmt retValue => VisitReturnStmt (Visit fns fuel) retValue
    | other => VisitStmt (Visit fns fuel) other

/-- The function declarations among the top-level declarations. -/
def functionsOf : List TopLevelDecl → List FunctionDecl
  | [] => []
  | .function f :: rest => f :: functionsOf rest
  | _ :: rest => functionsOf rest

/-- Models `HandleTranslationUnit`: set up the environment, then walk the children of
the entry function's body. -/
def HandleTranslationUnit (fuel : Nat) (unit : List TopLevelDecl) : Exec Unit := do
  initializeEnvironment evaluateExpression unit
  let env ← (fun s => .ok s s : Exec State)
  match env.entryFunction with
  | none => pure ()
  | some main =>
      match findFunction (functionsOf unit) (some main) with
      | none => ub
      | some mainFunction =>
          match mainFunction.body with
          | none => ub
          | some body => VisitStmt (Visit (functionsOf unit) fuel) body

end Visitor

/-! ## Reference notions and sample inputs -/

/-- The exact, unbounded result of an arithmetic operator, with division
truncating toward zero: what the evaluator is compared with. -/
def exactArithmetic : BinaryOpcode → Int → Int → Int
  | .BO_Add, a, b => a + b
  | .BO_Sub, a, b => a - b
  | .BO_Mul, a, b => a * b
  | .BO_Div, a, b => Int.tdiv a b
  | _, _, _ => 0

/-- A state with one empty frame, empty memory and no built-in registered. -/
def sampleState : State :=
  { State.initial (fun _ => 0) 4096 [] with callStack := [StackFrame.new] }

/-- The expression `(int *)1000`. -/
def samplePointer : Expr := .cStyleCastExpr .pointerTy (.integerLiteral .intTy 1000)

/-- A declaration of an `int` variable. -/
def sampleIntDecl : NamedDecl := { id := 7, isVarDecl := true, ty := .intTy }

/-- A declaration of an array `int a[3]`. -/
def sampleArrayDecl : NamedDecl :=
  { id := 8, isVarDecl := true, ty := .constantArrayTy .intTy 3 }

/-- A frame in which the array of `sampleArrayDecl` is bound to the address
4096. -/
def sampleArrayFrame : StackFrame := StackFrame.new.bindVariable 8 4096

/-- A state whose only frame is `sampleArrayFrame`. -/
def sampleArrayState : State :=
  { State.initial (fun _ => 0) 8192 [] with
      callStack := [sampleArrayFrame], live := [(4096, 12)] }

/-- A state whose only frame has a return pending. -/
def samplePendingState : State :=
  { State.initial (fun _ => 0) 4096 [] with
      callStack := [StackFrame.new.setReturnInfo true 1] }

/-- The expression `a[i]` for an array variable `a`: the reference to the
array decays to a pointer under an implicit cast. -/
def subscriptOf (refId : Nat) (a : NamedDecl) (index : Expr) : Expr :=
  .arraySubscriptExpr .intTy (.implicitCastExpr .pointerTy (.declRefExpr refId a.ty a)) index

/-- The callee operand of a direct call: a reference to the function,
decayed to a pointer. -/
def calleeOf (refId : Nat) (function : Nat) : Expr :=
  .implicitCastExpr .pointerTy
    (.declRefExpr refId .otherTy { id := function, isVarDecl := false, ty := .otherTy })

/-- The statement `PRINT(arg);` for the declaration `function` of `PRINT`;
the argument is read through an lvalue-to-rvalue cast. -/
def printOf (callId refId : Nat) (function : Nat) (arg : Expr) : Stmt :=
  .expr (.callExpr callId .otherTy (calleeOf refId function) (some function)
    [.implicitCastExpr .intTy arg])

/-- The statement `lhs = rhs;`. -/
def assignOf (id : Nat) (lhs rhs : Expr) : Stmt :=
  .expr (.binaryOperator id .intTy .BO_Assign lhs rhs)

/-- The program fragment `T a[N]; a[i] = v; PRINT(a[i]);` for the element
type `elem` of `a` and the declaration `function` of `PRINT`. -/
def arrayProgram (declId assignId ref1 callId calleeRef function ref2 : Nat)
    (elem : QualType) (N i : Nat) (v : Int) : Stmt :=
  .compoundStmt
    [ .declStmt [.varDecl { id := declId, ty := .constantArrayTy elem N, init := none }],
      assignOf assignId
        (subscriptOf ref1 { id := declId, isVarDecl := true, ty := .constantArrayTy elem N }
          (.integerLiteral .intTy i))
        (.integerLiteral .intTy v),
      printOf callId calleeRef function
        (subscriptOf ref2 { id := declId, isVarDecl := true, ty := .constantArrayTy elem N }
          (.integerLiteral .intTy i)) ]

/-- A state with one empty frame in which the declaration 50 is registered
as `PRINT` and the declaration 51 as `MALLOC`. -/
def sampleBuiltinState : State :=
  { State.initial (fun _ => 0) 4096 [] with
      callStack := [StackFrame.new], outputFunction := some 50, mallocFunction := some 51 }

/-- The expression `*p` for a pointer variable `p`. -/
def derefOf (id refId : Nat) (p : NamedDecl) : Expr :=
  .unaryOperator id .intTy .UO_Deref
    (some (.implicitCastExpr .pointerTy (.declRefExpr refId .pointerTy p)))

/-- The program fragment `p = MALLOC(n); *p = v; PRINT(*p);` for the
declarations `mallocFn` of `MALLOC` and `printFn` of `PRINT`. -/
def mallocProgram (p : NamedDecl) (assign1 ref1 call1 calleeRef1 mallocFn : Nat)
    (assign2 deref2 ref2 call3 calleeRef3 printFn deref3 ref3 : Nat) (n : Nat) (v : Int) :
    Stmt :=
  .compoundStmt
    [ assignOf assign1 (.declRefExpr ref1 .pointerTy p)
        (.callExpr call1 .pointerTy (calleeOf calleeRef1 mallocFn) (some mallocFn)
          [.integerLiteral .intTy n]),
      assignOf assign2 (derefOf deref2 ref2 p) (.integerLiteral .intTy v),
      printOf call3 calleeRef3 printFn (derefOf deref3 ref3 p) ]

/-- A declaration of a pointer variable. -/
def samplePointerDecl : NamedDecl := { id := 9, isVarDecl := true, ty := .pointerTy }

/-- The call `f()` of the function declared as `function`. -/
def callOf (callId refId function : Nat) : Expr :=
  .callExpr callId .intTy (calleeOf refId function) (some function) []

/-- The statement `x = f() + k;`. -/
def callPlusProgram (assignId xRef : Nat) (x : NamedDecl) (plusId callId fRef function : Nat)
    (k : Int) : Stmt :=
  assignOf assignId (.declRefExpr xRef .intTy x)
    (.binaryOperator plusId .intTy .BO_Add (callOf callId fRef function)
      (.integerLiteral .intTy k))

/-- A function `int f() { return c; }` with declaration 100. -/
def returnsConstant (c : Int) : FunctionDecl :=
  { id := 100, name := "f", params := [],
    body := some (.compoundStmt [.returnStmt (some (.integerLiteral .intTy c))]) }

/-- The statement `a = (b = v);`. -/
def nestedAssignProgram (outer aRef : Nat) (a : NamedDecl) (inner bRef : Nat) (b : NamedDecl)
    (v : Int) : Stmt :=
  assignOf outer (.declRefExpr aRef .intTy a)
    (.parenExpr .intTy
      (.binaryOperator inner .intTy .BO_Assign (.declRefExpr bRef .intTy b)
        (.integerLiteral .intTy v)))

/-- A second declaration of an `int` variable. -/
def sampleOtherIntDecl : NamedDecl := { id := 17, isVarDecl := true, ty := .intTy }

/-- The body `{ return g; }` of a function that reads the variable `g`. -/
def readerBody (gRef : Nat) (g : NamedDecl) : Stmt :=
  .compoundStmt [.returnStmt (some (.implicitCastExpr .intTy (.declRefExpr gRef .intTy g)))]

/-- The body `{ g = w; }` of a function that assigns the variable `g`. -/
def writerBody (assignId gRef : Nat) (g : NamedDecl) (w : Int) : Stmt :=
  .compoundStmt [assignOf assignId (.declRefExpr gRef .intTy g) (.integerLiteral .intTy w)]

/-- The translation unit `int g = 7; void wr() { g = 5; } int main() { wr(); }`:
the global has declaration 7, `wr` declaration 101, `main` declaration 102. -/
def sampleGlobalUnit : List TopLevelDecl :=
  [ .variable { id := 7, ty := .intTy, init := some (.integerLiteral .intTy 7) },
    .function { id := 101, name := "wr", params := [],
                body := some (writerBody 1 2 sampleIntDecl 5) },
    .function { id := 102, name := "main", params := [],
                body := some (.compoundStmt [.expr (callOf 3 4 101)]) } ]

/-- A function `int rd() { return g; }` with declaration 103, for the
variable of `sampleIntDecl`. -/
def sampleReader : FunctionDecl :=
  { id := 103, name := "rd", params := [], body := some (readerBody 1 sampleIntDecl) }

/-- A function `void wr() { g = 5; }` with declaration 101, for the variable
of `sampleIntDecl`. -/
def sampleWriter : FunctionDecl :=
  { id := 101, name := "wr", params := [], body := some (writerBody 1 2 sampleIntDecl 5) }

/-- A state whose only frame binds the variable of `sampleIntDecl` to 7. -/
def sampleGlobalState : State :=
  { State.initial (fun _ => 0) 4096 [] with callStack := [StackFrame.new.bindVariable 7 7] }

/-- The statement `x = 5;` for the variable of `sampleIntDecl`. -/
def sampleAssignment : Expr :=
  .binaryOperator 1 .intTy .BO_Assign (.declRefExpr 2 .intTy sampleIntDecl)
    (.integerLiteral .intTy 5)

/-- The body `{ if (cond) return 1; return 2; }`. -/
def earlyReturnBody (cond : Expr) : Stmt :=
  .compoundStmt
    [ .ifStmt cond (.returnStmt (some (.integerLiteral .intTy 1))) none,
      .returnStmt (some (.integerLiteral .intTy 2)) ]

/-- A function `int f(int c) { if (c) return 1; return 2; }` with
declaration 100 and parameter declaration 60. -/
def sampleEarlyReturn : FunctionDecl :=
  { id := 100, name := "f", params := [60],
    body := some (earlyReturnBody
      (.implicitCastExpr .intTy
        (.declRefExpr 61 .intTy { id := 60, isVarDecl := true, ty := .intTy }))) }


/-- The expression `(x + 6) / 3` over an `int` variable `x`, read through an
lvalue-to-rvalue cast. -/
def samplePure : Expr :=
  .binaryOperator 4 .intTy .BO_Div
    (.parenExpr .intTy
      (.binaryOperator 3 .intTy .BO_Add
        (.implicitCastExpr .intTy (.declRefExpr 1 .intTy sampleIntDecl))
        (.integerLiteral .intTy 6)))
    (.integerLiteral .intTy 3)

/-- The statement `{ init; while (cond) { body; inc; } }`: what a for
statement with all parts present is compared with. -/
def desugaredFor (init : Stmt) (cond inc : Expr) (body : Stmt) : Stmt :=
  .compoundStmt [init, .whileStmt cond (.compoundStmt [body, .expr inc])]

/-- The statements that can stand as the initializer of a for statement: an
expression or a declaration. -/
def Stmt.isExpressionOrDeclaration : Stmt → Bool
  | .expr _ => true
  | .declStmt _ => true
  | _ => false

/-- The parts of the loop `for (x = 5; x < 6; x = 6) { }` over the variable
of `sampleIntDecl`. -/
def sampleLoopCond : Expr :=
  .binaryOperator 20 .intTy .BO_LT
    (.implicitCastExpr .intTy (.declRefExpr 21 .intTy sampleIntDecl))
    (.integerLiteral .intTy 6)

/-- The increment `x = 6` of that loop. -/
def sampleLoopInc : Expr :=
  .binaryOperator 22 .intTy .BO_Assign (.declRefExpr 23 .intTy sampleIntDecl)
    (.integerLiteral .intTy 6)

/-- A state whose only frame binds the variable of `sampleIntDecl` to 1. -/
def sampleBoundState : State :=
  { State.initial (fun _ => 0) 4096 [] with callStack := [StackFrame.new.bindVariable 7 1] }

/-- The expression `x`, read through an lvalue-to-rvalue cast. -/
def sampleVariable : Expr := .implicitCastExpr .intTy (.declRefExpr 30 .intTy sampleIntDecl)

/-- The statement `return 1;`. -/
def sampleReturn : Stmt := .returnStmt (some (.integerLiteral .intTy 1))

/-- The block `{ x = 0; return 1; }`. -/
def sampleClearAndReturn : Stmt :=
  .compoundStmt
    [ .expr (.binaryOperator 31 .intTy .BO_Assign (.declRefExpr 32 .intTy sampleIntDecl)
        (.integerLiteral .intTy 0)),
      sampleReturn ]

/-- The state `sampleBoundState` after `sampleVariable` was evaluated in it:
the reference has its memo entry and is the current statement. -/
def sampleBoundEvaluated : State :=
  { State.initial (fun _ => 0) 4096 [] with
      callStack :=
        [((StackFrame.new.bindVariable 7 1).setCurrentStatement 30).bindExpression 30 1] }

/-- The variable a declarator introduces. -/
def Decl.varId : Decl → Option Nat
  | .varDecl v => some v.id
  | .otherDecl => none

/-- A declarator whose processing evaluates nothing with an effect: it has no
initializer, or a literal one. -/
def Decl.isPlain : Decl → Bool
  | .varDecl v =>
      match v.init with
      | none => true
      | some (.integerLiteral _ _) => true
      | some (.characterLiteral _ _) => true
      | some _ => false
  | .otherDecl => true

/-- The width in bytes of the cells of an array with the given element type,
as `initializeArrayVariable`, `accessArrayElement` and `updateArrayElement`
select it: character types are integer types. -/
def cellWidth (elem : QualType) : Nat := if elem.isIntegerType then 4 else 8

/-- The expression `a[i]` for the array variable `id` of type `elem[N]`, with
any node identity and any static types on the way. -/
def elementOf (refId : Nat) (sty cty : QualType) (id : Nat) (elem : QualType) (N : Nat)
    (i : Nat) : Expr :=
  .arraySubscriptExpr sty
    (.implicitCastExpr cty
      (.declRefExpr refId (.constantArrayTy elem N)
        { id := id, isVarDecl := true, ty := .constantArrayTy elem N }))
    (.integerLiteral .intTy i)

/-- A state with one empty frame over a memory in which every byte is 255. -/
def sampleDirtyState : State :=
  { State.initial (fun _ => 255) 4096 [] with callStack := [StackFrame.new] }

/-- The declarators of `int a[3], x = 7, *q[2];`. -/
def sampleDeclarators : List Decl :=
  [ .varDecl { id := 8, ty := .constantArrayTy .intTy 3, init := none },
    .varDecl { id := 7, ty := .intTy, init := some (.integerLiteral .intTy 7) },
    .varDecl { id := 9, ty := .constantArrayTy .pointerTy 2, init := none } ]

/-- The body `{ b(); return c; }` for a function `b` without parameters. -/
def callsThenReturns (innerCall innerRef inner : Nat) (c : Int) : Stmt :=
  .compoundStmt
    [ .expr (callOf innerCall innerRef inner),
      .returnStmt (some (.integerLiteral .intTy c)) ]

/-- The translation unit
`int GET(); int f() { GET(); return 42; } int main() { f(); } int GET();`:
the declaration of `GET` the calls refer to is 50, its redeclaration at the
end is 52, `f` is 100 and `main` is 102. -/
def sampleStaleUnit : List TopLevelDecl :=
  [ .function { id := 50, name := "GET", params := [], body := none },
    .function { id := 100, name := "f", params := [],
                body := some (callsThenReturns 1 2 50 42) },
    .function { id := 102, name := "main", params := [],
                body := some (.compoundStmt [.expr (callOf 3 4 100)]) },
    .function { id := 52, name := "GET", params := [], body := none } ]

/-- The state `initialize` builds for `sampleStaleUnit`: the declaration
registered for `GET` is the last one. -/
def sampleStaleState : State :=
  { State.initial (fun _ => 0) 4096 [] with
      callStack := [StackFrame.new], inputFunction := some 52, entryFunction := some 102 }

/-- The expression `a[1] = 5` for the array of `sampleArrayDecl`. -/
def sampleElementAssignment : Expr :=
  .binaryOperator 1 .intTy .BO_Assign
    (subscriptOf 2 sampleArrayDecl (.integerLiteral .intTy 1)) (.integerLiteral .intTy 5)

/-- The state `a[1] = 5` leaves `sampleArrayState` in. -/
def sampleElementAssigned : State :=
  { sampleArrayState with
      memory := storeBytes sampleArrayState.memory (addrOf (4096 + 4 * 1)) 4
        ((5 : Int) % 2 ^ (8 * 4)).toNat }

/-- A state whose only frame binds the pointer of `samplePointerDecl` to the
base of a live block of 16 bytes. -/
def samplePointerState : State :=
  { State.initial (fun _ => 0) 8192 [] with
      callStack := [StackFrame.new.bindVariable 9 4096], live := [(4096, 16)] }

/-- The expression `*p = 9` for the pointer of `samplePointerDecl`. -/
def samplePointerAssignment : Expr :=
  .binaryOperator 1 .intTy .BO_Assign (derefOf 2 3 samplePointerDecl)
    (.integerLiteral .intTy 9)

/-- The state `*p = 9` leaves `samplePointerState` in. -/
def samplePointerAssigned : State :=
  { samplePointerState with
      callStack :=
        [((StackFrame.new.bindVariable 9 4096).setCurrentStatement 3).bindExpression 3 4096],
      memory := storeBytes samplePointerState.memory (addrOf 4096) 8
        ((9 : Int) % 2 ^ (8 * 8)).toNat }

/-- A state whose only frame binds the variable of `sampleIntDecl` to 7 and
in which the declarations 50 to 53 are registered as the four built-ins. -/
def sampleRegisteredState : State :=
  { sampleGlobalState with
      inputFunction := some 50, outputFunction := some 51,
      mallocFunction := some 52, freeFunction := some 53 }

/-- The state `sampleRegisteredState` is in after the walk over the operands of
the call `wr()` made through the nodes 5 and 6. -/
def sampleWalked : State :=
  { sampleRegisteredState with
      callStack := [(StackFrame.new.bindVariable 7 7).setCurrentStatement 6] }

/-- The state in which the body of `wr` starts: a new frame above the frame
of the caller. -/
def sampleEntered : State :=
  { sampleRegisteredState with
      callStack :=
        [ StackFrame.new,
          ((StackFrame.new.bindVariable 7 7).setCurrentStatement 6).setCurrentStatement 5 ] }

/-- The frame of `wr` after its body `g = 5;`. -/
def sampleCalleeFrame : StackFrame :=
  (((StackFrame.new.setCurrentStatement 2).bindExpression 2 0).bindExpression 2 5).bindVariable
    7 5

/-- The state in which the body of `wr` ends. -/
def sampleLeft : State :=
  { sampleRegisteredState with
      callStack :=
        [ sampleCalleeFrame,
          ((StackFrame.new.bindVariable 7 7).setCurrentStatement 6).setCurrentStatement 5 ] }

/-- The expression `(-9223372036854775807 - 1) / -1`. -/
def sampleOverflow : Expr :=
  .binaryOperator 4 .intTy .BO_Div
    (.parenExpr .intTy
      (.binaryOperator 3 .intTy .BO_Sub
        (.unaryOperator 2 .intTy .UO_Minus (some (.integerLiteral .intTy 9223372036854775807)))
        (.integerLiteral .intTy 1)))
    (.unaryOperator 1 .intTy .UO_Minus (some (.integerLiteral .intTy 1)))
/-! ## Notions used to state the properties -/

/-- The built-in table of a state: the declarations registered for `GET`,
`PRINT`, `MALLOC` and `FREE`. -/
def State.builtins (s : State) : List (Option Nat) :=
  [s.inputFunction, s.outputFunction, s.mallocFunction, s.freeFunction]

/-- The test on the callee pointer (`processFunctionCall`) and the test on the
callee name (`isUserDefinedFunction`) agree: a declared function is
user-defined by name exactly when it is not in the built-in table. -/
def Consistent (fns : List FunctionDecl) (table : List (Option Nat)) : Prop :=
  ∀ (directCallee : Option Nat) (fd : FunctionDecl),
    findFunction fns directCallee = some fd →
      (isUserDefinedFunction fd = true ↔ directCallee ∉ table)

/-- A frame whose return value is 0 as long as no return is pending: the
state of a frame in which no return statement was executed. -/
def StackFrame.returnClean (f : StackFrame) : Prop :=
  f.hasReturnValue = false → f.returnValue = 0

/-- A computation that, started under the built-in table `table` with at
least one frame, ends normally only with the same frames below the top one
and the same table, and with a top frame that is `returnClean` if it was;
when `strict` is set it also leaves the pending-return flag and value of the
top frame as they were. -/
def Keeps (table : List (Option Nat)) (strict : Bool) {α : Type} (x : Exec α) : Prop :=
  ∀ (s : State) (f : StackFrame) (rest : List StackFrame) (a : α) (s1 : State),
    s.builtins = table → s.callStack = f :: rest → x s = .ok a s1 →
      ∃ f1, s1.callStack = f1 :: rest ∧ s1.builtins = table
        ∧ (f.returnClean → f1.returnClean)
        ∧ (strict = true →
            f1.hasReturnValue = f.hasReturnValue ∧ f1.returnValue = f.returnValue)

/-- The reference for the order of argument evaluation: the arguments are
evaluated one after the other from the left, each in the state the previous
one left, and give the list of their values. -/
def ArgumentsEvaluate : List Expr → State → List Int → State → Prop
  | [], s, vals, s1 => vals = [] ∧ s1 = s
  | arg :: rest, s, vals, s1 =>
      ∃ v s' vs, evaluateExpression arg s = .ok v s'
        ∧ ArgumentsEvaluate rest s' vs s1 ∧ vals = v :: vs

/-- The arithmetic and comparison operators, the ones `evaluateBinaryOperator`
handles. -/
def BinaryOpcode.isArithmeticOrComparison : BinaryOpcode → Bool
  | .BO_Add | .BO_Sub | .BO_Mul | .BO_Div
  | .BO_LT | .BO_GT | .BO_EQ | .BO_LE | .BO_GE | .BO_NE => true
  | _ => false

/-- The pure expressions: literals, variable references, parentheses, casts,
unary plus and minus, and the arithmetic and comparison operators over pure
operands. -/
def Expr.isPure : Expr → Bool
  | .integerLiteral _ _ => true
  | .characterLiteral _ _ => true
  | .declRefExpr _ _ _ => true
  | .parenExpr _ sub => sub.isPure
  | .implicitCastExpr _ sub => sub.isPure
  | .cStyleCastExpr _ sub => sub.isPure
  | .unaryOperator _ _ op (some sub) => (op == .UO_Plus || op == .UO_Minus) && sub.isPure
  | .binaryOperator _ _ op lhs rhs =>
      op.isArithmeticOrComparison && lhs.isPure && rhs.isPure
  | _ => false

/-- The nodes of a pure expression whose memo entry is read without being
written first: the references that are neither of integer nor of pointer
type. -/
def Expr.memoReads : Expr → List Nat
  | .declRefExpr id ty _ => if ty.isIntegerType || ty.isPointerType then [] else [id]
  | .parenExpr _ sub => sub.memoReads
  | .implicitCastExpr _ sub => sub.memoReads
  | .cStyleCastExpr _ sub => sub.memoReads
  | .unaryOperator _ _ _ (some sub) => sub.memoReads
  | .binaryOperator _ _ _ lhs rhs => lhs.memoReads ++ rhs.memoReads
  | _ => []

/-- The nodes of a pure expression whose memo entry is written: the
references of integer or pointer type and the operators. -/
def Expr.memoWrites : Expr → List Nat
  | .declRefExpr id ty _ => if ty.isIntegerType || ty.isPointerType then [id] else []
  | .parenExpr _ sub => sub.memoWrites
  | .implicitCastExpr _ sub => sub.memoWrites
  | .cStyleCastExpr _ sub => sub.memoWrites
  | .unaryOperator id _ _ (some sub) => id :: sub.memoWrites
  | .binaryOperator id _ _ lhs rhs => id :: (lhs.memoWrites ++ rhs.memoWrites)
  | _ => []

/-- Node identities are addresses, so a node that is only read from the memo
is not one that is written: no identity is both in `memoReads` and in
`memoWrites`. -/
def Expr.distinctNodes (e : Expr) : Prop :=
  ∀ k, k ∈ e.memoReads → k ∉ e.memoWrites

/-- A memo table with the entries of `writes` put over it. -/
def overrideMemo (writes memo : Nat → Option Int) : Nat → Option Int := fun k =>
  match writes k with
  | some v => some v
  | none => memo k

/-- The current statement after two settings, the later one first. -/
def laterCurrent (later earlier : Option Nat) : Option Nat :=
  match later with
  | some c => some c
  | none => earlier

/-- A frame after memo entries were written and, possibly, the current
statement was set: what evaluating a pure expression does to a frame. -/
def StackFrame.withWrites (f : StackFrame) (writes : Nat → Option Int)
    (current : Option Nat) : StackFrame :=
  { f with
      expressionValues := overrideMemo writes f.expressionValues
      currentStatement := laterCurrent current f.currentStatement }

/-- A frame with the variable bindings `vars` whose memo has the entries of
`memo` at the nodes in `reads`. -/
def StackFrame.agrees (g : StackFrame) (reads : Nat → Prop) (vars memo : Nat → Option Int) :
    Prop :=
  g.variableValues = vars ∧ ∀ k, reads k → g.expressionValues k = memo k

/-- The reference value of an arithmetic or comparison operator on two
operand values, as `evaluateBinaryOperator` computes it; there is none for a
division by 0 and for the division of the least 64-bit integer by -1. -/
def pureBinary (op : BinaryOpcode) (leftIsPointer : Bool) (a b : Int) : Option Int :=
  match op with
  | .BO_Add => if leftIsPointer then some (wrap64 (a + 8 * b)) else some (wrap64 (a + b))
  | .BO_Sub => some (wrap64 (a - b))
  | .BO_Mul => some (wrap64 (a * b))
  | .BO_Div =>
      if b = 0 then none
      else if a = -(2 ^ 63) ∧ b = -1 then none
      else some (wrap64 (Int.tdiv a b))
  | .BO_LT => some (boolValue (decide (a < b)))
  | .BO_GT => some (boolValue (decide (a > b)))
  | .BO_EQ => some (boolValue (decide (a = b)))
  | .BO_LE => some (boolValue (decide (a ≤ b)))
  | .BO_GE => some (boolValue (decide (a ≥ b)))
  | .BO_NE => some (boolValue (decide (a ≠ b)))
  | _ => none

/-- The reference value of unary plus and minus on an operand value that may
be missing. -/
def pureUnary (op : UnaryOpcode) (value : Option Int) : Option Int :=
  match op, value with
  | .UO_Plus, some v => some v
  | .UO_Minus, some v => some (wrap64 (-1 * v))
  | _, _ => none

/-- A binary operation on two operand values that may be missing. -/
def liftBinary (k : Int → Int → Option Int) : Option Int → Option Int → Option Int
  | some a, some b => k a b
  | _, _ => none

/-- The reference value of a pure expression in a frame with the variable
bindings `vars` and the memo `memo`: a reference of integer or pointer type
reads the variable (0 if unbound), any other reference reads its own memo
entry (0 if absent). There is no value exactly when a division in the
expression has no value. -/
def Expr.pureValue (vars memo : Nat → Option Int) : Expr → Option Int
  | .integerLiteral _ value => some value
  | .characterLiteral _ value => some (value : Int)
  | .declRefExpr id ty found =>
      if ty.isIntegerType || ty.isPointerType then
        some (match vars found.id with
          | some v => v
          | none => 0)
      else
        some (match memo id with
          | some v => v
          | none => 0)
  | .parenExpr _ sub => sub.pureValue vars memo
  | .implicitCastExpr _ sub => sub.pureValue vars memo
  | .cStyleCastExpr _ sub => sub.pureValue vars memo
  | .unaryOperator _ _ op (some sub) => pureUnary op (sub.pureValue vars memo)
  | .binaryOperator _ _ op lhs rhs =>
      liftBinary (pureBinary op lhs.getType.isPointerType)
        (lhs.pureValue vars memo) (rhs.pureValue vars memo)
  | _ => none

/-- A computation that, in every state whose top frame has the variable
bindings `vars` and the memo entries `memo` at the nodes in `reads`, returns
the value `val` and makes one and the same set of memo writes, none at a node
in `reads`, and changes nothing else. -/
def PureRet (reads : Nat → Prop) (vars memo : Nat → Option Int) (x : Exec Int) (val : Int) :
    Prop :=
  ∃ (w : Nat → Option Int) (c : Option Nat),
    (∀ k, reads k → w k = none) ∧
    ∀ (s : State) (g : StackFrame) (rest : List StackFrame),
      s.callStack = g :: rest → g.agrees reads vars memo →
        x s = .ok val { s with callStack := g.withWrites w c :: rest }

/-- A computation that returns in no such state. -/
def NeverReturns (reads : Nat → Prop) (vars memo : Nat → Option Int) (x : Exec Int) : Prop :=
  ∀ (s : State) (g : StackFrame) (rest : List StackFrame),
    s.callStack = g :: rest → g.agrees reads vars memo → ∀ a s1, x s ≠ .ok a s1

/-- A computation that follows a reference value: it returns that value as a
pure computation does, or never returns when there is none. -/
def Follows (reads : Nat → Prop) (vars memo : Nat → Option Int) (x : Exec Int)
    (value : Option Int) : Prop :=
  match value with
  | some v => PureRet reads vars memo x v
  | none => NeverReturns reads vars memo x

/-- A computation that ends as `y` does wherever it does not run out of
fuel: what a run with less fuel is to a run with more. -/
def Exec.below {α : Type} (x y : Exec α) : Prop :=
  ∀ s, x s = .outOfFuel ∨ x s = y s

/-- The nodes whose memo entry the evaluation of an expression can write:
the variable references, the unary operators and the binary operators other
than assignments, among the nodes of the expression. An assignment node is
not one of them. -/
def Expr.writtenNodes : Expr → List Nat
  | .declRefExpr id _ _ => [id]
  | .unaryOperator id _ _ (some sub) => id :: sub.writtenNodes
  | .binaryOperator id _ op lhs rhs =>
      (if op.isAssignmentOp then [] else [id]) ++ (lhs.writtenNodes ++ rhs.writtenNodes)
  | .parenExpr _ sub => sub.writtenNodes
  | .implicitCastExpr _ sub => sub.writtenNodes
  | .cStyleCastExpr _ sub => sub.writtenNodes
  | .arraySubscriptExpr _ lhs rhs => lhs.writtenNodes ++ rhs.writtenNodes
  | _ => []

/-- A computation that, when it ends normally, leaves the frames below the
top as they were and changes no memo entry of the top frame other than
those of the nodes in `ids`. -/
def Writes (ids : List Nat) {α : Type} (x : Exec α) : Prop :=
  ∀ (s : State) (f : StackFrame) (rest : List StackFrame) (a : α) (s1 : State),
    s.callStack = f :: rest → x s = .ok a s1 →
      ∃ f1, s1.callStack = f1 :: rest
        ∧ ∀ k, k ∉ ids → f1.expressionValues k = f.expressionValues k

/-- A computation that, when it ends normally, leaves the frames below the
top as they were. -/
def KeepsBelow {α : Type} (x : Exec α) : Prop :=
  ∀ (s : State) (f : StackFrame) (rest : List StackFrame) (a : α) (s1 : State),
    s.callStack = f :: rest → x s = .ok a s1 → ∃ f1, s1.callStack = f1 :: rest
/-! ## Reasoning about computations -/

section Basics

open Exec

@[simp] theorem bind_apply {α β : Type} (x : Exec α) (f : α → Exec β) (s : State) :
    (x >>= f) s = Exec.andThen x f s := rfl

@[simp] theorem pure_apply {α : Type} (a : α) (s : State) :
    (pure a : Exec α) s = .ok a s := rfl

theorem andThen_ok {α β : Type} {x : Exec α} {f : α → Exec β} {s s1 : State} {a : α}
    (h : x s = .ok a s1) : Exec.andThen x f s = f a s1 := by
  simp [Exec.andThen, h]

theorem andThen_exited {α β : Type} {x : Exec α} {f : α → Exec β} {s s1 : State} {c : Nat}
    (h : x s = .exited c s1) : Exec.andThen x f s = .exited c s1 := by
  simp [Exec.andThen, h]

theorem back_cons {s : State} {f : StackFrame} {rest : List StackFrame}
    (h : s.callStack = f :: rest) : back s = .ok f s := by
  simp [back, h]

theorem modifyBack_cons {s : State} {f : StackFrame} {rest : List StackFrame}
    (g : StackFrame → StackFrame) (h : s.callStack = f :: rest) :
    modifyBack g s = .ok () { s with callStack := g f :: rest } := by
  simp [modifyBack, h]

end Basics
/-! ## The evaluator is well defined

The counter of `evaluateExpressionAux` never runs out when it starts above
the depth of the expression, so `evaluateExpression` satisfies the equations
of the source function. -/

section Stability

open Exec

theorem depth_IgnoreImpCasts_le : ∀ (e : Expr), e.IgnoreImpCasts.depth ≤ e.depth
  | .implicitCastExpr _ sub => by
      have ih := depth_IgnoreImpCasts_le sub
      simp only [Expr.IgnoreImpCasts, Expr.depth]
      omega
  | .declRefExpr _ _ _ => by simp [Expr.IgnoreImpCasts]
  | .integerLiteral _ _ => by simp [Expr.IgnoreImpCasts]
  | .characterLiteral _ _ => by simp [Expr.IgnoreImpCasts]
  | .unaryOperator _ _ _ _ => by simp [Expr.IgnoreImpCasts]
  | .binaryOperator _ _ _ _ _ => by simp [Expr.IgnoreImpCasts]
  | .parenExpr _ _ => by simp [Expr.IgnoreImpCasts]
  | .cStyleCastExpr _ _ => by simp [Expr.IgnoreImpCasts]
  | .arraySubscriptExpr _ _ _ => by simp [Expr.IgnoreImpCasts]
  | .callExpr _ _ _ _ _ => by simp [Expr.IgnoreImpCasts]
  | .unaryExprOrTypeTraitExpr _ _ _ => by simp [Expr.IgnoreImpCasts]
  | .otherExpr _ _ => by simp [Expr.IgnoreImpCasts]

theorem evaluateUnaryExpr_congr (ev1 ev2 : Expr → Exec Int) (id : Nat) (op : UnaryOpcode)
    (sub : Option Expr) (h : ∀ e, sub = some e → ev1 e = ev2 e) :
    evaluateUnaryExpr ev1 id op sub = evaluateUnaryExpr ev2 id op sub := by
  cases sub with
  | none => rfl
  | some e => simp only [evaluateUnaryExpr, evaluateUnaryOperation, h e rfl]

theorem evaluateArrayAccess_congr (ev1 ev2 : Expr → Exec Int) (lhs rhs : Expr)
    (h : ev1 rhs = ev2 rhs) :
    evaluateArrayAccess ev1 lhs rhs = evaluateArrayAccess ev2 lhs rhs := by
  simp only [evaluateArrayAccess, h]

theorem evaluateBinaryOperation_congr (ev1 ev2 : Expr → Exec Int) (id : Nat)
    (op : BinaryOpcode) (lhs rhs : Expr)
    (h : ∀ e, e.depth ≤ max lhs.depth rhs.depth → ev1 e = ev2 e) :
    evaluateBinaryOperation ev1 id op lhs rhs = evaluateBinaryOperation ev2 id op lhs rhs := by
  have hl := h lhs (by omega)
  have hr := h rhs (by omega)
  simp only [evaluateBinaryOperation, evaluateBinaryOperator,
    handleAddition, handleDivision, hl, hr]
  cases lhs with
  | arraySubscriptExpr ty1 l1 r1 =>
      simp only [handleAssignment, handleArrayAssignment, hr,
        h r1 (by simp only [Expr.depth]; omega)]
  | unaryOperator id1 ty1 op1 sub1 =>
      cases sub1 with
      | none => simp only [handleAssignment, handlePointerAssignment, hr]
      | some sub1 =>
          simp only [handleAssignment, handlePointerAssignment, hr,
            h sub1 (by simp only [Expr.depth]; omega)]
  | _ => simp only [handleAssignment, hr]

theorem evaluateBinaryExpr_congr (ev1 ev2 : Expr → Exec Int) (id : Nat)
    (op : BinaryOpcode) (lhs rhs : Expr)
    (h : ∀ e, e.depth ≤ max lhs.depth rhs.depth → ev1 e = ev2 e) :
    evaluateBinaryExpr ev1 id op lhs rhs = evaluateBinaryExpr ev2 id op lhs rhs := by
  simp only [evaluateBinaryExpr, evaluateBinaryOperation_congr ev1 ev2 id op lhs rhs h]

theorem evaluateExpressionAux_stable (n : Nat) :
    ∀ (m : Nat) (e : Expr), e.depth < n → e.depth < m →
      evaluateExpressionAux n e = evaluateExpressionAux m e := by
  induction n with
  | zero => intro m e h; omega
  | succ n ih =>
    intro m e hn hm
    cases m with
    | zero => omega
    | succ m =>
      have hd := depth_IgnoreImpCasts_le e
      simp only [evaluateExpressionAux]
      generalize e.IgnoreImpCasts = e1 at hd
      cases e1 with
      | unaryOperator id ty op sub =>
          apply evaluateUnaryExpr_congr
          intro e1 he1
          subst he1
          simp only [Expr.depth] at hd
          exact ih m e1 (by omega) (by omega)
      | binaryOperator id ty op lhs rhs =>
          simp only [Expr.depth] at hd
          apply evaluateBinaryExpr_congr
          intro e1 he1
          exact ih m e1 (by omega) (by omega)
      | parenExpr ty sub =>
          simp only [Expr.depth] at hd
          exact ih m sub (by omega) (by omega)
      | cStyleCastExpr ty sub =>
          simp only [Expr.depth] at hd
          exact ih m sub (by omega) (by omega)
      | arraySubscriptExpr ty lhs rhs =>
          simp only [Expr.depth] at hd
          apply evaluateArrayAccess_congr
          exact ih m rhs (by omega) (by omega)
      | _ => rfl

theorem evaluateExpressionAux_eq (n : Nat) (e : Expr) (h : e.depth < n) :
    evaluateExpressionAux n e = evaluateExpression e :=
  evaluateExpressionAux_stable n (e.depth + 1) e h (Nat.lt_succ_self _)

/-! The equations of `evaluateExpression`, one for each kind of node. -/

theorem evaluateExpression_implicitCast (ty : QualType) (sub : Expr) :
    evaluateExpression (.implicitCastExpr ty sub) = evaluateExpression sub := by
  have h1 : evaluateExpression (.implicitCastExpr ty sub)
      = evaluateExpressionAux (sub.depth + 1 + 1) sub := rfl
  rw [h1]
  exact evaluateExpressionAux_eq (sub.depth + 1 + 1) sub (by omega)

theorem evaluateExpression_declRef (id : Nat) (ty : QualType) (found : NamedDecl) :
    evaluateExpression (.declRefExpr id ty found) = evaluateDeclRefExpr id ty found := rfl

theorem evaluateExpression_integerLiteral (ty : QualType) (value : Int) :
    evaluateExpression (.integerLiteral ty value) = pure value := rfl

theorem evaluateExpression_characterLiteral (ty : QualType) (value : Nat) :
    evaluateExpression (.characterLiteral ty value) = pure (value : Int) := rfl

theorem evaluateExpression_call (id : Nat) (ty : QualType) (callee : Expr)
    (directCallee : Option Nat) (args : List Expr) :
    evaluateExpression (.callExpr id ty callee directCallee args)
      = (do return (← back).getExpressionValue id) := rfl

theorem evaluateExpression_sizeOf (ty : QualType) (isSizeOf : Bool) (argTy : QualType) :
    evaluateExpression (.unaryExprOrTypeTraitExpr ty isSizeOf argTy)
      = evaluateSizeOf isSizeOf argTy := rfl

theorem evaluateExpression_other (ty : QualType) (children : List Expr) :
    evaluateExpression (.otherExpr ty children)
      = (do cerr "Unhandled expression type"; return 0) := rfl

theorem evaluateExpression_paren (ty : QualType) (sub : Expr) :
    evaluateExpression (.parenExpr ty sub) = evaluateExpression sub := by
  show evaluateExpressionAux (sub.depth + 1) sub = _
  rfl

theorem evaluateExpression_cStyleCast (ty : QualType) (sub : Expr) :
    evaluateExpression (.cStyleCastExpr ty sub) = evaluateExpression sub := by
  show evaluateExpressionAux (sub.depth + 1) sub = _
  rfl

theorem evaluateExpression_unary (id : Nat) (ty : QualType) (op : UnaryOpcode)
    (sub : Option Expr) :
    evaluateExpression (.unaryOperator id ty op sub)
      = evaluateUnaryExpr evaluateExpression id op sub := by
  cases sub with
  | none => rfl
  | some e =>
      show evaluateUnaryExpr (evaluateExpressionAux (e.depth + 1)) id op (some e) = _
      apply evaluateUnaryExpr_congr
      intro e1 he1
      cases he1
      rfl

theorem evaluateExpression_binary (id : Nat) (ty : QualType) (op : BinaryOpcode)
    (lhs rhs : Expr) :
    evaluateExpression (.binaryOperator id ty op lhs rhs)
      = evaluateBinaryExpr evaluateExpression id op lhs rhs := by
  show evaluateBinaryExpr (evaluateExpressionAux (max lhs.depth rhs.depth + 1)) id op lhs rhs
    = _
  apply evaluateBinaryExpr_congr
  intro e1 he1
  exact evaluateExpressionAux_eq (max lhs.depth rhs.depth + 1) e1 (by omega)

theorem evaluateExpression_arraySubscript (ty : QualType) (lhs rhs : Expr) :
    evaluateExpression (.arraySubscriptExpr ty lhs rhs)
      = evaluateArrayAccess evaluateExpression lhs rhs := by
  show evaluateArrayAccess (evaluateExpressionAux (max lhs.depth rhs.depth + 1)) lhs rhs = _
  apply evaluateArrayAccess_congr
  exact evaluateExpressionAux_eq (max lhs.depth rhs.depth + 1) rhs (by omega)

end Stability
/-! ## The equations of the dispatcher -/

section VisitEquations

open Exec

variable (fns : List FunctionDecl) (n : Nat)

theorem Visit_binaryOperator (id : Nat) (ty : QualType) (op : BinaryOpcode) (lhs rhs : Expr) :
    Visit fns (n + 1) (.expr (.binaryOperator id ty op lhs rhs))
      = VisitBinaryOperator (Visit fns n) id ty op lhs rhs := rfl

theorem Visit_declRefExpr (id : Nat) (ty : QualType) (found : NamedDecl) :
    Visit fns (n + 1) (.expr (.declRefExpr id ty found))
      = VisitDeclRefExpr (Visit fns n) id ty found := rfl

theorem Visit_callExpr (id : Nat) (ty : QualType) (callee : Expr) (directCallee : Option Nat)
    (args : List Expr) :
    Visit fns (n + 1) (.expr (.callExpr id ty callee directCallee args))
      = VisitCallExpr fns (Visit fns n) id ty callee directCallee args := rfl

theorem Visit_unaryOperator (id : Nat) (ty : QualType) (op : UnaryOpcode) (sub : Option Expr) :
    Visit fns (n + 1) (.expr (.unaryOperator id ty op sub))
      = VisitUnaryOperator (Visit fns n) id ty op sub := rfl

theorem Visit_sizeOf (ty : QualType) (isSizeOf : Bool) (argTy : QualType) :
    Visit fns (n + 1) (.expr (.unaryExprOrTypeTraitExpr ty isSizeOf argTy)) = pure () := rfl

theorem Visit_declStmt (decls : List Decl) :
    Visit fns (n + 1) (.declStmt decls) = VisitDeclStmt (Visit fns n) decls := rfl

theorem Visit_ifStmt (cond : Expr) (thenBranch : Stmt) (elseBranch : Option Stmt) :
    Visit fns (n + 1) (.ifStmt cond thenBranch elseBranch)
      = VisitIfStmt (Visit fns n) cond thenBranch elseBranch := rfl

theorem Visit_whileStmt (cond : Expr) (body : Stmt) :
    Visit fns (n + 1) (.whileStmt cond body) = VisitWhileStmt (Visit fns n) n cond body := rfl

theorem Visit_forStmt (init : Option Stmt) (cond inc : Option Expr) (body : Stmt) :
    Visit fns (n + 1) (.forStmt init cond inc body)
      = VisitForStmt (Visit fns n) n init cond inc body := rfl

theorem Visit_returnStmt (retValue : Option Expr) :
    Visit fns (n + 1) (.returnStmt retValue) = VisitReturnStmt (Visit fns n) retValue := rfl

theorem Visit_integerLiteral (ty : QualType) (value : Int) :
    Visit fns (n + 1) (.expr (.integerLiteral ty value)) = pure () := rfl

theorem Visit_characterLiteral (ty : QualType) (value : Nat) :
    Visit fns (n + 1) (.expr (.characterLiteral ty value)) = pure () := rfl

theorem Visit_parenExpr (ty : QualType) (sub : Expr) :
    Visit fns (n + 1) (.expr (.parenExpr ty sub))
      = visitChildren (Visit fns n) [.expr sub] := rfl

theorem Visit_implicitCastExpr (ty : QualType) (sub : Expr) :
    Visit fns (n + 1) (.expr (.implicitCastExpr ty sub))
      = visitChildren (Visit fns n) [.expr sub] := rfl

theorem Visit_cStyleCastExpr (ty : QualType) (sub : Expr) :
    Visit fns (n + 1) (.expr (.cStyleCastExpr ty sub))
      = visitChildren (Visit fns n) [.expr sub] := rfl

theorem Visit_arraySubscriptExpr (ty : QualType) (lhs rhs : Expr) :
    Visit fns (n + 1) (.expr (.arraySubscriptExpr ty lhs rhs))
      = visitChildren (Visit fns n) [.expr lhs, .expr rhs] := rfl

theorem Visit_otherExpr (ty : QualType) (children : List Expr) :
    Visit fns (n + 1) (.expr (.otherExpr ty children))
      = visitChildren (Visit fns n) (children.map Stmt.expr) := rfl

theorem Visit_compoundStmt (body : List Stmt) :
    Visit fns (n + 1) (.compoundStmt body) = visitChildren (Visit fns n) body := rfl

theorem Visit_otherStmt (children : List Stmt) :
    Visit fns (n + 1) (.otherStmt children) = visitChildren (Visit fns n) children := rfl

theorem visitChildren_nil (visit : Stmt → Exec Unit) : visitChildren visit [] = pure () := rfl

theorem visitChildren_cons (visit : Stmt → Exec Unit) (child : Stmt) (rest : List Stmt) :
    visitChildren visit (child :: rest) = (do visit child; visitChildren visit rest) := rfl

theorem shouldSkipExecution_cons {s : State} {f : StackFrame} {rest : List StackFrame}
    (h : s.callStack = f :: rest) : shouldSkipExecution s = .ok f.hasReturnValue s := by
  simp [shouldSkipExecution, Exec.andThen, back, h, StackFrame.hasPendingReturn]

theorem visitChildren_noop (visit : Stmt → Exec Unit) (s : State) (children : List Stmt)
    (h : ∀ c, c ∈ children → visit c s = .ok () s) :
    visitChildren visit children s = .ok () s := by
  induction children with
  | nil => rfl
  | cons c cs ih =>
    have hc := h c (by simp)
    have hcs := ih (fun d hd => h d (by simp [hd]))
    simp [visitChildren, Exec.andThen, hc, hcs]

end VisitEquations

/-! The type tests on each kind of type. -/

section TypeTests

@[simp] theorem isIntegerType_intTy : QualType.intTy.isIntegerType = true := rfl
@[simp] theorem isIntegerType_charTy : QualType.charTy.isIntegerType = true := rfl
@[simp] theorem isIntegerType_pointerTy : QualType.pointerTy.isIntegerType = false := rfl
@[simp] theorem isIntegerType_otherTy : QualType.otherTy.isIntegerType = false := rfl
@[simp] theorem isIntegerType_constantArrayTy (elem : QualType) (size : Nat) :
    (QualType.constantArrayTy elem size).isIntegerType = false := rfl
@[simp] theorem isPointerType_intTy : QualType.intTy.isPointerType = false := rfl
@[simp] theorem isPointerType_charTy : QualType.charTy.isPointerType = false := rfl
@[simp] theorem isPointerType_pointerTy : QualType.pointerTy.isPointerType = true := rfl
@[simp] theorem isPointerType_otherTy : QualType.otherTy.isPointerType = false := rfl
@[simp] theorem isPointerType_constantArrayTy (elem : QualType) (size : Nat) :
    (QualType.constantArrayTy elem size).isPointerType = false := rfl
@[simp] theorem isCharType_intTy : QualType.intTy.isCharType = false := rfl
@[simp] theorem isCharType_charTy : QualType.charTy.isCharType = true := rfl
@[simp] theorem isCharType_pointerTy : QualType.pointerTy.isCharType = false := rfl
@[simp] theorem isCharType_otherTy : QualType.otherTy.isCharType = false := rfl
@[simp] theorem isCharType_constantArrayTy (elem : QualType) (size : Nat) :
    (QualType.constantArrayTy elem size).isCharType = false := rfl

end TypeTests

/-! ## Values in the 64-bit range -/

section Values

theorem wrap64_of_inRange64 {x : Int} (h : inRange64 x) : wrap64 x = x := by
  unfold inRange64 at h
  unfold wrap64
  omega

theorem wrap64_inRange64 (x : Int) : inRange64 (wrap64 x) := by
  unfold inRange64 wrap64
  omega

theorem wrap64_emod (x : Int) : wrap64 x % 2 ^ 64 = x % 2 ^ 64 := by
  unfold wrap64
  omega

end Values

/-! ## Memory cells -/

section Memory

open Exec

theorem loadBytes_zero (mem : Nat → Nat) (n : Nat) :
    ∀ addr, (∀ k, k < n → mem (addr + k) = 0) → loadBytes mem addr n = 0 := by
  induction n with
  | zero => intro addr _; rfl
  | succ n ih =>
    intro addr h
    have h0 : mem addr = 0 := h 0 (by omega)
    have h1 : loadBytes mem (addr + 1) n = 0 := by
      apply ih
      intro k hk
      have := h (k + 1) (by omega)
      rw [← this]
      congr 1
      omega
    simp [loadBytes, h0, h1]

theorem loadBytes_storeBytes_aux (mem : Nat → Nat) (addr n v : Nat) (m : Nat) :
    ∀ k, k + m ≤ n →
      loadBytes (storeBytes mem addr n v) (addr + k) m = v / 256 ^ k % 256 ^ m := by
  induction m with
  | zero => intro k _; simp [loadBytes, Nat.mod_one]
  | succ m ih =>
    intro k hk
    have hbyte : storeBytes mem addr n v (addr + k) = v / 256 ^ k % 256 := by
      have hc : addr ≤ addr + k ∧ addr + k < addr + n := ⟨by omega, by omega⟩
      simp [storeBytes, hc]
    have hrec := ih (k + 1) (by omega)
    have hassoc : addr + k + 1 = addr + (k + 1) := by omega
    simp only [loadBytes, hbyte, hassoc, hrec]
    rw [Nat.mod_mod, pow_succ 256 k, ← Nat.div_div_eq_div_mul, pow_succ' 256 m, Nat.mod_mul]

/-- Reading the cell that was just written gives the written value reduced to
the width of the cell. -/
theorem loadBytes_storeBytes (mem : Nat → Nat) (addr n v : Nat) :
    loadBytes (storeBytes mem addr n v) addr n = v % 256 ^ n := by
  have h := loadBytes_storeBytes_aux mem addr n v n 0 (by omega)
  simpa using h

theorem signExtend_64 (v : Int) (h : inRange64 v) :
    signExtend (8 * 8) ((v % 2 ^ (8 * 8)).toNat % 256 ^ 8) = v := by
  unfold inRange64 at h
  unfold signExtend
  have h256 : (256 : Nat) ^ 8 = 2 ^ 64 := by norm_num
  have h88 : 8 * 8 = 64 := by norm_num
  rw [h256, h88]
  have hnn : 0 ≤ v % 2 ^ 64 := Int.emod_nonneg _ (by norm_num)
  have hlt : v % 2 ^ 64 < 2 ^ 64 := Int.emod_lt_of_pos _ (by norm_num)
  have hcast : (((v % 2 ^ 64).toNat % 2 ^ 64 : Nat) : Int) = v % 2 ^ 64 := by
    rw [Nat.mod_eq_of_lt]
    · exact Int.toNat_of_nonneg hnn
    · omega
  split
  · rename_i hlt2
    rw [hcast]
    have : ((v % 2 ^ 64).toNat % 2 ^ 64 : Nat) < 2 ^ 63 := by simpa using hlt2
    omega
  · rename_i hge
    rw [hcast]
    have : ¬ ((v % 2 ^ 64).toNat % 2 ^ 64 : Nat) < 2 ^ 63 := by simpa using hge
    omega

/-- The signed reading of the low 32 bits of a value. -/
theorem signExtend_32 (v : Int) (h : -(2 ^ 31) ≤ v ∧ v < 2 ^ 31) :
    signExtend (8 * 4) ((v % 2 ^ (8 * 4)).toNat % 256 ^ 4) = v := by
  unfold signExtend
  have h256 : (256 : Nat) ^ 4 = 2 ^ 32 := by norm_num
  have h84 : 8 * 4 = 32 := by norm_num
  rw [h256, h84]
  have hnn : 0 ≤ v % 2 ^ 32 := Int.emod_nonneg _ (by norm_num)
  have hlt : v % 2 ^ 32 < 2 ^ 32 := Int.emod_lt_of_pos _ (by norm_num)
  have hcast : (((v % 2 ^ 32).toNat % 2 ^ 32 : Nat) : Int) = v % 2 ^ 32 := by
    rw [Nat.mod_eq_of_lt]
    · exact Int.toNat_of_nonneg hnn
    · omega
  split
  · rename_i hlt2
    rw [hcast]
    have : ((v % 2 ^ 32).toNat % 2 ^ 32 : Nat) < 2 ^ 31 := by simpa using hlt2
    omega
  · rename_i hge
    rw [hcast]
    have : ¬ ((v % 2 ^ 32).toNat % 2 ^ 32 : Nat) < 2 ^ 31 := by simpa using hge
    omega

theorem inBlock_of_offset (base off : Int) (n size : Nat) (h0 : 0 ≤ off)
    (h : off + (n : Int) ≤ (size : Int)) : inBlock (base + off) n (base, size) = true := by
  unfold inBlock
  simp only [decide_eq_true_eq]
  have e : base + off - base = off := by ring
  rw [e]
  omega

theorem isLive_of_head (s : State) (address : Int) (n : Nat) (b : Int × Nat)
    (rest : List (Int × Nat)) (hl : s.live = b :: rest) (h : inBlock address n b = true) :
    s.isLive address n = true := by
  simp [State.isLive, hl, h]

theorem loadCell_live {s : State} {n : Nat} {address : Int}
    (h : s.isLive address n = true) :
    loadCell n address s
      = .ok (signExtend (8 * n) (loadBytes s.memory (addrOf address) n)) s := by
  simp [loadCell, h]

theorem storeCell_live {s : State} {n : Nat} {address : Int} (value : Int)
    (h : s.isLive address n = true) :
    storeCell n address value s
      = .ok () { s with
          memory := storeBytes s.memory (addrOf address) n (value % 2 ^ (8 * n)).toNat } := by
  simp [storeCell, h]

/-- The loop of `initializeArray` over cells that lie in live blocks ends
normally and changes the memory only: the bytes of the cells it runs over
become 0, every other byte is kept. -/
theorem initializeArray_ok (elemSize : Nat) (array : Int) (n : Nat) :
    ∀ (i : Nat) (s : State),
      (∀ j, i ≤ j → j < i + n → s.isLive (array + elemSize * j) elemSize = true) →
      ∃ m,
      initializeArray elemSize array n i s = .ok () { s with memory := m }
        ∧ (∀ a, (∃ j, i ≤ j ∧ j < i + n ∧ addrOf (array + elemSize * j) ≤ a
              ∧ a < addrOf (array + elemSize * j) + elemSize) → m a = 0)
        ∧ (∀ a, (¬ ∃ j, i ≤ j ∧ j < i + n ∧ addrOf (array + elemSize * j) ≤ a
              ∧ a < addrOf (array + elemSize * j) + elemSize) → m a = s.memory a) := by
  induction n with
  | zero =>
    intro i s _
    refine ⟨s.memory, rfl, ?_, ?_⟩
    · rintro a ⟨j, h1, h2, _⟩
      omega
    · intro a _
      rfl
  | succ n ih =>
    intro i s hlive
    obtain ⟨m, hrun, hz, hk⟩ := ih (i + 1)
      { s with memory := (storeBytes s.memory (addrOf (array + elemSize * i)) elemSize
          ((0 : Int) % 2 ^ (8 * elemSize)).toNat) }
      (fun j h1 h2 => hlive j (by omega) (by omega))
    refine ⟨m, ?_, ?_, ?_⟩
    · simp only [initializeArray, bind_apply, Exec.andThen,
        storeCell_live 0 (hlive i (le_refl i) (by omega))]
      exact hrun
    · rintro a ⟨j, h1, h2, h3, h4⟩
      by_cases hj : j = i
      · rw [hj] at h3 h4
        by_cases hex : ∃ j1, i + 1 ≤ j1 ∧ j1 < i + 1 + n
            ∧ addrOf (array + elemSize * j1) ≤ a
            ∧ a < addrOf (array + elemSize * j1) + elemSize
        · exact hz a hex
        · rw [hk a hex]
          simp [storeBytes, h3, h4]
      · exact hz a ⟨j, by omega, by omega, h3, h4⟩
    · intro a hno
      have hex : ¬ ∃ j1, i + 1 ≤ j1 ∧ j1 < i + 1 + n
          ∧ addrOf (array + elemSize * j1) ≤ a
          ∧ a < addrOf (array + elemSize * j1) + elemSize := by
        rintro ⟨j1, h1, h2, h3, h4⟩
        exact hno ⟨j1, by omega, by omega, h3, h4⟩
      rw [hk a hex]
      have hcell : ¬ (addrOf (array + elemSize * i) ≤ a
          ∧ a < addrOf (array + elemSize * i) + elemSize) := by
        rintro ⟨h3, h4⟩
        exact hno ⟨i, by omega, by omega, h3, h4⟩
      simp [storeBytes, hcell]

end Memory

/-! ## Arithmetic -/

section Arithmetic

open Exec

/-- C9: for a pointer-typed `P` and any `I`, an integer-typed one in particular, evaluating `P + I`
evaluates `P`, then `I`, and returns the value of `P` plus 8 times the value
of `I`, reduced modulo 2^64 to the signed 64-bit range; the result is also
recorded for the node. -/
theorem pointer_plus_integer_scaled (id : Nat) (ty : QualType) (P I : Expr)
    (s s1 s2 : State) (vP vI : Int) (f : StackFrame) (rest : List StackFrame)
    (hP : P.getType.isPointerType = true)
    (h1 : evaluateExpression P s = .ok vP s1) (h2 : evaluateExpression I s1 = .ok vI s2)
    (hs : s2.callStack = f :: rest) :
    evaluateExpression (.binaryOperator id ty .BO_Add P I) s
        = .ok (wrap64 (vP + vI * 8))
            { s2 with callStack := f.storeExpressionResult id (wrap64 (vP + vI * 8)) :: rest }
      ∧ wrap64 (vP + vI * 8) % 2 ^ 64 = (vP + vI * 8) % 2 ^ 64
      ∧ inRange64 (wrap64 (vP + vI * 8)) := by
  refine ⟨?_, wrap64_emod _, wrap64_inRange64 _⟩
  have hc : vP + 8 * vI = vP + vI * 8 := by ring
  simp [evaluateExpression_binary, evaluateBinaryExpr, evaluateBinaryOperation,
    evaluateBinaryOperator, BinaryOpcode.isAssignmentOp, handleAddition, hP, Exec.andThen,
    h1, h2, hs, back, modifyBack, StackFrame.storeExpressionResult,
    StackFrame.getExpressionValue, hc]

theorem pointer_plus_integer_scaled_witness :
    evaluateExpression (.binaryOperator 1 .pointerTy .BO_Add samplePointer
        (.integerLiteral .intTy 2)) sampleState
        = .ok (wrap64 (1000 + 2 * 8))
            { sampleState with callStack :=
                StackFrame.new.storeExpressionResult 1 (wrap64 (1000 + 2 * 8)) :: [] }
      ∧ wrap64 (1000 + 2 * 8) % 2 ^ 64 = (1000 + 2 * 8) % 2 ^ 64
      ∧ inRange64 (wrap64 (1000 + 2 * 8)) :=
  pointer_plus_integer_scaled 1 .pointerTy samplePointer (.integerLiteral .intTy 2)
    sampleState sampleState sampleState 1000 2 StackFrame.new [] rfl rfl rfl rfl


/-- C10: with the integer on the left the sum is not scaled: for an `I` that
is not pointer-typed, `I + P` evaluates to the plain sum of the two values,
whatever the type of `P`. -/
theorem integer_plus_pointer_unscaled (id : Nat) (ty : QualType) (I P : Expr)
    (s s1 s2 : State) (vI vP : Int) (f : StackFrame) (rest : List StackFrame)
    (hI : I.getType.isPointerType = false)
    (h1 : evaluateExpression I s = .ok vI s1) (h2 : evaluateExpression P s1 = .ok vP s2)
    (hs : s2.callStack = f :: rest) :
    evaluateExpression (.binaryOperator id ty .BO_Add I P) s
      = .ok (wrap64 (vI + vP))
          { s2 with callStack := f.storeExpressionResult id (wrap64 (vI + vP)) :: rest } := by
  simp [evaluateExpression_binary, evaluateBinaryExpr, evaluateBinaryOperation,
    evaluateBinaryOperator, BinaryOpcode.isAssignmentOp, handleAddition, hI, Exec.andThen,
    h1, h2, hs, back, modifyBack, StackFrame.storeExpressionResult,
    StackFrame.getExpressionValue]

theorem integer_plus_pointer_unscaled_witness :
    evaluateExpression (.binaryOperator 1 .pointerTy .BO_Add (.integerLiteral .intTy 2)
        samplePointer) sampleState
      = .ok (wrap64 (2 + 1000))
          { sampleState with callStack :=
              StackFrame.new.storeExpressionResult 1 (wrap64 (2 + 1000)) :: [] } :=
  integer_plus_pointer_unscaled 1 .pointerTy (.integerLiteral .intTy 2) samplePointer
    sampleState sampleState sampleState 2 1000 StackFrame.new [] rfl rfl rfl rfl

/-- C11: for `+`, `-`, `*` and `/` on operands that are not pointer-typed, with
values `a` and `b`, when the exact result fits the signed 64-bit range (and
`b` is not 0 for `/`), the evaluator returns the exact result and records it
for the operator node. The operands are evaluated left then right, for `/`
right then left. -/
theorem arithmetic_exact (id : Nat) (ty : QualType) (op : BinaryOpcode) (lhs rhs : Expr)
    (s s1 s2 : State) (a b : Int) (f : StackFrame) (rest : List StackFrame)
    (hop : op = .BO_Add ∨ op = .BO_Sub ∨ op = .BO_Mul ∨ op = .BO_Div)
    (hl : lhs.getType.isPointerType = false)
    (hev : if op = .BO_Div then
        evaluateExpression rhs s = .ok b s1 ∧ evaluateExpression lhs s1 = .ok a s2
      else evaluateExpression lhs s = .ok a s1 ∧ evaluateExpression rhs s1 = .ok b s2)
    (hb : op = .BO_Div → b ≠ 0)
    (hfit : inRange64 (exactArithmetic op a b))
    (hs : s2.callStack = f :: rest) :
    evaluateExpression (.binaryOperator id ty op lhs rhs) s
      = .ok (exactArithmetic op a b)
          { s2 with callStack :=
              f.storeExpressionResult id (exactArithmetic op a b) :: rest } := by
  rcases hop with h | h | h | h <;> subst h
  · simp only [exactArithmetic] at hfit ⊢
    simp at hev hb
    simp [evaluateExpression_binary, evaluateBinaryExpr, evaluateBinaryOperation,
      evaluateBinaryOperator, BinaryOpcode.isAssignmentOp, handleAddition, hl,
      Exec.andThen, hev.1, hev.2, hs, back, modifyBack, StackFrame.storeExpressionResult,
      StackFrame.getExpressionValue, wrap64_of_inRange64 hfit]
  · simp only [exactArithmetic] at hfit ⊢
    simp at hev hb
    simp [evaluateExpression_binary, evaluateBinaryExpr, evaluateBinaryOperation,
      evaluateBinaryOperator, BinaryOpcode.isAssignmentOp, hl,
      Exec.andThen, hev.1, hev.2, hs, back, modifyBack, StackFrame.storeExpressionResult,
      StackFrame.getExpressionValue, wrap64_of_inRange64 hfit]
  · simp only [exactArithmetic] at hfit ⊢
    simp at hev hb
    simp [evaluateExpression_binary, evaluateBinaryExpr, evaluateBinaryOperation,
      evaluateBinaryOperator, BinaryOpcode.isAssignmentOp, hl,
      Exec.andThen, hev.1, hev.2, hs, back, modifyBack, StackFrame.storeExpressionResult,
      StackFrame.getExpressionValue, wrap64_of_inRange64 hfit]
  · simp only [exactArithmetic] at hfit ⊢
    simp at hev hb
    have hno : ¬ (a = -9223372036854775808 ∧ b = -1) := by
      rintro ⟨rfl, rfl⟩
      revert hfit
      decide
    simp [evaluateExpression_binary, evaluateBinaryExpr, evaluateBinaryOperation,
      evaluateBinaryOperator, BinaryOpcode.isAssignmentOp, handleDivision, hl,
      Exec.andThen, hev.1, hev.2, hs, back, modifyBack, StackFrame.storeExpressionResult,
      StackFrame.getExpressionValue, wrap64_of_inRange64 hfit, hb, hno]

theorem arithmetic_exact_witness :
    evaluateExpression (.binaryOperator 1 .intTy .BO_Div (.integerLiteral .intTy (-7))
        (.integerLiteral .intTy 2)) sampleState
      = .ok (exactArithmetic .BO_Div (-7) 2)
          { sampleState with callStack :=
              StackFrame.new.storeExpressionResult 1 (exactArithmetic .BO_Div (-7) 2) :: [] } :=
  arithmetic_exact 1 .intTy .BO_Div (.integerLiteral .intTy (-7)) (.integerLiteral .intTy 2)
    sampleState sampleState sampleState (-7) 2 StackFrame.new [] (by decide) rfl
    ⟨rfl, rfl⟩ (by decide) (by decide) rfl

/-- C12: a division whose right operand evaluates to 0 ends the run with
status 1 after the diagnostic, whatever the left operand, which is not
evaluated; no value is returned and the frames are those the right operand
left, so nothing is recorded for the division node. The same holds when the
node is evaluated for its effect. -/
theorem division_by_zero_exits (id : Nat) (ty : QualType) (lhs rhs : Expr) (s s1 : State)
    (h : evaluateExpression rhs s = .ok 0 s1) :
    evaluateExpression (.binaryOperator id ty .BO_Div lhs rhs) s
        = .exited 1 { s1 with stderr := s1.stderr ++ ["Division by zero error\n"] }
      ∧ evaluateBinaryOperation evaluateExpression id .BO_Div lhs rhs s
        = .exited 1 { s1 with stderr := s1.stderr ++ ["Division by zero error\n"] } := by
  simp [evaluateExpression_binary, evaluateBinaryExpr, evaluateBinaryOperation,
    evaluateBinaryOperator, BinaryOpcode.isAssignmentOp, handleDivision,
    Exec.andThen, h, Exec.cerr, Exec.exit]

theorem division_by_zero_exits_witness :
    evaluateExpression (.binaryOperator 1 .intTy .BO_Div (.integerLiteral .intTy 5)
        (.integerLiteral .intTy 0)) sampleState
        = .exited 1 { sampleState with
            stderr := sampleState.stderr ++ ["Division by zero error\n"] }
      ∧ evaluateBinaryOperation evaluateExpression 1 .BO_Div (.integerLiteral .intTy 5)
          (.integerLiteral .intTy 0) sampleState
        = .exited 1 { sampleState with
            stderr := sampleState.stderr ++ ["Division by zero error\n"] } :=
  division_by_zero_exits 1 .intTy (.integerLiteral .intTy 5) (.integerLiteral .intTy 0)
    sampleState sampleState rfl

end Arithmetic

/-! ## Expression kinds, variable references, assignments -/

section Simple

open Exec

/-- C13 (counterexample): evaluating a node of an unhandled kind returns the
value 0 and does not end the run. -/
theorem unhandled_kind_returns :
    (∃ s1, evaluateExpression (.otherExpr .intTy []) sampleState = .ok 0 s1)
      ∧ ∀ c s1, evaluateExpression (.otherExpr .intTy []) sampleState ≠ .exited c s1 := by
  constructor
  · exact ⟨_, rfl⟩
  · intro c s1 h
    have h0 : evaluateExpression (.otherExpr .intTy []) sampleState
        = .ok 0 { sampleState with stderr := sampleState.stderr
            ++ ["Unhandled expression type\n"] } := rfl
    rw [h0] at h
    cases h

/-- C13 (amended): evaluating a node whose kind, below the implicit casts, is
none of the handled ones writes the diagnostic to the error stream, returns
0, and changes nothing else; the run goes on. -/
theorem unhandled_kind_diagnostic_and_zero (e : Expr) (ty : QualType) (children : List Expr)
    (s : State) (h : e.IgnoreImpCasts = .otherExpr ty children) :
    evaluateExpression e s
      = .ok 0 { s with stderr := s.stderr ++ ["Unhandled expression type\n"] } := by
  simp [evaluateExpression, evaluateExpressionAux, h, Exec.andThen, Exec.cerr]

theorem unhandled_kind_diagnostic_and_zero_witness :
    evaluateExpression (.implicitCastExpr .intTy (.otherExpr .intTy [])) sampleState
      = .ok 0 { sampleState with
          stderr := sampleState.stderr ++ ["Unhandled expression type\n"] } :=
  unhandled_kind_diagnostic_and_zero (.implicitCastExpr .intTy (.otherExpr .intTy []))
    .intTy [] sampleState rfl

/-- C18 (counterexample): a reference to an array variable bound to the
address 4096 evaluates to 0 and records nothing for the node. -/
theorem array_reference_not_its_address :
    evaluateExpression (.declRefExpr 1 (.constantArrayTy .intTy 3) sampleArrayDecl)
        sampleArrayState
      = .ok 0 { sampleArrayState with
          callStack := [sampleArrayFrame.setCurrentStatement 1] }
      ∧ sampleArrayFrame.getVariableValue sampleArrayDecl.id = 4096
      ∧ (sampleArrayFrame.setCurrentStatement 1).isExpressionEvaluated 1 = false := by
  refine ⟨rfl, rfl, rfl⟩

/-- C18 (amended): a reference whose type is an integer, character or
pointer type returns the top frame's binding of the declaration (0 when
there is none) and records it for the node; a reference of any other type,
an array in particular, records nothing and returns what the node's memo
entry already held (0 when there is none). -/
theorem variable_reference_value (id : Nat) (ty : QualType) (found : NamedDecl)
    (s : State) (f : StackFrame) (rest : List StackFrame) (hs : s.callStack = f :: rest) :
    evaluateExpression (.declRefExpr id ty found) s
      = if ty.isIntegerType || ty.isPointerType then
          .ok (f.getVariableValue found.id)
            { s with callStack :=
                (f.setCurrentStatement id).bindExpression id (f.getVariableValue found.id)
                  :: rest }
        else
          .ok (f.getExpressionValue id)
            { s with callStack := f.setCurrentStatement id :: rest } := by
  by_cases hty : (ty.isIntegerType || ty.isPointerType) = true
  · simp only [hty, if_true]
    simp [evaluateExpression_declRef, evaluateDeclRefExpr, processDeclRefExpr, hty,
      Exec.andThen, back, modifyBack, hs, StackFrame.bindExpression,
      StackFrame.getExpressionValue, StackFrame.setCurrentStatement,
      StackFrame.getVariableValue]
  · simp only [hty, if_false]
    simp [evaluateExpression_declRef, evaluateDeclRefExpr, processDeclRefExpr, hty,
      Exec.andThen, back, modifyBack, hs, StackFrame.bindExpression,
      StackFrame.getExpressionValue, StackFrame.setCurrentStatement,
      StackFrame.getVariableValue]

theorem variable_reference_value_witness :
    evaluateExpression (.declRefExpr 1 .pointerTy sampleArrayDecl) sampleArrayState
      = if QualType.pointerTy.isIntegerType || QualType.pointerTy.isPointerType then
          .ok (sampleArrayFrame.getVariableValue sampleArrayDecl.id)
            { sampleArrayState with callStack :=
                [(sampleArrayFrame.setCurrentStatement 1).bindExpression 1
                  (sampleArrayFrame.getVariableValue sampleArrayDecl.id)] }
        else
          .ok (sampleArrayFrame.getExpressionValue 1)
            { sampleArrayState with callStack := sampleArrayFrame.setCurrentStatement 1 :: [] } :=
  variable_reference_value 1 .pointerTy sampleArrayDecl sampleArrayState sampleArrayFrame []
    rfl

/-- C20: for every assignment operator, plain or compound, whose left-hand
side is a variable reference, executing the assignment evaluates the
right-hand side to `r`, records `r` for the left-hand node and rebinds the
variable to `r` in the top frame; the other bindings of the frame, the lower
frames and the rest of the state are as the right-hand side left them. -/
theorem assignment_to_variable (id : Nat) (op : BinaryOpcode) (lid : Nat) (lty : QualType)
    (found : NamedDecl) (rhs : Expr) (s s1 : State) (r : Int) (f : StackFrame)
    (rest : List StackFrame) (hop : op.isAssignmentOp = true)
    (hr : evaluateExpression rhs s = .ok r s1) (hs : s1.callStack = f :: rest) :
    evaluateBinaryOperation evaluateExpression id op (.declRefExpr lid lty found) rhs s
        = .ok () { s1 with callStack :=
            (f.bindExpression lid r).bindVariable found.id r :: rest }
      ∧ ((f.bindExpression lid r).bindVariable found.id r).getVariableValue found.id = r
      ∧ ((f.bindExpression lid r).bindVariable found.id r).getExpressionValue lid = r
      ∧ ∀ d, d ≠ found.id →
          ((f.bindExpression lid r).bindVariable found.id r).variableValues d
            = f.variableValues d := by
  refine ⟨?_, ?_, ?_, ?_⟩
  · simp [evaluateBinaryOperation, hop, handleAssignment, Exec.andThen, hr, hs, modifyBack]
  · simp [StackFrame.bindVariable, StackFrame.getVariableValue]
  · simp [StackFrame.bindVariable, StackFrame.bindExpression, StackFrame.getExpressionValue]
  · intro d hd
    simp [StackFrame.bindVariable, StackFrame.bindExpression, hd]

theorem assignment_to_variable_witness :
    evaluateBinaryOperation evaluateExpression 1 .BO_AddAssign
        (.declRefExpr 2 .intTy sampleIntDecl) (.integerLiteral .intTy 5) sampleState
        = .ok () { sampleState with callStack :=
            (StackFrame.new.bindExpression 2 5).bindVariable sampleIntDecl.id 5 :: [] }
      ∧ ((StackFrame.new.bindExpression 2 5).bindVariable sampleIntDecl.id 5).getVariableValue
          sampleIntDecl.id = 5
      ∧ ((StackFrame.new.bindExpression 2 5).bindVariable sampleIntDecl.id 5).getExpressionValue
          2 = 5
      ∧ ∀ d, d ≠ sampleIntDecl.id →
          ((StackFrame.new.bindExpression 2 5).bindVariable sampleIntDecl.id 5).variableValues d
            = StackFrame.new.variableValues d :=
  assignment_to_variable 1 .BO_AddAssign 2 .intTy sampleIntDecl (.integerLiteral .intTy 5)
    sampleState sampleState 5 StackFrame.new [] rfl rfl rfl

end Simple

/-! ## Arrays and heap cells -/

section Arrays

open Exec

/-- The three steps every branch of `initializeArrayVariable` makes for an
element width: allocate, fill with 0, bind the variable to the block. -/
theorem allocate_fill_bind (w : Nat) (id size : Nat) (s : State) (f : StackFrame)
    (rest : List StackFrame) (hs : s.callStack = f :: rest) :
    ∃ m, (do
          let array ← allocate (w * size)
          initializeArray w array size 0
          modifyBack (fun f => f.bindVariable id array)) s
        = .ok () { s with
            callStack := f.bindVariable id (wrap64 s.nextAlloc) :: rest
            memory := m
            nextAlloc := s.nextAlloc + 16 * (w * size / 16 + 1)
            live := (wrap64 s.nextAlloc, w * size) :: s.live }
      ∧ (∀ j, j < size → ∀ k, k < w →
          m (addrOf (wrap64 s.nextAlloc + (w : Int) * (j : Int)) + k) = 0)
      ∧ ∀ a, m a = 0 ∨ m a = s.memory a := by
  obtain ⟨m, hrun, hz, hk⟩ := initializeArray_ok w (wrap64 s.nextAlloc) size 0
    { s with
      nextAlloc := s.nextAlloc + 16 * (w * size / 16 + 1)
      live := (wrap64 s.nextAlloc, w * size) :: s.live }
    (fun j _ hj => isLive_of_head _ _ _ _ _ rfl
      (inBlock_of_offset _ _ _ _ (by positivity) (by
        have h1 : w * (j + 1) ≤ w * size := Nat.mul_le_mul_left w (by omega)
        have h2 : ((w * (j + 1) : Nat) : Int) ≤ ((w * size : Nat) : Int) := by exact_mod_cast h1
        push_cast at h2 ⊢
        linarith)))
  simp only [hs] at hrun
  refine ⟨m, ?_, ?_, ?_⟩
  · simp [Exec.andThen, allocate, hrun, modifyBack, hs]
  · intro j hj k hk
    apply hz
    exact ⟨j, by omega, by omega, by omega, by omega⟩
  · intro a
    by_cases hex : ∃ j, 0 ≤ j ∧ j < 0 + size ∧ addrOf (wrap64 s.nextAlloc + w * j) ≤ a
        ∧ a < addrOf (wrap64 s.nextAlloc + w * j) + w
    · exact Or.inl (hz a hex)
    · exact Or.inr (hk a hex)

/-- The element width `initializeArrayVariable`, `accessArrayElement` and
`updateArrayElement` select for an element type. -/
theorem initializeArrayVariable_ok (id : Nat) (elem : QualType) (size : Nat)
    (init : Option Expr) (s : State) (f : StackFrame) (rest : List StackFrame)
    (hs : s.callStack = f :: rest) :
    ∃ m, initializeArrayVariable { id := id, ty := .constantArrayTy elem size, init := init } s
        = .ok () { s with
            callStack := f.bindVariable id (wrap64 s.nextAlloc) :: rest
            memory := m
            nextAlloc := s.nextAlloc
              + 16 * ((if elem.isIntegerType then 4 else 8) * size / 16 + 1)
            live := (wrap64 s.nextAlloc, (if elem.isIntegerType then 4 else 8) * size)
              :: s.live }
      ∧ (∀ j, j < size → ∀ k, k < (if elem.isIntegerType then 4 else 8) →
          m (addrOf (wrap64 s.nextAlloc
              + ((if elem.isIntegerType then 4 else 8 : Nat) : Int) * (j : Int)) + k) = 0)
      ∧ ∀ a, m a = 0 ∨ m a = s.memory a := by
  cases elem with
  | intTy => exact allocate_fill_bind 4 id size s f rest hs
  | charTy => exact allocate_fill_bind 4 id size s f rest hs
  | pointerTy => exact allocate_fill_bind 8 id size s f rest hs
  | constantArrayTy e k => exact allocate_fill_bind 8 id size s f rest hs
  | otherTy => exact allocate_fill_bind 8 id size s f rest hs

/-- Visiting the declaration statement of an array: the variable is bound
to the allocator's next address, the allocator moves past the block, and
every byte of every element of the block is 0. -/
theorem Visit_array_declaration (fns : List FunctionDecl) (fuel : Nat) (id : Nat)
    (elem : QualType) (N : Nat) (s : State) (f : StackFrame) (rest : List StackFrame)
    (hs : s.callStack = f :: rest) (hret : f.hasReturnValue = false) :
    ∃ m, Visit fns (fuel + 1)
          (.declStmt [.varDecl { id := id, ty := .constantArrayTy elem N, init := none }]) s
        = .ok () { s with
            callStack := f.bindVariable id (wrap64 s.nextAlloc) :: rest
            memory := m
            nextAlloc := s.nextAlloc
              + 16 * ((if elem.isIntegerType then 4 else 8) * N / 16 + 1)
            live := (wrap64 s.nextAlloc, (if elem.isIntegerType then 4 else 8) * N)
              :: s.live }
      ∧ ∀ j, j < N → ∀ k, k < (if elem.isIntegerType then 4 else 8) →
          m (addrOf (wrap64 s.nextAlloc
              + ((if elem.isIntegerType then 4 else 8 : Nat) : Int) * (j : Int)) + k) = 0 := by
  obtain ⟨m, hrun, hz, -⟩ := initializeArrayVariable_ok id elem N none s f rest hs
  refine ⟨m, ?_, hz⟩
  simp [Visit_declStmt, VisitDeclStmt, Exec.andThen, shouldSkipExecution_cons hs, hret,
    VisitStmt, Stmt.children, Decl.initChild, visitChildren, processDeclaration,
    processDecl, hrun]

/-- Evaluating `a[i]` for an array of integer elements reads the four bytes
of element `i` as a signed number and changes nothing. -/
theorem evaluateExpression_element (refId : Nat) (a : NamedDecl) (elem : QualType) (N : Nat)
    (i : Int) (s : State) (f : StackFrame) (rest : List StackFrame)
    (hvar : a.isVarDecl = true) (hty : a.ty = .constantArrayTy elem N)
    (helem : elem.isIntegerType = true) (hs : s.callStack = f :: rest)
    (hlive : s.isLive (f.getVariableValue a.id + 4 * i) 4 = true) :
    evaluateExpression (subscriptOf refId a (.integerLiteral .intTy i)) s
      = .ok (signExtend (8 * 4)
          (loadBytes s.memory (addrOf (f.getVariableValue a.id + 4 * i)) 4)) s := by
  simp [subscriptOf, evaluateExpression_arraySubscript, evaluateArrayAccess,
    Expr.IgnoreImpCasts, evaluateExpression_integerLiteral, Exec.andThen, hvar, hty,
    accessArrayElement, back, hs, helem, loadCell, hlive]

/-- Visiting `a[i] = v;` for an array of integer elements stores the low four
bytes of `v` in element `i`. -/
theorem Visit_array_store (fns : List FunctionDecl) (fuel : Nat) (id refId : Nat)
    (a : NamedDecl) (elem : QualType) (N : Nat) (i : Int) (v : Int) (s : State)
    (f : StackFrame) (rest : List StackFrame)
    (hvar : a.isVarDecl = true) (hty : a.ty = .constantArrayTy elem N)
    (helem : elem.isIntegerType = true)
    (hs : s.callStack = f :: rest) (hret : f.hasReturnValue = false)
    (hlive : s.isLive (f.getVariableValue a.id + 4 * i) 4 = true) :
    Visit fns (fuel + 4)
        (assignOf id (subscriptOf refId a (.integerLiteral .intTy i)) (.integerLiteral .intTy v)) s
      = .ok () { s with
          callStack := f.setCurrentStatement refId :: rest
          memory := storeBytes s.memory (addrOf (f.getVariableValue a.id + 4 * i)) 4
            (v % 2 ^ (8 * 4)).toNat } := by
  have hl := hlive
  simp only [State.isLive, StackFrame.getVariableValue] at hl
  simp [assignOf, subscriptOf, Visit_binaryOperator, VisitBinaryOperator, Exec.andThen,
    shouldSkipExecution_cons hs, hret, VisitStmt, Stmt.children, Expr.children,
    visitChildren, Visit_arraySubscriptExpr, Visit_implicitCastExpr, Visit_declRefExpr,
    VisitDeclRefExpr, Visit_integerLiteral, processDeclRefExpr, modifyBack, hs, hty,
    StackFrame.setCurrentStatement,
    evaluateBinaryOperation, BinaryOpcode.isAssignmentOp, handleAssignment,
    handleArrayAssignment, Expr.IgnoreImpCasts, evaluateExpression_integerLiteral, hvar,
    updateArrayElement, back, helem, storeCell, StackFrame.getVariableValue, State.isLive, hl]

/-- Visiting `PRINT(a[i]);` for an array of integer elements writes the
signed reading of the four bytes of element `i`. -/
theorem Visit_print_element (fns : List FunctionDecl) (fuel : Nat)
    (callId calleeRef function refId : Nat)
    (a : NamedDecl) (elem : QualType) (N : Nat) (i : Int) (s : State)
    (f : StackFrame) (rest : List StackFrame)
    (hvar : a.isVarDecl = true) (hty : a.ty = .constantArrayTy elem N)
    (helem : elem.isIntegerType = true)
    (hout : s.outputFunction = some function) (hin : s.inputFunction ≠ some function)
    (hfn : ∀ fd, findFunction fns (some function) = some fd → isUserDefinedFunction fd = false)
    (hs : s.callStack = f :: rest) (hret : f.hasReturnValue = false)
    (hlive : s.isLive (f.getVariableValue a.id + 4 * i) 4 = true) :
    Visit fns (fuel + 5)
        (printOf callId calleeRef function (subscriptOf refId a (.integerLiteral .intTy i))) s
      = .ok () { s with
          callStack := f.setCurrentStatement callId :: rest
          stdout := s.stdout ++
            [toString (signExtend (8 * 4)
              (loadBytes s.memory (addrOf (f.getVariableValue a.id + 4 * i)) 4))
              ++ "\n"] } := by
  have hin1 : ¬ (some function = s.inputFunction) := fun h => hin h.symm
  have hl := hlive
  simp only [State.isLive, StackFrame.getVariableValue] at hl
  cases hff : findFunction fns (some function) with
  | none =>
    simp [printOf, calleeOf, subscriptOf, Visit_callExpr, VisitCallExpr, Exec.andThen,
      shouldSkipExecution_cons hs, hret, VisitStmt, Stmt.children, Expr.children,
      visitChildren, Visit_arraySubscriptExpr, Visit_implicitCastExpr, Visit_declRefExpr,
      VisitDeclRefExpr, Visit_integerLiteral, processDeclRefExpr, modifyBack, hs, hty,
      shouldSkipExecution, StackFrame.hasPendingReturn,
      StackFrame.setCurrentStatement, processFunctionCall, hout, hin1, handleOutputCall,
      evaluateExpression_implicitCast, evaluateExpression_arraySubscript,
      evaluateArrayAccess, Expr.IgnoreImpCasts, evaluateExpression_integerLiteral, hvar,
      accessArrayElement, back, helem, loadCell, StackFrame.getVariableValue, cout, hff,
      State.isLive, hl]
  | some fd =>
    have hud := hfn fd hff
    simp [printOf, calleeOf, subscriptOf, Visit_callExpr, VisitCallExpr, Exec.andThen,
      shouldSkipExecution_cons hs, hret, VisitStmt, Stmt.children, Expr.children,
      visitChildren, Visit_arraySubscriptExpr, Visit_implicitCastExpr, Visit_declRefExpr,
      VisitDeclRefExpr, Visit_integerLiteral, processDeclRefExpr, modifyBack, hs, hty,
      shouldSkipExecution, StackFrame.hasPendingReturn,
      StackFrame.setCurrentStatement, processFunctionCall, hout, hin1, handleOutputCall,
      evaluateExpression_implicitCast, evaluateExpression_arraySubscript,
      evaluateArrayAccess, Expr.IgnoreImpCasts, evaluateExpression_integerLiteral, hvar,
      accessArrayElement, back, helem, loadCell, StackFrame.getVariableValue, cout, hff, hud,
      State.isLive, hl]


end Arrays
/-! ## Declaration statements -/

section Declarations

open Exec

theorem isLive_of_mem (s : State) (base off : Int) (n size : Nat)
    (hmem : (base, size) ∈ s.live) (h0 : 0 ≤ off) (h : off + (n : Int) ≤ (size : Int)) :
    s.isLive (base + off) n = true := by
  unfold State.isLive
  rw [List.any_eq_true]
  exact ⟨(base, size), hmem, inBlock_of_offset base off n size h0 h⟩

theorem cell_in_block (w N i : Nat) (hi : i < N) :
    (w : Int) * (i : Int) + (w : Int) ≤ ((w * N : Nat) : Int) := by
  have h1 : w * (i + 1) ≤ w * N := Nat.mul_le_mul_left w (by omega)
  have h2 : ((w * (i + 1) : Nat) : Int) ≤ ((w * N : Nat) : Int) := by exact_mod_cast h1
  push_cast at h2 ⊢
  linarith

/-- Reading `a[i]` where the variable is bound to the base of a live block
whose cell `i` holds only zero bytes gives 0 and changes nothing. -/
theorem evaluateExpression_zero_cell (refId : Nat) (sty cty : QualType) (id : Nat)
    (elem : QualType) (N i : Nat) (s : State) (f : StackFrame) (rest : List StackFrame)
    (base : Int) (helem : elem = .intTy ∨ elem = .charTy ∨ elem = .pointerTy)
    (hs : s.callStack = f :: rest) (hbound : f.variableValues id = some base)
    (hmem : (base, cellWidth elem * N) ∈ s.live) (hi : i < N)
    (hz : ∀ k, k < cellWidth elem →
      s.memory (addrOf (base + (cellWidth elem : Int) * (i : Int)) + k) = 0) :
    evaluateExpression (elementOf refId sty cty id elem N i) s = .ok 0 s := by
  have hlive : s.isLive (base + (cellWidth elem : Int) * (i : Int)) (cellWidth elem) = true :=
    isLive_of_mem s base _ _ _ hmem (by positivity) (cell_in_block _ N i hi)
  have hload : loadBytes s.memory (addrOf (base + (cellWidth elem : Int) * (i : Int)))
      (cellWidth elem) = 0 := loadBytes_zero s.memory _ _ hz
  rcases helem with h | h | h <;> subst h <;>
    simp [cellWidth, QualType.isIntegerType] at hlive hload <;>
    simp [elementOf, evaluateExpression_arraySubscript, evaluateArrayAccess,
      Expr.IgnoreImpCasts, evaluateExpression_integerLiteral, Exec.andThen,
      accessArrayElement, back, hs, QualType.isIntegerType, QualType.isCharType,
      StackFrame.getVariableValue, hbound, loadCell_live hlive, hload, signExtend]

/-- One round of the loop of `processDeclaration` on a plain declarator: the
frames below the top, the streams and the built-in table are kept, the
allocator moves forward, live blocks stay live, every byte of memory is kept
or becomes 0, only the declared variable is bound, and an array variable is
bound to the base of a new live block of zero cells. -/
theorem processDecl_plain (d : Decl) (s : State) (f : StackFrame) (rest : List StackFrame)
    (hs : s.callStack = f :: rest) (hplain : d.isPlain = true) :
    ∃ (f1 : StackFrame) (m : Nat → Nat) (next : Nat) (lv : List (Int × Nat)),
      processDecl evaluateExpression d s
        = .ok () { s with callStack := f1 :: rest, memory := m, nextAlloc := next, live := lv }
      ∧ s.nextAlloc ≤ next
      ∧ (∀ b, b ∈ s.live → b ∈ lv)
      ∧ (∀ a, m a = 0 ∨ m a = s.memory a)
      ∧ (∀ x, d.varId ≠ some x → f1.variableValues x = f.variableValues x)
      ∧ f1.hasReturnValue = f.hasReturnValue
      ∧ ∀ (id : Nat) (elem : QualType) (N : Nat) (init : Option Expr),
          d = .varDecl { id := id, ty := .constantArrayTy elem N, init := init } →
          s.nextAlloc + cellWidth elem * N < next
          ∧ f1.variableValues id = some (wrap64 s.nextAlloc)
          ∧ (wrap64 s.nextAlloc, cellWidth elem * N) ∈ lv
          ∧ ∀ j, j < N → ∀ k, k < cellWidth elem →
              m (addrOf (wrap64 s.nextAlloc + (cellWidth elem : Int) * (j : Int)) + k) = 0 := by
  cases d with
  | otherDecl =>
    refine ⟨f, s.memory, s.nextAlloc, s.live, ?_, le_refl _, fun _ h => h, fun _ => Or.inr rfl,
      fun _ _ => rfl, rfl, ?_⟩
    · simp only [processDecl, pure_apply, ← hs]
    · intro id elem N init h
      cases h
  | varDecl v =>
    obtain ⟨vid, vty, vinit⟩ := v
    cases vty with
    | constantArrayTy elem N =>
      obtain ⟨m, hrun, hz, hm⟩ := initializeArrayVariable_ok vid elem N vinit s f rest hs
      refine ⟨f.bindVariable vid (wrap64 s.nextAlloc), m,
        s.nextAlloc + 16 * ((if elem.isIntegerType then 4 else 8) * N / 16 + 1),
        (wrap64 s.nextAlloc, (if elem.isIntegerType then 4 else 8) * N) :: s.live,
        ?_, ?_, ?_, hm, ?_, rfl, ?_⟩
      · simp only [processDecl, QualType.isIntegerType, QualType.isPointerType, Bool.or_self,
          Bool.false_eq_true, if_false]
        exact hrun
      · omega
      · intro b hb
        exact List.mem_cons_of_mem _ hb
      · intro x hx
        have hne : x ≠ vid := fun e => hx (by rw [e]; rfl)
        simp [StackFrame.bindVariable, hne]
      · intro id elem1 N1 init h
        cases h
        refine ⟨?_, ?_, ?_, ?_⟩
        · show s.nextAlloc + cellWidth elem * N
            < s.nextAlloc + 16 * ((if elem.isIntegerType then 4 else 8) * N / 16 + 1)
          unfold cellWidth
          omega
        · simp [StackFrame.bindVariable]
        · exact List.mem_cons_self _ _
        · exact hz
    | intTy =>
      cases vinit with
      | none =>
        refine ⟨f.bindVariable vid 0, s.memory, s.nextAlloc, s.live, ?_, le_refl _,
          fun _ h => h, fun _ => Or.inr rfl, ?_, rfl, ?_⟩
        · simp [processDecl, QualType.isIntegerType, modifyBack, hs]
        · intro x hx
          have hne : x ≠ vid := fun e => hx (by rw [e]; rfl)
          simp [StackFrame.bindVariable, hne]
        · intro id elem N init h
          cases h
      | some e =>
        cases e with
        | integerLiteral ty value =>
          refine ⟨f.bindVariable vid value, s.memory, s.nextAlloc, s.live, ?_, le_refl _,
            fun _ h => h, fun _ => Or.inr rfl, ?_, rfl, ?_⟩
          · simp [processDecl, QualType.isIntegerType, modifyBack, hs, Exec.andThen,
              evaluateExpression_integerLiteral]
          · intro x hx
            have hne : x ≠ vid := fun e => hx (by rw [e]; rfl)
            simp [StackFrame.bindVariable, hne]
          · intro id elem N init h
            cases h
        | characterLiteral ty value =>
          refine ⟨f.bindVariable vid value, s.memory, s.nextAlloc, s.live, ?_, le_refl _,
            fun _ h => h, fun _ => Or.inr rfl, ?_, rfl, ?_⟩
          · simp [processDecl, QualType.isIntegerType, modifyBack, hs, Exec.andThen,
              evaluateExpression_characterLiteral]
          · intro x hx
            have hne : x ≠ vid := fun e => hx (by rw [e]; rfl)
            simp [StackFrame.bindVariable, hne]
          · intro id elem N init h
            cases h
        | _ => simp [Decl.isPlain] at hplain
    | charTy =>
      cases vinit with
      | none =>
        refine ⟨f.bindVariable vid 0, s.memory, s.nextAlloc, s.live, ?_, le_refl _,
          fun _ h => h, fun _ => Or.inr rfl, ?_, rfl, ?_⟩
        · simp [processDecl, QualType.isIntegerType, modifyBack, hs]
        · intro x hx
          have hne : x ≠ vid := fun e => hx (by rw [e]; rfl)
          simp [StackFrame.bindVariable, hne]
        · intro id elem N init h
          cases h
      | some e =>
        cases e with
        | integerLiteral ty value =>
          refine ⟨f.bindVariable vid value, s.memory, s.nextAlloc, s.live, ?_, le_refl _,
            fun _ h => h, fun _ => Or.inr rfl, ?_, rfl, ?_⟩
          · simp [processDecl, QualType.isIntegerType, modifyBack, hs, Exec.andThen,
              evaluateExpression_integerLiteral]
          · intro x hx
            have hne : x ≠ vid := fun e => hx (by rw [e]; rfl)
            simp [StackFrame.bindVariable, hne]
          · intro id elem N init h
            cases h
        | characterLiteral ty value =>
          refine ⟨f.bindVariable vid value, s.memory, s.nextAlloc, s.live, ?_, le_refl _,
            fun _ h => h, fun _ => Or.inr rfl, ?_, rfl, ?_⟩
          · simp [processDecl, QualType.isIntegerType, modifyBack, hs, Exec.andThen,
              evaluateExpression_characterLiteral]
          · intro x hx
            have hne : x ≠ vid := fun e => hx (by rw [e]; rfl)
            simp [StackFrame.bindVariable, hne]
          · intro id elem N init h
            cases h
        | _ => simp [Decl.isPlain] at hplain
    | pointerTy =>
      cases vinit with
      | none =>
        refine ⟨f.bindVariable vid 0, s.memory, s.nextAlloc, s.live, ?_, le_refl _,
          fun _ h => h, fun _ => Or.inr rfl, ?_, rfl, ?_⟩
        · simp [processDecl, QualType.isIntegerType, QualType.isPointerType, modifyBack, hs]
        · intro x hx
          have hne : x ≠ vid := fun e => hx (by rw [e]; rfl)
          simp [StackFrame.bindVariable, hne]
        · intro id elem N init h
          cases h
      | some e =>
        cases e with
        | integerLiteral ty value =>
          refine ⟨f.bindVariable vid value, s.memory, s.nextAlloc, s.live, ?_, le_refl _,
            fun _ h => h, fun _ => Or.inr rfl, ?_, rfl, ?_⟩
          · simp [processDecl, QualType.isIntegerType, QualType.isPointerType, modifyBack, hs,
              Exec.andThen, evaluateExpression_integerLiteral]
          · intro x hx
            have hne : x ≠ vid := fun e => hx (by rw [e]; rfl)
            simp [StackFrame.bindVariable, hne]
          · intro id elem N init h
            cases h
        | characterLiteral ty value =>
          refine ⟨f.bindVariable vid value, s.memory, s.nextAlloc, s.live, ?_, le_refl _,
            fun _ h => h, fun _ => Or.inr rfl, ?_, rfl, ?_⟩
          · simp [processDecl, QualType.isIntegerType, QualType.isPointerType, modifyBack, hs,
              Exec.andThen, evaluateExpression_characterLiteral]
          · intro x hx
            have hne : x ≠ vid := fun e => hx (by rw [e]; rfl)
            simp [StackFrame.bindVariable, hne]
          · intro id elem N init h
            cases h
        | _ => simp [Decl.isPlain] at hplain
    | otherTy =>
      refine ⟨f, s.memory, s.nextAlloc, s.live, ?_, le_refl _, fun _ h => h,
        fun _ => Or.inr rfl, fun _ _ => rfl, rfl, ?_⟩
      · simp only [processDecl, QualType.isIntegerType, QualType.isPointerType, Bool.or_self,
          Bool.false_eq_true, if_false, initializeArrayVariable, pure_apply, ← hs]
      · intro id elem N init h
        cases h

/-- The loop of `processDeclaration` over plain declarators with distinct
variables: what one round establishes for an array variable still holds when
the loop ends. -/
theorem processDeclaration_plain : ∀ (decls : List Decl) (s : State) (f : StackFrame)
    (rest : List StackFrame), s.callStack = f :: rest →
    (∀ d, d ∈ decls → d.isPlain = true) → (decls.filterMap Decl.varId).Nodup →
    ∃ (f1 : StackFrame) (m : Nat → Nat) (next : Nat) (lv : List (Int × Nat)),
      processDeclaration evaluateExpression decls s
        = .ok () { s with callStack := f1 :: rest, memory := m, nextAlloc := next, live := lv }
      ∧ s.nextAlloc ≤ next
      ∧ (∀ b, b ∈ s.live → b ∈ lv)
      ∧ (∀ a, m a = 0 ∨ m a = s.memory a)
      ∧ (∀ x, x ∉ decls.filterMap Decl.varId → f1.variableValues x = f.variableValues x)
      ∧ f1.hasReturnValue = f.hasReturnValue
      ∧ ∀ (id : Nat) (elem : QualType) (N : Nat) (init : Option Expr),
          Decl.varDecl { id := id, ty := .constantArrayTy elem N, init := init } ∈ decls →
          ∃ A : Nat, s.nextAlloc ≤ A ∧ A + cellWidth elem * N < next
            ∧ f1.variableValues id = some (wrap64 A)
            ∧ (wrap64 A, cellWidth elem * N) ∈ lv
            ∧ ∀ j, j < N → ∀ k, k < cellWidth elem →
                m (addrOf (wrap64 A + (cellWidth elem : Int) * (j : Int)) + k) = 0
  | [], s, f, rest, hs, _, _ => by
      refine ⟨f, s.memory, s.nextAlloc, s.live, ?_, le_refl _, fun _ h => h,
        fun _ => Or.inr rfl, fun _ _ => rfl, rfl, ?_⟩
      · simp only [processDeclaration, pure_apply, ← hs]
      · intro id elem N init h
        cases h
  | d :: ds, s, f, rest, hs, hplain, hids => by
      obtain ⟨f0, m0, n0, lv0, hrun0, hn0, hl0, hm0, hv0, hr0, harr0⟩ :=
        processDecl_plain d s f rest hs (hplain d (by simp))
      have hids1 : (ds.filterMap Decl.varId).Nodup := by
        cases hd : d.varId with
        | none => simpa [List.filterMap_cons, hd] using hids
        | some x =>
          have h := hids
          simp only [List.filterMap_cons, hd, List.nodup_cons] at h
          exact h.2
      obtain ⟨f1, m1, n1, lv1, hrun1, hn1, hl1, hm1, hv1, hr1, harr1⟩ :=
        processDeclaration_plain ds
          { s with callStack := f0 :: rest, memory := m0, nextAlloc := n0, live := lv0 }
          f0 rest rfl (fun d1 h1 => hplain d1 (by simp [h1])) hids1
      refine ⟨f1, m1, n1, lv1, ?_, ?_, ?_, ?_, ?_, ?_, ?_⟩
      · simp only [processDeclaration, bind_apply, Exec.andThen, hrun0]
        exact hrun1
      · exact le_trans hn0 hn1
      · exact fun b hb => hl1 b (hl0 b hb)
      · intro a
        rcases hm1 a with h | h
        · exact Or.inl h
        · rcases hm0 a with h0 | h0
          · exact Or.inl (h.trans h0)
          · exact Or.inr (h.trans h0)
      · intro x hx
        have hx0 : d.varId ≠ some x := by
          intro e
          apply hx
          simp [List.filterMap_cons, e]
        have hx1 : x ∉ ds.filterMap Decl.varId := by
          intro h1
          apply hx
          cases hd : d.varId <;> simp [List.filterMap_cons, hd, h1]
        rw [hv1 x hx1, hv0 x hx0]
      · exact hr1.trans hr0
      · intro id elem N init hmem
        rcases List.mem_cons.mp hmem with h | h
        · obtain ⟨h1, h2, h3, h4⟩ := harr0 id elem N init h.symm
          have hnot : id ∉ ds.filterMap Decl.varId := by
            have hh := hids
            rw [← h] at hh
            simp only [List.filterMap_cons, Decl.varId, List.nodup_cons] at hh
            exact hh.1
          have hn1' : n0 ≤ n1 := hn1
          refine ⟨s.nextAlloc, le_refl _, by omega, ?_, hl1 _ h3, ?_⟩
          · rw [hv1 id hnot]
            exact h2
          · intro j hj k hk
            rcases hm1 (addrOf (wrap64 s.nextAlloc + (cellWidth elem : Int) * (j : Int)) + k)
              with h5 | h5
            · exact h5
            · rw [h5]
              exact h4 j hj k hk
        · obtain ⟨A, h1, h2, h3, h4, h5⟩ := harr1 id elem N init h
          have h1' : n0 ≤ A := h1
          exact ⟨A, le_trans hn0 h1', h2, h3, h4, h5⟩

theorem plain_children_noop (fns : List FunctionDecl) (fuel : Nat) (decls : List Decl)
    (hplain : ∀ d, d ∈ decls → d.isPlain = true) (s : State) :
    VisitStmt (Visit fns (fuel + 1)) (.declStmt decls) s = .ok () s := by
  apply visitChildren_noop
  intro c hc
  simp only [Stmt.children, List.mem_filterMap] at hc
  obtain ⟨d, hd, hdc⟩ := hc
  have hp := hplain d hd
  cases d with
  | otherDecl => simp [Decl.initChild] at hdc
  | varDecl v =>
    obtain ⟨vid, vty, vinit⟩ := v
    cases vinit with
    | none => simp [Decl.initChild] at hdc
    | some e =>
      simp only [Decl.initChild, Option.map_some', Option.some.injEq] at hdc
      subst hdc
      cases e <;> first | rfl | simp [Decl.isPlain] at hp

/-- One array declarator, whatever its initializer and whatever the state:
`processDecl` ends normally, binds the variable in the top frame to the base
of a new live block, and every element then reads 0. -/
theorem array_declarator_zero (t : State) (top : StackFrame) (below : List StackFrame)
    (id : Nat) (elem : QualType) (N : Nat) (init : Option Expr)
    (ht : t.callStack = top :: below)
    (helem : elem = .intTy ∨ elem = .charTy ∨ elem = .pointerTy) :
    ∃ t1, processDecl evaluateExpression
          (.varDecl { id := id, ty := .constantArrayTy elem N, init := init }) t = .ok () t1
      ∧ t1.callStack = top.bindVariable id (wrap64 t.nextAlloc) :: below
      ∧ (wrap64 t.nextAlloc, cellWidth elem * N) ∈ t1.live
      ∧ ∀ i : Nat, i < N → ∀ (refId : Nat) (sty cty : QualType),
          evaluateExpression (elementOf refId sty cty id elem N i) t1 = .ok 0 t1 := by
  obtain ⟨m, hrun, hz, -⟩ := initializeArrayVariable_ok id elem N init t top below ht
  have hdecl : processDecl evaluateExpression
      (.varDecl { id := id, ty := .constantArrayTy elem N, init := init })
      = initializeArrayVariable { id := id, ty := .constantArrayTy elem N, init := init } := by
    simp [processDecl, QualType.isIntegerType, QualType.isPointerType]
  rw [hdecl, hrun]
  refine ⟨_, rfl, rfl, List.mem_cons_self _ _, ?_⟩
  intro i hi refId sty cty
  exact evaluateExpression_zero_cell refId sty cty id elem N i _
    (top.bindVariable id (wrap64 t.nextAlloc)) below (wrap64 t.nextAlloc) helem rfl
    (by simp [StackFrame.bindVariable]) (List.mem_cons_self _ _) hi (fun k hk => hz i hi k hk)

/-- C14: a declaration statement whose declarators have no initializer or a
literal one, for distinct variables, executed with no return pending, ends
normally, and every array variable of constant size `N` with integer,
character or pointer elements it declares is then bound, in the top frame, to
the base address of a block the allocator handed out during the statement,
which is live, and `a[i]` evaluates to 0 for every `i < N`, whatever the
memory held before. And in every state with a frame, whatever the other
declarators of the statement are, the step of `processDeclaration` for an
array declarator ends normally, binds the variable in the top frame to the
base of a new live block, and right after it `a[i]` evaluates to 0 for every
`i < N`. -/
theorem array_declaration_zero_initialized (fns : List FunctionDecl) (fuel : Nat)
    (decls : List Decl) (s : State) (f : StackFrame) (rest : List StackFrame)
    (hplain : ∀ d, d ∈ decls → d.isPlain = true)
    (hids : (decls.filterMap Decl.varId).Nodup)
    (hs : s.callStack = f :: rest) (hret : f.hasReturnValue = false) :
    (∃ (s1 : State) (f1 : StackFrame),
      Visit fns (fuel + 2) (.declStmt decls) s = .ok () s1
      ∧ s1.callStack = f1 :: rest
      ∧ ∀ (id : Nat) (elem : QualType) (N : Nat) (init : Option Expr),
          Decl.varDecl { id := id, ty := .constantArrayTy elem N, init := init } ∈ decls →
          (elem = .intTy ∨ elem = .charTy ∨ elem = .pointerTy) →
          ∃ A : Nat, s.nextAlloc ≤ A ∧ A + cellWidth elem * N < s1.nextAlloc
            ∧ f1.variableValues id = some (wrap64 A)
            ∧ f1.getVariableValue id = wrap64 A
            ∧ (wrap64 A, cellWidth elem * N) ∈ s1.live
            ∧ ∀ i : Nat, i < N → ∀ (refId : Nat) (sty cty : QualType),
                evaluateExpression (elementOf refId sty cty id elem N i) s1 = .ok 0 s1)
    ∧ ∀ (t : State) (top : StackFrame) (below : List StackFrame) (id : Nat) (elem : QualType)
        (N : Nat) (init : Option Expr),
        t.callStack = top :: below → (elem = .intTy ∨ elem = .charTy ∨ elem = .pointerTy) →
        ∃ t1, processDecl evaluateExpression
              (.varDecl { id := id, ty := .constantArrayTy elem N, init := init }) t
            = .ok () t1
          ∧ t1.callStack = top.bindVariable id (wrap64 t.nextAlloc) :: below
          ∧ (wrap64 t.nextAlloc, cellWidth elem * N) ∈ t1.live
          ∧ ∀ i : Nat, i < N → ∀ (refId : Nat) (sty cty : QualType),
              evaluateExpression (elementOf refId sty cty id elem N i) t1 = .ok 0 t1 := by
  refine ⟨?_, fun t top below id elem N init ht helem =>
    array_declarator_zero t top below id elem N init ht helem⟩
  obtain ⟨f1, m, next, lv, hrun, -, -, -, -, -, harr⟩ :=
    processDeclaration_plain decls s f rest hs hplain hids
  refine ⟨{ s with callStack := f1 :: rest, memory := m, nextAlloc := next, live := lv }, f1,
    ?_, rfl, ?_⟩
  · rw [Visit_declStmt]
    simp only [VisitDeclStmt, bind_apply, Exec.andThen, shouldSkipExecution_cons hs, hret,
      Bool.false_eq_true, if_false, plain_children_noop fns fuel decls hplain s, hrun]
  · intro id elem N init hmem helem
    obtain ⟨A, h1, h2, h3, h4, h5⟩ := harr id elem N init hmem
    refine ⟨A, h1, h2, h3, ?_, h4, ?_⟩
    · simp [StackFrame.getVariableValue, h3]
    · intro i hi refId sty cty
      exact evaluateExpression_zero_cell refId sty cty id elem N i _ f1 rest (wrap64 A)
        helem rfl h3 h4 hi (fun k hk => h5 i hi k hk)

theorem array_declaration_zero_initialized_witness :
    (∃ (s1 : State) (f1 : StackFrame),
      Visit [] (0 + 2) (.declStmt sampleDeclarators) sampleDirtyState = .ok () s1
      ∧ s1.callStack = f1 :: []
      ∧ ∀ (id : Nat) (elem : QualType) (N : Nat) (init : Option Expr),
          Decl.varDecl { id := id, ty := .constantArrayTy elem N, init := init }
            ∈ sampleDeclarators →
          (elem = .intTy ∨ elem = .charTy ∨ elem = .pointerTy) →
          ∃ A : Nat, sampleDirtyState.nextAlloc ≤ A ∧ A + cellWidth elem * N < s1.nextAlloc
            ∧ f1.variableValues id = some (wrap64 A)
            ∧ f1.getVariableValue id = wrap64 A
            ∧ (wrap64 A, cellWidth elem * N) ∈ s1.live
            ∧ ∀ i : Nat, i < N → ∀ (refId : Nat) (sty cty : QualType),
                evaluateExpression (elementOf refId sty cty id elem N i) s1 = .ok 0 s1)
    ∧ ∀ (t : State) (top : StackFrame) (below : List StackFrame) (id : Nat) (elem : QualType)
        (N : Nat) (init : Option Expr),
        t.callStack = top :: below → (elem = .intTy ∨ elem = .charTy ∨ elem = .pointerTy) →
        ∃ t1, processDecl evaluateExpression
              (.varDecl { id := id, ty := .constantArrayTy elem N, init := init }) t
            = .ok () t1
          ∧ t1.callStack = top.bindVariable id (wrap64 t.nextAlloc) :: below
          ∧ (wrap64 t.nextAlloc, cellWidth elem * N) ∈ t1.live
          ∧ ∀ i : Nat, i < N → ∀ (refId : Nat) (sty cty : QualType),
              evaluateExpression (elementOf refId sty cty id elem N i) t1 = .ok 0 t1 :=
  array_declaration_zero_initialized [] 0 sampleDeclarators sampleDirtyState StackFrame.new []
    (by decide) (by decide) rfl rfl

end Declarations
section GlobalArrays

open Exec

/-- C17: for a global array the scan of the top-level declarations does
nothing: the pushed bottom frame has no binding for it and no block is
allocated or written. The same declaration in a declaration statement,
processed in that frame, allocates a block and binds the variable to its
address. -/
theorem global_array_left_unbound (id : Nat) (elem : QualType) (size : Nat)
    (init : Option Expr) (s : State) :
    initializeEnvironment evaluateExpression
        [.variable { id := id, ty := .constantArrayTy elem size, init := init }] s
        = .ok () { s with callStack := StackFrame.new :: s.callStack }
      ∧ StackFrame.new.variableValues id = none
      ∧ ∃ m, processDeclaration evaluateExpression
            [.varDecl { id := id, ty := .constantArrayTy elem size, init := init }]
            { s with callStack := StackFrame.new :: s.callStack }
          = .ok () { s with
              callStack := StackFrame.new.bindVariable id (wrap64 s.nextAlloc) :: s.callStack
              memory := m
              nextAlloc := s.nextAlloc
                + 16 * ((if elem.isIntegerType then 4 else 8) * size / 16 + 1)
              live := (wrap64 s.nextAlloc, (if elem.isIntegerType then 4 else 8) * size)
                :: s.live } := by
  refine ⟨?_, rfl, ?_⟩
  · simp [initializeEnvironment, initializeDecls, initializeDecl, QualType.isIntegerType,
      QualType.isCharType, QualType.isPointerType, Exec.andThen, pushFrame]
  · obtain ⟨m, hrun, -, -⟩ := initializeArrayVariable_ok id elem size init
      { s with callStack := StackFrame.new :: s.callStack } StackFrame.new s.callStack rfl
    refine ⟨m, ?_⟩
    simp [processDeclaration, processDecl, QualType.isIntegerType, QualType.isPointerType,
      Exec.andThen, hrun]

end GlobalArrays
section ArrayRoundTrip

open Exec

/-- C15 (counterexample): after `a[1] = 4294967296;` on an `int` array the
expression `a[1]` evaluates to 0, not to the value assigned. -/
theorem array_element_keeps_four_bytes :
    ∃ s1, Visit [] 4
          (assignOf 1 (subscriptOf 2 sampleArrayDecl (.integerLiteral .intTy 1))
            (.integerLiteral .intTy 4294967296)) sampleArrayState
        = .ok () s1
      ∧ evaluateExpression (subscriptOf 3 sampleArrayDecl (.integerLiteral .intTy 1)) s1
        = .ok 0 s1 := by
  refine ⟨_, Visit_array_store [] 0 1 2 sampleArrayDecl .intTy 3 1 4294967296 sampleArrayState
    sampleArrayFrame [] rfl rfl rfl rfl rfl (by decide), ?_⟩
  rw [evaluateExpression_element 3 sampleArrayDecl .intTy 3 1 _
    (sampleArrayFrame.setCurrentStatement 2) [] rfl rfl rfl rfl (by decide)]
  have hf : (sampleArrayFrame.setCurrentStatement 2).getVariableValue sampleArrayDecl.id
      = sampleArrayFrame.getVariableValue sampleArrayDecl.id := rfl
  simp only [hf, loadBytes_storeBytes]
  simp [signExtend]

/-- C15 (amended): for an array `a` of `N` integer elements declared in the
current frame, an index `i < N` and a value `v` in the signed 32-bit range,
running `T a[N]; a[i] = v; PRINT(a[i]);` writes `v` and a newline, and
afterwards `a[i]` evaluates to `v`. An element keeps the low four bytes of
what is assigned. -/
theorem array_write_then_read (fns : List FunctionDecl) (fuel : Nat)
    (declId assignId ref1 callId calleeRef function ref2 ref3 : Nat)
    (elem : QualType) (N i : Nat) (v : Int) (s : State) (f : StackFrame)
    (rest : List StackFrame)
    (helem : elem.isIntegerType = true) (_hi : i < N)
    (hv : -(2 ^ 31) ≤ v ∧ v < 2 ^ 31)
    (hout : s.outputFunction = some function) (hin : s.inputFunction ≠ some function)
    (hfn : ∀ fd, findFunction fns (some function) = some fd → isUserDefinedFunction fd = false)
    (hs : s.callStack = f :: rest) (hret : f.hasReturnValue = false) :
    ∃ s1, Visit fns (fuel + 6)
          (arrayProgram declId assignId ref1 callId calleeRef function ref2 elem N i v) s
        = .ok () s1
      ∧ s1.stdout = s.stdout ++ [toString v ++ "\n"]
      ∧ evaluateExpression
          (subscriptOf ref3 { id := declId, isVarDecl := true, ty := .constantArrayTy elem N }
            (.integerLiteral .intTy i)) s1
        = .ok v s1 := by
  obtain ⟨m, h1, -⟩ := Visit_array_declaration fns (fuel + 4) declId elem N s f rest hs hret
  have hbase : ∀ g : StackFrame, g.variableValues = (f.bindVariable declId
      (wrap64 s.nextAlloc)).variableValues → g.getVariableValue declId = wrap64 s.nextAlloc := by
    intro g hg
    simp [StackFrame.getVariableValue, hg, StackFrame.bindVariable]
  have hcell : ∀ (t : State) (g : StackFrame),
      t.live = (wrap64 s.nextAlloc, (if elem.isIntegerType then 4 else 8) * N) :: s.live →
      g.variableValues = (f.bindVariable declId (wrap64 s.nextAlloc)).variableValues →
      t.isLive (g.getVariableValue declId + 4 * (i : Int)) 4 = true := by
    intro t g ht hg
    rw [hbase g hg]
    refine isLive_of_head t _ _ _ _ ht (inBlock_of_offset _ _ _ _ (by positivity) ?_)
    have h4 := cell_in_block 4 N i _hi
    simp only [helem, if_true]
    exact h4
  have h2 := Visit_array_store fns (fuel + 1) assignId ref1
    { id := declId, isVarDecl := true, ty := .constantArrayTy elem N } elem N i v
    { s with
        callStack := f.bindVariable declId (wrap64 s.nextAlloc) :: rest
        memory := m
        nextAlloc := s.nextAlloc + 16 * ((if elem.isIntegerType then 4 else 8) * N / 16 + 1)
        live := (wrap64 s.nextAlloc, (if elem.isIntegerType then 4 else 8) * N) :: s.live }
    (f.bindVariable declId (wrap64 s.nextAlloc)) rest rfl rfl helem rfl hret
    (hcell _ _ rfl rfl)
  have h3 := Visit_print_element fns fuel callId calleeRef function ref2
    { id := declId, isVarDecl := true, ty := .constantArrayTy elem N } elem N i
    { s with
        callStack := (f.bindVariable declId (wrap64 s.nextAlloc)).setCurrentStatement ref1 :: rest
        memory := storeBytes m
          (addrOf ((f.bindVariable declId (wrap64 s.nextAlloc)).getVariableValue declId + 4 * i)) 4
          (v % 2 ^ (8 * 4)).toNat
        nextAlloc := s.nextAlloc + 16 * ((if elem.isIntegerType then 4 else 8) * N / 16 + 1)
        live := (wrap64 s.nextAlloc, (if elem.isIntegerType then 4 else 8) * N) :: s.live }
    ((f.bindVariable declId (wrap64 s.nextAlloc)).setCurrentStatement ref1) rest rfl rfl helem
    hout hin hfn rfl hret (hcell _ _ rfl rfl)
  dsimp only at h2 h3
  rw [show fuel + 4 + 1 = fuel + 5 from rfl] at h1
  rw [show fuel + 1 + 4 = fuel + 5 from rfl] at h2
  simp only [arrayProgram, Visit_compoundStmt, visitChildren_cons, visitChildren_nil,
    bind_apply, andThen_ok h1, andThen_ok h2, andThen_ok h3, pure_apply]
  refine ⟨_, rfl, ?_, ?_⟩
  · simp only [StackFrame.setCurrentStatement, StackFrame.getVariableValue,
      loadBytes_storeBytes, signExtend_32 v hv]
  · rw [evaluateExpression_element ref3 _ elem N i _ _ rest rfl rfl helem rfl]
    · simp only [StackFrame.setCurrentStatement, StackFrame.getVariableValue,
        loadBytes_storeBytes, signExtend_32 v hv]
    · exact hcell _ _ rfl rfl

theorem array_write_then_read_witness :
    ∃ s1, Visit [] (0 + 6) (arrayProgram 8 1 2 3 4 50 5 .intTy 3 1 5) sampleBuiltinState
        = .ok () s1
      ∧ s1.stdout = sampleBuiltinState.stdout ++ [toString (5 : Int) ++ "\n"]
      ∧ evaluateExpression
          (subscriptOf 6 { id := 8, isVarDecl := true, ty := .constantArrayTy .intTy 3 }
            (.integerLiteral .intTy ((1 : Nat) : Int))) s1
        = .ok 5 s1 :=
  array_write_then_read [] 0 8 1 2 3 4 50 5 6 .intTy 3 1 5 sampleBuiltinState StackFrame.new []
    rfl (by decide) (by decide) rfl (by decide) (by intro fd h; cases h) rfl rfl

end ArrayRoundTrip
/-! ## Heap cells -/

section Heap

open Exec

/-- Visiting `p = MALLOC(n);` binds `p` to the allocator's next address. -/
theorem Visit_malloc_assign (fns : List FunctionDecl) (fuel : Nat) (p : NamedDecl)
    (assign1 ref1 call1 calleeRef1 mallocFn : Nat) (n : Int) (s : State) (f : StackFrame)
    (rest : List StackFrame)
    (hm : s.mallocFunction = some mallocFn) (hin : s.inputFunction ≠ some mallocFn)
    (hout : s.outputFunction ≠ some mallocFn)
    (hfn : ∀ fd, findFunction fns (some mallocFn) = some fd → isUserDefinedFunction fd = false)
    (hs : s.callStack = f :: rest) (hret : f.hasReturnValue = false) :
    ∃ f1, Visit fns (fuel + 4)
          (assignOf assign1 (.declRefExpr ref1 .pointerTy p)
            (.callExpr call1 .pointerTy (calleeOf calleeRef1 mallocFn) (some mallocFn)
              [.integerLiteral .intTy n])) s
        = .ok () { s with
            callStack := f1 :: rest
            nextAlloc := s.nextAlloc + 16 * (addrOf n / 16 + 1)
            live := (wrap64 s.nextAlloc, addrOf n) :: s.live }
      ∧ f1.getVariableValue p.id = wrap64 s.nextAlloc
      ∧ f1.hasReturnValue = false := by
  have hin1 : ¬ (some mallocFn = s.inputFunction) := fun h => hin h.symm
  have hout1 : ¬ (some mallocFn = s.outputFunction) := fun h => hout h.symm
  cases hff : findFunction fns (some mallocFn) with
  | none =>
    simp [assignOf, calleeOf, Visit_binaryOperator, VisitBinaryOperator, Visit_callExpr,
      VisitCallExpr, Exec.andThen, shouldSkipExecution, StackFrame.hasPendingReturn, hret,
      VisitStmt, Stmt.children, Expr.children, visitChildren, Visit_implicitCastExpr,
      Visit_declRefExpr, VisitDeclRefExpr, Visit_integerLiteral, processDeclRefExpr,
      modifyBack, back, hs, StackFrame.setCurrentStatement, StackFrame.bindExpression,
      processFunctionCall, hm, hin1, hout1, handleMallocCall,
      evaluateExpression_integerLiteral, allocate, StackFrame.storeExpressionResult, hff,
      evaluateBinaryOperation, BinaryOpcode.isAssignmentOp, handleAssignment,
      evaluateExpression_call, StackFrame.getExpressionValue, StackFrame.bindVariable,
      StackFrame.getVariableValue]
  | some fd =>
    have hud := hfn fd hff
    simp [assignOf, calleeOf, Visit_binaryOperator, VisitBinaryOperator, Visit_callExpr,
      VisitCallExpr, Exec.andThen, shouldSkipExecution, StackFrame.hasPendingReturn, hret,
      VisitStmt, Stmt.children, Expr.children, visitChildren, Visit_implicitCastExpr,
      Visit_declRefExpr, VisitDeclRefExpr, Visit_integerLiteral, processDeclRefExpr,
      modifyBack, back, hs, StackFrame.setCurrentStatement, StackFrame.bindExpression,
      processFunctionCall, hm, hin1, hout1, handleMallocCall,
      evaluateExpression_integerLiteral, allocate, StackFrame.storeExpressionResult, hff, hud,
      evaluateBinaryOperation, BinaryOpcode.isAssignmentOp, handleAssignment,
      evaluateExpression_call, StackFrame.getExpressionValue, StackFrame.bindVariable,
      StackFrame.getVariableValue]

/-- Visiting `*p = v;` stores the eight bytes of `v` at the address `p`
holds. -/
theorem Visit_pointer_store (fns : List FunctionDecl) (fuel : Nat) (p : NamedDecl)
    (assign2 deref2 ref2 : Nat) (v : Int) (s : State) (f : StackFrame)
    (rest : List StackFrame)
    (hs : s.callStack = f :: rest) (hret : f.hasReturnValue = false)
    (hlive : s.isLive (f.getVariableValue p.id) 8 = true) :
    ∃ f1, Visit fns (fuel + 4)
          (assignOf assign2 (derefOf deref2 ref2 p) (.integerLiteral .intTy v)) s
        = .ok () { s with
            callStack := f1 :: rest
            memory := storeBytes s.memory (addrOf (f.getVariableValue p.id)) 8
              (v % 2 ^ (8 * 8)).toNat }
      ∧ f1.getVariableValue p.id = f.getVariableValue p.id
      ∧ f1.hasReturnValue = false := by
  have hl := hlive
  simp only [State.isLive, StackFrame.getVariableValue] at hl
  simp [assignOf, derefOf, Visit_binaryOperator, VisitBinaryOperator, Visit_unaryOperator,
    VisitUnaryOperator, Exec.andThen, shouldSkipExecution, StackFrame.hasPendingReturn, hret,
    VisitStmt, Stmt.children, Expr.children, visitChildren, Visit_implicitCastExpr,
    Visit_declRefExpr, VisitDeclRefExpr, Visit_integerLiteral, processDeclRefExpr,
    modifyBack, back, hs, StackFrame.setCurrentStatement, StackFrame.bindExpression,
    evaluateUnaryOperation, evaluateExpression_implicitCast, evaluateExpression_declRef,
    evaluateDeclRefExpr, loadCell, StackFrame.storeExpressionResult,
    evaluateExpression_integerLiteral,
    evaluateBinaryOperation, BinaryOpcode.isAssignmentOp, handleAssignment,
    handlePointerAssignment, storeCell, StackFrame.getExpressionValue,
    StackFrame.getVariableValue, State.isLive, hl]

/-- Visiting `PRINT(*p);` writes the signed reading of the eight bytes at the
address `p` holds. -/
theorem Visit_print_deref (fns : List FunctionDecl) (fuel : Nat) (p : NamedDecl)
    (call3 calleeRef3 printFn deref3 ref3 : Nat) (s : State) (f : StackFrame)
    (rest : List StackFrame)
    (hout : s.outputFunction = some printFn) (hin : s.inputFunction ≠ some printFn)
    (hfn : ∀ fd, findFunction fns (some printFn) = some fd → isUserDefinedFunction fd = false)
    (hs : s.callStack = f :: rest) (hret : f.hasReturnValue = false)
    (hlive : s.isLive (f.getVariableValue p.id) 8 = true) :
    ∃ f1, Visit fns (fuel + 5) (printOf call3 calleeRef3 printFn (derefOf deref3 ref3 p)) s
        = .ok () { s with
            callStack := f1 :: rest
            stdout := s.stdout ++
              [toString (signExtend (8 * 8)
                (loadBytes s.memory (addrOf (f.getVariableValue p.id)) 8)) ++ "\n"] }
      ∧ f1.getVariableValue p.id = f.getVariableValue p.id
      ∧ f1.hasReturnValue = false := by
  have hin1 : ¬ (some printFn = s.inputFunction) := fun h => hin h.symm
  have hl := hlive
  simp only [State.isLive, StackFrame.getVariableValue] at hl
  cases hff : findFunction fns (some printFn) with
  | none =>
    simp [printOf, calleeOf, derefOf, Visit_callExpr, VisitCallExpr, Visit_unaryOperator,
      VisitUnaryOperator, Exec.andThen, shouldSkipExecution, StackFrame.hasPendingReturn,
      hret, VisitStmt, Stmt.children, Expr.children, visitChildren, Visit_implicitCastExpr,
      Visit_declRefExpr, VisitDeclRefExpr, processDeclRefExpr,
      modifyBack, back, hs, StackFrame.setCurrentStatement, StackFrame.bindExpression,
      evaluateUnaryOperation, evaluateExpression_implicitCast, evaluateExpression_declRef,
      evaluateExpression_unary, evaluateUnaryExpr,
      evaluateDeclRefExpr, loadCell, StackFrame.storeExpressionResult,
      processFunctionCall, hout, hin1, handleOutputCall, cout, hff,
      StackFrame.getExpressionValue, StackFrame.getVariableValue, State.isLive, hl]
  | some fd =>
    have hud := hfn fd hff
    simp [printOf, calleeOf, derefOf, Visit_callExpr, VisitCallExpr, Visit_unaryOperator,
      VisitUnaryOperator, Exec.andThen, shouldSkipExecution, StackFrame.hasPendingReturn,
      hret, VisitStmt, Stmt.children, Expr.children, visitChildren, Visit_implicitCastExpr,
      Visit_declRefExpr, VisitDeclRefExpr, processDeclRefExpr,
      modifyBack, back, hs, StackFrame.setCurrentStatement, StackFrame.bindExpression,
      evaluateUnaryOperation, evaluateExpression_implicitCast, evaluateExpression_declRef,
      evaluateExpression_unary, evaluateUnaryExpr,
      evaluateDeclRefExpr, loadCell, StackFrame.storeExpressionResult,
      processFunctionCall, hout, hin1, handleOutputCall, cout, hff, hud,
      StackFrame.getExpressionValue, StackFrame.getVariableValue, State.isLive, hl]

/-- Evaluating `*p` returns the signed reading of the eight bytes at the
address `p` holds and leaves the memory and the lower frames as they are. -/
theorem evaluateExpression_deref (p : NamedDecl) (deref ref : Nat) (s : State)
    (f : StackFrame) (rest : List StackFrame) (hs : s.callStack = f :: rest)
    (hlive : s.isLive (f.getVariableValue p.id) 8 = true) :
    ∃ f1, evaluateExpression (derefOf deref ref p) s
      = .ok (signExtend (8 * 8) (loadBytes s.memory (addrOf (f.getVariableValue p.id)) 8))
          { s with callStack := f1 :: rest } := by
  have hl := hlive
  simp only [State.isLive, StackFrame.getVariableValue] at hl
  simp [derefOf, Exec.andThen, processDeclRefExpr,
    modifyBack, back, hs, StackFrame.setCurrentStatement, StackFrame.bindExpression,
    evaluateUnaryOperation, evaluateExpression_implicitCast, evaluateExpression_declRef,
    evaluateExpression_unary, evaluateUnaryExpr,
    evaluateDeclRefExpr, loadCell, StackFrame.storeExpressionResult,
    StackFrame.getExpressionValue, StackFrame.getVariableValue, State.isLive, hl]

end Heap
section HeapRoundTrip

open Exec

theorem addrOf_natCast (n : Nat) (h : n < 2 ^ 63) : addrOf (n : Int) = n := by
  unfold addrOf
  omega

/-- C16: for a byte count `n` with `8 ≤ n < 2^63` and a value `v` in the
signed 64-bit range, running `p = MALLOC(n); *p = v; PRINT(*p);` writes `v`
and a newline; afterwards `p` holds the base address of a live block of `n`
bytes and `*p` evaluates to `v`. The store and the loads are inside the
block `MALLOC` returned. -/
theorem malloc_store_load (fns : List FunctionDecl) (fuel : Nat) (p : NamedDecl)
    (assign1 ref1 call1 calleeRef1 mallocFn : Nat)
    (assign2 deref2 ref2 call3 calleeRef3 printFn deref3 ref3 : Nat) (n : Nat) (v : Int)
    (s : State) (f : StackFrame) (rest : List StackFrame)
    (hn : 8 ≤ n) (hn2 : n < 2 ^ 63) (hv : inRange64 v)
    (hm : s.mallocFunction = some mallocFn) (hout : s.outputFunction = some printFn)
    (hne : mallocFn ≠ printFn)
    (hin1 : s.inputFunction ≠ some mallocFn) (hin2 : s.inputFunction ≠ some printFn)
    (hfn1 : ∀ fd, findFunction fns (some mallocFn) = some fd → isUserDefinedFunction fd = false)
    (hfn2 : ∀ fd, findFunction fns (some printFn) = some fd → isUserDefinedFunction fd = false)
    (hs : s.callStack = f :: rest) (hret : f.hasReturnValue = false) :
    ∃ (s1 : State) (f1 : StackFrame), Visit fns (fuel + 6)
          (mallocProgram p assign1 ref1 call1 calleeRef1 mallocFn assign2 deref2 ref2 call3
            calleeRef3 printFn deref3 ref3 n v) s
        = .ok () s1
      ∧ s1.stdout = s.stdout ++ [toString v ++ "\n"]
      ∧ s1.callStack = f1 :: rest
      ∧ f1.getVariableValue p.id = wrap64 s.nextAlloc
      ∧ s1.live = (wrap64 s.nextAlloc, n) :: s.live
      ∧ ∀ deref ref, ∃ s2, evaluateExpression (derefOf deref ref p) s1 = .ok v s2 := by
  have hout1 : s.outputFunction ≠ some mallocFn := by
    rw [hout]
    intro h
    exact hne (Option.some.inj h).symm
  have hsize : addrOf (n : Int) = n := addrOf_natCast n hn2
  have hcell : ∀ (t : State) (g : StackFrame),
      t.live = (wrap64 s.nextAlloc, addrOf (n : Int)) :: s.live →
      g.getVariableValue p.id = wrap64 s.nextAlloc →
      t.isLive (g.getVariableValue p.id) 8 = true := by
    intro t g ht hg
    rw [hg]
    have h0 := inBlock_of_offset (wrap64 s.nextAlloc) 0 8 (addrOf (n : Int)) (le_refl 0)
      (by rw [hsize]; omega)
    rw [add_zero] at h0
    exact isLive_of_head t _ _ _ _ ht h0
  obtain ⟨f1, h1, hp1, hr1⟩ := Visit_malloc_assign fns (fuel + 1) p assign1 ref1 call1
    calleeRef1 mallocFn n s f rest hm hin1 hout1 hfn1 hs hret
  obtain ⟨f2, h2, hp2, hr2⟩ := Visit_pointer_store fns (fuel + 1) p assign2 deref2 ref2 v
    { s with
        callStack := f1 :: rest
        nextAlloc := s.nextAlloc + 16 * (addrOf n / 16 + 1)
        live := (wrap64 s.nextAlloc, addrOf n) :: s.live }
    f1 rest rfl hr1 (hcell _ _ rfl hp1)
  obtain ⟨f3, h3, hp3, -⟩ := Visit_print_deref fns fuel p call3 calleeRef3 printFn deref3 ref3
    { s with
        callStack := f2 :: rest
        nextAlloc := s.nextAlloc + 16 * (addrOf n / 16 + 1)
        live := (wrap64 s.nextAlloc, addrOf n) :: s.live
        memory := storeBytes s.memory (addrOf (f1.getVariableValue p.id)) 8
          (v % 2 ^ (8 * 8)).toNat }
    f2 rest hout hin2 hfn2 rfl hr2 (hcell _ _ rfl (hp2.trans hp1))
  dsimp only at h2 h3
  rw [show fuel + 1 + 4 = fuel + 5 from rfl] at h1 h2
  simp only [mallocProgram, Visit_compoundStmt, visitChildren_cons, visitChildren_nil,
    bind_apply, andThen_ok h1, andThen_ok h2, andThen_ok h3, pure_apply]
  refine ⟨_, f3, rfl, ?_, rfl, (hp3.trans hp2).trans hp1, ?_, ?_⟩
  · simp only [hp2, loadBytes_storeBytes, signExtend_64 v hv]
  · show (wrap64 s.nextAlloc, addrOf (n : Int)) :: s.live = (wrap64 s.nextAlloc, n) :: s.live
    rw [hsize]
  · intro deref ref
    obtain ⟨f4, h4⟩ := evaluateExpression_deref p deref ref
      { s with
          callStack := f3 :: rest
          nextAlloc := s.nextAlloc + 16 * (addrOf n / 16 + 1)
          live := (wrap64 s.nextAlloc, addrOf n) :: s.live
          memory := storeBytes s.memory (addrOf (f1.getVariableValue p.id)) 8
            (v % 2 ^ (8 * 8)).toNat
          stdout := s.stdout ++
            [toString (signExtend (8 * 8)
              (loadBytes (storeBytes s.memory (addrOf (f1.getVariableValue p.id)) 8
                (v % 2 ^ (8 * 8)).toNat) (addrOf (f2.getVariableValue p.id)) 8)) ++ "\n"] }
      f3 rest rfl (hcell _ _ rfl ((hp3.trans hp2).trans hp1))
    rw [h4]
    simp only [hp3, hp2, loadBytes_storeBytes, signExtend_64 v hv]
    exact ⟨_, rfl⟩

theorem malloc_store_load_witness :
    ∃ (s1 : State) (f1 : StackFrame), Visit [] (0 + 6)
          (mallocProgram samplePointerDecl 1 2 3 4 51 5 6 7 8 9 50 10 11 8 9) sampleBuiltinState
        = .ok () s1
      ∧ s1.stdout = sampleBuiltinState.stdout ++ [toString (9 : Int) ++ "\n"]
      ∧ s1.callStack = f1 :: []
      ∧ f1.getVariableValue samplePointerDecl.id = wrap64 sampleBuiltinState.nextAlloc
      ∧ s1.live = (wrap64 sampleBuiltinState.nextAlloc, 8) :: sampleBuiltinState.live
      ∧ ∀ deref ref, ∃ s2, evaluateExpression (derefOf deref ref samplePointerDecl) s1
          = .ok 9 s2 :=
  malloc_store_load [] 0 samplePointerDecl 1 2 3 4 51 5 6 7 8 9 50 10 11 8 9
    sampleBuiltinState StackFrame.new [] (by decide) (by decide) (by decide) rfl rfl (by decide)
    (by decide) (by decide) (by intro fd h; cases h) (by intro fd h; cases h) rfl rfl

end HeapRoundTrip
/-! ## Calls -/

section Calls

open Exec

/-- C1: when `f` is a user-defined function without parameters whose body is
`return c;`, visiting `x = f() + k;` leaves the caller's frame on top with
`x` bound to `c + k` (the sum is assumed to fit 64 bits; the call node and
the `+` node are distinct nodes). -/
theorem call_result_propagates (fns : List FunctionDecl) (fuel : Nat) (fd : FunctionDecl)
    (assignId xRef : Nat) (x : NamedDecl) (plusId callId fRef function : Nat) (c k : Int)
    (s : State) (f : StackFrame) (rest : List StackFrame)
    (hfind : findFunction fns (some function) = some fd)
    (hbody : fd.body = some (.compoundStmt [.returnStmt (some (.integerLiteral .intTy c))]))
    (hparams : fd.params = []) (huser : isUserDefinedFunction fd = true)
    (hin : s.inputFunction ≠ some function) (hout : s.outputFunction ≠ some function)
    (hmalloc : s.mallocFunction ≠ some function) (hfree : s.freeFunction ≠ some function)
    (hids : plusId ≠ callId) (hfit : inRange64 (c + k))
    (hs : s.callStack = f :: rest) (hret : f.hasReturnValue = false) :
    ∃ f1, Visit fns (fuel + 6)
          (callPlusProgram assignId xRef x plusId callId fRef function k) s
        = .ok () { s with callStack := f1 :: rest }
      ∧ f1.getVariableValue x.id = c + k
      ∧ f1.hasReturnValue = false := by
  have hin1 : ¬ (some function = s.inputFunction) := fun h => hin h.symm
  have hout1 : ¬ (some function = s.outputFunction) := fun h => hout h.symm
  have hmalloc1 : ¬ (some function = s.mallocFunction) := fun h => hmalloc h.symm
  have hfree1 : ¬ (some function = s.freeFunction) := fun h => hfree h.symm
  have hids1 : ¬ (callId = plusId) := fun h => hids h.symm
  simp [callPlusProgram, callOf, assignOf, calleeOf, Visit_binaryOperator,
    VisitBinaryOperator, Visit_callExpr, VisitCallExpr, Visit_compoundStmt, Visit_returnStmt,
    VisitReturnStmt, processReturn, Exec.andThen, shouldSkipExecution,
    StackFrame.hasPendingReturn, hret, StackFrame.new,
    VisitStmt, Stmt.children, Expr.children, visitChildren, Visit_implicitCastExpr,
    Visit_declRefExpr, VisitDeclRefExpr, Visit_integerLiteral, processDeclRefExpr,
    modifyBack, back, hs, StackFrame.setCurrentStatement, StackFrame.bindExpression,
    processFunctionCall, hin1, hout1, hmalloc1, hfree1, handleUserFunctionCall,
    evaluateArguments, pushFrame, popFrame, bindParameters, hparams, hfind, huser, hbody,
    StackFrame.setReturnInfo, StackFrame.getReturnValue,
    evaluateExpression_integerLiteral, StackFrame.storeExpressionResult,
    evaluateBinaryOperation, BinaryOpcode.isAssignmentOp, handleAssignment,
    evaluateExpression_binary, evaluateBinaryExpr, evaluateBinaryOperator, handleAddition,
    Expr.getType, evaluateExpression_call, StackFrame.getExpressionValue,
    StackFrame.bindVariable, StackFrame.getVariableValue, hids, hids1,
    wrap64_of_inRange64 hfit]

theorem call_result_propagates_witness :
    ∃ f1, Visit [returnsConstant 42] (0 + 6)
          (callPlusProgram 1 2 sampleIntDecl 3 4 5 100 1) sampleState
        = .ok () { sampleState with callStack := f1 :: [] }
      ∧ f1.getVariableValue sampleIntDecl.id = 42 + 1
      ∧ f1.hasReturnValue = false :=
  call_result_propagates [returnsConstant 42] 0 (returnsConstant 42) 1 2 sampleIntDecl 3 4 5
    100 42 1 sampleState StackFrame.new [] rfl rfl rfl (by decide) (by decide) (by decide)
    (by decide) (by decide) (by decide) (by decide) rfl rfl

end Calls
/-! ## Conditions, nested assignments, globals -/

section Scenarios

open Exec

/-- C2: a call in the condition of an `if` is not visited: when the call node
has no memo entry, the condition reads 0, the callee is not invoked and the
else branch is what runs, whatever the callee would return. -/
theorem call_in_condition_not_invoked (fns : List FunctionDecl) (fuel : Nat) (id : Nat)
    (ty : QualType) (callee : Expr) (directCallee : Option Nat) (args : List Expr)
    (thenBranch elseBranch : Stmt) (s : State) (f : StackFrame) (rest : List StackFrame)
    (hs : s.callStack = f :: rest) (hret : f.hasReturnValue = false)
    (hmemo : f.expressionValues id = none) :
    Visit fns (fuel + 1)
        (.ifStmt (.callExpr id ty callee directCallee args) thenBranch (some elseBranch)) s
      = Visit fns fuel elseBranch s := by
  simp [Visit_ifStmt, VisitIfStmt, Exec.andThen, shouldSkipExecution,
    StackFrame.hasPendingReturn, back, hs, hret, evaluateExpression_call,
    StackFrame.getExpressionValue, hmemo]

theorem call_in_condition_not_invoked_witness :
    Visit [returnsConstant 1] (2 + 1)
        (.ifStmt (.callExpr 1 .intTy (calleeOf 2 100) (some 100) [])
          (assignOf 3 (.declRefExpr 4 .intTy sampleIntDecl) (.integerLiteral .intTy 1))
          (some (assignOf 5 (.declRefExpr 6 .intTy sampleIntDecl) (.integerLiteral .intTy 2))))
        sampleState
      = Visit [returnsConstant 1] 2
          (assignOf 5 (.declRefExpr 6 .intTy sampleIntDecl) (.integerLiteral .intTy 2))
          sampleState :=
  call_in_condition_not_invoked [returnsConstant 1] 2 1 .intTy (calleeOf 2 100) (some 100) []
    (assignOf 3 (.declRefExpr 4 .intTy sampleIntDecl) (.integerLiteral .intTy 1))
    (assignOf 5 (.declRefExpr 6 .intTy sampleIntDecl) (.integerLiteral .intTy 2))
    sampleState StackFrame.new [] rfl rfl rfl

end Scenarios
section Globals

open Exec

/-- C19 (counterexample): in the run of
`int g = 7; void wr() { g = 5; } int main() { wr(); }` the state reached
inside `wr` after `g = 5;` has two frames, and the upper one holds a binding
for the global `g` while the bottom frame still binds `g` to 7. The states
are those of the steps `VisitCallExpr` makes for the call in `main`. -/
theorem global_bound_above_bottom :
    ∃ s0 s1 s2 s3 top bottom,
      initializeEnvironment evaluateExpression sampleGlobalUnit
          (State.initial (fun _ => 0) 4096 []) = .ok () s0
      ∧ VisitStmt (Visit (functionsOf sampleGlobalUnit) 3) (.expr (callOf 3 4 101)) s0
          = .ok () s1
      ∧ processFunctionCall (functionsOf sampleGlobalUnit) evaluateExpression 3 (some 101) []
          s1 = .ok () s2
      ∧ Visit (functionsOf sampleGlobalUnit) 3 (writerBody 1 2 sampleIntDecl 5) s2 = .ok () s3
      ∧ s3.callStack = [top, bottom]
      ∧ top.variableValues 7 = some 5
      ∧ bottom.variableValues 7 = some 7 := by
  simp [initializeEnvironment, initializeDecls, initializeDecl, sampleGlobalUnit, functionsOf,
    State.initial, callOf, calleeOf, writerBody, assignOf, sampleIntDecl,
    Visit_compoundStmt, Visit_binaryOperator, VisitBinaryOperator, Visit_integerLiteral,
    Exec.andThen, shouldSkipExecution, StackFrame.hasPendingReturn, StackFrame.new,
    VisitStmt, Stmt.children, Expr.children, visitChildren, Visit_implicitCastExpr,
    Visit_declRefExpr, VisitDeclRefExpr, processDeclRefExpr,
    modifyBack, back, StackFrame.setCurrentStatement, StackFrame.bindExpression,
    processFunctionCall, handleUserFunctionCall, findFunction,
    evaluateArguments, pushFrame, bindParameters, evaluateBinaryOperation,
    BinaryOpcode.isAssignmentOp, handleAssignment, evaluateExpression_integerLiteral,
    StackFrame.bindVariable]
  exact ⟨_, _, ⟨rfl, rfl⟩, by simp, by simp⟩

end Globals
/-! ## Frames below the top are kept -/

section KeepsBasics

open Exec

variable {table : List (Option Nat)} {strict : Bool}

theorem keeps_pure {α : Type} (a : α) : Keeps table strict (pure a : Exec α) := by
  intro s f rest b s1 ht hs h
  cases h
  exact ⟨f, hs, ht, id, fun _ => ⟨rfl, rfl⟩⟩

theorem keeps_bind {α β : Type} {x : Exec α} {g : α → Exec β}
    (hx : Keeps table strict x) (hg : ∀ a, Keeps table strict (g a)) :
    Keeps table strict (x >>= g) := by
  intro s f rest b s2 ht hs h
  simp only [bind_apply, Exec.andThen] at h
  cases hxs : x s with
  | ok a s1 =>
    rw [hxs] at h
    obtain ⟨f1, hs1, ht1, hc1, hr1⟩ := hx s f rest a s1 ht hs hxs
    obtain ⟨f2, hs2, ht2, hc2, hr2⟩ := hg a s1 f1 rest b s2 ht1 hs1 h
    refine ⟨f2, hs2, ht2, fun hc => hc2 (hc1 hc), fun hst => ?_⟩
    obtain ⟨h1, h2⟩ := hr1 hst
    obtain ⟨h3, h4⟩ := hr2 hst
    exact ⟨h3.trans h1, h4.trans h2⟩
  | exited c s1 => rw [hxs] at h; cases h
  | undefinedBehaviour => rw [hxs] at h; cases h
  | outOfFuel => rw [hxs] at h; cases h

theorem keeps_weaken {α : Type} {x : Exec α} (hx : Keeps table true x) :
    Keeps table strict x := by
  intro s f rest a s1 ht hs h
  obtain ⟨f1, hs1, ht1, hc1, hr1⟩ := hx s f rest a s1 ht hs h
  exact ⟨f1, hs1, ht1, hc1, fun _ => hr1 rfl⟩

theorem keeps_of_never_ok {α : Type} {x : Exec α} (h : ∀ s a s1, x s ≠ .ok a s1) :
    Keeps table strict x := by
  intro s f rest a s1 _ _ hx
  exact absurd hx (h s a s1)

theorem keeps_ub {α : Type} : Keeps table strict (ub : Exec α) :=
  keeps_of_never_ok (fun _ _ _ h => by cases h)

theorem keeps_exit {α : Type} (c : Nat) : Keeps table strict (Exec.exit c : Exec α) :=
  keeps_of_never_ok (fun _ _ _ h => by cases h)

theorem keeps_outOfFuel {α : Type} : Keeps table strict (fun _ => .outOfFuel : Exec α) :=
  keeps_of_never_ok (fun _ _ _ h => by cases h)

/-- A computation that changes neither the frames nor the table. -/
theorem keeps_of_same {α : Type} {x : Exec α}
    (h : ∀ s a s1, x s = .ok a s1 → s1.callStack = s.callStack ∧ s1.builtins = s.builtins) :
    Keeps table strict x := by
  intro s f rest a s1 ht hs hx
  obtain ⟨h1, h2⟩ := h s a s1 hx
  exact ⟨f, h1.trans hs, h2.trans ht, id, fun _ => ⟨rfl, rfl⟩⟩

theorem keeps_back : Keeps table strict back := by
  apply keeps_of_same
  intro s a s1 h
  unfold back at h
  split at h
  · cases h
  · cases h; exact ⟨rfl, rfl⟩

theorem keeps_cerr (msg : String) : Keeps table strict (cerr msg) :=
  keeps_of_same (fun _ _ _ h => by cases h; exact ⟨rfl, rfl⟩)

theorem keeps_cout (msg : String) : Keeps table strict (cout msg) :=
  keeps_of_same (fun _ _ _ h => by cases h; exact ⟨rfl, rfl⟩)

theorem keeps_loadCell (n : Nat) (address : Int) : Keeps table strict (loadCell n address) := by
  apply keeps_of_same
  intro s a s1 h
  unfold loadCell at h
  split at h
  · simp only [Outcome.ok.injEq] at h
    obtain ⟨-, rfl⟩ := h
    exact ⟨rfl, rfl⟩
  · cases h

theorem keeps_storeCell (n : Nat) (address value : Int) :
    Keeps table strict (storeCell n address value) := by
  apply keeps_of_same
  intro s a s1 h
  unfold storeCell at h
  split at h
  · simp only [Outcome.ok.injEq] at h
    obtain ⟨-, rfl⟩ := h
    exact ⟨rfl, rfl⟩
  · cases h

theorem keeps_release (address : Int) : Keeps table strict (release address) := by
  apply keeps_of_same
  intro s a s1 h
  unfold release at h
  split at h
  · simp only [Outcome.ok.injEq] at h
    obtain ⟨-, rfl⟩ := h
    exact ⟨rfl, rfl⟩
  · split at h
    · simp only [Outcome.ok.injEq] at h
      obtain ⟨-, rfl⟩ := h
      exact ⟨rfl, rfl⟩
    · cases h

theorem keeps_allocate (bytes : Nat) : Keeps table strict (allocate bytes) := by
  apply keeps_of_same
  intro s a s1 h
  simp only [allocate, Outcome.ok.injEq] at h
  obtain ⟨-, rfl⟩ := h
  exact ⟨rfl, rfl⟩

theorem keeps_modifyBack (g : StackFrame → StackFrame)
    (hg : ∀ f, (g f).hasReturnValue = f.hasReturnValue ∧ (g f).returnValue = f.returnValue) :
    Keeps table strict (modifyBack g) := by
  intro s f rest a s1 ht hs h
  simp only [modifyBack, hs] at h
  cases h
  refine ⟨g f, rfl, ht, fun hc hfalse => ?_, fun _ => hg f⟩
  rw [(hg f).2]
  exact hc ((hg f).1 ▸ hfalse)

theorem keeps_modifyBack_any (g : StackFrame → StackFrame)
    (hg : ∀ f, f.returnClean → (g f).returnClean) :
    Keeps table false (modifyBack g) := by
  intro s f rest a s1 ht hs h
  simp only [modifyBack, hs] at h
  cases h
  exact ⟨g f, rfl, ht, hg f, fun h => by cases h⟩

end KeepsBasics
section KeepsEvaluator

open Exec

variable {table : List (Option Nat)} {strict : Bool}

theorem keeps_setCurrentStatement (id : Nat) :
    Keeps table strict (modifyBack (fun f => f.setCurrentStatement id)) :=
  keeps_modifyBack _ (fun _ => ⟨rfl, rfl⟩)

theorem keeps_bindExpression (id : Nat) (v : Int) :
    Keeps table strict (modifyBack (fun f => f.bindExpression id v)) :=
  keeps_modifyBack _ (fun _ => ⟨rfl, rfl⟩)

theorem keeps_storeExpressionResult (id : Nat) (v : Int) :
    Keeps table strict (modifyBack (fun f => f.storeExpressionResult id v)) :=
  keeps_modifyBack _ (fun _ => ⟨rfl, rfl⟩)

theorem keeps_bindVariable (id : Nat) (v : Int) :
    Keeps table strict (modifyBack (fun f => f.bindVariable id v)) :=
  keeps_modifyBack _ (fun _ => ⟨rfl, rfl⟩)

theorem keeps_processDeclRefExpr (id : Nat) (ty : QualType) (found : NamedDecl) :
    Keeps table strict (processDeclRefExpr id ty found) := by
  unfold processDeclRefExpr
  refine keeps_bind (keeps_setCurrentStatement id) (fun _ => ?_)
  split
  · exact keeps_bind keeps_back (fun _ => keeps_bindExpression _ _)
  · exact keeps_pure _

theorem keeps_evaluateDeclRefExpr (id : Nat) (ty : QualType) (found : NamedDecl) :
    Keeps table strict (evaluateDeclRefExpr id ty found) :=
  keeps_bind (keeps_processDeclRefExpr id ty found)
    (fun _ => keeps_bind keeps_back (fun _ => keeps_pure _))

theorem keeps_accessArrayElement (varDecl : NamedDecl) (elem : QualType) (index : Int) :
    Keeps table strict (accessArrayElement varDecl elem index) := by
  unfold accessArrayElement
  refine keeps_bind keeps_back (fun _ => ?_)
  split
  · exact keeps_loadCell _ _
  · split
    · exact keeps_loadCell _ _
    · exact keeps_loadCell _ _

theorem keeps_updateArrayElement (varDecl : NamedDecl) (elem : QualType) (index value : Int) :
    Keeps table strict (updateArrayElement varDecl elem index value) := by
  unfold updateArrayElement
  refine keeps_bind keeps_back (fun _ => ?_)
  split
  · exact keeps_storeCell _ _ _
  · split
    · exact keeps_storeCell _ _ _
    · exact keeps_storeCell _ _ _

theorem keeps_evaluateSizeOf (isSizeOf : Bool) (argTy : QualType) :
    Keeps table strict (evaluateSizeOf isSizeOf argTy) := by
  unfold evaluateSizeOf
  split
  · split
    · exact keeps_pure _
    · split
      · exact keeps_pure _
      · exact keeps_pure _
  · exact keeps_pure _

variable {ev : Expr → Exec Int}

theorem keeps_evaluateArrayAccess (hev : ∀ e, Keeps table strict (ev e)) (lhs rhs : Expr) :
    Keeps table strict (evaluateArrayAccess ev lhs rhs) := by
  unfold evaluateArrayAccess
  split
  · refine keeps_bind (hev _) (fun _ => ?_)
    split
    · split
      · exact keeps_accessArrayElement _ _ _
      · exact keeps_pure _
    · exact keeps_pure _
  · exact keeps_pure _

theorem keeps_handleArrayAssignment (hev : ∀ e, Keeps table strict (ev e))
    (lhs rhs rightExpr : Expr) :
    Keeps table strict (handleArrayAssignment ev lhs rhs rightExpr) := by
  unfold handleArrayAssignment
  split
  · refine keeps_bind (hev _) (fun _ => keeps_bind (hev _) (fun _ => ?_))
    split
    · split
      · exact keeps_updateArrayElement _ _ _ _
      · exact keeps_pure _
    · exact keeps_pure _
  · exact keeps_pure _

theorem keeps_handlePointerAssignment (hev : ∀ e, Keeps table strict (ev e))
    (sub : Option Expr) (rightExpr : Expr) :
    Keeps table strict (handlePointerAssignment ev sub rightExpr) := by
  unfold handlePointerAssignment
  refine keeps_bind (hev _) (fun _ => ?_)
  split
  · exact keeps_ub
  · exact keeps_bind (hev _) (fun _ => keeps_storeCell _ _ _)

theorem keeps_handleAssignment (hev : ∀ e, Keeps table strict (ev e))
    (leftExpr rightExpr : Expr) :
    Keeps table strict (handleAssignment ev leftExpr rightExpr) := by
  unfold handleAssignment
  split
  · exact keeps_bind (hev _) (fun _ =>
      keeps_bind (keeps_bindExpression _ _) (fun _ => keeps_bindVariable _ _))
  · exact keeps_handleArrayAssignment hev _ _ _
  · exact keeps_handlePointerAssignment hev _ _
  · exact keeps_pure _

theorem keeps_handleAddition (hev : ∀ e, Keeps table strict (ev e))
    (leftExpr rightExpr : Expr) :
    Keeps table strict (handleAddition ev leftExpr rightExpr) := by
  unfold handleAddition
  split
  · exact keeps_bind (hev _) (fun _ => keeps_bind (hev _) (fun _ => keeps_pure _))
  · exact keeps_bind (hev _) (fun _ => keeps_bind (hev _) (fun _ => keeps_pure _))

theorem keeps_handleDivision (hev : ∀ e, Keeps table strict (ev e))
    (leftExpr rightExpr : Expr) :
    Keeps table strict (handleDivision ev leftExpr rightExpr) := by
  unfold handleDivision
  refine keeps_bind (hev _) (fun _ => ?_)
  split
  · exact keeps_bind (keeps_cerr _) (fun _ => keeps_exit _)
  · refine keeps_bind (hev _) (fun _ => ?_)
    split
    · exact keeps_ub
    · exact keeps_pure _

theorem keeps_two_operands (hev : ∀ e, Keeps table strict (ev e)) (l r : Expr)
    (g : Int → Int → Int) :
    Keeps table strict (do
      let a ← ev l
      let b ← ev r
      return g a b) :=
  keeps_bind (hev _) (fun _ => keeps_bind (hev _) (fun _ => keeps_pure _))

theorem keeps_evaluateBinaryOperator (hev : ∀ e, Keeps table strict (ev e)) (id : Nat)
    (op : BinaryOpcode) (leftExpr rightExpr : Expr) :
    Keeps table strict (evaluateBinaryOperator ev id op leftExpr rightExpr) := by
  unfold evaluateBinaryOperator
  refine keeps_bind ?_ (fun _ => keeps_storeExpressionResult _ _)
  split
  · exact keeps_handleAddition hev _ _
  · exact keeps_two_operands hev _ _ _
  · exact keeps_two_operands hev _ _ _
  · exact keeps_handleDivision hev _ _
  · exact keeps_two_operands hev _ _ (fun l r => boolValue (decide (l < r)))
  · exact keeps_two_operands hev _ _ (fun l r => boolValue (decide (l > r)))
  · exact keeps_two_operands hev _ _ (fun l r => boolValue (decide (l = r)))
  · exact keeps_two_operands hev _ _ (fun l r => boolValue (decide (l ≤ r)))
  · exact keeps_two_operands hev _ _ (fun l r => boolValue (decide (l ≥ r)))
  · exact keeps_two_operands hev _ _ (fun l r => boolValue (decide (l ≠ r)))
  · exact keeps_bind (keeps_cerr _) (fun _ => keeps_exit _)

theorem keeps_evaluateBinaryOperation (hev : ∀ e, Keeps table strict (ev e)) (id : Nat)
    (op : BinaryOpcode) (leftExpr rightExpr : Expr) :
    Keeps table strict (evaluateBinaryOperation ev id op leftExpr rightExpr) := by
  unfold evaluateBinaryOperation
  split
  · exact keeps_handleAssignment hev _ _
  · exact keeps_evaluateBinaryOperator hev _ _ _ _

theorem keeps_evaluateBinaryExpr (hev : ∀ e, Keeps table strict (ev e)) (id : Nat)
    (op : BinaryOpcode) (leftExpr rightExpr : Expr) :
    Keeps table strict (evaluateBinaryExpr ev id op leftExpr rightExpr) :=
  keeps_bind (keeps_evaluateBinaryOperation hev _ _ _ _)
    (fun _ => keeps_bind keeps_back (fun _ => keeps_pure _))

theorem keeps_evaluateUnaryOperation (hev : ∀ e, Keeps table strict (ev e)) (id : Nat)
    (op : UnaryOpcode) (sub : Option Expr) :
    Keeps table strict (evaluateUnaryOperation ev id op sub) := by
  unfold evaluateUnaryOperation
  split
  · exact keeps_cerr _
  · refine keeps_bind ?_ (fun _ => keeps_storeExpressionResult _ _)
    split
    · exact keeps_bind (hev _) (fun _ => keeps_pure _)
    · exact hev _
    · exact keeps_bind (hev _) (fun _ => keeps_loadCell _ _)
    · exact keeps_bind (keeps_cerr _) (fun _ => keeps_exit _)

theorem keeps_evaluateUnaryExpr (hev : ∀ e, Keeps table strict (ev e)) (id : Nat)
    (op : UnaryOpcode) (sub : Option Expr) :
    Keeps table strict (evaluateUnaryExpr ev id op sub) :=
  keeps_bind (keeps_evaluateUnaryOperation hev _ _ _)
    (fun _ => keeps_bind keeps_back (fun _ => keeps_pure _))

theorem keeps_evaluateExpressionAux (n : Nat) :
    ∀ e, Keeps table strict (evaluateExpressionAux n e) := by
  induction n with
  | zero => intro e; exact keeps_outOfFuel
  | succ n ih =>
    intro e
    unfold evaluateExpressionAux
    split
    · exact keeps_evaluateDeclRefExpr _ _ _
    · exact keeps_pure _
    · exact keeps_pure _
    · exact keeps_evaluateUnaryExpr ih _ _ _
    · exact keeps_evaluateBinaryExpr ih _ _ _ _
    · exact ih _
    · exact keeps_evaluateArrayAccess ih _ _
    · exact keeps_bind keeps_back (fun _ => keeps_pure _)
    · exact keeps_evaluateSizeOf _ _
    · exact ih _
    · exact keeps_bind (keeps_cerr _) (fun _ => keeps_pure _)

/-- The evaluator keeps the frames below the top, the built-in table, and the
pending-return flag and value of the top frame. -/
theorem keeps_evaluateExpression (e : Expr) : Keeps table strict (evaluateExpression e) :=
  keeps_evaluateExpressionAux _ e

end KeepsEvaluator
/-! ## The memo entries an evaluation writes -/

section WritesEvaluator

open Exec

variable {ids : List Nat}

theorem writes_pure {α : Type} (a : α) : Writes ids (pure a : Exec α) := by
  intro s f rest b s1 hs h
  cases h
  exact ⟨f, hs, fun _ _ => rfl⟩

theorem writes_bind {α β : Type} {x : Exec α} {g : α → Exec β}
    (hx : Writes ids x) (hg : ∀ a, Writes ids (g a)) : Writes ids (x >>= g) := by
  intro s f rest b s2 hs h
  simp only [bind_apply, Exec.andThen] at h
  cases hxs : x s with
  | ok a s1 =>
    rw [hxs] at h
    obtain ⟨f1, hs1, h1⟩ := hx s f rest a s1 hs hxs
    obtain ⟨f2, hs2, h2⟩ := hg a s1 f1 rest b s2 hs1 h
    exact ⟨f2, hs2, fun k hk => (h2 k hk).trans (h1 k hk)⟩
  | exited c s1 => rw [hxs] at h; cases h
  | undefinedBehaviour => rw [hxs] at h; cases h
  | outOfFuel => rw [hxs] at h; cases h

theorem writes_mono {α : Type} {x : Exec α} {small : List Nat} (hx : Writes small x)
    (h : ∀ k, k ∈ small → k ∈ ids) : Writes ids x := by
  intro s f rest a s1 hs hr
  obtain ⟨f1, hs1, h1⟩ := hx s f rest a s1 hs hr
  exact ⟨f1, hs1, fun k hk => h1 k (fun hm => hk (h k hm))⟩

theorem writes_of_never_ok {α : Type} {x : Exec α} (h : ∀ s a s1, x s ≠ .ok a s1) :
    Writes ids x := by
  intro s f rest a s1 _ hx
  exact absurd hx (h s a s1)

theorem writes_ub {α : Type} : Writes ids (ub : Exec α) :=
  writes_of_never_ok (fun _ _ _ h => by cases h)

theorem writes_exit {α : Type} (c : Nat) : Writes ids (Exec.exit c : Exec α) :=
  writes_of_never_ok (fun _ _ _ h => by cases h)

theorem writes_outOfFuel {α : Type} : Writes ids (fun _ => .outOfFuel : Exec α) :=
  writes_of_never_ok (fun _ _ _ h => by cases h)

/-- A computation that leaves the frames as they are writes no memo entry. -/
theorem writes_of_same {α : Type} {x : Exec α}
    (h : ∀ s a s1, x s = .ok a s1 → s1.callStack = s.callStack) : Writes ids x := by
  intro s f rest a s1 hs hx
  exact ⟨f, (h s a s1 hx).trans hs, fun _ _ => rfl⟩

theorem writes_back : Writes ids back := by
  apply writes_of_same
  intro s a s1 h
  unfold back at h
  split at h
  · cases h
  · cases h; rfl

theorem writes_cerr (msg : String) : Writes ids (cerr msg) :=
  writes_of_same (fun _ _ _ h => by cases h; rfl)

theorem writes_loadCell (n : Nat) (address : Int) : Writes ids (loadCell n address) := by
  apply writes_of_same
  intro s a s1 h
  unfold loadCell at h
  split at h
  · simp only [Outcome.ok.injEq] at h
    obtain ⟨-, rfl⟩ := h
    rfl
  · cases h

theorem writes_storeCell (n : Nat) (address value : Int) :
    Writes ids (storeCell n address value) := by
  apply writes_of_same
  intro s a s1 h
  unfold storeCell at h
  split at h
  · simp only [Outcome.ok.injEq] at h
    obtain ⟨-, rfl⟩ := h
    rfl
  · cases h

theorem writes_modifyBack (g : StackFrame → StackFrame)
    (hg : ∀ f k, k ∉ ids → (g f).expressionValues k = f.expressionValues k) :
    Writes ids (modifyBack g) := by
  intro s f rest a s1 hs h
  simp only [modifyBack, hs] at h
  cases h
  exact ⟨g f, rfl, hg f⟩

theorem writes_setCurrentStatement (id : Nat) :
    Writes ids (modifyBack (fun f => f.setCurrentStatement id)) :=
  writes_modifyBack _ (fun _ _ _ => rfl)

theorem writes_bindVariable (id : Nat) (v : Int) :
    Writes ids (modifyBack (fun f => f.bindVariable id v)) :=
  writes_modifyBack _ (fun _ _ _ => rfl)

theorem writes_bindExpression (id : Nat) (v : Int) (h : id ∈ ids) :
    Writes ids (modifyBack (fun f => f.bindExpression id v)) := by
  refine writes_modifyBack _ (fun f k hk => ?_)
  have hne : k ≠ id := fun e => hk (e ▸ h)
  simp [StackFrame.bindExpression, hne]

theorem writes_storeExpressionResult (id : Nat) (v : Int) (h : id ∈ ids) :
    Writes ids (modifyBack (fun f => f.storeExpressionResult id v)) := by
  refine writes_modifyBack _ (fun f k hk => ?_)
  have hne : k ≠ id := fun e => hk (e ▸ h)
  simp [StackFrame.storeExpressionResult, hne]

theorem writes_processDeclRefExpr (id : Nat) (ty : QualType) (found : NamedDecl)
    (h : id ∈ ids) : Writes ids (processDeclRefExpr id ty found) := by
  unfold processDeclRefExpr
  refine writes_bind (writes_setCurrentStatement id) (fun _ => ?_)
  split
  · exact writes_bind writes_back (fun _ => writes_bindExpression _ _ h)
  · exact writes_pure _

theorem writes_evaluateDeclRefExpr (id : Nat) (ty : QualType) (found : NamedDecl)
    (h : id ∈ ids) : Writes ids (evaluateDeclRefExpr id ty found) :=
  writes_bind (writes_processDeclRefExpr id ty found h)
    (fun _ => writes_bind writes_back (fun _ => writes_pure _))

theorem writes_accessArrayElement (varDecl : NamedDecl) (elem : QualType) (index : Int) :
    Writes ids (accessArrayElement varDecl elem index) := by
  unfold accessArrayElement
  refine writes_bind writes_back (fun _ => ?_)
  split
  · exact writes_loadCell _ _
  · split
    · exact writes_loadCell _ _
    · exact writes_loadCell _ _

theorem writes_updateArrayElement (varDecl : NamedDecl) (elem : QualType) (index value : Int) :
    Writes ids (updateArrayElement varDecl elem index value) := by
  unfold updateArrayElement
  refine writes_bind writes_back (fun _ => ?_)
  split
  · exact writes_storeCell _ _ _
  · split
    · exact writes_storeCell _ _ _
    · exact writes_storeCell _ _ _

theorem writes_evaluateSizeOf (isSizeOf : Bool) (argTy : QualType) :
    Writes ids (evaluateSizeOf isSizeOf argTy) := by
  unfold evaluateSizeOf
  split
  · split
    · exact writes_pure _
    · split
      · exact writes_pure _
      · exact writes_pure _
  · exact writes_pure _

theorem writtenNodes_IgnoreImpCasts : ∀ (e : Expr),
    e.IgnoreImpCasts.writtenNodes = e.writtenNodes
  | .implicitCastExpr _ sub => by
      have ih := writtenNodes_IgnoreImpCasts sub
      simp only [Expr.IgnoreImpCasts, Expr.writtenNodes]
      exact ih
  | .declRefExpr _ _ _ => by simp [Expr.IgnoreImpCasts]
  | .integerLiteral _ _ => by simp [Expr.IgnoreImpCasts]
  | .characterLiteral _ _ => by simp [Expr.IgnoreImpCasts]
  | .unaryOperator _ _ _ _ => by simp [Expr.IgnoreImpCasts]
  | .binaryOperator _ _ _ _ _ => by simp [Expr.IgnoreImpCasts]
  | .parenExpr _ _ => by simp [Expr.IgnoreImpCasts]
  | .cStyleCastExpr _ _ => by simp [Expr.IgnoreImpCasts]
  | .arraySubscriptExpr _ _ _ => by simp [Expr.IgnoreImpCasts]
  | .callExpr _ _ _ _ _ => by simp [Expr.IgnoreImpCasts]
  | .unaryExprOrTypeTraitExpr _ _ _ => by simp [Expr.IgnoreImpCasts]
  | .otherExpr _ _ => by simp [Expr.IgnoreImpCasts]

variable {ev : Expr → Exec Int}

/-- The evaluator given to a helper, restricted to the nodes in `ids`. -/
theorem writes_operand (hev : ∀ e, Writes e.writtenNodes (ev e)) (e : Expr)
    (h : ∀ k, k ∈ e.writtenNodes → k ∈ ids) : Writes ids (ev e) :=
  writes_mono (hev e) h

theorem writes_evaluateArrayAccess (hev : ∀ e, Writes e.writtenNodes (ev e)) (lhs rhs : Expr)
    (h : ∀ k, k ∈ rhs.writtenNodes → k ∈ ids) :
    Writes ids (evaluateArrayAccess ev lhs rhs) := by
  unfold evaluateArrayAccess
  split
  · refine writes_bind (writes_operand hev _ h) (fun _ => ?_)
    split
    · split
      · exact writes_accessArrayElement _ _ _
      · exact writes_pure _
    · exact writes_pure _
  · exact writes_pure _

theorem writes_handleArrayAssignment (hev : ∀ e, Writes e.writtenNodes (ev e))
    (lhs rhs rightExpr : Expr) (h : ∀ k, k ∈ rhs.writtenNodes → k ∈ ids)
    (hr : ∀ k, k ∈ rightExpr.writtenNodes → k ∈ ids) :
    Writes ids (handleArrayAssignment ev lhs rhs rightExpr) := by
  unfold handleArrayAssignment
  split
  · refine writes_bind (writes_operand hev _ hr)
      (fun _ => writes_bind (writes_operand hev _ h) (fun _ => ?_))
    split
    · split
      · exact writes_updateArrayElement _ _ _ _
      · exact writes_pure _
    · exact writes_pure _
  · exact writes_pure _

theorem writes_handlePointerAssignment (hev : ∀ e, Writes e.writtenNodes (ev e))
    (sub : Option Expr) (rightExpr : Expr)
    (h : ∀ e, sub = some e → ∀ k, k ∈ e.writtenNodes → k ∈ ids)
    (hr : ∀ k, k ∈ rightExpr.writtenNodes → k ∈ ids) :
    Writes ids (handlePointerAssignment ev sub rightExpr) := by
  unfold handlePointerAssignment
  refine writes_bind (writes_operand hev _ hr) (fun _ => ?_)
  split
  · exact writes_ub
  · exact writes_bind (writes_operand hev _ (h _ rfl)) (fun _ => writes_storeCell _ _ _)

theorem writes_handleAssignment (hev : ∀ e, Writes e.writtenNodes (ev e))
    (leftExpr rightExpr : Expr) (h : ∀ k, k ∈ leftExpr.writtenNodes → k ∈ ids)
    (hr : ∀ k, k ∈ rightExpr.writtenNodes → k ∈ ids) :
    Writes ids (handleAssignment ev leftExpr rightExpr) := by
  unfold handleAssignment
  split
  · exact writes_bind (writes_operand hev _ hr) (fun _ =>
      writes_bind (writes_bindExpression _ _ (h _ (by simp [Expr.writtenNodes])))
        (fun _ => writes_bindVariable _ _))
  · refine writes_handleArrayAssignment hev _ _ _ (fun k hk => h k ?_) hr
    simp [Expr.writtenNodes, hk]
  · refine writes_handlePointerAssignment hev _ _ (fun e he k hk => h k ?_) hr
    subst he
    simp [Expr.writtenNodes, hk]
  · exact writes_pure _

theorem writes_two_operands (hev : ∀ e, Writes e.writtenNodes (ev e)) (l r : Expr)
    (g : Int → Int → Int) (hl : ∀ k, k ∈ l.writtenNodes → k ∈ ids)
    (hr : ∀ k, k ∈ r.writtenNodes → k ∈ ids) :
    Writes ids (do
      let a ← ev l
      let b ← ev r
      return g a b) :=
  writes_bind (writes_operand hev _ hl)
    (fun _ => writes_bind (writes_operand hev _ hr) (fun _ => writes_pure _))

theorem writes_handleAddition (hev : ∀ e, Writes e.writtenNodes (ev e))
    (leftExpr rightExpr : Expr) (hl : ∀ k, k ∈ leftExpr.writtenNodes → k ∈ ids)
    (hr : ∀ k, k ∈ rightExpr.writtenNodes → k ∈ ids) :
    Writes ids (handleAddition ev leftExpr rightExpr) := by
  unfold handleAddition
  split
  · exact writes_two_operands hev _ _ (fun a b => wrap64 (a + 8 * b)) hl hr
  · exact writes_two_operands hev _ _ (fun a b => wrap64 (a + b)) hl hr

theorem writes_handleDivision (hev : ∀ e, Writes e.writtenNodes (ev e))
    (leftExpr rightExpr : Expr) (hl : ∀ k, k ∈ leftExpr.writtenNodes → k ∈ ids)
    (hr : ∀ k, k ∈ rightExpr.writtenNodes → k ∈ ids) :
    Writes ids (handleDivision ev leftExpr rightExpr) := by
  unfold handleDivision
  refine writes_bind (writes_operand hev _ hr) (fun _ => ?_)
  split
  · exact writes_bind (writes_cerr _) (fun _ => writes_exit _)
  · refine writes_bind (writes_operand hev _ hl) (fun _ => ?_)
    split
    · exact writes_ub
    · exact writes_pure _

theorem writes_evaluateBinaryOperator (hev : ∀ e, Writes e.writtenNodes (ev e)) (id : Nat)
    (op : BinaryOpcode) (leftExpr rightExpr : Expr) (hid : id ∈ ids)
    (hl : ∀ k, k ∈ leftExpr.writtenNodes → k ∈ ids)
    (hr : ∀ k, k ∈ rightExpr.writtenNodes → k ∈ ids) :
    Writes ids (evaluateBinaryOperator ev id op leftExpr rightExpr) := by
  unfold evaluateBinaryOperator
  refine writes_bind ?_ (fun _ => writes_storeExpressionResult _ _ hid)
  split
  · exact writes_handleAddition hev _ _ hl hr
  · exact writes_two_operands hev _ _ _ hl hr
  · exact writes_two_operands hev _ _ _ hl hr
  · exact writes_handleDivision hev _ _ hl hr
  · exact writes_two_operands hev _ _ (fun l r => boolValue (decide (l < r))) hl hr
  · exact writes_two_operands hev _ _ (fun l r => boolValue (decide (l > r))) hl hr
  · exact writes_two_operands hev _ _ (fun l r => boolValue (decide (l = r))) hl hr
  · exact writes_two_operands hev _ _ (fun l r => boolValue (decide (l ≤ r))) hl hr
  · exact writes_two_operands hev _ _ (fun l r => boolValue (decide (l ≥ r))) hl hr
  · exact writes_two_operands hev _ _ (fun l r => boolValue (decide (l ≠ r))) hl hr
  · exact writes_bind (writes_cerr _) (fun _ => writes_exit _)

theorem writes_evaluateBinaryOperation (hev : ∀ e, Writes e.writtenNodes (ev e)) (id : Nat)
    (op : BinaryOpcode) (leftExpr rightExpr : Expr)
    (hid : op.isAssignmentOp = false → id ∈ ids)
    (hl : ∀ k, k ∈ leftExpr.writtenNodes → k ∈ ids)
    (hr : ∀ k, k ∈ rightExpr.writtenNodes → k ∈ ids) :
    Writes ids (evaluateBinaryOperation ev id op leftExpr rightExpr) := by
  unfold evaluateBinaryOperation
  split
  · exact writes_handleAssignment hev _ _ hl hr
  · rename_i hop
    exact writes_evaluateBinaryOperator hev _ _ _ _ (hid (by simpa using hop)) hl hr

theorem writes_evaluateBinaryExpr (hev : ∀ e, Writes e.writtenNodes (ev e)) (id : Nat)
    (op : BinaryOpcode) (leftExpr rightExpr : Expr)
    (hid : op.isAssignmentOp = false → id ∈ ids)
    (hl : ∀ k, k ∈ leftExpr.writtenNodes → k ∈ ids)
    (hr : ∀ k, k ∈ rightExpr.writtenNodes → k ∈ ids) :
    Writes ids (evaluateBinaryExpr ev id op leftExpr rightExpr) :=
  writes_bind (writes_evaluateBinaryOperation hev _ _ _ _ hid hl hr)
    (fun _ => writes_bind writes_back (fun _ => writes_pure _))

theorem writes_evaluateUnaryOperation (hev : ∀ e, Writes e.writtenNodes (ev e)) (id : Nat)
    (op : UnaryOpcode) (sub : Option Expr)
    (h : ∀ e, sub = some e → id ∈ ids ∧ ∀ k, k ∈ e.writtenNodes → k ∈ ids) :
    Writes ids (evaluateUnaryOperation ev id op sub) := by
  unfold evaluateUnaryOperation
  split
  · exact writes_cerr _
  · obtain ⟨hid, hsub⟩ := h _ rfl
    refine writes_bind ?_ (fun _ => writes_storeExpressionResult _ _ hid)
    split
    · exact writes_bind (writes_operand hev _ hsub) (fun _ => writes_pure _)
    · exact writes_operand hev _ hsub
    · exact writes_bind (writes_operand hev _ hsub) (fun _ => writes_loadCell _ _)
    · exact writes_bind (writes_cerr _) (fun _ => writes_exit _)

theorem writes_evaluateUnaryExpr (hev : ∀ e, Writes e.writtenNodes (ev e)) (id : Nat)
    (op : UnaryOpcode) (sub : Option Expr)
    (h : ∀ e, sub = some e → id ∈ ids ∧ ∀ k, k ∈ e.writtenNodes → k ∈ ids) :
    Writes ids (evaluateUnaryExpr ev id op sub) :=
  writes_bind (writes_evaluateUnaryOperation hev _ _ _ h)
    (fun _ => writes_bind writes_back (fun _ => writes_pure _))

theorem writes_evaluateExpressionAux (n : Nat) :
    ∀ e, Writes e.writtenNodes (evaluateExpressionAux n e) := by
  induction n with
  | zero => intro e; exact writes_outOfFuel
  | succ n ih =>
    intro e
    rw [← writtenNodes_IgnoreImpCasts e]
    unfold evaluateExpressionAux
    split
    · rename_i heq
      rw [heq]
      exact writes_evaluateDeclRefExpr _ _ _ (by simp [Expr.writtenNodes])
    · exact writes_pure _
    · exact writes_pure _
    · rename_i heq
      rw [heq]
      refine writes_evaluateUnaryExpr ih _ _ _ (fun e he => ?_)
      subst he
      exact ⟨by simp [Expr.writtenNodes], fun k hk => by simp [Expr.writtenNodes, hk]⟩
    · rename_i id ty op lhs rhs heq
      rw [heq]
      refine writes_evaluateBinaryExpr ih _ _ _ _ (fun hop => ?_) (fun k hk => ?_)
        (fun k hk => ?_)
      · simp [Expr.writtenNodes, hop]
      · simp [Expr.writtenNodes, hk]
      · simp [Expr.writtenNodes, hk]
    · rename_i heq
      rw [heq]
      exact ih _
    · rename_i heq
      rw [heq]
      exact writes_evaluateArrayAccess ih _ _ (fun k hk => by simp [Expr.writtenNodes, hk])
    · exact writes_bind writes_back (fun _ => writes_pure _)
    · exact writes_evaluateSizeOf _ _
    · rename_i heq
      rw [heq]
      exact ih _
    · exact writes_bind (writes_cerr _) (fun _ => writes_pure _)

/-- The evaluation of an expression changes no memo entry of the top frame
other than those of the nodes in `writtenNodes`, and no frame below the
top. -/
theorem writes_evaluateExpression (e : Expr) : Writes e.writtenNodes (evaluateExpression e) :=
  writes_evaluateExpressionAux _ e

end WritesEvaluator
section KeepsStatements

open Exec

variable {table : List (Option Nat)} {strict : Bool}

theorem keeps_initializeArray (elemSize : Nat) (array : Int) (n : Nat) :
    ∀ i, Keeps table strict (initializeArray elemSize array n i) := by
  induction n with
  | zero => intro i; exact keeps_pure _
  | succ n ih =>
    intro i
    exact keeps_bind (keeps_storeCell _ _ _) (fun _ => ih _)

theorem keeps_initializeArrayVariable (varDecl : VarDecl) :
    Keeps table strict (initializeArrayVariable varDecl) := by
  unfold initializeArrayVariable
  split
  · split
    · exact keeps_bind (keeps_allocate _) (fun _ =>
        keeps_bind (keeps_initializeArray _ _ _ _) (fun _ => keeps_bindVariable _ _))
    · split
      · exact keeps_bind (keeps_allocate _) (fun _ =>
          keeps_bind (keeps_initializeArray _ _ _ _) (fun _ => keeps_bindVariable _ _))
      · exact keeps_bind (keeps_allocate _) (fun _ =>
          keeps_bind (keeps_initializeArray _ _ _ _) (fun _ => keeps_bindVariable _ _))
  · exact keeps_pure _

variable {ev : Expr → Exec Int}

theorem keeps_processDecl (hev : ∀ e, Keeps table strict (ev e)) (decl : Decl) :
    Keeps table strict (processDecl ev decl) := by
  unfold processDecl
  split
  · split
    · split
      · exact keeps_bind (hev _) (fun _ => keeps_bindVariable _ _)
      · exact keeps_bindVariable _ _
    · exact keeps_initializeArrayVariable _
  · exact keeps_pure _

theorem keeps_processDeclaration (hev : ∀ e, Keeps table strict (ev e)) (decls : List Decl) :
    Keeps table strict (processDeclaration ev decls) := by
  induction decls with
  | nil => exact keeps_pure _
  | cons d ds ih => exact keeps_bind (keeps_processDecl hev d) (fun _ => ih)

theorem keeps_processReturn (hev : ∀ e, Keeps table false (ev e)) (retValue : Option Expr) :
    Keeps table false (processReturn ev retValue) := by
  unfold processReturn
  split
  · exact keeps_ub
  · refine keeps_bind (hev _) (fun v => keeps_modifyBack_any _ (fun f _ h => ?_))
    cases h

theorem keeps_handleInputCall (id : Nat) : Keeps table strict (handleInputCall id) := by
  unfold handleInputCall
  refine keeps_bind (keeps_cout _) (fun _ =>
    keeps_bind (keeps_of_same ?_) (fun _ => keeps_storeExpressionResult _ _))
  intro s a s1 h
  split at h
  · cases h; exact ⟨rfl, rfl⟩
  · cases h; exact ⟨rfl, rfl⟩

theorem keeps_handleOutputCall (hev : ∀ e, Keeps table strict (ev e)) (args : List Expr) :
    Keeps table strict (handleOutputCall ev args) := by
  unfold handleOutputCall
  split
  · exact keeps_ub
  · exact keeps_bind (hev _) (fun _ => keeps_cout _)

theorem keeps_handleMallocCall (hev : ∀ e, Keeps table strict (ev e)) (id : Nat)
    (args : List Expr) : Keeps table strict (handleMallocCall ev id args) := by
  unfold handleMallocCall
  split
  · exact keeps_ub
  · exact keeps_bind (hev _) (fun _ =>
      keeps_bind (keeps_allocate _) (fun _ => keeps_storeExpressionResult _ _))

theorem keeps_handleFreeCall (hev : ∀ e, Keeps table strict (ev e)) (args : List Expr) :
    Keeps table strict (handleFreeCall ev args) := by
  unfold handleFreeCall
  split
  · exact keeps_ub
  · exact keeps_bind (hev _) (fun _ => keeps_release _)

theorem keeps_evaluateArguments (hev : ∀ e, Keeps table strict (ev e)) (args : List Expr) :
    Keeps table strict (evaluateArguments ev args) := by
  induction args with
  | nil => exact keeps_pure _
  | cons a as ih =>
    exact keeps_bind (hev _) (fun _ => keeps_bind ih (fun _ => keeps_pure _))

theorem keeps_bindParameters (arguments : List Int) (params : List Nat) :
    ∀ i, Keeps table strict (bindParameters arguments params i) := by
  induction params with
  | nil => intro i; exact keeps_pure _
  | cons p ps ih =>
    intro i
    unfold bindParameters
    split
    · exact keeps_ub
    · exact keeps_bind (keeps_bindVariable _ _) (fun _ => ih _)

theorem keeps_shouldSkipExecution : Keeps table strict shouldSkipExecution :=
  keeps_bind keeps_back (fun _ => keeps_pure _)

variable {visit : Stmt → Exec Unit}

theorem keeps_visitChildren (hvisit : ∀ node, Keeps table strict (visit node))
    (children : List Stmt) : Keeps table strict (visitChildren visit children) := by
  induction children with
  | nil => exact keeps_pure _
  | cons c cs ih => exact keeps_bind (hvisit c) (fun _ => ih)

theorem keeps_VisitStmt (hvisit : ∀ node, Keeps table strict (visit node)) (node : Stmt) :
    Keeps table strict (VisitStmt visit node) :=
  keeps_visitChildren hvisit _

theorem keeps_VisitBinaryOperator (hvisit : ∀ node, Keeps table false (visit node))
    (id : Nat) (ty : QualType) (op : BinaryOpcode) (lhs rhs : Expr) :
    Keeps table false (VisitBinaryOperator visit id ty op lhs rhs) := by
  unfold VisitBinaryOperator
  refine keeps_bind keeps_shouldSkipExecution (fun _ => ?_)
  split
  · exact keeps_pure _
  · exact keeps_bind (keeps_VisitStmt hvisit _) (fun _ =>
      keeps_evaluateBinaryOperation keeps_evaluateExpression _ _ _ _)

theorem keeps_VisitDeclRefExpr (hvisit : ∀ node, Keeps table false (visit node))
    (id : Nat) (ty : QualType) (found : NamedDecl) :
    Keeps table false (VisitDeclRefExpr visit id ty found) := by
  unfold VisitDeclRefExpr
  refine keeps_bind keeps_shouldSkipExecution (fun _ => ?_)
  split
  · exact keeps_pure _
  · exact keeps_bind (keeps_VisitStmt hvisit _) (fun _ => keeps_processDeclRefExpr _ _ _)

theorem keeps_VisitDeclStmt (hvisit : ∀ node, Keeps table false (visit node))
    (decls : List Decl) : Keeps table false (VisitDeclStmt visit decls) := by
  unfold VisitDeclStmt
  refine keeps_bind keeps_shouldSkipExecution (fun _ => ?_)
  split
  · exact keeps_pure _
  · exact keeps_bind (keeps_VisitStmt hvisit _) (fun _ =>
      keeps_processDeclaration keeps_evaluateExpression _)

theorem keeps_VisitIfStmt (hvisit : ∀ node, Keeps table false (visit node))
    (cond : Expr) (thenBranch : Stmt) (elseBranch : Option Stmt) :
    Keeps table false (VisitIfStmt visit cond thenBranch elseBranch) := by
  unfold VisitIfStmt
  refine keeps_bind keeps_shouldSkipExecution (fun _ => ?_)
  split
  · exact keeps_pure _
  · refine keeps_bind (keeps_evaluateExpression _) (fun _ => ?_)
    split
    · exact hvisit _
    · split
      · exact hvisit _
      · exact keeps_pure _

theorem keeps_whileLoop (hvisit : ∀ node, Keeps table false (visit node))
    (cond : Expr) (body : Stmt) (fuel : Nat) :
    Keeps table false (whileLoop visit cond body fuel) := by
  induction fuel with
  | zero => exact keeps_outOfFuel
  | succ n ih =>
    unfold whileLoop
    refine keeps_bind (keeps_evaluateExpression _) (fun _ => ?_)
    split
    · exact keeps_bind (hvisit _) (fun _ => ih)
    · exact keeps_pure _

theorem keeps_VisitWhileStmt (hvisit : ∀ node, Keeps table false (visit node))
    (fuel : Nat) (cond : Expr) (body : Stmt) :
    Keeps table false (VisitWhileStmt visit fuel cond body) := by
  unfold VisitWhileStmt
  refine keeps_bind keeps_shouldSkipExecution (fun _ => ?_)
  split
  · exact keeps_pure _
  · exact keeps_whileLoop hvisit _ _ _

theorem keeps_forLoop (hvisit : ∀ node, Keeps table false (visit node))
    (cond inc : Option Expr) (body : Stmt) (fuel : Nat) :
    Keeps table false (forLoop visit cond inc body fuel) := by
  induction fuel with
  | zero => exact keeps_outOfFuel
  | succ n ih =>
    unfold forLoop
    split
    · exact keeps_ub
    · refine keeps_bind (keeps_evaluateExpression _) (fun _ => ?_)
      split
      · refine keeps_bind (hvisit _) (fun _ => ?_)
        split
        · exact keeps_ub
        · exact keeps_bind (hvisit _) (fun _ => ih)
      · exact keeps_pure _

theorem keeps_VisitForStmt (hvisit : ∀ node, Keeps table false (visit node))
    (fuel : Nat) (init : Option Stmt) (cond inc : Option Expr) (body : Stmt) :
    Keeps table false (VisitForStmt visit fuel init cond inc body) := by
  unfold VisitForStmt
  refine keeps_bind keeps_shouldSkipExecution (fun _ => ?_)
  split
  · exact keeps_pure _
  · dsimp only
    split
    · exact keeps_bind (hvisit _) (fun _ => keeps_forLoop hvisit _ _ _ _)
    · exact keeps_bind (keeps_pure _) (fun _ => keeps_forLoop hvisit _ _ _ _)

theorem keeps_VisitReturnStmt (hvisit : ∀ node, Keeps table false (visit node))
    (retValue : Option Expr) : Keeps table false (VisitReturnStmt visit retValue) := by
  unfold VisitReturnStmt
  refine keeps_bind keeps_shouldSkipExecution (fun _ => ?_)
  split
  · exact keeps_pure _
  · dsimp only
    split
    · exact keeps_bind keeps_ub (fun _ => keeps_processReturn keeps_evaluateExpression _)
    · exact keeps_bind (hvisit _) (fun _ => keeps_processReturn keeps_evaluateExpression _)

theorem keeps_VisitUnaryOperator (hvisit : ∀ node, Keeps table false (visit node))
    (id : Nat) (ty : QualType) (op : UnaryOpcode) (sub : Option Expr) :
    Keeps table false (VisitUnaryOperator visit id ty op sub) := by
  unfold VisitUnaryOperator
  refine keeps_bind keeps_shouldSkipExecution (fun _ => ?_)
  split
  · exact keeps_pure _
  · exact keeps_bind (keeps_VisitStmt hvisit _) (fun _ =>
      keeps_evaluateUnaryOperation keeps_evaluateExpression _ _ _)

end KeepsStatements
/-! ## The value of an assignment -/

section AssignmentValue

open Exec

theorem sample_element_assignment :
    evaluateExpression sampleElementAssignment sampleArrayState
      = .ok 0 sampleElementAssigned := by
  rfl

theorem sample_pointer_assignment :
    evaluateExpression samplePointerAssignment samplePointerState
      = .ok 0 samplePointerAssigned := by
  rfl

/-- C24: the value of an assignment expression is the memo entry of the
assignment node itself, which the assignment does not write. Whatever the
left-hand side is (a variable, an array element `a[i]`, a dereference `*p`
or anything else) and whatever the right-hand side is, when the evaluation
of an assignment whose node is none of the nodes below it returns, the
value is the entry of the assignment node in the memo of the top frame,
that entry is the one the node had before the evaluation, and so the value
is 0 when the node had no entry. For a variable on the left the state left
is the one after the right-hand side with the variable and the left-hand
node bound. So visiting `a = (b = v);` in a fresh frame binds `b` to `v` and
`a` to 0. -/
theorem assignment_value_is_own_memo (fns : List FunctionDecl) (fuel : Nat)
    (op : BinaryOpcode) (id : Nat) (ty : QualType) (lhs rhs : Expr) (t t1 : State)
    (f : StackFrame) (more : List StackFrame) (r : Int)
    (outer aRef : Nat) (a : NamedDecl) (inner bRef : Nat) (b : NamedDecl) (v : Int) (s : State)
    (rest : List StackFrame)
    (hop : op.isAssignmentOp = true) (ht : t.callStack = f :: more)
    (hrun : evaluateExpression (.binaryOperator id ty op lhs rhs) t = .ok r t1)
    (hl : id ∉ lhs.writtenNodes) (hr : id ∉ rhs.writtenNodes)
    (hs : s.callStack = StackFrame.new :: rest)
    (hab : a.id ≠ b.id) (hia : inner ≠ aRef) (hib : inner ≠ bRef) :
    (∃ f1, t1.callStack = f1 :: more
        ∧ r = f1.getExpressionValue id
        ∧ f1.expressionValues id = f.expressionValues id
        ∧ (f.expressionValues id = none → r = 0))
      ∧ (∀ (u u1 : State) (g : StackFrame) (below : List StackFrame) (lid : Nat)
          (lty : QualType) (found : NamedDecl) (w : Int),
          lhs = .declRefExpr lid lty found → evaluateExpression rhs u = .ok w u1 →
          u1.callStack = g :: below → id ≠ lid →
          evaluateExpression (.binaryOperator id ty op lhs rhs) u
            = .ok (g.getExpressionValue id)
                { u1 with
                    callStack := (g.bindExpression lid w).bindVariable found.id w :: below })
      ∧ ∃ f1, Visit fns (fuel + 4) (nestedAssignProgram outer aRef a inner bRef b v) s
          = .ok () { s with callStack := f1 :: rest }
        ∧ f1.variableValues b.id = some v
        ∧ f1.variableValues a.id = some 0 := by
  refine ⟨?_, ?_, ?_⟩
  · have hw : Writes (lhs.writtenNodes ++ rhs.writtenNodes)
        (evaluateBinaryOperation evaluateExpression id op lhs rhs) :=
      writes_evaluateBinaryOperation writes_evaluateExpression id op lhs rhs
        (fun h => by rw [hop] at h; cases h) (fun k hk => by simp [hk])
        (fun k hk => by simp [hk])
    rw [evaluateExpression_binary] at hrun
    simp only [evaluateBinaryExpr, bind_apply, Exec.andThen] at hrun
    cases hx : evaluateBinaryOperation evaluateExpression id op lhs rhs t with
    | ok u t2 =>
      rw [hx] at hrun
      obtain ⟨f1, hs1, hk⟩ := hw t f more u t2 ht hx
      simp only [back, hs1, pure_apply, Outcome.ok.injEq] at hrun
      obtain ⟨hr1, ht1⟩ := hrun
      subst ht1
      have hid : f1.expressionValues id = f.expressionValues id :=
        hk id (by simp [hl, hr])
      refine ⟨f1, hs1, hr1.symm, hid, fun hnone => ?_⟩
      rw [← hr1]
      simp [StackFrame.getExpressionValue, hid, hnone]
    | exited c s1 => rw [hx] at hrun; cases hrun
    | undefinedBehaviour => rw [hx] at hrun; cases hrun
    | outOfFuel => rw [hx] at hrun; cases hrun
  · intro u u1 g below lid lty found w hlhs hw hu hne
    subst hlhs
    simp [evaluateExpression_binary, evaluateBinaryExpr, evaluateBinaryOperation, hop,
      handleAssignment, Exec.andThen, hw, hu, modifyBack, back, StackFrame.bindExpression,
      StackFrame.bindVariable, StackFrame.getExpressionValue, hne]
  · have hab1 : ¬ (b.id = a.id) := fun h => hab h.symm
    simp [nestedAssignProgram, assignOf, Visit_binaryOperator, VisitBinaryOperator,
      Visit_parenExpr, Exec.andThen, shouldSkipExecution, StackFrame.hasPendingReturn,
      StackFrame.new, VisitStmt, Stmt.children, Expr.children, visitChildren,
      Visit_declRefExpr, VisitDeclRefExpr, Visit_integerLiteral, processDeclRefExpr,
      modifyBack, back, hs, StackFrame.setCurrentStatement, StackFrame.bindExpression,
      evaluateExpression_integerLiteral, evaluateExpression_paren,
      evaluateExpression_binary, evaluateBinaryExpr,
      evaluateBinaryOperation, BinaryOpcode.isAssignmentOp, handleAssignment,
      StackFrame.getExpressionValue, StackFrame.bindVariable, StackFrame.getVariableValue,
      hab, hab1, hia, hib]

theorem assignment_value_is_own_memo_witness :
    ((∃ f1, sampleElementAssigned.callStack = f1 :: []
        ∧ (0 : Int) = f1.getExpressionValue 1
        ∧ f1.expressionValues 1 = sampleArrayFrame.expressionValues 1
        ∧ (sampleArrayFrame.expressionValues 1 = none → (0 : Int) = 0))
      ∧ (∀ (u u1 : State) (g : StackFrame) (below : List StackFrame) (lid : Nat)
          (lty : QualType) (found : NamedDecl) (w : Int),
          subscriptOf 2 sampleArrayDecl (.integerLiteral .intTy 1)
            = .declRefExpr lid lty found →
          evaluateExpression (.integerLiteral .intTy 5) u = .ok w u1 →
          u1.callStack = g :: below → 1 ≠ lid →
          evaluateExpression (.binaryOperator 1 .intTy .BO_Assign
              (subscriptOf 2 sampleArrayDecl (.integerLiteral .intTy 1))
              (.integerLiteral .intTy 5)) u
            = .ok (g.getExpressionValue 1)
                { u1 with
                    callStack := (g.bindExpression lid w).bindVariable found.id w :: below })
      ∧ ∃ f1, Visit [] (0 + 4)
            (nestedAssignProgram 1 2 sampleIntDecl 3 4 sampleOtherIntDecl 9) sampleState
          = .ok () { sampleState with callStack := f1 :: [] }
        ∧ f1.variableValues sampleOtherIntDecl.id = some 9
        ∧ f1.variableValues sampleIntDecl.id = some 0)
    ∧ ((∃ f1, samplePointerAssigned.callStack = f1 :: []
        ∧ (0 : Int) = f1.getExpressionValue 1
        ∧ f1.expressionValues 1 = (StackFrame.new.bindVariable 9 4096).expressionValues 1
        ∧ ((StackFrame.new.bindVariable 9 4096).expressionValues 1 = none → (0 : Int) = 0))
      ∧ (∀ (u u1 : State) (g : StackFrame) (below : List StackFrame) (lid : Nat)
          (lty : QualType) (found : NamedDecl) (w : Int),
          derefOf 2 3 samplePointerDecl = .declRefExpr lid lty found →
          evaluateExpression (.integerLiteral .intTy 9) u = .ok w u1 →
          u1.callStack = g :: below → 1 ≠ lid →
          evaluateExpression (.binaryOperator 1 .intTy .BO_Assign
              (derefOf 2 3 samplePointerDecl) (.integerLiteral .intTy 9)) u
            = .ok (g.getExpressionValue 1)
                { u1 with
                    callStack := (g.bindExpression lid w).bindVariable found.id w :: below })
      ∧ ∃ f1, Visit [] (0 + 4)
            (nestedAssignProgram 1 2 sampleIntDecl 3 4 sampleOtherIntDecl 9) sampleState
          = .ok () { sampleState with callStack := f1 :: [] }
        ∧ f1.variableValues sampleOtherIntDecl.id = some 9
        ∧ f1.variableValues sampleIntDecl.id = some 0) :=
  ⟨assignment_value_is_own_memo [] 0 .BO_Assign 1 .intTy
      (subscriptOf 2 sampleArrayDecl (.integerLiteral .intTy 1)) (.integerLiteral .intTy 5)
      sampleArrayState sampleElementAssigned sampleArrayFrame [] 0
      1 2 sampleIntDecl 3 4 sampleOtherIntDecl 9 sampleState []
      rfl rfl rfl (by simp [subscriptOf, Expr.writtenNodes]) (by simp [Expr.writtenNodes])
      rfl (by decide) (by decide) (by decide),
    assignment_value_is_own_memo [] 0 .BO_Assign 1 .intTy
      (derefOf 2 3 samplePointerDecl) (.integerLiteral .intTy 9)
      samplePointerState samplePointerAssigned (StackFrame.new.bindVariable 9 4096) [] 0
      1 2 sampleIntDecl 3 4 sampleOtherIntDecl 9 sampleState []
      rfl rfl rfl (by simp [derefOf, Expr.writtenNodes]) (by simp [Expr.writtenNodes])
      rfl (by decide) (by decide) (by decide)⟩

end AssignmentValue
section KeepsCalls

open Exec

variable {table : List (Option Nat)} {fns : List FunctionDecl} {visit : Stmt → Exec Unit}

/-- The dispatch of `processFunctionCall` on a state with a top frame. -/
theorem processFunctionCall_cons (ev : Expr → Exec Int) (id : Nat) (directCallee : Option Nat)
    (args : List Expr) (s : State) (f : StackFrame) (rest : List StackFrame)
    (hs : s.callStack = f :: rest) :
    processFunctionCall fns ev id directCallee args s
      = (if directCallee = s.inputFunction then handleInputCall id
          else if directCallee = s.outputFunction then handleOutputCall ev args
          else if directCallee = s.mallocFunction then handleMallocCall ev id args
          else if directCallee = s.freeFunction then handleFreeCall ev args
          else handleUserFunctionCall ev args (findFunction fns directCallee))
          { s with callStack := f.setCurrentStatement id :: rest } := by
  simp [processFunctionCall, Exec.andThen, modifyBack, hs]

/-- What a completed call of a user-defined function went through: the
arguments were evaluated in the caller's frame, the body ran on a new frame
above it and left the caller's frame and the frames below as they were, and
the caller's frame received the return value as the memo of the call. -/
theorem user_call_inversion (hvisit : ∀ node, Keeps table false (visit node))
    (fd : FunctionDecl) (body : Stmt) (id : Nat) (args : List Expr)
    (s s2 : State) (f : StackFrame) (rest : List StackFrame)
    (ht : s.builtins = table) (hs : s.callStack = f :: rest)
    (h : (do
        handleUserFunctionCall evaluateExpression args (some fd)
        visit body
        let returnValue := (← back).getReturnValue
        popFrame
        modifyBack (fun f => f.storeExpressionResult id returnValue)) s = .ok () s2) :
    ∃ vals s1 f1 s3 g,
      evaluateArguments evaluateExpression args s = .ok vals s1
      ∧ s1.callStack = f1 :: rest
      ∧ f1.hasReturnValue = f.hasReturnValue ∧ f1.returnValue = f.returnValue
      ∧ (do bindParameters vals fd.params 0; visit body)
          { s1 with callStack := StackFrame.new :: s1.callStack } = .ok () s3
      ∧ s3.callStack = g :: f1 :: rest
      ∧ g.returnClean
      ∧ s3.builtins = table
      ∧ s2 = { s3 with callStack := f1.storeExpressionResult id g.returnValue :: rest } := by
  simp only [handleUserFunctionCall, bind_apply, Exec.andThen] at h
  cases h1 : evaluateArguments evaluateExpression args s with
  | ok vals s1 =>
    simp only [h1] at h
    obtain ⟨f1, hs1, ht1, -, hr1⟩ :=
      @keeps_evaluateArguments table true evaluateExpression
        (fun e => keeps_evaluateExpression e) args s f
        rest vals s1 ht hs h1
    simp only [pushFrame] at h
    cases h2 : bindParameters vals fd.params 0
        { s1 with callStack := StackFrame.new :: s1.callStack } with
    | ok u s3a =>
      simp only [h2] at h
      obtain ⟨g1, hs3a, ht3a, hc3a, -⟩ :=
        @keeps_bindParameters table true vals fd.params 0
          { s1 with callStack := StackFrame.new :: s1.callStack } StackFrame.new (f1 :: rest) u
          s3a ht1 (by simp [hs1]) h2
      cases h3 : visit body s3a with
      | ok u2 s3 =>
        simp only [h3] at h
        obtain ⟨g, hs3, ht3, hc3, -⟩ := hvisit body s3a g1 (f1 :: rest) u2 s3 ht3a hs3a h3
        simp only [back, popFrame, modifyBack, hs3, StackFrame.getReturnValue] at h
        cases h
        refine ⟨vals, s1, f1, s3, g, rfl, hs1, (hr1 rfl).1, (hr1 rfl).2, ?_, hs3,
          hc3 (hc3a (fun _ => rfl)), ht3, rfl⟩
        simp only [bind_apply, Exec.andThen, h2, h3]
      | exited c s3 => simp [h3] at h
      | undefinedBehaviour => simp [h3] at h
      | outOfFuel => simp [h3] at h
    | exited c s3 => simp [h2] at h
    | undefinedBehaviour => simp [h2] at h
    | outOfFuel => simp [h2] at h
  | exited c s1 => simp [h1] at h
  | undefinedBehaviour => simp [h1] at h
  | outOfFuel => simp [h1] at h

end KeepsCalls
section KeepsVisit

open Exec

variable {table : List (Option Nat)} {fns : List FunctionDecl} {visit : Stmt → Exec Unit}

theorem keeps_handleUserFunctionCall_none (ev : Expr → Exec Int) (args : List Expr)
    (s s1 : State) (a : Unit) : handleUserFunctionCall ev args none s ≠ .ok a s1 := by
  intro h
  simp only [handleUserFunctionCall, bind_apply, Exec.andThen, pushFrame, ub] at h
  cases h1 : evaluateArguments ev args s <;> simp [h1] at h

/-- A call keeps what the walk into its operands keeps: the body of a
user-defined callee runs on a frame of its own. -/
theorem keeps_VisitCallExpr_of {strict : Bool} (hcons : Consistent fns table)
    (id : Nat) (ty : QualType) (callee : Expr) (directCallee : Option Nat) (args : List Expr)
    (hchildren : Keeps table strict
      (VisitStmt visit (.expr (.callExpr id ty callee directCallee args))))
    (hvisit : ∀ node, Keeps table false (visit node)) :
    Keeps table strict (VisitCallExpr fns visit id ty callee directCallee args) := by
  unfold VisitCallExpr
  refine keeps_bind keeps_shouldSkipExecution (fun _ => ?_)
  split
  · exact keeps_pure _
  · refine keeps_bind hchildren (fun _ => ?_)
    intro s f rest a s2 ht hs h
    have hs' : ({ s with callStack := f.setCurrentStatement id :: rest } : State).callStack
        = f.setCurrentStatement id :: rest := rfl
    have ht' : ({ s with callStack := f.setCurrentStatement id :: rest } : State).builtins
        = table := ht
    have hfin : ∀ (x : Exec Unit), Keeps table strict x →
        (x >>= fun _ => (pure () : Exec Unit))
          { s with callStack := f.setCurrentStatement id :: rest } = .ok a s2 →
        ∃ f1, s2.callStack = f1 :: rest ∧ s2.builtins = table
          ∧ (f.returnClean → f1.returnClean)
          ∧ (strict = true →
              f1.hasReturnValue = f.hasReturnValue ∧ f1.returnValue = f.returnValue) := by
      intro x hx hrun
      obtain ⟨f1, h1, h2, h3, h4⟩ :=
        keeps_bind hx (fun _ => keeps_pure ()) _ _ _ _ _ ht' hs' hrun
      exact ⟨f1, h1, h2, h3, h4⟩
    by_cases hmem : directCallee ∈ table
    · have hK : ∀ fd, findFunction fns directCallee = some fd →
          isUserDefinedFunction fd = false := by
        intro fd hff
        cases hu : isUserDefinedFunction fd with
        | false => rfl
        | true => exact absurd hmem ((hcons directCallee fd hff).1 hu)
      have hmem' : directCallee = s.inputFunction ∨ directCallee = s.outputFunction
          ∨ directCallee = s.mallocFunction ∨ directCallee = s.freeFunction := by
        rw [← ht] at hmem
        simpa [State.builtins] using hmem
      have hcont : (match findFunction fns directCallee with
          | none => (pure () : Exec Unit)
          | some funcDecl =>
              if isUserDefinedFunction funcDecl then
                match funcDecl.body with
                | none => ub
                | some body => do
                    visit body
                    let returnValue := (← back).getReturnValue
                    popFrame
                    modifyBack (fun f => f.storeExpressionResult id returnValue)
              else pure ()) = pure () := by
        cases hff : findFunction fns directCallee with
        | none => rfl
        | some fd => simp [hK fd hff]
      rw [hcont] at h
      rw [bind_apply, Exec.andThen,
        processFunctionCall_cons evaluateExpression id directCallee args s f rest hs] at h
      by_cases h1 : directCallee = s.inputFunction
      · rw [if_pos h1] at h
        exact hfin _ (keeps_handleInputCall id) h
      · rw [if_neg h1] at h
        by_cases h2 : directCallee = s.outputFunction
        · rw [if_pos h2] at h
          exact hfin _ (keeps_handleOutputCall (fun e => keeps_evaluateExpression e) args) h
        · rw [if_neg h2] at h
          by_cases h3 : directCallee = s.mallocFunction
          · rw [if_pos h3] at h
            exact hfin _
              (keeps_handleMallocCall (fun e => keeps_evaluateExpression e) id args) h
          · rw [if_neg h3] at h
            by_cases h4 : directCallee = s.freeFunction
            · rw [if_pos h4] at h
              exact hfin _ (keeps_handleFreeCall (fun e => keeps_evaluateExpression e) args) h
            · rcases hmem' with h5 | h5 | h5 | h5
              · exact absurd h5 h1
              · exact absurd h5 h2
              · exact absurd h5 h3
              · exact absurd h5 h4
    · have hn1 : ¬ directCallee = s.inputFunction := fun e =>
        hmem (by rw [← ht]; simp [State.builtins, e])
      have hn2 : ¬ directCallee = s.outputFunction := fun e =>
        hmem (by rw [← ht]; simp [State.builtins, e])
      have hn3 : ¬ directCallee = s.mallocFunction := fun e =>
        hmem (by rw [← ht]; simp [State.builtins, e])
      have hn4 : ¬ directCallee = s.freeFunction := fun e =>
        hmem (by rw [← ht]; simp [State.builtins, e])
      have hpf := @processFunctionCall_cons fns evaluateExpression id directCallee
        args s f rest hs
      rw [if_neg hn1, if_neg hn2, if_neg hn3, if_neg hn4] at hpf
      cases hff : findFunction fns directCallee with
      | none =>
        rw [bind_apply, Exec.andThen, hpf, hff] at h
        cases h1 : handleUserFunctionCall evaluateExpression args none
            { s with callStack := f.setCurrentStatement id :: rest } with
        | ok u s1 => exact absurd h1 (keeps_handleUserFunctionCall_none _ _ _ _ _)
        | exited c s1 => simp [h1] at h
        | undefinedBehaviour => simp [h1] at h
        | outOfFuel => simp [h1] at h
      | some fd =>
        have hu : isUserDefinedFunction fd = true := (hcons directCallee fd hff).2 hmem
        cases hb : fd.body with
        | none =>
          simp only [bind_apply, Exec.andThen, hpf, hff, hu, hb, if_true] at h
          cases h1 : handleUserFunctionCall evaluateExpression args (some fd)
              { s with callStack := f.setCurrentStatement id :: rest } <;>
            simp [h1, ub] at h
        | some body =>
          have hrun : (do
              handleUserFunctionCall evaluateExpression args (some fd)
              visit body
              let returnValue := (← back).getReturnValue
              popFrame
              modifyBack (fun f => f.storeExpressionResult id returnValue))
              { s with callStack := f.setCurrentStatement id :: rest } = .ok () s2 := by
            simp only [bind_apply, Exec.andThen, hpf, hff, hu, hb, if_true] at h
            simp only [bind_apply, Exec.andThen]
            exact h
          obtain ⟨vals, s1, f1, s3, g, -, -, h3, h4, -, -, -, h8, h9⟩ :=
            user_call_inversion hvisit fd body id args _ s2 _ rest ht' hs' hrun
          refine ⟨f1.storeExpressionResult id g.returnValue, ?_, ?_, ?_, fun _ => ⟨h3, h4⟩⟩
          · rw [h9]
          · rw [h9]
            exact h8
          · intro hc hfalse
            have e1 : (f1.storeExpressionResult id g.returnValue).hasReturnValue
                = f1.hasReturnValue := rfl
            have e2 : (f1.storeExpressionResult id g.returnValue).returnValue
                = f1.returnValue := rfl
            rw [e2, h4]
            apply hc
            rw [e1, h3] at hfalse
            exact hfalse

theorem keeps_VisitCallExpr (hcons : Consistent fns table)
    (hvisit : ∀ node, Keeps table false (visit node))
    (id : Nat) (ty : QualType) (callee : Expr) (directCallee : Option Nat) (args : List Expr) :
    Keeps table false (VisitCallExpr fns visit id ty callee directCallee args) :=
  keeps_VisitCallExpr_of hcons id ty callee directCallee args (keeps_VisitStmt hvisit _) hvisit

/-- Under a consistent built-in table the walk keeps the frames below the top
and the table, for every amount of fuel and every node. -/
theorem keeps_Visit (hcons : Consistent fns table) (n : Nat) :
    ∀ node, Keeps table false (Visit fns n node) := by
  induction n with
  | zero => intro node; exact keeps_outOfFuel
  | succ n ih =>
    intro node
    unfold Visit
    split
    · exact keeps_VisitBinaryOperator ih _ _ _ _ _
    · exact keeps_VisitDeclRefExpr ih _ _ _
    · exact keeps_VisitCallExpr hcons ih _ _ _ _ _
    · exact keeps_VisitUnaryOperator ih _ _ _ _
    · exact keeps_pure _
    · exact keeps_VisitDeclStmt ih _
    · exact keeps_VisitIfStmt ih _ _ _
    · exact keeps_VisitWhileStmt ih _ _ _
    · exact keeps_VisitForStmt ih _ _ _ _ _
    · exact keeps_VisitReturnStmt ih _
    · exact keeps_VisitStmt ih _

end KeepsVisit
/-! ## Expressions and declarations keep the pending return -/

section KeepsExpr

open Exec

variable {table : List (Option Nat)} {fns : List FunctionDecl} {visit : Stmt → Exec Unit}

theorem keeps_visitChildren_mem {strict : Bool} :
    ∀ (children : List Stmt), (∀ c, c ∈ children → Keeps table strict (visit c)) →
      Keeps table strict (visitChildren visit children)
  | [], _ => keeps_pure _
  | c :: cs, h =>
      keeps_bind (h c (by simp))
        (fun _ => keeps_visitChildren_mem cs (fun d hd => h d (by simp [hd])))

theorem keeps_expr_children {strict : Bool}
    (hvisit : ∀ e, Keeps table strict (visit (.expr e))) (e : Expr) :
    Keeps table strict (VisitStmt visit (.expr e)) := by
  apply keeps_visitChildren_mem
  intro c hc
  simp only [Stmt.children, List.mem_map] at hc
  obtain ⟨e1, -, rfl⟩ := hc
  exact hvisit e1

theorem keeps_decl_children {strict : Bool}
    (hvisit : ∀ e, Keeps table strict (visit (.expr e))) (decls : List Decl) :
    Keeps table strict (VisitStmt visit (.declStmt decls)) := by
  apply keeps_visitChildren_mem
  intro c hc
  simp only [Stmt.children, List.mem_filterMap] at hc
  obtain ⟨d, -, hd⟩ := hc
  cases d with
  | varDecl v =>
    simp only [Decl.initChild, Option.map_eq_some'] at hd
    obtain ⟨e1, -, rfl⟩ := hd
    exact hvisit e1
  | otherDecl => simp [Decl.initChild] at hd

/-- Under a consistent built-in table the walk over an expression leaves the
pending-return flag and value of the top frame as they were. -/
theorem keeps_Visit_expr (hcons : Consistent fns table) (n : Nat) :
    ∀ e, Keeps table true (Visit fns n (.expr e)) := by
  induction n with
  | zero => intro e; exact keeps_outOfFuel
  | succ n ih =>
    intro e
    cases e with
    | declRefExpr id ty found =>
      rw [Visit_declRefExpr]
      unfold VisitDeclRefExpr
      refine keeps_bind keeps_shouldSkipExecution (fun _ => ?_)
      split
      · exact keeps_pure _
      · exact keeps_bind (keeps_expr_children ih _) (fun _ => keeps_processDeclRefExpr _ _ _)
    | integerLiteral ty value => exact keeps_pure _
    | characterLiteral ty value => exact keeps_pure _
    | unaryOperator id ty op sub =>
      rw [Visit_unaryOperator]
      unfold VisitUnaryOperator
      refine keeps_bind keeps_shouldSkipExecution (fun _ => ?_)
      split
      · exact keeps_pure _
      · exact keeps_bind (keeps_expr_children ih _) (fun _ =>
          keeps_evaluateUnaryOperation keeps_evaluateExpression _ _ _)
    | binaryOperator id ty op lhs rhs =>
      rw [Visit_binaryOperator]
      unfold VisitBinaryOperator
      refine keeps_bind keeps_shouldSkipExecution (fun _ => ?_)
      split
      · exact keeps_pure _
      · exact keeps_bind (keeps_expr_children ih _) (fun _ =>
          keeps_evaluateBinaryOperation keeps_evaluateExpression _ _ _ _)
    | parenExpr ty sub => exact keeps_expr_children ih (.parenExpr ty sub)
    | implicitCastExpr ty sub => exact keeps_expr_children ih (.implicitCastExpr ty sub)
    | cStyleCastExpr ty sub => exact keeps_expr_children ih (.cStyleCastExpr ty sub)
    | arraySubscriptExpr ty lhs rhs =>
      exact keeps_expr_children ih (.arraySubscriptExpr ty lhs rhs)
    | callExpr id ty callee directCallee args =>
      rw [Visit_callExpr]
      exact keeps_VisitCallExpr_of hcons id ty callee directCallee args
        (keeps_expr_children ih _) (keeps_Visit hcons n)
    | unaryExprOrTypeTraitExpr ty isSizeOf argTy => exact keeps_pure _
    | otherExpr ty children => exact keeps_expr_children ih (.otherExpr ty children)

/-- The same for a declaration statement. -/
theorem keeps_Visit_decl (hcons : Consistent fns table) (n : Nat) (decls : List Decl) :
    Keeps table true (Visit fns n (.declStmt decls)) := by
  cases n with
  | zero => exact keeps_outOfFuel
  | succ n =>
    rw [Visit_declStmt]
    unfold VisitDeclStmt
    refine keeps_bind keeps_shouldSkipExecution (fun _ => ?_)
    split
    · exact keeps_pure _
    · exact keeps_bind (keeps_decl_children (keeps_Visit_expr hcons n) _) (fun _ =>
        keeps_processDeclaration keeps_evaluateExpression _)

end KeepsExpr
/-! ## Stack discipline and frame isolation -/

section Discipline

open Exec

/-- Under a built-in table that agrees with the names of the declared
functions, a walk that starts on a node with the frames `f :: rest` and
completes ends with a top frame over the very same `rest`: as many frames as
at the start, every push of a call undone by its pop, and no frame of `rest`
popped or changed. -/
theorem paired_push_pop (fns : List FunctionDecl) (table : List (Option Nat))
    (hcons : Consistent fns table) (fuel : Nat) (node : Stmt) (s s1 : State)
    (f : StackFrame) (rest : List StackFrame)
    (ht : s.builtins = table) (hs : s.callStack = f :: rest)
    (hrun : Visit fns fuel node s = .ok () s1) :
    ∃ f1, s1.callStack = f1 :: rest
      ∧ s1.callStack.length = s.callStack.length
      ∧ s1.callStack ≠ [] := by
  obtain ⟨f1, h1, -, -, -⟩ := keeps_Visit hcons fuel node s f rest () s1 ht hs hrun
  refine ⟨f1, h1, ?_, ?_⟩
  · rw [h1, hs]
    rfl
  · rw [h1]
    exact List.cons_ne_nil _ _

/-- Under a built-in table that agrees with the names of the declared
functions: when the visit of a call of a user-defined function completes, the
arguments were evaluated in the caller's frame, giving a caller frame `f1`;
the body ran on a new frame above `f1` and ended with `f1` and the frames
below it unchanged; and the caller's frame at the end is `f1` with the
callee's return value stored as the memo of the call node, so its variable
bindings and pending-return state are those of `f1` and no other memo entry
differs. The return value is 0 when the callee's frame has no return
pending. -/
theorem isolated_user_call (fns : List FunctionDecl) (table : List (Option Nat))
    (hcons : Consistent fns table) (fuel : Nat) (fd : FunctionDecl) (body : Stmt)
    (id : Nat) (ty : QualType) (callee : Expr) (directCallee : Option Nat) (args : List Expr)
    (s s2 : State) (f : StackFrame) (rest : List StackFrame)
    (ht : s.builtins = table) (hs : s.callStack = f :: rest)
    (hret : f.hasReturnValue = false)
    (huser : directCallee ∉ table) (hfind : findFunction fns directCallee = some fd)
    (hbody : fd.body = some body)
    (hrun : Visit fns (fuel + 1) (.expr (.callExpr id ty callee directCallee args)) s
      = .ok () s2) :
    ∃ s0 f0 vals s1 f1 s3 g,
      VisitStmt (Visit fns fuel) (.expr (.callExpr id ty callee directCallee args)) s
        = .ok () s0
      ∧ s0.callStack = f0 :: rest
      ∧ evaluateArguments evaluateExpression args
          { s0 with callStack := f0.setCurrentStatement id :: rest } = .ok vals s1
      ∧ s1.callStack = f1 :: rest
      ∧ (do bindParameters vals fd.params 0; Visit fns fuel body)
          { s1 with callStack := StackFrame.new :: s1.callStack } = .ok () s3
      ∧ s3.callStack = g :: f1 :: rest
      ∧ (g.hasReturnValue = false → g.returnValue = 0)
      ∧ s2 = { s3 with callStack := f1.storeExpressionResult id g.returnValue :: rest }
      ∧ (f1.storeExpressionResult id g.returnValue).variableValues = f1.variableValues
      ∧ (f1.storeExpressionResult id g.returnValue).hasReturnValue = f1.hasReturnValue
      ∧ (f1.storeExpressionResult id g.returnValue).returnValue = f1.returnValue
      ∧ (f1.storeExpressionResult id g.returnValue).getExpressionValue id = g.returnValue
      ∧ ∀ e, e ≠ id →
          (f1.storeExpressionResult id g.returnValue).expressionValues e
            = f1.expressionValues e := by
  rw [Visit_callExpr] at hrun
  simp only [VisitCallExpr, bind_apply, Exec.andThen, shouldSkipExecution_cons hs, hret,
    Bool.false_eq_true, if_false] at hrun
  cases h0 : VisitStmt (Visit fns fuel) (.expr (.callExpr id ty callee directCallee args)) s with
  | ok u s0 =>
    obtain ⟨f0, hs0, ht0, -, -⟩ :=
      keeps_VisitStmt (keeps_Visit hcons fuel) _ s f rest u s0 ht hs h0
    have hn1 : ¬ directCallee = s0.inputFunction := fun e =>
      huser (by rw [← ht0]; simp [State.builtins, e])
    have hn2 : ¬ directCallee = s0.outputFunction := fun e =>
      huser (by rw [← ht0]; simp [State.builtins, e])
    have hn3 : ¬ directCallee = s0.mallocFunction := fun e =>
      huser (by rw [← ht0]; simp [State.builtins, e])
    have hn4 : ¬ directCallee = s0.freeFunction := fun e =>
      huser (by rw [← ht0]; simp [State.builtins, e])
    have hpf := @processFunctionCall_cons fns evaluateExpression id directCallee
      args s0 f0 rest hs0
    rw [if_neg hn1, if_neg hn2, if_neg hn3, if_neg hn4] at hpf
    have hu : isUserDefinedFunction fd = true := (hcons directCallee fd hfind).2 huser
    have hrun2 : (do
        handleUserFunctionCall evaluateExpression args (some fd)
        Visit fns fuel body
        let returnValue := (← back).getReturnValue
        popFrame
        modifyBack (fun f => f.storeExpressionResult id returnValue))
        { s0 with callStack := f0.setCurrentStatement id :: rest } = .ok () s2 := by
      simp only [h0, bind_apply, Exec.andThen, hpf, hfind, hu, hbody, if_true] at hrun
      simp only [bind_apply, Exec.andThen]
      exact hrun
    obtain ⟨vals, s1, f1, s3, g, h1, h2, -, -, h5, h6, h7, -, h9⟩ :=
      user_call_inversion (keeps_Visit hcons fuel) fd body id args
        { s0 with callStack := f0.setCurrentStatement id :: rest } s2
        (f0.setCurrentStatement id) rest ht0 rfl hrun2
    refine ⟨s0, f0, vals, s1, f1, s3, g, rfl, hs0, h1, h2, h5, h6, h7, h9, rfl, rfl, rfl,
      ?_, ?_⟩
    · simp [StackFrame.storeExpressionResult, StackFrame.getExpressionValue]
    · intro e he
      simp [StackFrame.storeExpressionResult, he]
  | exited c s0 => simp [h0, Exec.andThen] at hrun
  | undefinedBehaviour => simp [h0, Exec.andThen] at hrun
  | outOfFuel => simp [h0, Exec.andThen] at hrun

/-- C5 (counterexample): with a return pending in the top frame, evaluating
`x = 5` is not a no-op: it binds `x` to 5 and writes a memo entry. -/
theorem evaluation_ignores_pending_return :
    ∃ s1 f1, evaluateExpression sampleAssignment samplePendingState = .ok 0 s1
      ∧ s1.callStack = [f1]
      ∧ (StackFrame.new.setReturnInfo true 1).hasPendingReturn = true
      ∧ (StackFrame.new.setReturnInfo true 1).variableValues 7 = none
      ∧ f1.variableValues 7 = some 5
      ∧ f1.expressionValues 2 = some 5 := by
  refine ⟨_, _, rfl, rfl, rfl, rfl, ?_, ?_⟩ <;>
    simp [StackFrame.bindVariable, StackFrame.bindExpression, sampleIntDecl]

/-- C5 (amended): the evaluator does not test the pending-return flag. What
an evaluation that returns leaves unchanged is the pending-return flag and
value of the top frame and every frame below the top; its other effects are
made whatever the flag: with or without a return pending, evaluating an
assignment of a literal to a variable binds the variable. -/
theorem evaluation_keeps_pending_return (e : Expr) (s s1 : State) (v : Int) (f : StackFrame)
    (rest : List StackFrame) (hs : s.callStack = f :: rest)
    (hrun : evaluateExpression e s = .ok v s1) :
    (∃ f1, s1.callStack = f1 :: rest
        ∧ f1.hasReturnValue = f.hasReturnValue ∧ f1.returnValue = f.returnValue)
      ∧ ∀ (id lid : Nat) (ty lty : QualType) (x : NamedDecl) (w : Int),
          ∃ s2 f2, evaluateExpression
              (.binaryOperator id ty .BO_Assign (.declRefExpr lid lty x)
                (.integerLiteral .intTy w)) s = .ok (f2.getExpressionValue id) s2
            ∧ s2.callStack = f2 :: rest
            ∧ f2.variableValues x.id = some w := by
  constructor
  · obtain ⟨f1, h1, -, -, h2⟩ :=
      @keeps_evaluateExpression s.builtins true e s f rest v s1 rfl hs hrun
    exact ⟨f1, h1, (h2 rfl).1, (h2 rfl).2⟩
  · intro id lid ty lty x w
    simp [evaluateExpression_binary, evaluateBinaryExpr, evaluateBinaryOperation,
      BinaryOpcode.isAssignmentOp, handleAssignment, evaluateExpression_integerLiteral,
      Exec.andThen, modifyBack, back, hs, StackFrame.bindExpression, StackFrame.bindVariable]
    exact ⟨_, _, ⟨rfl, rfl⟩, rfl, by simp⟩

theorem evaluation_keeps_pending_return_witness :
    (∃ f1, ({ samplePendingState with
          callStack := [((StackFrame.new.setReturnInfo true 1).bindExpression 2 5).bindVariable
            7 5] } : State).callStack = f1 :: []
        ∧ f1.hasReturnValue = (StackFrame.new.setReturnInfo true 1).hasReturnValue
        ∧ f1.returnValue = (StackFrame.new.setReturnInfo true 1).returnValue)
      ∧ ∀ (id lid : Nat) (ty lty : QualType) (x : NamedDecl) (w : Int),
          ∃ s2 f2, evaluateExpression
              (.binaryOperator id ty .BO_Assign (.declRefExpr lid lty x)
                (.integerLiteral .intTy w)) samplePendingState
              = .ok (f2.getExpressionValue id) s2
            ∧ s2.callStack = f2 :: []
            ∧ f2.variableValues x.id = some w :=
  evaluation_keeps_pending_return sampleAssignment samplePendingState
    { samplePendingState with
        callStack := [((StackFrame.new.setReturnInfo true 1).bindExpression 2 5).bindVariable
          7 5] }
    0 (StackFrame.new.setReturnInfo true 1) [] rfl rfl

end Discipline
/-! ## A built-in redeclared after its use -/

section Stale

open Exec

/-- C7: a call through a declaration that bears the name of a built-in but
is not the declaration registered for it (the built-in was declared again
further down) pushes a frame that is never popped: `processFunctionCall`
compares the callee pointer with the table and takes the user-function
path, `VisitCallExpr` tests the name and skips the body, the pop and the
record of the result. The walk over the call completes with one frame more
than at the start. -/
theorem stale_builtin_leaves_frame (fns : List FunctionDecl) (fuel : Nat) (fd : FunctionDecl)
    (callId function : Nat) (ty : QualType) (callee : Expr) (args : List Expr)
    (vals : List Int) (s s0 s1 s2 : State) (f f0 : StackFrame) (rest : List StackFrame)
    (hfind : findFunction fns (some function) = some fd)
    (hname : isUserDefinedFunction fd = false)
    (hin : s0.inputFunction ≠ some function) (hout : s0.outputFunction ≠ some function)
    (hmalloc : s0.mallocFunction ≠ some function) (hfree : s0.freeFunction ≠ some function)
    (hs : s.callStack = f :: rest) (hret : f.hasReturnValue = false)
    (hwalk : VisitStmt (Visit fns fuel)
        (.expr (.callExpr callId ty callee (some function) args)) s = .ok () s0)
    (hs0 : s0.callStack = f0 :: rest)
    (hargs : evaluateArguments evaluateExpression args
        { s0 with callStack := f0.setCurrentStatement callId :: rest } = .ok vals s1)
    (hbind : bindParameters vals fd.params 0
        { s1 with callStack := StackFrame.new :: s1.callStack } = .ok () s2) :
    Visit fns (fuel + 1) (.expr (.callExpr callId ty callee (some function) args)) s
        = .ok () s2
      ∧ ∃ g fa, s2.callStack = g :: fa :: rest
        ∧ s2.callStack.length = s.callStack.length + 1 := by
  have hin1 : ¬ (some function = s0.inputFunction) := fun h => hin h.symm
  have hout1 : ¬ (some function = s0.outputFunction) := fun h => hout h.symm
  have hmalloc1 : ¬ (some function = s0.mallocFunction) := fun h => hmalloc h.symm
  have hfree1 : ¬ (some function = s0.freeFunction) := fun h => hfree h.symm
  obtain ⟨fa, hs1, ht1, -, -⟩ :=
    @keeps_evaluateArguments s0.builtins true evaluateExpression
      (fun e => keeps_evaluateExpression e) args
      { s0 with callStack := f0.setCurrentStatement callId :: rest }
      (f0.setCurrentStatement callId) rest vals s1 rfl rfl hargs
  obtain ⟨g2, hs2, -, -, -⟩ :=
    @keeps_bindParameters s0.builtins true vals fd.params 0
      { s1 with callStack := StackFrame.new :: s1.callStack } StackFrame.new (fa :: rest) ()
      s2 ht1 (by simp [hs1]) hbind
  have hcall := @processFunctionCall_cons fns evaluateExpression callId (some function) args
    s0 f0 rest hs0
  rw [if_neg hin1, if_neg hout1, if_neg hmalloc1, if_neg hfree1, hfind] at hcall
  have huserrun : handleUserFunctionCall evaluateExpression args (some fd)
      { s0 with callStack := f0.setCurrentStatement callId :: rest } = .ok () s2 := by
    simp only [handleUserFunctionCall, bind_apply, Exec.andThen, hargs, pushFrame]
    exact hbind
  rw [huserrun] at hcall
  refine ⟨?_, g2, fa, hs2, ?_⟩
  · rw [Visit_callExpr]
    simp only [VisitCallExpr, bind_apply, Exec.andThen, shouldSkipExecution_cons hs, hret,
      Bool.false_eq_true, if_false, hwalk, hcall, hfind, hname, pure_apply]
  · rw [hs2, hs]
    rfl

theorem stale_builtin_leaves_frame_witness :
    initializeEnvironment evaluateExpression sampleStaleUnit (State.initial (fun _ => 0) 4096 [])
        = .ok () sampleStaleState
    ∧ Visit (functionsOf sampleStaleUnit) (2 + 1) (.expr (callOf 1 2 50)) sampleStaleState
        = .ok ()
          { sampleStaleState with
            callStack :=
              [ StackFrame.new,
                (StackFrame.new.setCurrentStatement 2).setCurrentStatement 1 ] }
    ∧ ∃ g fa,
        ({ sampleStaleState with
            callStack :=
              [ StackFrame.new,
                (StackFrame.new.setCurrentStatement 2).setCurrentStatement 1 ] }
          : State).callStack = g :: fa :: []
        ∧ ({ sampleStaleState with
            callStack :=
              [ StackFrame.new,
                (StackFrame.new.setCurrentStatement 2).setCurrentStatement 1 ] }
          : State).callStack.length = sampleStaleState.callStack.length + 1 :=
  ⟨rfl,
    stale_builtin_leaves_frame (functionsOf sampleStaleUnit) 2
      { id := 50, name := "GET", params := [], body := none } 1 50 .intTy (calleeOf 2 50) []
      [] sampleStaleState
      { sampleStaleState with callStack := [StackFrame.new.setCurrentStatement 2] }
      { sampleStaleState with
          callStack := [(StackFrame.new.setCurrentStatement 2).setCurrentStatement 1] }
      { sampleStaleState with
          callStack :=
            [ StackFrame.new,
              (StackFrame.new.setCurrentStatement 2).setCurrentStatement 1 ] }
      StackFrame.new (StackFrame.new.setCurrentStatement 2) []
      rfl (by decide) (by decide) (by decide) (by decide) (by decide) rfl rfl rfl rfl rfl rfl⟩

/-- C8: a user-defined function whose body calls such a declaration and then
returns `c`: the frame that call pushes is the one the return statement marks
and the one the caller's pop removes, so the result `c` is recorded in the
callee's frame, which stays on the stack as the top frame; the caller's frame
is below it with no entry made for the call, and the walk ends with one
frame more than at the start. -/
theorem stale_builtin_breaks_isolation (fns : List FunctionDecl) (fuel : Nat)
    (fd sd : FunctionDecl) (callId fRef function innerCall innerRef stale : Nat) (c : Int)
    (s : State) (f : StackFrame) (rest : List StackFrame)
    (hfind : findFunction fns (some function) = some fd)
    (hbody : fd.body = some (callsThenReturns innerCall innerRef stale c))
    (hparams : fd.params = []) (huser : isUserDefinedFunction fd = true)
    (hfind2 : findFunction fns (some stale) = some sd)
    (hparams2 : sd.params = []) (hname : isUserDefinedFunction sd = false)
    (hin : s.inputFunction ≠ some function) (hout : s.outputFunction ≠ some function)
    (hmalloc : s.mallocFunction ≠ some function) (hfree : s.freeFunction ≠ some function)
    (hin2 : s.inputFunction ≠ some stale) (hout2 : s.outputFunction ≠ some stale)
    (hmalloc2 : s.mallocFunction ≠ some stale) (hfree2 : s.freeFunction ≠ some stale)
    (hs : s.callStack = f :: rest) (hret : f.hasReturnValue = false) :
    ∃ g fa, Visit fns (fuel + 6) (.expr (callOf callId fRef function)) s
        = .ok () { s with callStack := g :: fa :: rest }
      ∧ g.expressionValues callId = some c
      ∧ fa.expressionValues callId = f.expressionValues callId
      ∧ fa.variableValues = f.variableValues
      ∧ ({ s with callStack := g :: fa :: rest } : State).callStack.length
          = s.callStack.length + 1 := by
  have hin1 : ¬ (some function = s.inputFunction) := fun h => hin h.symm
  have hout1 : ¬ (some function = s.outputFunction) := fun h => hout h.symm
  have hmalloc1 : ¬ (some function = s.mallocFunction) := fun h => hmalloc h.symm
  have hfree1 : ¬ (some function = s.freeFunction) := fun h => hfree h.symm
  have hin3 : ¬ (some stale = s.inputFunction) := fun h => hin2 h.symm
  have hout3 : ¬ (some stale = s.outputFunction) := fun h => hout2 h.symm
  have hmalloc3 : ¬ (some stale = s.mallocFunction) := fun h => hmalloc2 h.symm
  have hfree3 : ¬ (some stale = s.freeFunction) := fun h => hfree2 h.symm
  refine ⟨(((StackFrame.new.setCurrentStatement innerRef).setCurrentStatement
      innerCall).storeExpressionResult callId c),
    (f.setCurrentStatement fRef).setCurrentStatement callId, ?_, ?_, rfl, rfl, ?_⟩
  · simp [callOf, calleeOf, callsThenReturns, Visit_callExpr, VisitCallExpr,
      Visit_compoundStmt, Visit_returnStmt,
      VisitReturnStmt, processReturn, Exec.andThen, shouldSkipExecution,
      StackFrame.hasPendingReturn, hret, StackFrame.new,
      VisitStmt, Stmt.children, Expr.children, visitChildren, Visit_implicitCastExpr,
      Visit_declRefExpr, VisitDeclRefExpr, Visit_integerLiteral, processDeclRefExpr,
      modifyBack, back, hs, StackFrame.setCurrentStatement, StackFrame.bindExpression,
      processFunctionCall, hin1, hout1, hmalloc1, hfree1, hin3, hout3, hmalloc3, hfree3,
      handleUserFunctionCall,
      evaluateArguments, pushFrame, popFrame, bindParameters, hparams, hfind, huser, hbody,
      hparams2, hfind2, hname,
      StackFrame.setReturnInfo, StackFrame.getReturnValue,
      evaluateExpression_integerLiteral, StackFrame.storeExpressionResult]
  · simp [StackFrame.storeExpressionResult]
  · simp [hs]

theorem stale_builtin_breaks_isolation_witness :
    ∃ g fa, Visit (functionsOf sampleStaleUnit) (0 + 6) (.expr (callOf 3 4 100))
          sampleStaleState
        = .ok () { sampleStaleState with callStack := g :: fa :: [] }
      ∧ g.expressionValues 3 = some 42
      ∧ fa.expressionValues 3 = StackFrame.new.expressionValues 3
      ∧ fa.variableValues = StackFrame.new.variableValues
      ∧ ({ sampleStaleState with callStack := g :: fa :: [] } : State).callStack.length
          = sampleStaleState.callStack.length + 1 :=
  stale_builtin_breaks_isolation (functionsOf sampleStaleUnit) 0
    { id := 100, name := "f", params := [], body := some (callsThenReturns 1 2 50 42) }
    { id := 50, name := "GET", params := [], body := none } 3 4 100 1 2 50 42
    sampleStaleState StackFrame.new [] rfl rfl rfl (by decide) rfl rfl (by decide)
    (by decide) (by decide) (by decide) (by decide) (by decide) (by decide) (by decide)
    (by decide) rfl rfl

end Stale
section EarlyReturn

open Exec

/-- The body `if (cond) return 1; return 2;` run in a frame with no return
pending: the condition is evaluated once, the frame gets 1 as its pending
value when the condition is nonzero and 2 when it is zero, and the statement
after an executed return is skipped. -/
theorem earlyReturnBody_run (fns : List FunctionDecl) (fuel : Nat) (cond : Expr) (v : Int)
    (s2 t1 : State) (g2 g3 : StackFrame) (more : List StackFrame)
    (hs2 : s2.callStack = g2 :: more) (hf2 : g2.hasReturnValue = false)
    (hcond : evaluateExpression cond s2 = .ok v t1)
    (ht1 : t1.callStack = g3 :: more) (hf3 : g3.hasReturnValue = false) :
    Visit fns (fuel + 4) (earlyReturnBody cond) s2
      = .ok () { t1 with
          callStack := g3.setReturnInfo true (if v ≠ 0 then 1 else 2) :: more } := by
  by_cases hv : v = 0
  · simp [earlyReturnBody, Visit_compoundStmt, Visit_returnStmt, Visit_ifStmt, VisitIfStmt,
      VisitReturnStmt, processReturn, Exec.andThen, shouldSkipExecution,
      StackFrame.hasPendingReturn, visitChildren, Visit_integerLiteral,
      modifyBack, back, hs2, hf2, ht1, hf3, StackFrame.setReturnInfo,
      evaluateExpression_integerLiteral, hcond, hv]
  · simp [earlyReturnBody, Visit_compoundStmt, Visit_returnStmt, Visit_ifStmt, VisitIfStmt,
      VisitReturnStmt, processReturn, Exec.andThen, shouldSkipExecution,
      StackFrame.hasPendingReturn, visitChildren, Visit_integerLiteral,
      modifyBack, back, hs2, hf2, ht1, hf3, StackFrame.setReturnInfo,
      evaluateExpression_integerLiteral, hcond, hv]

/-- C3: a call of a user-defined function whose body is
`if (cond) return 1; return 2;`, with any parameters and arguments: once the
walk over the operands of the call has returned, the arguments were
evaluated in the caller's frame and the parameters bound in the new frame,
the call records 1 as its result when `cond`, evaluated in that new frame,
gives a nonzero value, and 2 when it gives zero; the statement after an
executed return is skipped. The result is recorded in the caller's frame as
the argument evaluation left it. -/
theorem early_return (fns : List FunctionDecl) (fuel : Nat) (fd : FunctionDecl)
    (callId function : Nat) (ty : QualType) (callee : Expr) (args : List Expr) (cond : Expr)
    (v : Int) (vals : List Int) (s s0 s1 s2 t1 : State) (f f0 : StackFrame)
    (rest : List StackFrame)
    (hfind : findFunction fns (some function) = some fd)
    (hbody : fd.body = some (earlyReturnBody cond))
    (huser : isUserDefinedFunction fd = true)
    (hin : s0.inputFunction ≠ some function) (hout : s0.outputFunction ≠ some function)
    (hmalloc : s0.mallocFunction ≠ some function) (hfree : s0.freeFunction ≠ some function)
    (hs : s.callStack = f :: rest) (hret : f.hasReturnValue = false)
    (hwalk : VisitStmt (Visit fns (fuel + 4))
        (.expr (.callExpr callId ty callee (some function) args)) s = .ok () s0)
    (hs0 : s0.callStack = f0 :: rest)
    (hargs : evaluateArguments evaluateExpression args
        { s0 with callStack := f0.setCurrentStatement callId :: rest } = .ok vals s1)
    (hbind : bindParameters vals fd.params 0
        { s1 with callStack := StackFrame.new :: s1.callStack } = .ok () s2)
    (hcond : evaluateExpression cond s2 = .ok v t1) :
    ∃ fa, s1.callStack = fa :: rest
      ∧ Visit fns (fuel + 5) (.expr (.callExpr callId ty callee (some function) args)) s
        = .ok () { t1 with
            callStack := fa.storeExpressionResult callId (if v ≠ 0 then 1 else 2) :: rest } := by
  have hin1 : ¬ (some function = s0.inputFunction) := fun h => hin h.symm
  have hout1 : ¬ (some function = s0.outputFunction) := fun h => hout h.symm
  have hmalloc1 : ¬ (some function = s0.mallocFunction) := fun h => hmalloc h.symm
  have hfree1 : ¬ (some function = s0.freeFunction) := fun h => hfree h.symm
  obtain ⟨fa, hs1, ht1, -, -⟩ :=
    @keeps_evaluateArguments s0.builtins true evaluateExpression
      (fun e => keeps_evaluateExpression e) args
      { s0 with callStack := f0.setCurrentStatement callId :: rest }
      (f0.setCurrentStatement callId) rest vals s1 rfl rfl hargs
  obtain ⟨g2, hs2, ht2, -, hr2⟩ :=
    @keeps_bindParameters s0.builtins true vals fd.params 0
      { s1 with callStack := StackFrame.new :: s1.callStack } StackFrame.new (fa :: rest) ()
      s2 ht1 (by simp [hs1]) hbind
  obtain ⟨g3, hs3, -, -, hr3⟩ :=
    @keeps_evaluateExpression s0.builtins true cond s2 g2 (fa :: rest) v t1 ht2 hs2 hcond
  have hf2 : g2.hasReturnValue = false := (hr2 rfl).1
  have hf3 : g3.hasReturnValue = false := ((hr3 rfl).1).trans hf2
  have hbodyrun := earlyReturnBody_run fns fuel cond v s2 t1 g2 g3 (fa :: rest) hs2 hf2 hcond
    hs3 hf3
  have hcall := @processFunctionCall_cons fns evaluateExpression callId (some function) args
    s0 f0 rest hs0
  rw [if_neg hin1, if_neg hout1, if_neg hmalloc1, if_neg hfree1, hfind] at hcall
  have huserrun : handleUserFunctionCall evaluateExpression args (some fd)
      { s0 with callStack := f0.setCurrentStatement callId :: rest } = .ok () s2 := by
    simp only [handleUserFunctionCall, bind_apply, Exec.andThen, hargs, pushFrame]
    exact hbind
  rw [huserrun] at hcall
  refine ⟨fa, hs1, ?_⟩
  rw [Visit_callExpr]
  simp only [VisitCallExpr, bind_apply, Exec.andThen, shouldSkipExecution_cons hs, hret,
    Bool.false_eq_true, if_false, hwalk, hcall, hfind, huser, if_true, hbody, hbodyrun,
    back, popFrame, modifyBack, StackFrame.getReturnValue, StackFrame.setReturnInfo]

theorem early_return_witness :
    (∃ fa,
      ({ sampleState with
          callStack := [(StackFrame.new.setCurrentStatement 5).setCurrentStatement 4] }
        : State).callStack = fa :: []
      ∧ Visit [sampleEarlyReturn] (0 + 5)
          (.expr (.callExpr 4 .intTy (calleeOf 5 100) (some 100) [.integerLiteral .intTy 7]))
          sampleState
        = .ok () { ({ sampleState with
              callStack :=
                [ ((StackFrame.new.bindVariable 60 7).setCurrentStatement 61).bindExpression 61 7,
                  (StackFrame.new.setCurrentStatement 5).setCurrentStatement 4 ] } : State)
            with
            callStack :=
              fa.storeExpressionResult 4 (if (7 : Int) ≠ 0 then 1 else 2) :: [] })
    ∧ (∃ fa,
      ({ sampleState with
          callStack := [(StackFrame.new.setCurrentStatement 5).setCurrentStatement 4] }
        : State).callStack = fa :: []
      ∧ Visit [sampleEarlyReturn] (0 + 5)
          (.expr (.callExpr 4 .intTy (calleeOf 5 100) (some 100) [.integerLiteral .intTy 0]))
          sampleState
        = .ok () { ({ sampleState with
              callStack :=
                [ ((StackFrame.new.bindVariable 60 0).setCurrentStatement 61).bindExpression 61 0,
                  (StackFrame.new.setCurrentStatement 5).setCurrentStatement 4 ] } : State)
            with
            callStack :=
              fa.storeExpressionResult 4 (if (0 : Int) ≠ 0 then 1 else 2) :: [] }) :=
  ⟨early_return [sampleEarlyReturn] 0 sampleEarlyReturn 4 100 .intTy (calleeOf 5 100)
    [.integerLiteral .intTy 7]
    (.implicitCastExpr .intTy
      (.declRefExpr 61 .intTy { id := 60, isVarDecl := true, ty := .intTy }))
    7 [7] sampleState
    { sampleState with callStack := [StackFrame.new.setCurrentStatement 5] }
    { sampleState with
        callStack := [(StackFrame.new.setCurrentStatement 5).setCurrentStatement 4] }
    { sampleState with
        callStack :=
          [ StackFrame.new.bindVariable 60 7,
            (StackFrame.new.setCurrentStatement 5).setCurrentStatement 4 ] }
    { sampleState with
        callStack :=
          [ ((StackFrame.new.bindVariable 60 7).setCurrentStatement 61).bindExpression 61 7,
            (StackFrame.new.setCurrentStatement 5).setCurrentStatement 4 ] }
    StackFrame.new (StackFrame.new.setCurrentStatement 5) []
    rfl rfl (by decide) (by decide) (by decide) (by decide) (by decide) rfl rfl rfl rfl rfl rfl
    rfl,
    early_return [sampleEarlyReturn] 0 sampleEarlyReturn 4 100 .intTy (calleeOf 5 100)
    [.integerLiteral .intTy 0]
    (.implicitCastExpr .intTy
      (.declRefExpr 61 .intTy { id := 60, isVarDecl := true, ty := .intTy }))
    0 [0] sampleState
    { sampleState with callStack := [StackFrame.new.setCurrentStatement 5] }
    { sampleState with
        callStack := [(StackFrame.new.setCurrentStatement 5).setCurrentStatement 4] }
    { sampleState with
        callStack :=
          [ StackFrame.new.bindVariable 60 0,
            (StackFrame.new.setCurrentStatement 5).setCurrentStatement 4 ] }
    { sampleState with
        callStack :=
          [ ((StackFrame.new.bindVariable 60 0).setCurrentStatement 61).bindExpression 61 0,
            (StackFrame.new.setCurrentStatement 5).setCurrentStatement 4 ] }
    StackFrame.new (StackFrame.new.setCurrentStatement 5) []
    rfl rfl (by decide) (by decide) (by decide) (by decide) (by decide) rfl rfl rfl rfl rfl rfl
    rfl⟩

end EarlyReturn
/-! ## The protocol of a call -/

section CallProtocol

open Exec

theorem evaluateArguments_of_ArgumentsEvaluate (args : List Expr) :
    ∀ (s : State) (vals : List Int) (s1 : State), ArgumentsEvaluate args s vals s1 →
      evaluateArguments evaluateExpression args s = .ok vals s1 ∧ vals.length = args.length := by
  induction args with
  | nil =>
    intro s vals s1 h
    obtain ⟨h1, h2⟩ := h
    subst h1 h2
    exact ⟨rfl, rfl⟩
  | cons a as ih =>
    intro s vals s1 h
    obtain ⟨v, s', vs, h1, h2, h3⟩ := h
    obtain ⟨h4, h5⟩ := ih s' vs s1 h2
    subst h3
    refine ⟨?_, by simp [h5]⟩
    simp [evaluateArguments, Exec.andThen, h1, h4]

/-- The loop of `bindParameters` on a top frame `g0`: parameter `j` of the
rest of the list receives argument `i + j`, nothing else changes. -/
theorem bindParameters_ok (vals : List Int) (params : List Nat) :
    ∀ (i : Nat) (s : State) (g0 : StackFrame) (more : List StackFrame),
      s.callStack = g0 :: more → i + params.length ≤ vals.length → params.Nodup →
      ∃ g, bindParameters vals params i s = .ok () { s with callStack := g :: more }
        ∧ (∀ (j : Nat) (p : Nat), params[j]? = some p → g.variableValues p = vals[i + j]?)
        ∧ (∀ d, d ∉ params → g.variableValues d = g0.variableValues d)
        ∧ g.expressionValues = g0.expressionValues
        ∧ g.currentStatement = g0.currentStatement
        ∧ g.hasReturnValue = g0.hasReturnValue
        ∧ g.returnValue = g0.returnValue := by
  induction params with
  | nil =>
    intro i s g0 more hs _ _
    refine ⟨g0, ?_, ?_, fun _ _ => rfl, rfl, rfl, rfl, rfl⟩
    · simp only [bindParameters, pure_apply]
      rw [← hs]
    · intro j p h
      simp at h
  | cons p ps ih =>
    intro i s g0 more hs hlen hnd
    have hi : i < vals.length := by
      simp only [List.length_cons] at hlen
      omega
    have hget : vals[i]? = some vals[i] := List.getElem?_eq_getElem hi
    obtain ⟨hp, hnd'⟩ := List.nodup_cons.mp hnd
    obtain ⟨g, hrun, hb, hk, he, hc, hr, hv⟩ := ih (i + 1)
      { s with callStack := g0.bindVariable p vals[i] :: more }
      (g0.bindVariable p vals[i]) more rfl
      (by simp only [List.length_cons] at hlen; omega) hnd'
    refine ⟨g, ?_, ?_, ?_, he, hc, hr, hv⟩
    · simp only [bindParameters, hget, bind_apply, Exec.andThen, modifyBack, hs]
      exact hrun
    · intro j q hq
      cases j with
      | zero =>
        simp only [List.getElem?_cons_zero, Option.some.injEq] at hq
        subst hq
        rw [hk p hp]
        simp [StackFrame.bindVariable, hget]
      | succ j =>
        simp only [List.getElem?_cons_succ] at hq
        rw [hb j q hq]
        congr 1
        omega
    · intro d hd
      have hd1 : d ≠ p := fun e => hd (by simp [e])
      have hd2 : d ∉ ps := fun e => hd (by simp [e])
      rw [hk d hd2]
      simp [StackFrame.bindVariable, hd1]

/-- C6: for a call of a user-defined function with as many arguments as
parameters, `processFunctionCall` evaluates the arguments from left to right
in the caller's frame and then pushes a new frame in which parameter `j` is
bound to the value of argument `j`, no other variable is bound, the memo is
empty, no return is pending and the return value is 0; this is the frame in
which the visitor then walks the body. -/
theorem call_protocol (fns : List FunctionDecl) (fd : FunctionDecl) (id : Nat)
    (directCallee : Option Nat) (args : List Expr) (vals : List Int) (s s1 : State)
    (f : StackFrame) (rest : List StackFrame)
    (hs : s.callStack = f :: rest) (huser : directCallee ∉ s.builtins)
    (hfind : findFunction fns directCallee = some fd)
    (hlen : fd.params.length = args.length) (hnodup : fd.params.Nodup)
    (hargs : ArgumentsEvaluate args
      { s with callStack := f.setCurrentStatement id :: rest } vals s1) :
    ∃ g, processFunctionCall fns evaluateExpression id directCallee args s
        = .ok () { s1 with callStack := g :: s1.callStack }
      ∧ (∀ (j : Nat) (p : Nat) (v : Int), fd.params[j]? = some p → vals[j]? = some v → g.variableValues p = some v)
      ∧ (∀ d, d ∉ fd.params → g.variableValues d = none)
      ∧ g.expressionValues = (fun _ => none)
      ∧ g.hasReturnValue = false
      ∧ g.returnValue = 0 := by
  have hn1 : ¬ directCallee = s.inputFunction := fun e =>
    huser (by simp [State.builtins, e])
  have hn2 : ¬ directCallee = s.outputFunction := fun e =>
    huser (by simp [State.builtins, e])
  have hn3 : ¬ directCallee = s.mallocFunction := fun e =>
    huser (by simp [State.builtins, e])
  have hn4 : ¬ directCallee = s.freeFunction := fun e =>
    huser (by simp [State.builtins, e])
  obtain ⟨hev, hvl⟩ := evaluateArguments_of_ArgumentsEvaluate args _ vals s1 hargs
  obtain ⟨g, hrun, hb, hk, he, -, hr, hv⟩ := bindParameters_ok vals fd.params 0
    { s1 with callStack := StackFrame.new :: s1.callStack } StackFrame.new s1.callStack rfl
    (by omega) hnodup
  refine ⟨g, ?_, ?_, ?_, he, hr, hv⟩
  · rw [processFunctionCall_cons evaluateExpression id directCallee args s f rest hs,
      if_neg hn1, if_neg hn2, if_neg hn3, if_neg hn4, hfind]
    simp only [handleUserFunctionCall, bind_apply, Exec.andThen, hev, pushFrame]
    exact hrun
  · intro j p v hp hval
    rw [hb j p hp]
    simpa using hval
  · intro d hd
    rw [hk d hd]
    rfl

theorem call_protocol_witness :
    ∃ g, processFunctionCall [{ id := 100, name := "f", params := [20, 21], body := none }]
          evaluateExpression 1 (some 100)
          [.integerLiteral .intTy 5, .integerLiteral .intTy 6] sampleState
        = .ok () { ({ sampleState with callStack := [StackFrame.new.setCurrentStatement 1] }
              : State) with
            callStack := g :: [StackFrame.new.setCurrentStatement 1] }
      ∧ (∀ (j : Nat) (p : Nat) (v : Int), [20, 21][j]? = some p → [(5 : Int), 6][j]? = some v
          → g.variableValues p = some v)
      ∧ (∀ d, d ∉ [20, 21] → g.variableValues d = none)
      ∧ g.expressionValues = (fun _ => none)
      ∧ g.hasReturnValue = false
      ∧ g.returnValue = 0 :=
  call_protocol [{ id := 100, name := "f", params := [20, 21], body := none }]
    { id := 100, name := "f", params := [20, 21], body := none } 1 (some 100)
    [.integerLiteral .intTy 5, .integerLiteral .intTy 6] [5, 6] sampleState
    { sampleState with callStack := [StackFrame.new.setCurrentStatement 1] }
    StackFrame.new [] rfl (by decide) rfl rfl (by decide)
    ⟨5, _, [6], rfl, ⟨6, _, [], rfl, ⟨rfl, rfl⟩, rfl⟩, rfl⟩

end CallProtocol
/-! ## Where bindings are made and looked up -/

section Bindings

open Exec

theorem keepsBelow_of_keeps {α : Type} {x : Exec α}
    (h : ∀ table, @Keeps table true α x) : KeepsBelow x := by
  intro s f rest a s1 hs hx
  obtain ⟨f1, h1, -⟩ := h s.builtins s f rest a s1 rfl hs hx
  exact ⟨f1, h1⟩

theorem keepsBelow_bind {α β : Type} {x : Exec α} {g : α → Exec β}
    (hx : KeepsBelow x) (hg : ∀ a, KeepsBelow (g a)) : KeepsBelow (x >>= g) := by
  intro s f rest b s2 hs h
  simp only [bind_apply, Exec.andThen] at h
  cases hxs : x s with
  | ok a s1 =>
    rw [hxs] at h
    obtain ⟨f1, hs1⟩ := hx s f rest a s1 hs hxs
    exact hg a s1 f1 rest b s2 hs1 h
  | exited c s1 => rw [hxs] at h; cases h
  | undefinedBehaviour => rw [hxs] at h; cases h
  | outOfFuel => rw [hxs] at h; cases h

theorem keepsBelow_evaluateExpression (e : Expr) : KeepsBelow (evaluateExpression e) :=
  keepsBelow_of_keeps (fun _ => keeps_evaluateExpression e)

theorem keepsBelow_initializeDecl (decl : TopLevelDecl) :
    KeepsBelow (initializeDecl evaluateExpression decl) := by
  rcases decl with fd | vd | _
  · intro s f rest a s1 hs h
    simp only [initializeDecl] at h
    split at h
    · cases h; exact ⟨f, hs⟩
    · split at h
      · cases h; exact ⟨f, hs⟩
      · split at h
        · cases h; exact ⟨f, hs⟩
        · split at h
          · cases h; exact ⟨f, hs⟩
          · split at h
            · cases h; exact ⟨f, hs⟩
            · cases h; exact ⟨f, hs⟩
  · apply keepsBelow_of_keeps
    intro table
    simp only [initializeDecl]
    split
    · split
      · exact keeps_bind (keeps_evaluateExpression _) (fun _ => keeps_bindVariable _ _)
      · exact keeps_bindVariable _ _
    · exact keeps_pure _
  · apply keepsBelow_of_keeps
    intro table
    exact keeps_pure _

theorem keepsBelow_initializeDecls (unit : List TopLevelDecl) :
    KeepsBelow (initializeDecls evaluateExpression unit) := by
  induction unit with
  | nil => exact keepsBelow_of_keeps (fun _ => keeps_pure _)
  | cons d ds ih => exact keepsBelow_bind (keepsBelow_initializeDecl d) (fun _ => ih)

/-- The run of `initialize` pushes one frame and leaves it on top: the
frame the globals are bound in is the bottom frame of the run. -/
theorem initializeEnvironment_one_frame (unit : List TopLevelDecl) (s s1 : State)
    (h : initializeEnvironment evaluateExpression unit s = .ok () s1) :
    ∃ bottom, s1.callStack = bottom :: s.callStack := by
  simp only [initializeEnvironment, bind_apply, Exec.andThen, pushFrame] at h
  exact keepsBelow_initializeDecls unit _ StackFrame.new s.callStack () s1 rfl h

/-- What a completed run of `bindParameters` did: only the top frame
changed, in it only the parameters were bound, and distinct parameters
received the arguments of their positions. -/
theorem bindParameters_run (vals : List Int) (params : List Nat) :
    ∀ (i : Nat) (s s2 : State) (g0 : StackFrame) (more : List StackFrame),
      s.callStack = g0 :: more → bindParameters vals params i s = .ok () s2 →
      ∃ g, s2 = { s with callStack := g :: more }
        ∧ (∀ d, d ∉ params → g.variableValues d = g0.variableValues d)
        ∧ (params.Nodup → ∀ (j : Nat) (p : Nat), params[j]? = some p →
            g.variableValues p = vals[i + j]?) := by
  induction params with
  | nil =>
    intro i s s2 g0 more hs h
    simp only [bindParameters, pure_apply, Outcome.ok.injEq, true_and] at h
    subst h
    refine ⟨g0, ?_, fun _ _ => rfl, fun _ j p hp => by simp at hp⟩
    rw [← hs]
  | cons p ps ih =>
    intro i s s2 g0 more hs h
    cases hv : vals[i]? with
    | none =>
      simp only [bindParameters, hv] at h
      cases h
    | some v =>
      simp only [bindParameters, hv, bind_apply, Exec.andThen, modifyBack, hs] at h
      obtain ⟨g, hg, hk, hb⟩ := ih (i + 1) _ s2 (g0.bindVariable p v) more rfl h
      refine ⟨g, hg, ?_, ?_⟩
      · intro d hd
        have hd1 : d ≠ p := fun e => hd (by simp [e])
        have hd2 : d ∉ ps := fun e => hd (by simp [e])
        rw [hk d hd2]
        simp [StackFrame.bindVariable, hd1]
      · intro hnd j q hq
        obtain ⟨hp, hnd1⟩ := List.nodup_cons.mp hnd
        cases j with
        | zero =>
          simp only [List.getElem?_cons_zero, Option.some.injEq] at hq
          subst hq
          rw [hk p hp]
          simp [StackFrame.bindVariable, hv]
        | succ j =>
          simp only [List.getElem?_cons_succ] at hq
          rw [hb hnd1 j q hq]
          congr 1
          omega

/-- What a completed `processFunctionCall` of a function that is not in the
built-in table did: the arguments were evaluated in the caller's frame, a
new frame was pushed above it, and in the new frame the parameters, and no
other variable, were bound. -/
theorem user_call_entry (fns : List FunctionDecl) (callId : Nat) (directCallee : Option Nat)
    (fd : FunctionDecl) (args : List Expr) (s0 s2 : State) (f0 : StackFrame)
    (rest : List StackFrame)
    (hs0 : s0.callStack = f0 :: rest) (hnot : directCallee ∉ s0.builtins)
    (hfind : findFunction fns directCallee = some fd)
    (hcall : processFunctionCall fns evaluateExpression callId directCallee args s0
      = .ok () s2) :
    ∃ vals s1 fa g0,
      evaluateArguments evaluateExpression args
          { s0 with callStack := f0.setCurrentStatement callId :: rest } = .ok vals s1
      ∧ s1.callStack = fa :: rest
      ∧ s2 = { s1 with callStack := g0 :: fa :: rest }
      ∧ (∀ d, d ∉ fd.params → g0.variableValues d = none)
      ∧ (fd.params.Nodup → ∀ (j : Nat) (p : Nat), fd.params[j]? = some p →
          g0.variableValues p = vals[j]?) := by
  have hn1 : ¬ directCallee = s0.inputFunction := fun e =>
    hnot (by simp [State.builtins, e])
  have hn2 : ¬ directCallee = s0.outputFunction := fun e =>
    hnot (by simp [State.builtins, e])
  have hn3 : ¬ directCallee = s0.mallocFunction := fun e =>
    hnot (by simp [State.builtins, e])
  have hn4 : ¬ directCallee = s0.freeFunction := fun e =>
    hnot (by simp [State.builtins, e])
  rw [processFunctionCall_cons evaluateExpression callId directCallee args s0 f0 rest hs0,
    if_neg hn1, if_neg hn2, if_neg hn3, if_neg hn4, hfind] at hcall
  simp only [handleUserFunctionCall, bind_apply, Exec.andThen] at hcall
  cases hargs : evaluateArguments evaluateExpression args
      { s0 with callStack := f0.setCurrentStatement callId :: rest } with
  | ok vals s1 =>
    rw [hargs] at hcall
    simp only [pushFrame] at hcall
    obtain ⟨fa, hs1, -⟩ :=
      @keeps_evaluateArguments s0.builtins true evaluateExpression
        (fun e => keeps_evaluateExpression e) args
        { s0 with callStack := f0.setCurrentStatement callId :: rest }
        (f0.setCurrentStatement callId) rest vals s1 rfl rfl hargs
    obtain ⟨g, hg, hk, hb⟩ := bindParameters_run vals fd.params 0
      { s1 with callStack := StackFrame.new :: s1.callStack } s2 StackFrame.new s1.callStack
      rfl hcall
    refine ⟨vals, s1, fa, g, rfl, hs1, ?_, ?_, ?_⟩
    · rw [hg, hs1]
    · intro d hd
      rw [hk d hd]
      rfl
    · intro hnd j p hp
      rw [hb hnd j p hp]
      simp
  | exited c s1 => rw [hargs] at hcall; cases hcall
  | undefinedBehaviour => rw [hargs] at hcall; cases hcall
  | outOfFuel => rw [hargs] at hcall; cases hcall

/-- The end of a call of a user-defined function: when the body has run, the
top frame is dropped with everything bound in it and the frame below it
receives the return value as the memo entry of the call. -/
theorem user_call_pops (fns : List FunctionDecl) (fuel : Nat) (fd : FunctionDecl)
    (body : Stmt) (callId : Nat) (directCallee : Option Nat) (ty : QualType) (callee : Expr)
    (args : List Expr) (s s0 s2 s3 : State) (f g fb : StackFrame)
    (rest more : List StackFrame)
    (hfind : findFunction fns directCallee = some fd)
    (hbody : fd.body = some body) (huser : isUserDefinedFunction fd = true)
    (hs : s.callStack = f :: rest) (hret : f.hasReturnValue = false)
    (hwalk : VisitStmt (Visit fns fuel) (.expr (.callExpr callId ty callee directCallee args))
        s = .ok () s0)
    (hcall : processFunctionCall fns evaluateExpression callId directCallee args s0
      = .ok () s2)
    (hrun : Visit fns fuel body s2 = .ok () s3)
    (hs3 : s3.callStack = g :: fb :: more) :
    Visit fns (fuel + 1) (.expr (.callExpr callId ty callee directCallee args)) s
      = .ok () { s3 with
          callStack := fb.storeExpressionResult callId g.getReturnValue :: more } := by
  rw [Visit_callExpr]
  simp only [VisitCallExpr, bind_apply, Exec.andThen, shouldSkipExecution_cons hs, hret,
    Bool.false_eq_true, if_false, hwalk, hcall, hfind, huser, if_true, hbody, hrun,
    back, popFrame, modifyBack, hs3, pure_apply]

/-- A reference to a variable of integer or pointer type reads the binding
of the top frame, 0 when the top frame has none, whatever the frames below
bind. -/
theorem reference_reads_top (ref : Nat) (ty : QualType) (x : NamedDecl) (t : State)
    (top : StackFrame) (below : List StackFrame) (ht : t.callStack = top :: below)
    (hty : (ty.isIntegerType || ty.isPointerType) = true) :
    evaluateExpression (.declRefExpr ref ty x) t
      = .ok (top.getVariableValue x.id)
          { t with callStack :=
              (top.setCurrentStatement ref).bindExpression ref (top.getVariableValue x.id)
                :: below } := by
  simp [evaluateExpression_declRef, evaluateDeclRefExpr, processDeclRefExpr, Exec.andThen,
    modifyBack, back, ht, hty, StackFrame.setCurrentStatement, StackFrame.bindExpression,
    StackFrame.getExpressionValue, StackFrame.getVariableValue]

/-- An assignment to a variable binds it in the top frame the right-hand
side left. -/
theorem assignment_binds_top (id : Nat) (op : BinaryOpcode) (ref : Nat)
    (lty : QualType) (x : NamedDecl) (rhs : Expr) (t t1 : State) (r : Int) (top1 : StackFrame)
    (below : List StackFrame) (hop : op.isAssignmentOp = true)
    (hr : evaluateExpression rhs t = .ok r t1) (ht1 : t1.callStack = top1 :: below) :
    evaluateBinaryOperation evaluateExpression id op (.declRefExpr ref lty x) rhs t
      = .ok () { t1 with
          callStack := (top1.bindExpression ref r).bindVariable x.id r :: below } := by
  simp [evaluateBinaryOperation, hop, handleAssignment, Exec.andThen, hr, ht1, modifyBack]

end Bindings
section Lookup

open Exec

/-- C25: variable lookup consults only the top frame. A reference to a
variable `g` of integer or pointer type evaluates to the binding of `g` in
the top frame whatever the frames below bind `g` to, and so to 0 in a state
whose top frame has no binding for `g`.
The frame pushed by a call of a function that is not in the built-in table
has no binding for a variable that is not a parameter, so this is the state
inside a callee that has not assigned `g`, for every body, parameter list
and argument list and whatever built-ins are registered. An assignment to
`g` with any right-hand side binds `g` in the top frame and leaves every
frame below, the bottom frame among them, as it was. So, with the caller's
frame binding `g` to `w`, a call of a function whose body is `return g;`
records 0 as the result of the call, and a call of a function whose body is
`g = w2;` leaves the variable bindings of the caller's frame as they
were. -/
theorem lookup_only_in_top_frame (fns : List FunctionDecl) (fuel : Nat)
    (rd wr : FunctionDecl) (g : NamedDecl) (w w2 : Int)
    (call1 fRef1 reader gRef1 call2 fRef2 writer assignId gRef2 : Nat)
    (s : State) (f : StackFrame) (rest : List StackFrame)
    (hfind1 : findFunction fns (some reader) = some rd)
    (hbody1 : rd.body = some (readerBody gRef1 g)) (hparams1 : rd.params = [])
    (huser1 : isUserDefinedFunction rd = true)
    (hfind2 : findFunction fns (some writer) = some wr)
    (hbody2 : wr.body = some (writerBody assignId gRef2 g w2)) (hparams2 : wr.params = [])
    (huser2 : isUserDefinedFunction wr = true)
    (hnot1 : some reader ∉ s.builtins) (hnot2 : some writer ∉ s.builtins)
    (hs : s.callStack = f :: rest) (hret : f.hasReturnValue = false)
    (hg : f.variableValues g.id = some w) :
    (∀ (t : State) (top : StackFrame) (below : List StackFrame) (ref : Nat)
        (ty cty : QualType),
        t.callStack = top :: below → (ty.isIntegerType || ty.isPointerType) = true →
        evaluateExpression (.declRefExpr ref ty g) t
            = .ok (top.getVariableValue g.id)
                { t with
                    callStack :=
                      (top.setCurrentStatement ref).bindExpression ref
                        (top.getVariableValue g.id) :: below }
          ∧ evaluateExpression (.implicitCastExpr cty (.declRefExpr ref ty g)) t
            = .ok (top.getVariableValue g.id)
                { t with
                    callStack :=
                      (top.setCurrentStatement ref).bindExpression ref
                        (top.getVariableValue g.id) :: below }
          ∧ (top.variableValues g.id = none → top.getVariableValue g.id = 0))
    ∧ (∀ (callId : Nat) (directCallee : Option Nat) (fd : FunctionDecl) (args : List Expr)
        (t t2 : State) (caller : StackFrame) (below : List StackFrame),
        t.callStack = caller :: below → directCallee ∉ t.builtins →
        findFunction fns directCallee = some fd → g.id ∉ fd.params →
        processFunctionCall fns evaluateExpression callId directCallee args t = .ok () t2 →
        ∃ top caller1, t2.callStack = top :: caller1 :: below
          ∧ top.variableValues g.id = none)
    ∧ (∀ (t t1 : State) (top : StackFrame) (below : List StackFrame) (id : Nat)
        (op : BinaryOpcode) (ref : Nat) (lty : QualType) (rhs : Expr) (r : Int),
        op.isAssignmentOp = true → t.callStack = top :: below →
        evaluateExpression rhs t = .ok r t1 →
        ∃ top1, t1.callStack = top1 :: below
          ∧ evaluateBinaryOperation evaluateExpression id op (.declRefExpr ref lty g) rhs t
            = .ok () { t1 with
                callStack := (top1.bindExpression ref r).bindVariable g.id r :: below })
    ∧ (∃ f1, Visit fns (fuel + 5) (.expr (callOf call1 fRef1 reader)) s
        = .ok () { s with callStack := f1 :: rest }
      ∧ f1.getExpressionValue call1 = 0
      ∧ f1.variableValues = f.variableValues)
    ∧ (∃ f2, Visit fns (fuel + 5) (.expr (callOf call2 fRef2 writer)) s
        = .ok () { s with callStack := f2 :: rest }
      ∧ f2.variableValues = f.variableValues
      ∧ f2.getVariableValue g.id = w) := by
  have hr1 : ¬ (some reader = s.inputFunction) := fun e =>
    hnot1 (by simp [State.builtins, e])
  have hr2 : ¬ (some reader = s.outputFunction) := fun e =>
    hnot1 (by simp [State.builtins, e])
  have hr3 : ¬ (some reader = s.mallocFunction) := fun e =>
    hnot1 (by simp [State.builtins, e])
  have hr4 : ¬ (some reader = s.freeFunction) := fun e =>
    hnot1 (by simp [State.builtins, e])
  have hw1 : ¬ (some writer = s.inputFunction) := fun e =>
    hnot2 (by simp [State.builtins, e])
  have hw2 : ¬ (some writer = s.outputFunction) := fun e =>
    hnot2 (by simp [State.builtins, e])
  have hw3 : ¬ (some writer = s.mallocFunction) := fun e =>
    hnot2 (by simp [State.builtins, e])
  have hw4 : ¬ (some writer = s.freeFunction) := fun e =>
    hnot2 (by simp [State.builtins, e])
  refine ⟨?_, ?_, ?_, ?_, ?_⟩
  · intro t top below ref ty cty ht hty
    have h := reference_reads_top ref ty g t top below ht hty
    refine ⟨h, by rw [evaluateExpression_implicitCast]; exact h, fun hnone => ?_⟩
    simp [StackFrame.getVariableValue, hnone]
  · intro callId directCallee fd args t t2 caller below ht hnot hfind hparam hcall
    obtain ⟨vals, t1, fa, g0, -, -, h2, hk, -⟩ :=
      user_call_entry fns callId directCallee fd args t t2 caller below ht hnot hfind hcall
    exact ⟨g0, fa, by rw [h2], hk g.id hparam⟩
  · intro t t1 top below id op ref lty rhs r hop ht hr
    obtain ⟨top1, ht1⟩ := keepsBelow_evaluateExpression rhs t top below r t1 ht hr
    exact ⟨top1, ht1, assignment_binds_top id op ref lty g rhs t t1 r top1 below hop hr ht1⟩
  · simp [callOf, calleeOf, readerBody, Visit_callExpr, VisitCallExpr, Visit_compoundStmt,
      Visit_returnStmt, VisitReturnStmt, processReturn, Exec.andThen, shouldSkipExecution,
      StackFrame.hasPendingReturn, hret, StackFrame.new,
      VisitStmt, Stmt.children, Expr.children, visitChildren, Visit_implicitCastExpr,
      Visit_declRefExpr, VisitDeclRefExpr, processDeclRefExpr,
      modifyBack, back, hs, StackFrame.setCurrentStatement, StackFrame.bindExpression,
      processFunctionCall, hr1, hr2, hr3, hr4, handleUserFunctionCall,
      evaluateArguments, pushFrame, popFrame, bindParameters, hparams1, hfind1, huser1,
      hbody1, StackFrame.setReturnInfo, StackFrame.getReturnValue,
      evaluateExpression_implicitCast, evaluateExpression_declRef, evaluateDeclRefExpr,
      StackFrame.storeExpressionResult, StackFrame.getExpressionValue,
      StackFrame.getVariableValue]
  · simp [callOf, calleeOf, writerBody, assignOf, Visit_callExpr, VisitCallExpr,
      Visit_compoundStmt, Visit_binaryOperator, VisitBinaryOperator, Visit_integerLiteral,
      Exec.andThen, shouldSkipExecution,
      StackFrame.hasPendingReturn, hret, StackFrame.new,
      VisitStmt, Stmt.children, Expr.children, visitChildren, Visit_implicitCastExpr,
      Visit_declRefExpr, VisitDeclRefExpr, processDeclRefExpr,
      modifyBack, back, hs, StackFrame.setCurrentStatement, StackFrame.bindExpression,
      processFunctionCall, hw1, hw2, hw3, hw4, handleUserFunctionCall,
      evaluateArguments, pushFrame, popFrame, bindParameters, hparams2, hfind2, huser2,
      hbody2, StackFrame.getReturnValue, evaluateBinaryOperation,
      BinaryOpcode.isAssignmentOp, handleAssignment, evaluateExpression_integerLiteral,
      StackFrame.bindVariable,
      StackFrame.storeExpressionResult, StackFrame.getExpressionValue,
      StackFrame.getVariableValue, hg]

theorem lookup_only_in_top_frame_witness :
    (∀ (t : State) (top : StackFrame) (below : List StackFrame) (ref : Nat)
        (ty cty : QualType),
        t.callStack = top :: below → (ty.isIntegerType || ty.isPointerType) = true →
        evaluateExpression (.declRefExpr ref ty sampleIntDecl) t
            = .ok (top.getVariableValue sampleIntDecl.id)
                { t with
                    callStack :=
                      (top.setCurrentStatement ref).bindExpression ref
                        (top.getVariableValue sampleIntDecl.id) :: below }
          ∧ evaluateExpression (.implicitCastExpr cty (.declRefExpr ref ty sampleIntDecl)) t
            = .ok (top.getVariableValue sampleIntDecl.id)
                { t with
                    callStack :=
                      (top.setCurrentStatement ref).bindExpression ref
                        (top.getVariableValue sampleIntDecl.id) :: below }
          ∧ (top.variableValues sampleIntDecl.id = none → top.getVariableValue sampleIntDecl.id = 0))
    ∧ (∀ (callId : Nat) (directCallee : Option Nat) (fd : FunctionDecl) (args : List Expr)
        (t t2 : State) (caller : StackFrame) (below : List StackFrame),
        t.callStack = caller :: below → directCallee ∉ t.builtins →
        findFunction [sampleReader, sampleWriter] directCallee = some fd →
        sampleIntDecl.id ∉ fd.params →
        processFunctionCall [sampleReader, sampleWriter] evaluateExpression callId
          directCallee args t = .ok () t2 →
        ∃ top caller1, t2.callStack = top :: caller1 :: below
          ∧ top.variableValues sampleIntDecl.id = none)
    ∧ (∀ (t t1 : State) (top : StackFrame) (below : List StackFrame) (id : Nat)
        (op : BinaryOpcode) (ref : Nat) (lty : QualType) (rhs : Expr) (r : Int),
        op.isAssignmentOp = true → t.callStack = top :: below →
        evaluateExpression rhs t = .ok r t1 →
        ∃ top1, t1.callStack = top1 :: below
          ∧ evaluateBinaryOperation evaluateExpression id op
              (.declRefExpr ref lty sampleIntDecl) rhs t
            = .ok () { t1 with
                callStack :=
                  (top1.bindExpression ref r).bindVariable sampleIntDecl.id r :: below })
    ∧ (∃ f1, Visit [sampleReader, sampleWriter] (0 + 5) (.expr (callOf 3 4 103))
          sampleRegisteredState
        = .ok () { sampleRegisteredState with callStack := f1 :: [] }
      ∧ f1.getExpressionValue 3 = 0
      ∧ f1.variableValues = (StackFrame.new.bindVariable 7 7).variableValues)
    ∧ (∃ f2, Visit [sampleReader, sampleWriter] (0 + 5) (.expr (callOf 5 6 101))
          sampleRegisteredState
        = .ok () { sampleRegisteredState with callStack := f2 :: [] }
      ∧ f2.variableValues = (StackFrame.new.bindVariable 7 7).variableValues
      ∧ f2.getVariableValue sampleIntDecl.id = 7) :=
  lookup_only_in_top_frame [sampleReader, sampleWriter] 0 sampleReader sampleWriter
    sampleIntDecl 7 5 3 4 103 1 5 6 101 1 2 sampleRegisteredState
    (StackFrame.new.bindVariable 7 7) [] rfl rfl rfl (by decide) rfl rfl rfl (by decide)
    (by decide) (by decide) rfl rfl rfl

end Lookup
section BindingLocation

open Exec

/-- C19 (amended): every binding is made in the frame that is on top of the
call stack when the binding operation runs. For a call of a user-defined
function: the arguments are evaluated in the caller's frame, the parameters
are bound in the frame pushed for the call and nothing else is bound there,
and when the body has run that frame is dropped with all its bindings while
the frame below it keeps its variable bindings. An assignment binds the
assigned variable, whichever it is, in the top frame; the declaration of a
local scalar or array binds it in the top frame; `initialize` binds a global
scalar in the one frame it pushes, the bottom frame. No evaluation of an
expression and no declaration statement changes a frame below the top. -/
theorem binding_made_in_top_frame (fns : List FunctionDecl) (fuel : Nat) (fd : FunctionDecl)
    (body : Stmt) (callId function : Nat) (ty : QualType) (callee : Expr) (args : List Expr)
    (s s0 s2 s3 : State) (f f0 g fb : StackFrame) (rest more : List StackFrame)
    (hfind : findFunction fns (some function) = some fd)
    (hbody : fd.body = some body) (huser : isUserDefinedFunction fd = true)
    (hnot : some function ∉ s0.builtins) (hnodup : fd.params.Nodup)
    (hs : s.callStack = f :: rest) (hret : f.hasReturnValue = false)
    (hwalk : VisitStmt (Visit fns fuel)
        (.expr (.callExpr callId ty callee (some function) args)) s = .ok () s0)
    (hs0 : s0.callStack = f0 :: rest)
    (hcall : processFunctionCall fns evaluateExpression callId (some function) args s0
      = .ok () s2)
    (hrun : Visit fns fuel body s2 = .ok () s3)
    (hs3 : s3.callStack = g :: fb :: more) :
    (∃ vals s1 fa g0,
        evaluateArguments evaluateExpression args
            { s0 with callStack := f0.setCurrentStatement callId :: rest } = .ok vals s1
        ∧ s1.callStack = fa :: rest
        ∧ s2 = { s1 with callStack := g0 :: fa :: rest }
        ∧ (∀ (j : Nat) (p : Nat), fd.params[j]? = some p → g0.variableValues p = vals[j]?)
        ∧ (∀ d, d ∉ fd.params → g0.variableValues d = none))
    ∧ Visit fns (fuel + 1) (.expr (.callExpr callId ty callee (some function) args)) s
        = .ok () { s3 with
            callStack := fb.storeExpressionResult callId g.getReturnValue :: more }
    ∧ (fb.storeExpressionResult callId g.getReturnValue).variableValues = fb.variableValues
    ∧ (∀ (t t1 : State) (top1 : StackFrame) (below : List StackFrame) (id : Nat)
        (op : BinaryOpcode) (ref : Nat) (lty : QualType) (x : NamedDecl) (rhs : Expr) (r : Int),
        op.isAssignmentOp = true → evaluateExpression rhs t = .ok r t1 →
        t1.callStack = top1 :: below →
        evaluateBinaryOperation evaluateExpression id op (.declRefExpr ref lty x) rhs t
          = .ok () { t1 with
              callStack := (top1.bindExpression ref r).bindVariable x.id r :: below })
    ∧ (∀ (t : State) (top : StackFrame) (below : List StackFrame) (vid : Nat)
        (vty : QualType),
        t.callStack = top :: below → (vty.isIntegerType || vty.isPointerType) = true →
        processDecl evaluateExpression (.varDecl { id := vid, ty := vty, init := none }) t
          = .ok () { t with callStack := top.bindVariable vid 0 :: below })
    ∧ (∀ (t t1 : State) (top1 : StackFrame) (below : List StackFrame) (vid : Nat)
        (vty : QualType) (init : Expr) (v : Int),
        (vty.isIntegerType || vty.isPointerType) = true →
        evaluateExpression init t = .ok v t1 → t1.callStack = top1 :: below →
        processDecl evaluateExpression (.varDecl { id := vid, ty := vty, init := some init }) t
          = .ok () { t1 with callStack := top1.bindVariable vid v :: below })
    ∧ (∀ (t : State) (top : StackFrame) (below : List StackFrame) (vid : Nat)
        (elem : QualType) (size : Nat) (init : Option Expr),
        t.callStack = top :: below →
        ∃ t1, processDecl evaluateExpression
              (.varDecl { id := vid, ty := .constantArrayTy elem size, init := init }) t
            = .ok () t1
          ∧ t1.callStack = top.bindVariable vid (wrap64 t.nextAlloc) :: below)
    ∧ (∀ (unit : List TopLevelDecl) (t t1 : State),
        initializeEnvironment evaluateExpression unit t = .ok () t1 →
        ∃ bottom, t1.callStack = bottom :: t.callStack)
    ∧ (∀ (t : State) (top : StackFrame) (below : List StackFrame) (vid : Nat)
        (vty : QualType),
        t.callStack = top :: below →
        (vty.isIntegerType || vty.isCharType || vty.isPointerType) = true →
        initializeDecl evaluateExpression (.variable { id := vid, ty := vty, init := none }) t
          = .ok () { t with callStack := top.bindVariable vid 0 :: below })
    ∧ (∀ (t t1 : State) (top1 : StackFrame) (below : List StackFrame) (vid : Nat)
        (vty : QualType) (init : Expr) (v : Int),
        (vty.isIntegerType || vty.isCharType || vty.isPointerType) = true →
        evaluateExpression init t = .ok v t1 → t1.callStack = top1 :: below →
        initializeDecl evaluateExpression
            (.variable { id := vid, ty := vty, init := some init }) t
          = .ok () { t1 with callStack := top1.bindVariable vid v :: below })
    ∧ (∀ (e : Expr) (t t1 : State) (r : Int) (top : StackFrame) (below : List StackFrame),
        t.callStack = top :: below → evaluateExpression e t = .ok r t1 →
        ∃ top1, t1.callStack = top1 :: below)
    ∧ (∀ (decls : List Decl) (t t1 : State) (top : StackFrame) (below : List StackFrame),
        t.callStack = top :: below →
        processDeclaration evaluateExpression decls t = .ok () t1 →
        ∃ top1, t1.callStack = top1 :: below) := by
  refine ⟨?_, ?_, rfl, ?_, ?_, ?_, ?_, ?_, ?_, ?_, ?_, ?_⟩
  · obtain ⟨vals, s1, fa, g0, h1, h2, h3, hk, hb⟩ :=
      user_call_entry fns callId (some function) fd args s0 s2 f0 rest hs0 hnot hfind hcall
    exact ⟨vals, s1, fa, g0, h1, h2, h3, hb hnodup, hk⟩
  · exact user_call_pops fns fuel fd body callId (some function) ty callee args s s0 s2 s3
      f g fb rest more hfind hbody huser hs hret hwalk hcall hrun hs3
  · intro t t1 top1 below id op ref lty x rhs r hop hr ht1
    exact assignment_binds_top id op ref lty x rhs t t1 r top1 below hop hr ht1
  · intro t top below vid vty ht hty
    simp [processDecl, hty, modifyBack, ht]
  · intro t t1 top1 below vid vty init v hty hv ht1
    simp [processDecl, hty, Exec.andThen, hv, modifyBack, ht1]
  · intro t top below vid elem size init ht
    obtain ⟨m, hrun1, -⟩ := initializeArrayVariable_ok vid elem size init t top below ht
    have hdecl : processDecl evaluateExpression
        (.varDecl { id := vid, ty := .constantArrayTy elem size, init := init })
        = initializeArrayVariable
            { id := vid, ty := .constantArrayTy elem size, init := init } := by
      simp [processDecl, QualType.isIntegerType, QualType.isPointerType]
    rw [hdecl, hrun1]
    exact ⟨_, rfl, rfl⟩
  · intro unit t t1 h
    exact initializeEnvironment_one_frame unit t t1 h
  · intro t top below vid vty ht hty
    simp [initializeDecl, hty, modifyBack, ht]
  · intro t t1 top1 below vid vty init v hty hv ht1
    simp [initializeDecl, hty, Exec.andThen, hv, modifyBack, ht1]
  · intro e t t1 r top below ht he
    exact keepsBelow_evaluateExpression e t top below r t1 ht he
  · intro decls t t1 top below ht hd
    obtain ⟨top1, h1, -⟩ :=
      @keeps_processDeclaration t.builtins true evaluateExpression
        (fun e => keeps_evaluateExpression e) decls t top below () t1 rfl ht hd
    exact ⟨top1, h1⟩

theorem binding_made_in_top_frame_witness :
    (∃ vals s1 fa g0,
        evaluateArguments evaluateExpression []
            { sampleWalked with
              callStack :=
                ((StackFrame.new.bindVariable 7 7).setCurrentStatement 6).setCurrentStatement 5
                  :: [] } = .ok vals s1
        ∧ s1.callStack = fa :: []
        ∧ sampleEntered = { s1 with callStack := g0 :: fa :: [] }
        ∧ (∀ (j : Nat) (p : Nat), sampleWriter.params[j]? = some p → g0.variableValues p = vals[j]?)
        ∧ (∀ d, d ∉ sampleWriter.params → g0.variableValues d = none))
    ∧ Visit [sampleReader, sampleWriter] (3 + 1) (.expr (callOf 5 6 101)) sampleRegisteredState
        = .ok () { sampleLeft with
            callStack :=
              (((StackFrame.new.bindVariable 7 7).setCurrentStatement 6).setCurrentStatement
                  5).storeExpressionResult 5 sampleCalleeFrame.getReturnValue :: [] }
    ∧ ((((StackFrame.new.bindVariable 7 7).setCurrentStatement 6).setCurrentStatement
          5).storeExpressionResult 5 sampleCalleeFrame.getReturnValue).variableValues
        = (((StackFrame.new.bindVariable 7 7).setCurrentStatement 6).setCurrentStatement
            5).variableValues
    ∧ (∀ (t t1 : State) (top1 : StackFrame) (below : List StackFrame) (id : Nat)
        (op : BinaryOpcode) (ref : Nat) (lty : QualType) (x : NamedDecl) (rhs : Expr) (r : Int),
        op.isAssignmentOp = true → evaluateExpression rhs t = .ok r t1 →
        t1.callStack = top1 :: below →
        evaluateBinaryOperation evaluateExpression id op (.declRefExpr ref lty x) rhs t
          = .ok () { t1 with
              callStack := (top1.bindExpression ref r).bindVariable x.id r :: below })
    ∧ (∀ (t : State) (top : StackFrame) (below : List StackFrame) (vid : Nat)
        (vty : QualType),
        t.callStack = top :: below → (vty.isIntegerType || vty.isPointerType) = true →
        processDecl evaluateExpression (.varDecl { id := vid, ty := vty, init := none }) t
          = .ok () { t with callStack := top.bindVariable vid 0 :: below })
    ∧ (∀ (t t1 : State) (top1 : StackFrame) (below : List StackFrame) (vid : Nat)
        (vty : QualType) (init : Expr) (v : Int),
        (vty.isIntegerType || vty.isPointerType) = true →
        evaluateExpression init t = .ok v t1 → t1.callStack = top1 :: below →
        processDecl evaluateExpression (.varDecl { id := vid, ty := vty, init := some init }) t
          = .ok () { t1 with callStack := top1.bindVariable vid v :: below })
    ∧ (∀ (t : State) (top : StackFrame) (below : List StackFrame) (vid : Nat)
        (elem : QualType) (size : Nat) (init : Option Expr),
        t.callStack = top :: below →
        ∃ t1, processDecl evaluateExpression
              (.varDecl { id := vid, ty := .constantArrayTy elem size, init := init }) t
            = .ok () t1
          ∧ t1.callStack = top.bindVariable vid (wrap64 t.nextAlloc) :: below)
    ∧ (∀ (unit : List TopLevelDecl) (t t1 : State),
        initializeEnvironment evaluateExpression unit t = .ok () t1 →
        ∃ bottom, t1.callStack = bottom :: t.callStack)
    ∧ (∀ (t : State) (top : StackFrame) (below : List StackFrame) (vid : Nat)
        (vty : QualType),
        t.callStack = top :: below →
        (vty.isIntegerType || vty.isCharType || vty.isPointerType) = true →
        initializeDecl evaluateExpression (.variable { id := vid, ty := vty, init := none }) t
          = .ok () { t with callStack := top.bindVariable vid 0 :: below })
    ∧ (∀ (t t1 : State) (top1 : StackFrame) (below : List StackFrame) (vid : Nat)
        (vty : QualType) (init : Expr) (v : Int),
        (vty.isIntegerType || vty.isCharType || vty.isPointerType) = true →
        evaluateExpression init t = .ok v t1 → t1.callStack = top1 :: below →
        initializeDecl evaluateExpression
            (.variable { id := vid, ty := vty, init := some init }) t
          = .ok () { t1 with callStack := top1.bindVariable vid v :: below })
    ∧ (∀ (e : Expr) (t t1 : State) (r : Int) (top : StackFrame) (below : List StackFrame),
        t.callStack = top :: below → evaluateExpression e t = .ok r t1 →
        ∃ top1, t1.callStack = top1 :: below)
    ∧ (∀ (decls : List Decl) (t t1 : State) (top : StackFrame) (below : List StackFrame),
        t.callStack = top :: below →
        processDeclaration evaluateExpression decls t = .ok () t1 →
        ∃ top1, t1.callStack = top1 :: below) :=
  binding_made_in_top_frame [sampleReader, sampleWriter] 3 sampleWriter
    (writerBody 1 2 sampleIntDecl 5) 5 101 .intTy (calleeOf 6 101) []
    sampleRegisteredState sampleWalked sampleEntered sampleLeft
    (StackFrame.new.bindVariable 7 7)
    ((StackFrame.new.bindVariable 7 7).setCurrentStatement 6)
    sampleCalleeFrame
    (((StackFrame.new.bindVariable 7 7).setCurrentStatement 6).setCurrentStatement 5)
    [] []
    rfl rfl (by decide) (by decide) (by decide) rfl rfl rfl rfl rfl rfl rfl

end BindingLocation
/-! ## A pending return -/

section Pending

open Exec

/-- With a return pending in the top frame, a walk with more fuel than the
size of the node returns normally and leaves the state as it is. -/
theorem Visit_pending (fns : List FunctionDecl) (s : State) (f : StackFrame)
    (rest : List StackFrame) (hs : s.callStack = f :: rest) (hret : f.hasReturnValue = true)
    (n : Nat) : ∀ node : Stmt, sizeOf node < n → Visit fns n node s = .ok () s := by
  induction n with
  | zero => intro node h; omega
  | succ n ih =>
    intro node hsize
    have hskip : shouldSkipExecution s = .ok true s := by
      rw [shouldSkipExecution_cons hs, hret]
    cases node with
    | expr e =>
      cases e with
      | declRefExpr id ty found =>
        simp [Visit_declRefExpr, VisitDeclRefExpr, Exec.andThen, hskip]
      | integerLiteral ty value => rfl
      | characterLiteral ty value => rfl
      | unaryOperator id ty op sub =>
        simp [Visit_unaryOperator, VisitUnaryOperator, Exec.andThen, hskip]
      | binaryOperator id ty op lhs rhs =>
        simp [Visit_binaryOperator, VisitBinaryOperator, Exec.andThen, hskip]
      | parenExpr ty sub =>
        rw [Visit_parenExpr]
        apply visitChildren_noop
        intro c hc
        simp only [List.mem_singleton] at hc
        subst hc
        apply ih
        simp only [Stmt.expr.sizeOf_spec, Expr.parenExpr.sizeOf_spec] at hsize ⊢
        omega
      | implicitCastExpr ty sub =>
        rw [Visit_implicitCastExpr]
        apply visitChildren_noop
        intro c hc
        simp only [List.mem_singleton] at hc
        subst hc
        apply ih
        simp only [Stmt.expr.sizeOf_spec, Expr.implicitCastExpr.sizeOf_spec] at hsize ⊢
        omega
      | cStyleCastExpr ty sub =>
        rw [Visit_cStyleCastExpr]
        apply visitChildren_noop
        intro c hc
        simp only [List.mem_singleton] at hc
        subst hc
        apply ih
        simp only [Stmt.expr.sizeOf_spec, Expr.cStyleCastExpr.sizeOf_spec] at hsize ⊢
        omega
      | arraySubscriptExpr ty lhs rhs =>
        rw [Visit_arraySubscriptExpr]
        apply visitChildren_noop
        intro c hc
        simp only [List.mem_cons, List.mem_singleton, List.not_mem_nil, or_false] at hc
        rcases hc with hc | hc <;> subst hc <;> apply ih <;>
          simp only [Stmt.expr.sizeOf_spec, Expr.arraySubscriptExpr.sizeOf_spec] at hsize ⊢ <;>
          omega
      | callExpr id ty callee directCallee args =>
        simp [Visit_callExpr, VisitCallExpr, Exec.andThen, hskip]
      | unaryExprOrTypeTraitExpr ty isSizeOf argTy => rfl
      | otherExpr ty children =>
        rw [Visit_otherExpr]
        apply visitChildren_noop
        intro c hc
        obtain ⟨e, he, rfl⟩ := List.mem_map.mp hc
        apply ih
        have hlt := List.sizeOf_lt_of_mem he
        simp only [Stmt.expr.sizeOf_spec, Expr.otherExpr.sizeOf_spec] at hsize ⊢
        omega
    | declStmt decls => simp [Visit_declStmt, VisitDeclStmt, Exec.andThen, hskip]
    | ifStmt cond thenBranch elseBranch =>
      simp [Visit_ifStmt, VisitIfStmt, Exec.andThen, hskip]
    | whileStmt cond body => simp [Visit_whileStmt, VisitWhileStmt, Exec.andThen, hskip]
    | forStmt init cond inc body => simp [Visit_forStmt, VisitForStmt, Exec.andThen, hskip]
    | returnStmt retValue => simp [Visit_returnStmt, VisitReturnStmt, Exec.andThen, hskip]
    | compoundStmt body =>
      rw [Visit_compoundStmt]
      apply visitChildren_noop
      intro c hc
      apply ih
      have hlt := List.sizeOf_lt_of_mem hc
      simp only [Stmt.compoundStmt.sizeOf_spec] at hsize
      omega
    | otherStmt children =>
      rw [Visit_otherStmt]
      apply visitChildren_noop
      intro c hc
      apply ih
      have hlt := List.sizeOf_lt_of_mem hc
      simp only [Stmt.otherStmt.sizeOf_spec] at hsize
      omega

/-- C4: once the top frame has a return pending, visiting any node, of any
kind and nesting, with fuel above the size of the node returns normally and
changes nothing: the state afterwards is the state before, frames, memory,
streams and the pending return included, so the flag stays set. -/
theorem pending_return_skips (fns : List FunctionDecl) (fuel : Nat) (node : Stmt) (s : State)
    (f : StackFrame) (rest : List StackFrame) (hs : s.callStack = f :: rest)
    (hret : f.hasPendingReturn = true) (hfuel : sizeOf node < fuel) :
    Visit fns fuel node s = .ok () s
      ∧ shouldSkipExecution s = .ok true s := by
  have hret1 : f.hasReturnValue = true := hret
  refine ⟨Visit_pending fns s f rest hs hret1 fuel node hfuel, ?_⟩
  rw [shouldSkipExecution_cons hs, hret1]

theorem pending_return_skips_witness :
    Visit [returnsConstant 42] 1000
        (.compoundStmt [.expr sampleAssignment, .expr (callOf 4 5 100), .returnStmt none])
        samplePendingState
      = .ok () samplePendingState
      ∧ shouldSkipExecution samplePendingState = .ok true samplePendingState :=
  pending_return_skips [returnsConstant 42] 1000
    (.compoundStmt [.expr sampleAssignment, .expr (callOf 4 5 100), .returnStmt none])
    samplePendingState (StackFrame.new.setReturnInfo true 1) [] rfl rfl (by decide)

end Pending
/-! ## Pure expressions -/

section Pure

open Exec

variable {reads : Nat → Prop} {vars memo : Nat → Option Int}

theorem withWrites_none (g : StackFrame) : g.withWrites (fun _ => none) none = g := rfl

theorem overrideMemo_assoc (w1 w2 m : Nat → Option Int) :
    overrideMemo w2 (overrideMemo w1 m) = overrideMemo (overrideMemo w2 w1) m := by
  funext k
  unfold overrideMemo
  cases w2 k <;> rfl

theorem overrideMemo_idem (w m : Nat → Option Int) :
    overrideMemo w (overrideMemo w m) = overrideMemo w m := by
  funext k
  unfold overrideMemo
  cases h : w k with
  | none => simp [h]
  | some v => rfl

theorem withWrites_withWrites (g : StackFrame) (w1 w2 : Nat → Option Int)
    (c1 c2 : Option Nat) :
    (g.withWrites w1 c1).withWrites w2 c2
      = g.withWrites (overrideMemo w2 w1) (laterCurrent c2 c1) := by
  cases c2 <;> cases c1 <;>
    simp only [StackFrame.withWrites, overrideMemo_assoc, laterCurrent]

theorem withWrites_idem (g : StackFrame) (w : Nat → Option Int) (c : Option Nat) :
    (g.withWrites w c).withWrites w c = g.withWrites w c := by
  cases c <;> simp only [StackFrame.withWrites, overrideMemo_idem, laterCurrent]

theorem storeExpressionResult_withWrites (g : StackFrame) (w : Nat → Option Int)
    (c : Option Nat) (id : Nat) (v : Int) :
    (g.withWrites w c).storeExpressionResult id v
      = g.withWrites (fun k => if k = id then some v else w k) c := by
  simp only [StackFrame.withWrites, StackFrame.storeExpressionResult, overrideMemo,
    StackFrame.mk.injEq, and_true, true_and]
  funext k
  by_cases hk : k = id <;> simp [hk, overrideMemo]

theorem agrees_withWrites {g : StackFrame} {w : Nat → Option Int} (c : Option Nat)
    (hw : ∀ k, reads k → w k = none) (hg : g.agrees reads vars memo) :
    (g.withWrites w c).agrees reads vars memo := by
  refine ⟨hg.1, fun k hk => ?_⟩
  show overrideMemo w g.expressionValues k = memo k
  unfold overrideMemo
  rw [hw k hk]
  exact hg.2 k hk

theorem overrideMemo_reads {w1 w2 : Nat → Option Int}
    (h1 : ∀ k, reads k → w1 k = none) (h2 : ∀ k, reads k → w2 k = none) :
    ∀ k, reads k → overrideMemo w2 w1 k = none := by
  intro k hk
  unfold overrideMemo
  rw [h2 k hk]
  exact h1 k hk

theorem store_reads {w : Nat → Option Int} {id : Nat} (v : Int)
    (h : ∀ k, reads k → w k = none) (hid : ¬ reads id) :
    ∀ k, reads k → (if k = id then some v else w k) = none := by
  intro k hk
  have hne : k ≠ id := fun e => hid (e ▸ hk)
  simp [hne, h k hk]

theorem getExpressionValue_store (g : StackFrame) (id : Nat) (v : Int) :
    (g.storeExpressionResult id v).getExpressionValue id = v := by
  simp [StackFrame.storeExpressionResult, StackFrame.getExpressionValue]

theorem andThen_never {α β : Type} {x : Exec α} {k : α → Exec β} {s : State}
    (h : ∀ a s1, x s ≠ .ok a s1) : ∀ b s2, Exec.andThen x k s ≠ .ok b s2 := by
  intro b s2 hb
  unfold Exec.andThen at hb
  cases hx : x s with
  | ok a s1 => exact h a s1 hx
  | exited c s1 => rw [hx] at hb; cases hb
  | undefinedBehaviour => rw [hx] at hb; cases hb
  | outOfFuel => rw [hx] at hb; cases hb

theorem follows_of_eq {x y : Exec Int} {value : Option Int} (h : x = y)
    (hy : Follows reads vars memo y value) : Follows reads vars memo x value := by
  rw [h]
  exact hy

theorem pureRet_literal (value : Int) :
    PureRet reads vars memo (pure value : Exec Int) value := by
  refine ⟨fun _ => none, none, fun _ _ => rfl, ?_⟩
  intro s g rest hs _
  rw [withWrites_none, ← hs]
  rfl

theorem pureRet_declRef (id : Nat) (ty : QualType)
    (found : NamedDecl) (hty : (ty.isIntegerType || ty.isPointerType) = true)
    (hid : ¬ reads id) :
    PureRet reads vars memo (evaluateExpression (.declRefExpr id ty found))
      (match vars found.id with
        | some v => v
        | none => 0) := by
  refine ⟨(fun k => if k = id then
      some (match vars found.id with | some v => v | none => 0) else none), some id,
    store_reads _ (fun _ _ => rfl) hid, ?_⟩
  intro s g rest hs hv
  obtain ⟨hv, -⟩ := hv
  subst hv
  simp [evaluateExpression_declRef, evaluateDeclRefExpr, processDeclRefExpr, hty,
    Exec.andThen, back, modifyBack, hs, StackFrame.bindExpression,
    StackFrame.getExpressionValue, StackFrame.setCurrentStatement,
    StackFrame.getVariableValue, StackFrame.withWrites, overrideMemo, laterCurrent]
  funext k
  by_cases hk : k = id <;> simp [hk, overrideMemo]

theorem pureRet_declRef_read (id : Nat) (ty : QualType)
    (found : NamedDecl) (hty : (ty.isIntegerType || ty.isPointerType) = false)
    (hid : reads id) :
    PureRet reads vars memo (evaluateExpression (.declRefExpr id ty found))
      (match memo id with
        | some v => v
        | none => 0) := by
  refine ⟨fun _ => none, some id, fun _ _ => rfl, ?_⟩
  intro s g rest hs hv
  have hm := hv.2 id hid
  simp [evaluateExpression_declRef, evaluateDeclRefExpr, processDeclRefExpr, hty,
    Exec.andThen, back, modifyBack, hs, StackFrame.bindExpression,
    StackFrame.getExpressionValue, StackFrame.setCurrentStatement,
    StackFrame.getVariableValue, StackFrame.withWrites, overrideMemo, laterCurrent, hm]
  rfl

/-- Recording the result of a pure computation for a node outside `reads`
and reading it back. -/
theorem pureRet_store (x : Exec Int) (id : Nat) (a : Int) (hid : ¬ reads id)
    (hx : PureRet reads vars memo x a) :
    PureRet reads vars memo (do
      (do let result ← x
          modifyBack (fun f => f.storeExpressionResult id result))
      return (← back).getExpressionValue id) a := by
  obtain ⟨w, c, hw, h⟩ := hx
  refine ⟨fun k => if k = id then some a else w k, c, store_reads _ hw hid, ?_⟩
  intro s g rest hs hv
  have e1 := h s g rest hs hv
  simp only [bind_apply, Exec.andThen, e1, modifyBack, back, pure_apply,
    storeExpressionResult_withWrites]
  rw [← storeExpressionResult_withWrites, getExpressionValue_store]

theorem never_store (x : Exec Int) (id : Nat) (hx : NeverReturns reads vars memo x) :
    NeverReturns reads vars memo (do
      (do let result ← x
          modifyBack (fun f => f.storeExpressionResult id result))
      return (← back).getExpressionValue id) := by
  intro s g rest hs hv
  exact andThen_never (andThen_never (hx s g rest hs hv))

theorem follows_store (x : Exec Int) (id : Nat) (value : Option Int) (hid : ¬ reads id)
    (hx : Follows reads vars memo x value) :
    Follows reads vars memo (do
      (do let result ← x
          modifyBack (fun f => f.storeExpressionResult id result))
      return (← back).getExpressionValue id) value := by
  cases value with
  | none => exact never_store x id hx
  | some a => exact pureRet_store x id a hid hx

theorem pureRet_map (x : Exec Int) (a : Int) (k : Int → Int)
    (hx : PureRet reads vars memo x a) :
    PureRet reads vars memo (do
      let v ← x
      return k v) (k a) := by
  obtain ⟨w, c, hw, h⟩ := hx
  refine ⟨w, c, hw, ?_⟩
  intro s g rest hs hv
  simp only [bind_apply, Exec.andThen, h s g rest hs hv, pure_apply]

theorem pureRet_seq2 (x y : Exec Int) (a b : Int) (k : Int → Int → Int)
    (hx : PureRet reads vars memo x a) (hy : PureRet reads vars memo y b) :
    PureRet reads vars memo (do
      let a ← x
      let b ← y
      return k a b) (k a b) := by
  obtain ⟨w1, c1, hw1, h1⟩ := hx
  obtain ⟨w2, c2, hw2, h2⟩ := hy
  refine ⟨overrideMemo w2 w1, laterCurrent c2 c1, overrideMemo_reads hw1 hw2, ?_⟩
  intro s g rest hs hv
  have e1 := h1 s g rest hs hv
  have e2 := h2 { s with callStack := g.withWrites w1 c1 :: rest } (g.withWrites w1 c1)
    rest rfl (agrees_withWrites c1 hw1 hv)
  simp only [bind_apply, Exec.andThen, e1, e2, pure_apply, withWrites_withWrites]

theorem never_seq2_left (x y : Exec Int) (k : Int → Int → Int)
    (hx : NeverReturns reads vars memo x) :
    NeverReturns reads vars memo (do
      let a ← x
      let b ← y
      return k a b) := by
  intro s g rest hs hv
  exact andThen_never (hx s g rest hs hv)

theorem never_seq2_right (x y : Exec Int) (a : Int) (k : Int → Int → Int)
    (hx : PureRet reads vars memo x a) (hy : NeverReturns reads vars memo y) :
    NeverReturns reads vars memo (do
      let a ← x
      let b ← y
      return k a b) := by
  obtain ⟨w1, c1, hw1, h1⟩ := hx
  intro s g rest hs hv
  have e1 := h1 s g rest hs hv
  simp only [bind_apply]
  rw [andThen_ok e1]
  exact andThen_never (hy { s with callStack := g.withWrites w1 c1 :: rest }
    (g.withWrites w1 c1) rest rfl (agrees_withWrites c1 hw1 hv))

/-- Two operands evaluated one after the other and combined. -/
theorem follows_seq2 (x y : Exec Int) (oa ob : Option Int) (k : Int → Int → Int)
    (hx : Follows reads vars memo x oa) (hy : Follows reads vars memo y ob) :
    Follows reads vars memo (do
      let a ← x
      let b ← y
      return k a b)
      (liftBinary (fun a b => some (k a b)) oa ob) := by
  cases oa with
  | none => exact never_seq2_left x y k hx
  | some a =>
    cases ob with
    | none => exact never_seq2_right x y a k hx hy
    | some b => exact pureRet_seq2 x y a b k hx hy

theorem handleDivision_run (l r : Expr) (s s1 s2 : State) (a b : Int)
    (hr : evaluateExpression r s = .ok b s1) (hb : b ≠ 0)
    (hl : evaluateExpression l s1 = .ok a s2) :
    handleDivision evaluateExpression l r s
      = if a = -(2 ^ 63) ∧ b = -1 then .undefinedBehaviour
        else .ok (wrap64 (Int.tdiv a b)) s2 := by
  simp only [handleDivision, bind_apply]
  rw [andThen_ok hr]
  simp only [hb, if_false, bind_apply]
  rw [andThen_ok hl]
  split <;> rfl

theorem handleDivision_zero (l r : Expr) (s s1 : State)
    (hr : evaluateExpression r s = .ok 0 s1) :
    ∀ x s3, handleDivision evaluateExpression l r s ≠ .ok x s3 := by
  intro x s3
  simp [handleDivision, Exec.andThen, hr, cerr, Exec.exit]

theorem handleDivision_dividend (l r : Expr) (s s1 : State) (b : Int)
    (hr : evaluateExpression r s = .ok b s1) (hb : b ≠ 0)
    (hl : ∀ a s2, evaluateExpression l s1 ≠ .ok a s2) :
    ∀ x s3, handleDivision evaluateExpression l r s ≠ .ok x s3 := by
  intro x s3
  simp only [handleDivision, bind_apply]
  rw [andThen_ok hr]
  simp only [hb, if_false, bind_apply]
  exact andThen_never hl x s3

/-- The division: the divisor first, then the dividend. -/
theorem follows_handleDivision (l r : Expr) (oa ob : Option Int)
    (hl : Follows reads vars memo (evaluateExpression l) oa)
    (hr : Follows reads vars memo (evaluateExpression r) ob) :
    Follows reads vars memo (handleDivision evaluateExpression l r)
      (liftBinary (pureBinary .BO_Div l.getType.isPointerType) oa ob) := by
  cases ob with
  | none =>
    have hnone : liftBinary (pureBinary .BO_Div l.getType.isPointerType) oa none = none := by
      cases oa <;> rfl
    rw [hnone]
    intro s g rest hs hv
    exact andThen_never (hr s g rest hs hv)
  | some b =>
    obtain ⟨w2, c2, hw2, h2⟩ := hr
    by_cases hb : b = 0
    · have hnone : liftBinary (pureBinary .BO_Div l.getType.isPointerType) oa (some b)
          = none := by
        cases oa with
        | none => rfl
        | some a =>
          show (if b = 0 then none else _) = none
          rw [if_pos hb]
      rw [hnone]
      intro s g rest hs hv
      have e2 := h2 s g rest hs hv
      rw [hb] at e2
      exact handleDivision_zero l r s _ e2
    · cases oa with
      | none =>
        intro s g rest hs hv
        exact handleDivision_dividend l r s _ b (h2 s g rest hs hv) hb
          (hl { s with callStack := g.withWrites w2 c2 :: rest } (g.withWrites w2 c2)
            rest rfl (agrees_withWrites c2 hw2 hv))
      | some a =>
        obtain ⟨w1, c1, hw1, h1⟩ := hl
        have hval : liftBinary (pureBinary .BO_Div l.getType.isPointerType) (some a) (some b)
            = if a = -(2 ^ 63) ∧ b = -1 then none else some (wrap64 (Int.tdiv a b)) := by
          show (if b = 0 then none else _) = _
          rw [if_neg hb]
        rw [hval]
        by_cases hov : a = -(2 ^ 63) ∧ b = -1
        · rw [if_pos hov]
          intro s g rest hs hv x s3
          rw [handleDivision_run l r s _ _ a b (h2 s g rest hs hv) hb
            (h1 { s with callStack := g.withWrites w2 c2 :: rest } (g.withWrites w2 c2)
              rest rfl (agrees_withWrites c2 hw2 hv)), if_pos hov]
          intro h
          cases h
        · rw [if_neg hov]
          refine ⟨overrideMemo w1 w2, laterCurrent c1 c2, overrideMemo_reads hw2 hw1, ?_⟩
          intro s g rest hs hv
          rw [handleDivision_run l r s _ _ a b (h2 s g rest hs hv) hb
            (h1 { s with callStack := g.withWrites w2 c2 :: rest } (g.withWrites w2 c2)
              rest rfl (agrees_withWrites c2 hw2 hv)), if_neg hov, withWrites_withWrites]

theorem follows_handleAddition (l r : Expr) (oa ob : Option Int)
    (hl : Follows reads vars memo (evaluateExpression l) oa)
    (hr : Follows reads vars memo (evaluateExpression r) ob) :
    Follows reads vars memo (handleAddition evaluateExpression l r)
      (liftBinary (pureBinary .BO_Add l.getType.isPointerType) oa ob) := by
  unfold handleAddition
  cases hp : l.getType.isPointerType with
  | true =>
    simp only [if_true]
    exact follows_seq2 _ _ oa ob (fun a b => wrap64 (a + 8 * b)) hl hr
  | false =>
    simp only [Bool.false_eq_true, if_false]
    exact follows_seq2 _ _ oa ob (fun a b => wrap64 (a + b)) hl hr

/-- An arithmetic or comparison operator over operands that follow their
reference values follows its own. -/
theorem follows_binary (id : Nat) (ty : QualType) (op : BinaryOpcode) (l r : Expr)
    (oa ob : Option Int) (hop : op.isArithmeticOrComparison = true) (hid : ¬ reads id)
    (hl : Follows reads vars memo (evaluateExpression l) oa)
    (hr : Follows reads vars memo (evaluateExpression r) ob) :
    Follows reads vars memo (evaluateExpression (.binaryOperator id ty op l r))
      (liftBinary (pureBinary op l.getType.isPointerType) oa ob) := by
  rw [evaluateExpression_binary]
  cases op <;> first
    | (exfalso; revert hop; decide)
    | exact follows_store _ id _ hid (follows_handleAddition l r oa ob hl hr)
    | exact follows_store _ id _ hid (follows_handleDivision l r oa ob hl hr)
    | exact follows_store _ id _ hid (follows_seq2 _ _ oa ob (fun a b => wrap64 (a - b)) hl hr)
    | exact follows_store _ id _ hid (follows_seq2 _ _ oa ob (fun a b => wrap64 (a * b)) hl hr)
    | exact follows_store _ id _ hid
        (follows_seq2 _ _ oa ob (fun a b => boolValue (decide (a < b))) hl hr)
    | exact follows_store _ id _ hid
        (follows_seq2 _ _ oa ob (fun a b => boolValue (decide (a > b))) hl hr)
    | exact follows_store _ id _ hid
        (follows_seq2 _ _ oa ob (fun a b => boolValue (decide (a = b))) hl hr)
    | exact follows_store _ id _ hid
        (follows_seq2 _ _ oa ob (fun a b => boolValue (decide (a ≤ b))) hl hr)
    | exact follows_store _ id _ hid
        (follows_seq2 _ _ oa ob (fun a b => boolValue (decide (a ≥ b))) hl hr)
    | exact follows_store _ id _ hid
        (follows_seq2 _ _ oa ob (fun a b => boolValue (decide (a ≠ b))) hl hr)

theorem follows_unary (id : Nat) (ty : QualType) (op : UnaryOpcode) (sub : Expr)
    (ov : Option Int) (hop : op = .UO_Plus ∨ op = .UO_Minus) (hid : ¬ reads id)
    (hsub : Follows reads vars memo (evaluateExpression sub) ov) :
    Follows reads vars memo (evaluateExpression (.unaryOperator id ty op (some sub)))
      (pureUnary op ov) := by
  rw [evaluateExpression_unary]
  rcases hop with hop | hop <;> subst hop
  · cases ov with
    | none => exact never_store _ id hsub
    | some v => exact pureRet_store _ id v hid hsub
  · cases ov with
    | none =>
      exact never_store _ id (fun s g rest hs hv => andThen_never (hsub s g rest hs hv))
    | some v => exact pureRet_store _ id _ hid (pureRet_map _ v (fun v => wrap64 (-1 * v)) hsub)

/-- Every pure expression whose memo-read nodes are in `reads` and whose
memo-written nodes are not follows its reference value: it returns it and
writes only memo entries, or does not return when there is none. -/
theorem pure_follows : ∀ (e : Expr), e.isPure = true →
    (∀ k, k ∈ e.memoReads → reads k) → (∀ k, k ∈ e.memoWrites → ¬ reads k) →
    Follows reads vars memo (evaluateExpression e) (e.pureValue vars memo)
  | .integerLiteral ty value, _, _, _ => pureRet_literal value
  | .characterLiteral ty value, _, _, _ => pureRet_literal (value : Int)
  | .declRefExpr id ty found, _, hr, hw => by
      have hv : Expr.pureValue vars memo (.declRefExpr id ty found)
          = if ty.isIntegerType || ty.isPointerType then
              some (match vars found.id with
                | some v => v
                | none => 0)
            else
              some (match memo id with
                | some v => v
                | none => 0) := rfl
      rw [hv]
      cases hty : (ty.isIntegerType || ty.isPointerType)
      · simp only [Bool.false_eq_true, if_false]
        exact pureRet_declRef_read id ty found hty (hr id (by simp [Expr.memoReads, hty]))
      · simp only [if_true]
        exact pureRet_declRef id ty found hty (hw id (by simp [Expr.memoWrites, hty]))
  | .parenExpr ty sub, h, hr, hw =>
      follows_of_eq (evaluateExpression_paren ty sub)
        (pure_follows sub (by simpa [Expr.isPure] using h)
          (by simpa [Expr.memoReads] using hr) (by simpa [Expr.memoWrites] using hw))
  | .implicitCastExpr ty sub, h, hr, hw =>
      follows_of_eq (evaluateExpression_implicitCast ty sub)
        (pure_follows sub (by simpa [Expr.isPure] using h)
          (by simpa [Expr.memoReads] using hr) (by simpa [Expr.memoWrites] using hw))
  | .cStyleCastExpr ty sub, h, hr, hw =>
      follows_of_eq (evaluateExpression_cStyleCast ty sub)
        (pure_follows sub (by simpa [Expr.isPure] using h)
          (by simpa [Expr.memoReads] using hr) (by simpa [Expr.memoWrites] using hw))
  | .unaryOperator id ty op (some sub), h, hr, hw => by
      simp only [Expr.isPure, Bool.and_eq_true, Bool.or_eq_true, beq_iff_eq] at h
      exact follows_unary id ty op sub _ h.1 (hw id (by simp [Expr.memoWrites]))
        (pure_follows sub h.2 (by simpa [Expr.memoReads] using hr)
          (fun k hk => hw k (by simp [Expr.memoWrites, hk])))
  | .unaryOperator _ _ _ none, h, _, _ => by simp [Expr.isPure] at h
  | .binaryOperator id ty op l r, h, hr, hw => by
      simp only [Expr.isPure, Bool.and_eq_true] at h
      exact follows_binary id ty op l r _ _ h.1.1 (hw id (by simp [Expr.memoWrites]))
        (pure_follows l h.1.2 (fun k hk => hr k (by simp [Expr.memoReads, hk]))
          (fun k hk => hw k (by simp [Expr.memoWrites, hk])))
        (pure_follows r h.2 (fun k hk => hr k (by simp [Expr.memoReads, hk]))
          (fun k hk => hw k (by simp [Expr.memoWrites, hk])))
  | .arraySubscriptExpr _ _ _, h, _, _ => by simp [Expr.isPure] at h
  | .callExpr _ _ _ _ _, h, _, _ => by simp [Expr.isPure] at h
  | .unaryExprOrTypeTraitExpr _ _ _, h, _, _ => by simp [Expr.isPure] at h
  | .otherExpr _ _, h, _, _ => by simp [Expr.isPure] at h

/-- A pure expression with a reference value returns it, and evaluating it
again in the state it left returns it again and changes nothing. -/
theorem pure_value_twice (e : Expr) (s : State) (f : StackFrame) (rest : List StackFrame)
    (v : Int) (he : e.isPure = true) (hids : e.distinctNodes) (hs : s.callStack = f :: rest)
    (hval : e.pureValue f.variableValues f.expressionValues = some v) :
    ∃ (w : Nat → Option Int) (c : Option Nat),
      evaluateExpression e s = .ok v { s with callStack := f.withWrites w c :: rest }
      ∧ evaluateExpression e { s with callStack := f.withWrites w c :: rest }
          = .ok v { s with callStack := f.withWrites w c :: rest } := by
  have h := @pure_follows (fun k => k ∈ e.memoReads) f.variableValues f.expressionValues e he
    (fun _ hk => hk) (fun k hk hr => hids k hr hk)
  rw [hval] at h
  obtain ⟨w, c, hw, h⟩ := h
  refine ⟨w, c, h s f rest hs ⟨rfl, fun _ _ => rfl⟩, ?_⟩
  have h2 := h { s with callStack := f.withWrites w c :: rest } (f.withWrites w c) rest rfl
    (agrees_withWrites c hw ⟨rfl, fun _ _ => rfl⟩)
  rw [withWrites_idem] at h2
  exact h2

/-- A pure expression that returns has a reference value, the one returned. -/
theorem pure_value_of_return (e : Expr) (s s1 : State) (f : StackFrame)
    (rest : List StackFrame) (v : Int) (he : e.isPure = true) (hids : e.distinctNodes)
    (hs : s.callStack = f :: rest) (hrun : evaluateExpression e s = .ok v s1) :
    e.pureValue f.variableValues f.expressionValues = some v := by
  have h := @pure_follows (fun k => k ∈ e.memoReads) f.variableValues f.expressionValues e he
    (fun _ hk => hk) (fun k hk hr => hids k hr hk)
  cases hval : e.pureValue f.variableValues f.expressionValues with
  | none =>
    rw [hval] at h
    exact absurd hrun (h s f rest hs ⟨rfl, fun _ _ => rfl⟩ v s1)
  | some v1 =>
    rw [hval] at h
    obtain ⟨w, c, -, h⟩ := h
    have h1 := h s f rest hs ⟨rfl, fun _ _ => rfl⟩
    rw [h1] at hrun
    cases hrun
    rfl

end Pure

section PureClaim

open Exec

/-- C21 (counterexample): `(-9223372036854775807 - 1) / -1` is a pure
expression whose divisor evaluates to -1, not to zero, and whose dividend
evaluates to the least 64-bit integer; its evaluation does not return a
value, because the native division of the least 64-bit integer by -1 is
undefined. -/
theorem overflowing_division_undefined :
    sampleOverflow.isPure = true
    ∧ sampleOverflow.distinctNodes
    ∧ evaluateExpression
        (.unaryOperator 1 .intTy .UO_Minus (some (.integerLiteral .intTy 1))) sampleState
      = .ok (-1) { sampleState with callStack := [StackFrame.new.storeExpressionResult 1 (-1)] }
    ∧ evaluateExpression
        (.parenExpr .intTy
          (.binaryOperator 3 .intTy .BO_Sub
            (.unaryOperator 2 .intTy .UO_Minus
              (some (.integerLiteral .intTy 9223372036854775807)))
            (.integerLiteral .intTy 1)))
        { sampleState with callStack := [StackFrame.new.storeExpressionResult 1 (-1)] }
      = .ok (-(2 ^ 63))
          { sampleState with
              callStack :=
                [((StackFrame.new.storeExpressionResult 1 (-1)).storeExpressionResult 2
                    (-9223372036854775807)).storeExpressionResult 3 (-(2 ^ 63))] }
    ∧ evaluateExpression sampleOverflow sampleState = .undefinedBehaviour := by
  refine ⟨by simp [sampleOverflow, Expr.isPure, BinaryOpcode.isArithmeticOrComparison],
    fun _ hk => by simp [sampleOverflow, Expr.memoReads] at hk, rfl, rfl, rfl⟩

/-- C21 (amended): a pure expression (literals, variable references, parentheses,
casts, unary plus and minus, arithmetic and comparison operators) in which no
division is by zero or overflows, so that it has a reference value `v`,
evaluated in a state with a frame on the stack returns `v`; evaluated again in
the state it left it returns `v` again and leaves that state as it is. The
first evaluation changes the top frame only (heap, live blocks, streams,
built-in table and the frames below are those of the start) and leaves its
variable bindings, pending-return flag and pending value unchanged. -/
theorem pure_evaluation_idempotent (e : Expr) (s : State) (f : StackFrame)
    (rest : List StackFrame) (v : Int) (he : e.isPure = true) (hids : e.distinctNodes)
    (hs : s.callStack = f :: rest)
    (hval : e.pureValue f.variableValues f.expressionValues = some v) :
    ∃ f1 : StackFrame,
      evaluateExpression e s = .ok v { s with callStack := f1 :: rest }
      ∧ evaluateExpression e { s with callStack := f1 :: rest }
          = .ok v { s with callStack := f1 :: rest }
      ∧ f1.variableValues = f.variableValues
      ∧ f1.hasReturnValue = f.hasReturnValue
      ∧ f1.returnValue = f.returnValue := by
  obtain ⟨w, c, h1, h2⟩ := pure_value_twice e s f rest v he hids hs hval
  exact ⟨f.withWrites w c, h1, h2, rfl, rfl, rfl⟩

theorem pure_evaluation_idempotent_witness :
    ∃ f1 : StackFrame,
      evaluateExpression samplePure sampleBoundState
        = .ok 2 { sampleBoundState with callStack := f1 :: [] }
      ∧ evaluateExpression samplePure { sampleBoundState with callStack := f1 :: [] }
          = .ok 2 { sampleBoundState with callStack := f1 :: [] }
      ∧ f1.variableValues = (StackFrame.new.bindVariable 7 1).variableValues
      ∧ f1.hasReturnValue = (StackFrame.new.bindVariable 7 1).hasReturnValue
      ∧ f1.returnValue = (StackFrame.new.bindVariable 7 1).returnValue :=
  pure_evaluation_idempotent samplePure sampleBoundState (StackFrame.new.bindVariable 7 1) [] 2
    rfl (fun _ hk => by simp [samplePure, Expr.memoReads, QualType.isIntegerType] at hk) rfl
    (by decide)

end PureClaim
/-! ## More fuel -/

section Fuel

open Exec

variable {fns : List FunctionDecl} {visit visit' : Stmt → Exec Unit}

theorem below_refl {α : Type} (x : Exec α) : x.below x := fun _ => Or.inr rfl

theorem below_bind {α β : Type} {x x' : Exec α} {k k' : α → Exec β}
    (hx : x.below x') (hk : ∀ a, (k a).below (k' a)) : (x >>= k).below (x' >>= k') := by
  intro s
  simp only [bind_apply, Exec.andThen]
  rcases hx s with h | h
  · left
    simp [h]
  · rw [h]
    cases x' s with
    | ok a s1 => exact hk a s1
    | exited c s1 => exact Or.inr rfl
    | undefinedBehaviour => exact Or.inr rfl
    | outOfFuel => exact Or.inr rfl

theorem below_trans {α : Type} {x y z : Exec α} (h1 : x.below y) (h2 : y.below z) :
    x.below z := by
  intro s
  rcases h1 s with h | h
  · exact Or.inl h
  · rw [h]
    exact h2 s

theorem below_outOfFuel {α : Type} (y : Exec α) : Exec.below (fun _ => .outOfFuel) y :=
  fun _ => Or.inl rfl

theorem below_visitChildren (h : ∀ node, (visit node).below (visit' node)) :
    ∀ children, (visitChildren visit children).below (visitChildren visit' children)
  | [] => below_refl _
  | child :: rest => by
      rw [visitChildren_cons, visitChildren_cons]
      exact below_bind (h child) (fun _ => below_visitChildren h rest)

theorem below_VisitStmt (h : ∀ node, (visit node).below (visit' node)) (node : Stmt) :
    (VisitStmt visit node).below (VisitStmt visit' node) :=
  below_visitChildren h _

theorem below_VisitBinaryOperator (h : ∀ node, (visit node).below (visit' node))
    (id : Nat) (ty : QualType) (op : BinaryOpcode) (lhs rhs : Expr) :
    (VisitBinaryOperator visit id ty op lhs rhs).below
      (VisitBinaryOperator visit' id ty op lhs rhs) := by
  unfold VisitBinaryOperator
  refine below_bind (below_refl _) (fun b => ?_)
  split
  · exact below_refl _
  · exact below_bind (below_VisitStmt h _) (fun _ => below_refl _)

theorem below_VisitDeclRefExpr (h : ∀ node, (visit node).below (visit' node))
    (id : Nat) (ty : QualType) (found : NamedDecl) :
    (VisitDeclRefExpr visit id ty found).below (VisitDeclRefExpr visit' id ty found) := by
  unfold VisitDeclRefExpr
  refine below_bind (below_refl _) (fun b => ?_)
  split
  · exact below_refl _
  · exact below_bind (below_VisitStmt h _) (fun _ => below_refl _)

theorem below_VisitUnaryOperator (h : ∀ node, (visit node).below (visit' node))
    (id : Nat) (ty : QualType) (op : UnaryOpcode) (sub : Option Expr) :
    (VisitUnaryOperator visit id ty op sub).below (VisitUnaryOperator visit' id ty op sub) := by
  unfold VisitUnaryOperator
  refine below_bind (below_refl _) (fun b => ?_)
  split
  · exact below_refl _
  · exact below_bind (below_VisitStmt h _) (fun _ => below_refl _)

theorem below_VisitDeclStmt (h : ∀ node, (visit node).below (visit' node))
    (decls : List Decl) :
    (VisitDeclStmt visit decls).below (VisitDeclStmt visit' decls) := by
  unfold VisitDeclStmt
  refine below_bind (below_refl _) (fun b => ?_)
  split
  · exact below_refl _
  · exact below_bind (below_VisitStmt h _) (fun _ => below_refl _)

theorem below_VisitReturnStmt (h : ∀ node, (visit node).below (visit' node))
    (retValue : Option Expr) :
    (VisitReturnStmt visit retValue).below (VisitReturnStmt visit' retValue) := by
  unfold VisitReturnStmt
  refine below_bind (below_refl _) (fun b => ?_)
  split
  · exact below_refl _
  · cases retValue with
    | none => exact below_refl _
    | some e => exact below_bind (h _) (fun _ => below_refl _)

theorem below_VisitIfStmt (h : ∀ node, (visit node).below (visit' node))
    (cond : Expr) (thenBranch : Stmt) (elseBranch : Option Stmt) :
    (VisitIfStmt visit cond thenBranch elseBranch).below
      (VisitIfStmt visit' cond thenBranch elseBranch) := by
  unfold VisitIfStmt
  refine below_bind (below_refl _) (fun b => ?_)
  split
  · exact below_refl _
  · refine below_bind (below_refl _) (fun v => ?_)
    split
    · exact h _
    · cases elseBranch with
      | none => exact below_refl _
      | some e => exact h _

theorem below_VisitCallExpr (h : ∀ node, (visit node).below (visit' node))
    (id : Nat) (ty : QualType) (callee : Expr) (directCallee : Option Nat) (args : List Expr) :
    (VisitCallExpr fns visit id ty callee directCallee args).below
      (VisitCallExpr fns visit' id ty callee directCallee args) := by
  unfold VisitCallExpr
  refine below_bind (below_refl _) (fun b => ?_)
  split
  · exact below_refl _
  · refine below_bind (below_VisitStmt h _) (fun _ => ?_)
    refine below_bind (below_refl _) (fun _ => ?_)
    cases findFunction fns directCallee with
    | none => exact below_refl _
    | some fd =>
      dsimp only
      split
      · cases fd.body with
        | none => exact below_refl _
        | some body => exact below_bind (h body) (fun _ => below_refl _)
      · exact below_refl _

theorem below_whileLoop (h : ∀ node, (visit node).below (visit' node))
    (cond : Expr) (body : Stmt) :
    ∀ n m, n ≤ m → (whileLoop visit cond body n).below (whileLoop visit' cond body m)
  | 0, _, _ => below_outOfFuel _
  | n + 1, 0, hnm => by omega
  | n + 1, m + 1, hnm => by
      unfold whileLoop
      refine below_bind (below_refl _) (fun v => ?_)
      split
      · exact below_bind (h body)
          (fun _ => below_whileLoop h cond body n m (by omega))
      · exact below_refl _

theorem below_forLoop (h : ∀ node, (visit node).below (visit' node))
    (cond inc : Option Expr) (body : Stmt) :
    ∀ n m, n ≤ m → (forLoop visit cond inc body n).below (forLoop visit' cond inc body m)
  | 0, _, _ => below_outOfFuel _
  | n + 1, 0, hnm => by omega
  | n + 1, m + 1, hnm => by
      unfold forLoop
      cases cond with
      | none => exact below_refl _
      | some c =>
        dsimp only
        refine below_bind (below_refl _) (fun v => ?_)
        split
        · refine below_bind (h body) (fun _ => ?_)
          cases inc with
          | none => exact below_refl _
          | some i =>
            exact below_bind (h _) (fun _ => below_forLoop h (some c) (some i) body n m
              (by omega))
        · exact below_refl _

theorem below_VisitWhileStmt (h : ∀ node, (visit node).below (visit' node))
    (n m : Nat) (hnm : n ≤ m) (cond : Expr) (body : Stmt) :
    (VisitWhileStmt visit n cond body).below (VisitWhileStmt visit' m cond body) := by
  unfold VisitWhileStmt
  refine below_bind (below_refl _) (fun b => ?_)
  split
  · exact below_refl _
  · exact below_whileLoop h cond body n m hnm

theorem below_VisitForStmt (h : ∀ node, (visit node).below (visit' node))
    (n m : Nat) (hnm : n ≤ m) (init : Option Stmt) (cond inc : Option Expr) (body : Stmt) :
    (VisitForStmt visit n init cond inc body).below
      (VisitForStmt visit' m init cond inc body) := by
  unfold VisitForStmt
  refine below_bind (below_refl _) (fun b => ?_)
  split
  · exact below_refl _
  · cases init with
    | none => exact below_bind (below_refl _) (fun _ => below_forLoop h cond inc body n m hnm)
    | some st => exact below_bind (h _) (fun _ => below_forLoop h cond inc body n m hnm)

/-- One more unit of fuel changes no run that did not run out of fuel. -/
theorem Visit_below_succ (fns : List FunctionDecl) :
    ∀ (n : Nat) (node : Stmt), (Visit fns n node).below (Visit fns (n + 1) node) := by
  intro n
  induction n with
  | zero => intro node; exact below_outOfFuel _
  | succ n ih =>
    intro node
    cases node with
    | expr e =>
      cases e with
      | declRefExpr id ty found => exact below_VisitDeclRefExpr ih id ty found
      | integerLiteral ty value => exact below_refl _
      | characterLiteral ty value => exact below_refl _
      | unaryOperator id ty op sub => exact below_VisitUnaryOperator ih id ty op sub
      | binaryOperator id ty op lhs rhs => exact below_VisitBinaryOperator ih id ty op lhs rhs
      | parenExpr ty sub => exact below_visitChildren ih _
      | implicitCastExpr ty sub => exact below_visitChildren ih _
      | cStyleCastExpr ty sub => exact below_visitChildren ih _
      | arraySubscriptExpr ty lhs rhs => exact below_visitChildren ih _
      | callExpr id ty callee directCallee args =>
        exact below_VisitCallExpr ih id ty callee directCallee args
      | unaryExprOrTypeTraitExpr ty isSizeOf argTy => exact below_refl _
      | otherExpr ty children => exact below_visitChildren ih _
    | declStmt decls => exact below_VisitDeclStmt ih decls
    | ifStmt cond thenBranch elseBranch => exact below_VisitIfStmt ih cond thenBranch elseBranch
    | whileStmt cond body => exact below_VisitWhileStmt ih n (n + 1) (by omega) cond body
    | forStmt init cond inc body =>
      exact below_VisitForStmt ih n (n + 1) (by omega) init cond inc body
    | returnStmt retValue => exact below_VisitReturnStmt ih retValue
    | compoundStmt body => exact below_visitChildren ih _
    | otherStmt children => exact below_visitChildren ih _

/-- More fuel changes no run that did not run out of fuel. -/
theorem Visit_below (fns : List FunctionDecl) (node : Stmt) :
    ∀ (n m : Nat), n ≤ m → (Visit fns n node).below (Visit fns m node) := by
  intro n m hnm
  induction m with
  | zero =>
    have h0 : n = 0 := by omega
    subst h0
    exact below_refl _
  | succ m ih =>
    by_cases h : n = m + 1
    · subst h
      exact below_refl _
    · exact below_trans (ih (by omega)) (Visit_below_succ fns m node)

/-- Two runs of the same walk that both end did so in the same way, whatever
their fuel. -/
theorem Visit_agree (fns : List FunctionDecl) (node : Stmt) (s : State) (n m : Nat)
    (hn : Visit fns n node s ≠ .outOfFuel) (hm : Visit fns m node s ≠ .outOfFuel) :
    Visit fns n node s = Visit fns m node s := by
  rcases Nat.le_total n m with h | h
  · rcases Visit_below fns node n m h s with h1 | h1
    · exact absurd h1 hn
    · exact h1
  · rcases Visit_below fns node m n h s with h1 | h1
    · exact absurd h1 hm
    · exact h1.symm

/-- With a return pending in the top frame, a walk runs out of fuel or
returns normally and leaves the state as it is. -/
theorem Visit_pending_any (fns : List FunctionDecl) (s : State) (f : StackFrame)
    (rest : List StackFrame) (hs : s.callStack = f :: rest) (hret : f.hasReturnValue = true)
    (n : Nat) (node : Stmt) :
    Visit fns n node s = .outOfFuel ∨ Visit fns n node s = .ok () s := by
  by_cases h : Visit fns n node s = .outOfFuel
  · exact Or.inl h
  · right
    have hbig := Visit_pending fns s f rest hs hret (sizeOf node + 1) node (by omega)
    rw [Visit_agree fns node s n (sizeOf node + 1) h (by rw [hbig]; simp), hbig]

end Fuel
/-! ## The for statement and its while form -/

section ForWhile

open Exec

variable {fns : List FunctionDecl}

theorem andThen_pure_unit (x : Exec Unit) (s : State) :
    Exec.andThen x (fun _ => (pure () : Exec Unit)) s = x s := by
  unfold Exec.andThen
  cases x s <;> rfl

/-- The loop of a while statement over `{ body; inc; }` is the loop of the
for statement, the walk of the block taking one unit of fuel. -/
theorem whileLoop_eq_forLoop (m : Nat) (cond inc : Expr) (body : Stmt) :
    ∀ (j : Nat) (s : State),
      whileLoop (Visit fns (m + 1)) cond (.compoundStmt [body, .expr inc]) j s
        = forLoop (Visit fns m) (some cond) (some inc) body j s
  | 0, _ => rfl
  | j + 1, s => by
      unfold whileLoop forLoop
      simp only [bind_apply, Exec.andThen, Visit_compoundStmt, visitChildren_cons,
        visitChildren_nil]
      cases evaluateExpression cond s with
      | ok v s1 =>
        dsimp only
        split
        · simp only [bind_apply, Exec.andThen]
          cases Visit fns m body s1 with
          | ok u s2 =>
            dsimp only
            cases Visit fns m (.expr inc) s2 with
            | ok u2 s3 =>
              dsimp only
              simp only [pure_apply]
              exact whileLoop_eq_forLoop m cond inc body j s3
            | exited c s3 => rfl
            | undefinedBehaviour => rfl
            | outOfFuel => rfl
          | exited c s2 => rfl
          | undefinedBehaviour => rfl
          | outOfFuel => rfl
        · rfl
      | exited c s1 => rfl
      | undefinedBehaviour => rfl
      | outOfFuel => rfl

theorem shouldSkipExecution_false {s : State} {f : StackFrame} {rest : List StackFrame}
    (hs : s.callStack = f :: rest) (hflag : f.hasReturnValue = false) :
    shouldSkipExecution s = .ok false s := by
  rw [shouldSkipExecution_cons hs]
  simp [StackFrame.hasPendingReturn, hflag]

theorem forStmt_run (m : Nat) (init : Stmt) (cond inc : Expr) (body : Stmt) (s : State)
    (hskip : shouldSkipExecution s = .ok false s) :
    Visit fns (m + 1) (.forStmt (some init) (some cond) (some inc) body) s
      = Exec.andThen (Visit fns m init)
          (fun _ => forLoop (Visit fns m) (some cond) (some inc) body m) s := by
  simp [Visit_forStmt, VisitForStmt, Exec.andThen, hskip]

theorem whileStmt_run (j : Nat) (cond : Expr) (body : Stmt) (s : State)
    (hskip : shouldSkipExecution s = .ok false s) :
    Visit fns (j + 1) (.whileStmt cond body) s = whileLoop (Visit fns j) cond body j s := by
  simp [Visit_whileStmt, VisitWhileStmt, Exec.andThen, hskip]

theorem desugaredFor_run (k : Nat) (init : Stmt) (cond inc : Expr) (body : Stmt) (s : State) :
    Visit fns (k + 1) (desugaredFor init cond inc body) s
      = Exec.andThen (Visit fns k init)
          (fun _ => Visit fns k (.whileStmt cond (.compoundStmt [body, .expr inc]))) s := by
  simp only [desugaredFor, Visit_compoundStmt, visitChildren_cons, visitChildren_nil,
    bind_apply]
  unfold Exec.andThen
  cases Visit fns k init s with
  | ok u s1 => exact andThen_pure_unit _ s1
  | exited c s1 => rfl
  | undefinedBehaviour => rfl
  | outOfFuel => rfl

/-- With a return pending, every node that ends at all ends by returning in
the same state. -/
theorem pending_outcome (s : State) (f : StackFrame) (rest : List StackFrame)
    (hs : s.callStack = f :: rest) (hret : f.hasReturnValue = true) (node : Stmt)
    (o : Outcome Unit) (ho : o ≠ .outOfFuel) :
    (∃ n, Visit fns n node s = o) ↔ o = .ok () s := by
  constructor
  · rintro ⟨n, h⟩
    rcases Visit_pending_any fns s f rest hs hret n node with h1 | h1
    · rw [h1] at h
      exact absurd h.symm ho
    · rw [h1] at h
      exact h.symm
  · intro h
    exact ⟨sizeOf node + 1, by
      rw [h]
      exact Visit_pending fns s f rest hs hret (sizeOf node + 1) node (by omega)⟩

/-- Under a consistent built-in table an expression or a declaration that
returns leaves a frame on top of the stack with no return pending, if none
was. -/
theorem initializer_keeps_flag {table : List (Option Nat)} (hcons : Consistent fns table)
    (init : Stmt) (hinit : init.isExpressionOrDeclaration = true) (n : Nat)
    (s s1 : State) (f : StackFrame) (rest : List StackFrame) (u : Unit)
    (ht : s.builtins = table) (hs : s.callStack = f :: rest)
    (hflag : f.hasReturnValue = false) (h : Visit fns n init s = .ok u s1) :
    shouldSkipExecution s1 = .ok false s1 := by
  have hk : Keeps table true (Visit fns n init) := by
    cases init with
    | expr e => exact keeps_Visit_expr hcons n e
    | declStmt decls => exact keeps_Visit_decl hcons n decls
    | ifStmt _ _ _ => simp [Stmt.isExpressionOrDeclaration] at hinit
    | whileStmt _ _ => simp [Stmt.isExpressionOrDeclaration] at hinit
    | forStmt _ _ _ _ => simp [Stmt.isExpressionOrDeclaration] at hinit
    | returnStmt _ => simp [Stmt.isExpressionOrDeclaration] at hinit
    | compoundStmt _ => simp [Stmt.isExpressionOrDeclaration] at hinit
    | otherStmt _ => simp [Stmt.isExpressionOrDeclaration] at hinit
  obtain ⟨f1, hs1, -, -, hr⟩ := hk s f rest u s1 ht hs h
  exact shouldSkipExecution_false hs1 ((hr rfl).1.trans hflag)

end ForWhile

section ForWhileClaim

open Exec

/-- C22: under a consistent built-in table, a for statement with all parts
present, whose initializer is an expression or a declaration, ends from a
state with a frame on the stack in exactly the ways the statement
`{ init; while (cond) { body; inc; } }` does: each outcome one of them reaches
with some amount of fuel (a final state, an exit, undefined behaviour) the
other reaches too, so one runs forever exactly when the other does. -/
theorem for_desugaring (fns : List FunctionDecl) (table : List (Option Nat))
    (hcons : Consistent fns table) (init : Stmt) (cond inc : Expr) (body : Stmt)
    (hinit : init.isExpressionOrDeclaration = true)
    (s : State) (f : StackFrame) (rest : List StackFrame)
    (ht : s.builtins = table) (hs : s.callStack = f :: rest)
    (o : Outcome Unit) (ho : o ≠ .outOfFuel) :
    (∃ n, Visit fns n (.forStmt (some init) (some cond) (some inc) body) s = o)
      ↔ (∃ n, Visit fns n (desugaredFor init cond inc body) s = o) := by
  cases hflag : f.hasReturnValue with
  | true =>
    rw [pending_outcome s f rest hs hflag _ o ho, pending_outcome s f rest hs hflag _ o ho]
  | false =>
    have hskip := @shouldSkipExecution_false s f rest hs hflag
    constructor
    · rintro ⟨n, h⟩
      cases n with
      | zero => exact absurd h.symm ho
      | succ m =>
        rw [forStmt_run m init cond inc body s hskip] at h
        cases hi : Visit fns m init s with
        | ok u s1 =>
          rw [andThen_ok hi] at h
          have hskip1 := initializer_keeps_flag hcons init hinit m s s1 f rest u ht hs hflag hi
          refine ⟨m + 3, ?_⟩
          have hi2 : Visit fns (m + 2) init s = .ok u s1 := by
            rcases Visit_below fns init m (m + 2) (by omega) s with h1 | h1
            · rw [hi] at h1
              cases h1
            · rw [← h1, hi]
          have hloop : forLoop (Visit fns m) (some cond) (some inc) body (m + 1) s1 = o := by
            rcases below_forLoop (fun node => below_refl (Visit fns m node)) (some cond)
              (some inc) body m (m + 1) (by omega) s1 with h1 | h1
            · rw [h] at h1
              exact absurd h1 ho
            · rw [← h1, h]
          rw [show m + 3 = (m + 2) + 1 from rfl, desugaredFor_run, andThen_ok hi2,
            show m + 2 = (m + 1) + 1 from rfl, whileStmt_run _ _ _ _ hskip1,
            whileLoop_eq_forLoop]
          exact hloop
        | exited c s1 =>
          rw [andThen_exited hi] at h
          exact ⟨m + 1, by rw [desugaredFor_run, andThen_exited hi, h]⟩
        | undefinedBehaviour =>
          simp only [Exec.andThen, hi] at h
          exact ⟨m + 1, by rw [desugaredFor_run]; simp only [Exec.andThen, hi]; exact h⟩
        | outOfFuel =>
          simp only [Exec.andThen, hi] at h
          exact absurd h.symm ho
    · rintro ⟨n, h⟩
      cases n with
      | zero => exact absurd h.symm ho
      | succ k =>
        rw [desugaredFor_run] at h
        cases hi : Visit fns k init s with
        | ok u s1 =>
          rw [andThen_ok hi] at h
          have hskip1 := initializer_keeps_flag hcons init hinit k s s1 f rest u ht hs hflag hi
          cases k with
          | zero => exact absurd h.symm ho
          | succ j =>
            rw [whileStmt_run _ _ _ _ hskip1] at h
            cases j with
            | zero => exact absurd h.symm ho
            | succ l =>
              rw [whileLoop_eq_forLoop] at h
              refine ⟨l + 3, ?_⟩
              rw [show l + 3 = (l + 1 + 1) + 1 from rfl, forStmt_run _ _ _ _ _ _ hskip,
                andThen_ok hi]
              rcases below_forLoop (fun node => Visit_below fns node l (l + 1 + 1) (by omega))
                (some cond) (some inc) body (l + 1) (l + 1 + 1) (by omega) s1 with h1 | h1
              · rw [h] at h1
                exact absurd h1 ho
              · rw [← h1, h]
        | exited c s1 =>
          rw [andThen_exited hi] at h
          exact ⟨k + 1, by rw [forStmt_run _ _ _ _ _ _ hskip, andThen_exited hi, h]⟩
        | undefinedBehaviour =>
          simp only [Exec.andThen, hi] at h
          exact ⟨k + 1, by
            rw [forStmt_run _ _ _ _ _ _ hskip]; simp only [Exec.andThen, hi]; exact h⟩
        | outOfFuel =>
          simp only [Exec.andThen, hi] at h
          exact absurd h.symm ho

end ForWhileClaim

section ForWhileSample

open Exec

theorem consistent_nil (table : List (Option Nat)) : Consistent [] table := by
  intro directCallee fd hfind
  cases directCallee <;> simp [findFunction] at hfind

theorem sample_for_run (fuel : Nat) :
    ∃ s1, Visit [] (fuel + 4)
      (.forStmt (some (.expr sampleAssignment)) (some sampleLoopCond) (some sampleLoopInc)
        (.compoundStmt [])) sampleState = .ok () s1 := by
  simp [sampleAssignment, sampleLoopCond, sampleLoopInc, sampleState, sampleIntDecl,
    State.initial, StackFrame.new,
    Visit_forStmt, VisitForStmt, forLoop, Visit_binaryOperator, VisitBinaryOperator,
    Visit_compoundStmt, Visit_declRefExpr, VisitDeclRefExpr, Visit_integerLiteral,
    Visit_implicitCastExpr, VisitStmt, Stmt.children, Expr.children, visitChildren,
    Exec.andThen, shouldSkipExecution, StackFrame.hasPendingReturn, back, modifyBack,
    processDeclRefExpr, StackFrame.setCurrentStatement, StackFrame.bindExpression,
    StackFrame.bindVariable, StackFrame.getVariableValue, StackFrame.getExpressionValue,
    StackFrame.storeExpressionResult,
    evaluateBinaryOperation, BinaryOpcode.isAssignmentOp, handleAssignment,
    evaluateExpression_binary, evaluateBinaryExpr, evaluateBinaryOperator,
    evaluateExpression_implicitCast, evaluateExpression_declRef, evaluateDeclRefExpr,
    evaluateExpression_integerLiteral, evaluateIntegerLiteral, boolValue]

end ForWhileSample

theorem for_desugaring_witness :
    ∃ s1, Visit [] 4
        (.forStmt (some (.expr sampleAssignment)) (some sampleLoopCond) (some sampleLoopInc)
          (.compoundStmt [])) sampleState = .ok () s1
      ∧ ∃ n, Visit [] n
          (desugaredFor (.expr sampleAssignment) sampleLoopCond sampleLoopInc (.compoundStmt []))
          sampleState = .ok () s1 := by
  obtain ⟨s1, h⟩ := sample_for_run 0
  exact ⟨s1, h,
    (for_desugaring [] sampleState.builtins (consistent_nil _) (.expr sampleAssignment)
      sampleLoopCond sampleLoopInc (.compoundStmt []) rfl sampleState StackFrame.new [] rfl rfl
      (.ok () s1) (fun e => by cases e)).mp ⟨4, h⟩⟩
/-! ## A return inside a loop -/

section LoopReturn

open Exec

variable {fns : List FunctionDecl}

/-- Re-evaluating a pure condition in the state its evaluation left returns
the same value and the same state, and that state has the pending-return flag
of the state before. -/
theorem pure_condition_fixed (cond : Expr) (hpure : cond.isPure = true)
    (hids : cond.distinctNodes) (s2 s3 : State) (f2 : StackFrame) (rest2 : List StackFrame)
    (v : Int) (hs2 : s2.callStack = f2 :: rest2)
    (hc : evaluateExpression cond s2 = .ok v s3) :
    evaluateExpression cond s3 = .ok v s3
      ∧ ∃ f3, s3.callStack = f3 :: rest2 ∧ f3.hasReturnValue = f2.hasReturnValue := by
  have hval := pure_value_of_return cond s2 s3 f2 rest2 v hpure hids hs2 hc
  obtain ⟨w, c, h1, h2⟩ := pure_value_twice cond s2 f2 rest2 v hpure hids hs2 hval
  rw [h1] at hc
  cases hc
  exact ⟨h2, f2.withWrites w c, rfl, rfl⟩

/-- A loop whose condition is nonzero in a state it does not change, and
whose body and increment do nothing there, never ends. -/
theorem whileLoop_fixed (visit : Stmt → Exec Unit) (cond : Expr) (body : Stmt) (s3 : State)
    (v : Int) (hv : v ≠ 0) (hc : evaluateExpression cond s3 = .ok v s3)
    (hvisit : ∀ node, visit node s3 = .outOfFuel ∨ visit node s3 = .ok () s3) :
    ∀ n, whileLoop visit cond body n s3 = .outOfFuel
  | 0 => rfl
  | n + 1 => by
      unfold whileLoop
      simp only [bind_apply, Exec.andThen, hc, hv, ne_eq, not_false_eq_true, if_true]
      rcases hvisit body with h | h
      · simp only [h]
      · simp only [h]
        exact whileLoop_fixed visit cond body s3 v hv hc hvisit n

theorem forLoop_fixed (visit : Stmt → Exec Unit) (cond inc : Expr) (body : Stmt) (s3 : State)
    (v : Int) (hv : v ≠ 0) (hc : evaluateExpression cond s3 = .ok v s3)
    (hvisit : ∀ node, visit node s3 = .outOfFuel ∨ visit node s3 = .ok () s3) :
    ∀ n, forLoop visit (some cond) (some inc) body n s3 = .outOfFuel
  | 0 => rfl
  | n + 1 => by
      unfold forLoop
      simp only [bind_apply, Exec.andThen, hc, hv, ne_eq, not_false_eq_true, if_true]
      rcases hvisit body with h | h
      · simp only [h]
      · simp only [h]
        rcases hvisit (.expr inc) with h2 | h2
        · simp only [h2]
        · simp only [h2]
          exact forLoop_fixed visit cond inc body s3 v hv hc hvisit n

/-- The loops from the state the returning body left: one more test of the
condition, then the fixed state. -/
theorem whileLoop_after_return (visit : Stmt → Exec Unit) (cond : Expr) (body : Stmt)
    (s2 s3 : State) (v : Int) (hv : v ≠ 0) (hc2 : evaluateExpression cond s2 = .ok v s3)
    (hc3 : evaluateExpression cond s3 = .ok v s3)
    (hvisit : ∀ node, visit node s3 = .outOfFuel ∨ visit node s3 = .ok () s3) :
    ∀ n, whileLoop visit cond body n s2 = .outOfFuel
  | 0 => rfl
  | n + 1 => by
      unfold whileLoop
      simp only [bind_apply, Exec.andThen, hc2, hv, ne_eq, not_false_eq_true, if_true]
      rcases hvisit body with h | h
      · simp only [h]
      · simp only [h]
        exact whileLoop_fixed visit cond body s3 v hv hc3 hvisit n

theorem forLoop_after_return (visit : Stmt → Exec Unit) (cond inc : Expr) (body : Stmt)
    (s2 s3 : State) (v : Int) (hv : v ≠ 0) (hc2 : evaluateExpression cond s2 = .ok v s3)
    (hc3 : evaluateExpression cond s3 = .ok v s3)
    (hvisit : ∀ node, visit node s3 = .outOfFuel ∨ visit node s3 = .ok () s3) :
    ∀ n, forLoop visit (some cond) (some inc) body n s2 = .outOfFuel
  | 0 => rfl
  | n + 1 => by
      unfold forLoop
      simp only [bind_apply, Exec.andThen, hc2, hv, ne_eq, not_false_eq_true, if_true]
      rcases hvisit body with h | h
      · simp only [h]
      · simp only [h]
        rcases hvisit (.expr inc) with h2 | h2
        · simp only [h2]
        · simp only [h2]
          exact forLoop_fixed visit cond inc body s3 v hv hc3 hvisit n

/-- The loops from the state at their entry: the condition is nonzero, the
body runs and leaves a return pending, the increment does nothing. -/
theorem whileLoop_returning (visit : Stmt → Exec Unit) (cond : Expr) (body : Stmt)
    (s s1 s2 s3 : State) (v1 v2 : Int) (hv1 : v1 ≠ 0) (hv2 : v2 ≠ 0)
    (hc1 : evaluateExpression cond s = .ok v1 s1)
    (hbody : visit body s1 = .outOfFuel ∨ visit body s1 = .ok () s2)
    (hc2 : evaluateExpression cond s2 = .ok v2 s3)
    (hc3 : evaluateExpression cond s3 = .ok v2 s3)
    (hvisit : ∀ node, visit node s3 = .outOfFuel ∨ visit node s3 = .ok () s3) :
    ∀ n, whileLoop visit cond body n s = .outOfFuel
  | 0 => rfl
  | n + 1 => by
      unfold whileLoop
      simp only [bind_apply, Exec.andThen, hc1, hv1, ne_eq, not_false_eq_true, if_true]
      rcases hbody with h | h
      · simp only [h]
      · simp only [h]
        exact whileLoop_after_return visit cond body s2 s3 v2 hv2 hc2 hc3 hvisit n

theorem forLoop_returning (visit : Stmt → Exec Unit) (cond inc : Expr) (body : Stmt)
    (s s1 s2 s3 : State) (v1 v2 : Int) (hv1 : v1 ≠ 0) (hv2 : v2 ≠ 0)
    (hc1 : evaluateExpression cond s = .ok v1 s1)
    (hbody : visit body s1 = .outOfFuel ∨ visit body s1 = .ok () s2)
    (hinc : visit (.expr inc) s2 = .outOfFuel ∨ visit (.expr inc) s2 = .ok () s2)
    (hc2 : evaluateExpression cond s2 = .ok v2 s3)
    (hc3 : evaluateExpression cond s3 = .ok v2 s3)
    (hvisit : ∀ node, visit node s3 = .outOfFuel ∨ visit node s3 = .ok () s3) :
    ∀ n, forLoop visit (some cond) (some inc) body n s = .outOfFuel
  | 0 => rfl
  | n + 1 => by
      unfold forLoop
      simp only [bind_apply, Exec.andThen, hc1, hv1, ne_eq, not_false_eq_true, if_true]
      rcases hbody with h | h
      · simp only [h]
      · simp only [h]
        rcases hinc with h2 | h2
        · simp only [h2]
        · simp only [h2]
          exact forLoop_after_return visit cond inc body s2 s3 v2 hv2 hc2 hc3 hvisit n

/-- A walk that returned with some fuel runs out of fuel or returns the same
with any other. -/
theorem Visit_either (fns : List FunctionDecl) (node : Stmt) (s s1 : State) (m : Nat)
    (h : Visit fns m node s = .ok () s1) (n : Nat) :
    Visit fns n node s = .outOfFuel ∨ Visit fns n node s = .ok () s1 := by
  by_cases hn : Visit fns n node s = .outOfFuel
  · exact Or.inl hn
  · right
    rw [Visit_agree fns node s n m hn (by rw [h]; simp), h]

end LoopReturn

section LoopReturnClaim

open Exec

/-- C23, as stated: the condition `x` is pure and nonzero at the entry of
`while (x) { x = 0; return 1; }`, one execution of the body leaves a return
pending, and yet the loop ends: the body changed the variable the condition
reads before it returned. -/
theorem returning_loop_can_end :
    sampleVariable.isPure = true
    ∧ evaluateExpression sampleVariable sampleBoundState = .ok 1 sampleBoundEvaluated
    ∧ (∃ s2, Visit [] 3 sampleClearAndReturn sampleBoundEvaluated = .ok () s2
        ∧ shouldSkipExecution s2 = .ok true s2)
    ∧ ∃ s3, Visit [] 5 (.whileStmt sampleVariable sampleClearAndReturn) sampleBoundState
        = .ok () s3 := by
  refine ⟨rfl, rfl, ?_, ?_⟩
  · simp [sampleVariable, sampleClearAndReturn, sampleReturn, sampleBoundEvaluated, sampleIntDecl,
      State.initial, StackFrame.new,
      show (3 : Nat) = 2 + 1 from rfl, show (2 : Nat) = 1 + 1 from rfl,
      Visit_binaryOperator, VisitBinaryOperator,
      Visit_compoundStmt, Visit_declRefExpr, VisitDeclRefExpr, Visit_integerLiteral,
      Visit_returnStmt, VisitReturnStmt, processReturn, StackFrame.setReturnInfo,
      Visit_implicitCastExpr, VisitStmt, Stmt.children, Expr.children, visitChildren,
      Exec.andThen, shouldSkipExecution, StackFrame.hasPendingReturn, back, modifyBack,
      processDeclRefExpr, StackFrame.setCurrentStatement, StackFrame.bindExpression,
      StackFrame.bindVariable, StackFrame.getVariableValue, StackFrame.getExpressionValue,
      StackFrame.storeExpressionResult,
      evaluateBinaryOperation, BinaryOpcode.isAssignmentOp, handleAssignment,
      evaluateExpression_implicitCast, evaluateExpression_declRef, evaluateDeclRefExpr,
      evaluateExpression_integerLiteral, evaluateIntegerLiteral]
  · simp [sampleVariable, sampleClearAndReturn, sampleReturn, sampleBoundState, sampleIntDecl,
      State.initial, StackFrame.new,
      show (5 : Nat) = 4 + 1 from rfl, show (4 : Nat) = 3 + 1 from rfl,
      show (3 : Nat) = 2 + 1 from rfl, show (2 : Nat) = 1 + 1 from rfl,
      Visit_whileStmt, VisitWhileStmt, whileLoop,
      Visit_binaryOperator, VisitBinaryOperator,
      Visit_compoundStmt, Visit_declRefExpr, VisitDeclRefExpr, Visit_integerLiteral,
      Visit_returnStmt, VisitReturnStmt, processReturn, StackFrame.setReturnInfo,
      Visit_implicitCastExpr, VisitStmt, Stmt.children, Expr.children, visitChildren,
      Exec.andThen, shouldSkipExecution, StackFrame.hasPendingReturn, back, modifyBack,
      processDeclRefExpr, StackFrame.setCurrentStatement, StackFrame.bindExpression,
      StackFrame.bindVariable, StackFrame.getVariableValue, StackFrame.getExpressionValue,
      StackFrame.storeExpressionResult,
      evaluateBinaryOperation, BinaryOpcode.isAssignmentOp, handleAssignment,
      evaluateExpression_implicitCast, evaluateExpression_declRef, evaluateDeclRefExpr,
      evaluateExpression_integerLiteral, evaluateIntegerLiteral]

/-- C23, amended: if no return is pending at the entry of a loop whose
condition is a pure expression, the condition is nonzero there, the first
execution of the body returns with a return pending, and the condition is
nonzero in the state that execution left, then the loop never ends: the
while statement, the for statement without initializer, and the for
statement after any initializer that leads to the entry state run out of
every amount of fuel. -/
theorem returning_loop_never_ends (fns : List FunctionDecl) (cond inc : Expr) (body : Stmt)
    (s s1 s2 s3 : State) (f f2 : StackFrame) (rest rest2 : List StackFrame) (v1 v2 : Int)
    (nb : Nat) (hpure : cond.isPure = true) (hids : cond.distinctNodes)
    (hs : s.callStack = f :: rest) (hret : f.hasReturnValue = false)
    (hc1 : evaluateExpression cond s = .ok v1 s1) (hv1 : v1 ≠ 0)
    (hbody : Visit fns nb body s1 = .ok () s2)
    (hs2 : s2.callStack = f2 :: rest2) (hflag : f2.hasReturnValue = true)
    (hc2 : evaluateExpression cond s2 = .ok v2 s3) (hv2 : v2 ≠ 0) (n : Nat) :
    Visit fns n (.whileStmt cond body) s = .outOfFuel
    ∧ Visit fns n (.forStmt none (some cond) (some inc) body) s = .outOfFuel
    ∧ ∀ (init : Stmt) (s0 : State) (f0 : StackFrame) (rest0 : List StackFrame) (m : Nat),
        s0.callStack = f0 :: rest0 → f0.hasReturnValue = false →
        Visit fns m init s0 = .ok () s →
        Visit fns n (.forStmt (some init) (some cond) (some inc) body) s0 = .outOfFuel := by
  obtain ⟨hc3, f3, hs3, hf3⟩ := pure_condition_fixed cond hpure hids s2 s3 f2 rest2 v2 hs2 hc2
  have hskip := @shouldSkipExecution_false s f rest hs hret
  cases n with
  | zero => exact ⟨rfl, rfl, fun _ _ _ _ _ _ _ _ => rfl⟩
  | succ k =>
    have hb := Visit_either fns body s1 s2 nb hbody k
    have hi := Visit_pending_any fns s2 f2 rest2 hs2 hflag k (.expr inc)
    have hv : ∀ node, Visit fns k node s3 = .outOfFuel ∨ Visit fns k node s3 = .ok () s3 :=
      fun node => Visit_pending_any fns s3 f3 rest2 hs3 (hf3.trans hflag) k node
    have hfor := forLoop_returning (Visit fns k) cond inc body s s1 s2 s3 v1 v2 hv1 hv2 hc1
      hb hi hc2 hc3 hv k
    refine ⟨?_, ?_, ?_⟩
    · rw [whileStmt_run k cond body s hskip]
      exact whileLoop_returning (Visit fns k) cond body s s1 s2 s3 v1 v2 hv1 hv2 hc1 hb hc2
        hc3 hv k
    · simp only [Visit_forStmt, VisitForStmt, bind_apply, Exec.andThen, hskip, pure_apply]
      simpa using hfor
    · intro init s0 f0 rest0 m hs0 hret0 hinit
      rw [forStmt_run k init cond inc body s0 (shouldSkipExecution_false hs0 hret0)]
      rcases Visit_either fns init s0 s m hinit k with h | h
      · simp only [Exec.andThen, h]
      · rw [andThen_ok h]
        exact hfor

theorem returning_loop_never_ends_witness :
    Visit [] 50 (.whileStmt (.integerLiteral .intTy 1) sampleReturn) sampleState = .outOfFuel
    ∧ Visit [] 50
        (.forStmt none (some (.integerLiteral .intTy 1)) (some sampleAssignment) sampleReturn)
        sampleState = .outOfFuel
    ∧ ∀ (init : Stmt) (s0 : State) (f0 : StackFrame) (rest0 : List StackFrame) (m : Nat),
        s0.callStack = f0 :: rest0 → f0.hasReturnValue = false →
        Visit [] m init s0 = .ok () sampleState →
        Visit [] 50
          (.forStmt (some init) (some (.integerLiteral .intTy 1)) (some sampleAssignment)
            sampleReturn) s0 = .outOfFuel :=
  returning_loop_never_ends [] (.integerLiteral .intTy 1) sampleAssignment sampleReturn
    sampleState sampleState samplePendingState samplePendingState StackFrame.new
    (StackFrame.new.setReturnInfo true 1) [] [] 1 1 2 rfl
    (fun _ hk => by simp [Expr.memoReads] at hk) rfl rfl rfl (by decide) rfl rfl rfl rfl
    (by decide) 50

end LoopReturnClaim
end ASTInterpreter
